import Mathlib

/-! # Ray–geometry intersection (`dae::GeometryUtils`, `Utils.h`)

A shallow embedding of the intersection routines of `Utils.h` and the
properties proved about them.

**Numbers.**  The program is embedded twice.

**binary32** (the namespace `binary32`, scalars of type `F32`).  A C++ `float`
is an IEEE-754 binary32 value: NaN, `-∞`, `+∞`, a zero of either sign or a
finite number.  Every arithmetic operation of the program is one correctly
rounded operation (round to nearest, ties to even), `sqrt` included; the
comparisons are those of IEEE-754 (every comparison with NaN is false, the two
zeros are equal) and `std::min`, `std::max` are those of `<algorithm>`.  What
the tests compute, accept, commit and prune is stated and proved of this
embedding.

**Exact arithmetic** (the namespace `GeometryUtils` directly under `dae`).  A
`float` is read as an exact rational number (`ℚ`): rounding is not modelled.
Three places of the program leave the rationals, and they are modelled
explicitly:

* the hit record's `t` starts at `+∞` and a ray's `max` may be `+∞`; both
  are `WithTop ℚ`;
* a quotient whose divisor can be zero (`HitTest_Plane`, the `factor` of
  `HitTest_Sphere`) is a `Flt`: a rational, `+∞`, `-∞` or NaN, with the
  IEEE-754 comparison rules (every comparison with NaN is false);
* `sqrt` is a parameter `sqrtf : ℚ → ℚ` of the definitions that call it.

In this reading the sign of a floating-point zero is not tracked (a zero
divisor counts as `+0`), and the fields of a ray, a primitive or a box are
finite numbers.  It carries the statements about the control flow of the
tests, the frame of the hit record and the BVH walk, and it is the geometry
the binary32 embedding is compared with: a binary32 run in which no operation
rounds computes what the exact run computes (`triangle_exact`, `planeT_exact`,
`sphere_exact`, `slab_exact`, `HitTest_TriangleMesh_toExact`), where "no
operation rounds" is the decidable predicate `TriangleExact`, `PlaneExact`,
`SphereExact`, `SlabExact`, `MeshExact` on the exact inputs.

`uint32_t` values are natural numbers and every `uint32_t` operation of the
program is reduced modulo `2 ^ 32`.  Reading an array outside its bounds and
running out of the recursion budget `fuel` are reported as a `Fault`.

**Layout.**  The definitions come first, for the exact reading and then for binary32: the
data model (modelled from the spec, since `Math.h` and `DataTypes.h` are not
among the sources), the functions of `Utils.h` in source order, and the
quantities the statements speak of.  The theorems follow in the same order.
-/

namespace dae

/-! ## Scalars -/

/-- A `float` produced by a division: NaN, `-∞`, a rational or `+∞`. -/
inductive Flt where
  | nan : Flt
  | negInf : Flt
  | fin (q : ℚ) : Flt
  | posInf : Flt
deriving DecidableEq

namespace Flt

/-- The quotient `a / b` of two finite floats.  A zero divisor is read as
`+0`: a non-zero dividend gives the infinity of its own sign and `0 / 0`
gives NaN. -/
def divQ (a b : ℚ) : Flt :=
  if b = 0 then
    if a = 0 then nan else if 0 < a then posInf else negInf
  else fin (a / b)

/-- The product of a finite float and a float (`0 * ±∞` is NaN). -/
def mulQ (a : ℚ) : Flt → Flt
  | nan => nan
  | fin q => fin (a * q)
  | posInf => if a = 0 then nan else if 0 < a then posInf else negInf
  | negInf => if a = 0 then nan else if 0 < a then negInf else posInf

/-- The comparison `x < y` of two floats. -/
def lt : Flt → Flt → Bool
  | nan, _ => false
  | _, nan => false
  | _, negInf => false
  | posInf, _ => false
  | negInf, _ => true
  | fin _, posInf => true
  | fin a, fin b => decide (a < b)

/-- The comparison `x <= y` of two floats. -/
def le : Flt → Flt → Bool
  | nan, _ => false
  | _, nan => false
  | negInf, _ => true
  | _, posInf => true
  | fin a, fin b => decide (a ≤ b)
  | fin _, negInf => false
  | posInf, _ => false

/-- A value of the hit record's `t` or of `ray.max`, read as a float. -/
def ofTop : WithTop ℚ → Flt
  | none => posInf
  | some q => fin q

/-- The rational value of a finite float.  The program reads it only from a
float that passed both `calculatedT >= ray.min` and
`calculatedT < hitRecord.t`; such a float is finite (`Flt.finite_of_le_of_lt`
below). -/
def toRat : Flt → ℚ
  | fin q => q
  | _ => 0

/-- The distance a float stands for when it is compared with the record's
`t`: a finite float is its value, anything else is `+∞`.  (Used by the
statements only, not by the program.) -/
def toTop : Flt → WithTop ℚ
  | fin q => (q : ℚ)
  | _ => ⊤

end Flt

/-! ## Data model -/

/-- Modelled from the spec: the `Vector3` of `Math.h` (absent from the
sources), three `float` components. -/
@[ext]
structure Vector3 where
  x : ℚ
  y : ℚ
  z : ℚ
deriving DecidableEq

namespace Vector3

/-- Modelled from the spec: `operator+` of `Vector3`, componentwise. -/
def add (a b : Vector3) : Vector3 := ⟨a.x + b.x, a.y + b.y, a.z + b.z⟩

/-- Modelled from the spec: `operator-` of `Vector3`, componentwise. -/
def sub (a b : Vector3) : Vector3 := ⟨a.x - b.x, a.y - b.y, a.z - b.z⟩

/-- Modelled from the spec: `operator*(float)` of `Vector3`, the vector
scaled by a number. -/
def scale (a : Vector3) (s : ℚ) : Vector3 := ⟨a.x * s, a.y * s, a.z * s⟩

instance : Add Vector3 := ⟨add⟩
instance : Sub Vector3 := ⟨sub⟩

/-- Modelled from the spec: `Vector3::Dot`, the dot product. -/
def Dot (a b : Vector3) : ℚ := a.x * b.x + a.y * b.y + a.z * b.z

/-- Modelled from the spec: `Vector3::Cross`, the cross product. -/
def Cross (a b : Vector3) : Vector3 :=
  ⟨a.y * b.z - a.z * b.y, a.z * b.x - a.x * b.z, a.x * b.y - a.y * b.x⟩

/-- Modelled from the spec: `Vector3::Magnitude`, the square root of the
squared length. -/
def Magnitude (sqrtf : ℚ → ℚ) (a : Vector3) : ℚ := sqrtf (Dot a a)

/-- Modelled from the spec: `Vector3::Normalize`, each component divided by
the magnitude.  (For a vector of magnitude zero the program produces NaN
components, which a `Vector3` here cannot hold; no statement below depends
on the value in that case.) -/
def Normalize (sqrtf : ℚ → ℚ) (a : Vector3) : Vector3 :=
  ⟨a.x / Magnitude sqrtf a, a.y / Magnitude sqrtf a, a.z / Magnitude sqrtf a⟩

end Vector3

/-- Modelled from the spec: the `Ray` of `DataTypes.h` (absent from the
sources): origin, direction, the caller-computed inverse direction and the
parametric interval `[min, max]`, whose upper end may be `+∞`.  The
components of `inverseDirection` are finite numbers (the inverse `±∞` of a
zero direction component is not represented). -/
structure Ray where
  origin : Vector3
  direction : Vector3
  inverseDirection : Vector3
  min : ℚ
  max : WithTop ℚ

/-- Modelled from the spec: the `HitRecord` of `DataTypes.h`; `t` is a
distance or `+∞`. -/
structure HitRecord where
  origin : Vector3
  normal : Vector3
  t : WithTop ℚ
  didHit : Bool
  materialIndex : Nat

/-- Modelled from the spec: a value-initialised `HitRecord` (`HitRecord
temp{}`): `t = +∞`, `didHit = false`, everything else zero. -/
def HitRecord.fresh : HitRecord :=
  { origin := ⟨0, 0, 0⟩, normal := ⟨0, 0, 0⟩, t := ⊤, didHit := false, materialIndex := 0 }

/-- Modelled from the spec: the `Sphere` of `DataTypes.h`. -/
structure Sphere where
  origin : Vector3
  radius : ℚ
  materialIndex : Nat

/-- Modelled from the spec: the `Plane` of `DataTypes.h`. -/
structure Plane where
  origin : Vector3
  normal : Vector3
  materialIndex : Nat

/-- Modelled from the spec: the `TriangleCullMode` of `DataTypes.h`. -/
inductive TriangleCullMode where
  | FrontFaceCulling : TriangleCullMode
  | BackFaceCulling : TriangleCullMode
  | None : TriangleCullMode
deriving DecidableEq

/-- Modelled from the spec: the `Triangle` of `DataTypes.h`. -/
structure Triangle where
  v0 : Vector3
  v1 : Vector3
  v2 : Vector3
  normal : Vector3
  cullMode : TriangleCullMode
  materialIndex : Nat

/-- Modelled from the spec: the `BVHNode` of `DataTypes.h`: a box and two
`uint32_t` fields.  A node with `nrPrimitives = 0` is internal and its
children are the nodes `leftFirst` and `leftFirst + 1`; otherwise it is a leaf
holding the triangles `leftFirst .. leftFirst + nrPrimitives - 1`. -/
structure BVHNode where
  minAABB : Vector3
  maxAABB : Vector3
  leftFirst : Nat
  nrPrimitives : Nat

/-- Modelled from the spec: the fields of the `TriangleMesh` of `DataTypes.h`
that the intersection code reads. -/
structure TriangleMesh where
  transformedPositions : List Vector3
  transformedNormals : List Vector3
  indices : List Int
  cullMode : TriangleCullMode
  materialIndex : Nat
  bvhNodes : List BVHNode
  rootNodeIndex : Nat

/-- What stops a run of the model that the C++ program does not define: the
recursion budget is used up, or an array is read outside its bounds. -/
inductive Fault where
  | outOfFuel : Fault
  | outOfRange : Fault
deriving DecidableEq

/-- What `HitTest_TriangleMesh` leaves behind: the returned `bool`, the hit
record after the call, and (instrumentation, not part of the program) the
number of calls of `HitTest_Triangle` it made. -/
structure MeshResult where
  result : Bool
  hitRecord : HitRecord
  triangleTests : Nat

namespace GeometryUtils

open Vector3

/-! ## Bounding box (`Utils.h` 14-35) -/

/-- The slab test of `Utils.h` 14-35.  The C++ function is declared `float`
and returns the truth value of line 34 converted to `1.0f` / `0.0f`; its only
caller negates it, so it is a `Bool` here. -/
def SlabTest_BoundingBox (minAABB maxAABB : Vector3) (ray : Ray) : Bool :=
  let tx1 := (minAABB.x - ray.origin.x) * ray.inverseDirection.x
  let tx2 := (maxAABB.x - ray.origin.x) * ray.inverseDirection.x
  let tmin := min tx1 tx2
  let tmax := max tx1 tx2
  let ty1 := (minAABB.y - ray.origin.y) * ray.inverseDirection.y
  let ty2 := (maxAABB.y - ray.origin.y) * ray.inverseDirection.y
  let tmin := max tmin (min ty1 ty2)
  let tmax := min tmax (max ty1 ty2)
  let tz1 := (minAABB.z - ray.origin.z) * ray.inverseDirection.z
  let tz2 := (maxAABB.z - ray.origin.z) * ray.inverseDirection.z
  let tmin := max tmin (min tz1 tz2)
  let tmax := min tmax (max tz1 tz2)
  decide (0 < tmax ∧ tmax ≥ tmin)

/-! ## Sphere (`Utils.h` 40-87) -/

/-- The closest-hit / any-hit sphere test of `Utils.h` 40-81.  `sqrtf` is the
library square root. -/
def HitTest_Sphere (sqrtf : ℚ → ℚ) (sphere : Sphere) (ray : Ray) (hitRecord : HitRecord)
    (ignoreHitRecord : Bool) : Bool × HitRecord :=
  let originVector := ray.origin - sphere.origin
  let a := Dot ray.direction ray.direction
  let b := 2 * Dot ray.direction originVector
  let discriminant :=
    b * b - 4 * a * (Dot originVector originVector - sphere.radius * sphere.radius)
  if discriminant < 0 then (false, hitRecord)
  else
    let sqrtDiscriminant := sqrtf discriminant
    let factor := Flt.divQ 1 (2 * a)
    let firstT := Flt.mulQ (-b - sqrtDiscriminant) factor
    let secondT := Flt.mulQ (-b + sqrtDiscriminant) factor
    -- `std::swap(calculatedT, secondT)` under the guard of line 60
    let calculatedT :=
      if Flt.lt secondT firstT && Flt.lt (Flt.fin 0) secondT then secondT else firstT
    if Flt.le (Flt.fin ray.min) calculatedT && Flt.le calculatedT (Flt.ofTop ray.max) then
      if ignoreHitRecord then (true, hitRecord)
      else if Flt.lt calculatedT (Flt.ofTop hitRecord.t) then
        (true, { t := (calculatedT.toRat : WithTop ℚ),
                 materialIndex := sphere.materialIndex,
                 didHit := true,
                 origin := ray.origin + scale ray.direction calculatedT.toRat,
                 normal := Normalize sqrtf
                   (ray.origin + scale ray.direction calculatedT.toRat - sphere.origin) })
      else (true, hitRecord)
    else (false, hitRecord)

/-- The any-hit overload of `Utils.h` 83-87. -/
def HitTest_Sphere_any (sqrtf : ℚ → ℚ) (sphere : Sphere) (ray : Ray) : Bool :=
  (HitTest_Sphere sqrtf sphere ray HitRecord.fresh true).1

/-! ## Plane (`Utils.h` 92-120) -/

/-- The closest-hit / any-hit plane test of `Utils.h` 92-114. -/
def HitTest_Plane (plane : Plane) (ray : Ray) (hitRecord : HitRecord)
    (ignoreHitRecord : Bool) : Bool × HitRecord :=
  let calculatedT :=
    Flt.divQ (Dot (plane.origin - ray.origin) plane.normal) (Dot ray.direction plane.normal)
  if Flt.le (Flt.fin ray.min) calculatedT && Flt.le calculatedT (Flt.ofTop ray.max) then
    if ignoreHitRecord then (true, hitRecord)
    else if Flt.lt calculatedT (Flt.ofTop hitRecord.t) then
      (true, { t := (calculatedT.toRat : WithTop ℚ),
               materialIndex := plane.materialIndex,
               didHit := true,
               origin := ray.origin + scale ray.direction calculatedT.toRat,
               normal := plane.normal })
    else (true, hitRecord)
  else (false, hitRecord)

/-- The closest-hit / any-hit triangle test of `Utils.h` 125-185
(Möller–Trumbore).  Returns the `bool` result and the hit record after the
call. -/
def HitTest_Triangle (triangle : Triangle) (ray : Ray) (hitRecord : HitRecord)
    (ignoreHitRecord : Bool) : Bool × HitRecord :=
  let edge1 := triangle.v1 - triangle.v0
  let edge2 := triangle.v2 - triangle.v0
  let rayDirectionAndEdge2Cross := Cross ray.direction edge2
  let dot := Dot edge1 rayDirectionAndEdge2Cross
  if dot = 0 then (false, hitRecord)
  else if ignoreHitRecord ∧
      ((triangle.cullMode = TriangleCullMode.BackFaceCulling ∧ 0 < dot) ∨
       (triangle.cullMode = TriangleCullMode.FrontFaceCulling ∧ dot < 0)) then
    (false, hitRecord)
  else if ¬ ignoreHitRecord ∧
      ((triangle.cullMode = TriangleCullMode.BackFaceCulling ∧ dot < 0) ∨
       (triangle.cullMode = TriangleCullMode.FrontFaceCulling ∧ 0 < dot)) then
    (false, hitRecord)
  else
    let inverseDot := 1 / dot
    let originVector := ray.origin - triangle.v0
    let firstCalculation := inverseDot * Dot originVector rayDirectionAndEdge2Cross
    if firstCalculation < 0 ∨ 1 < firstCalculation then (false, hitRecord)
    else
      let rayOriginAndEdge1Cross := Cross originVector edge1
      let secondCalculation := inverseDot * Dot ray.direction rayOriginAndEdge1Cross
      if secondCalculation < 0 ∨ 1 < firstCalculation + secondCalculation then
        (false, hitRecord)
      else
        let calculatedT := inverseDot * Dot edge2 rayOriginAndEdge1Cross
        if ray.min ≤ calculatedT ∧ (calculatedT : WithTop ℚ) ≤ ray.max then
          if ignoreHitRecord then (true, hitRecord)
          else if (calculatedT : WithTop ℚ) < hitRecord.t then
            (true, { t := (calculatedT : WithTop ℚ),
                     materialIndex := triangle.materialIndex,
                     didHit := true,
                     origin := ray.origin + scale ray.direction calculatedT,
                     normal := triangle.normal })
          else (true, hitRecord)
        else (false, hitRecord)

/-- The any-hit overload of `Utils.h` 187-191. -/
def HitTest_Triangle_any (triangle : Triangle) (ray : Ray) : Bool :=
  (HitTest_Triangle triangle ray HitRecord.fresh true).1

/-! ## Triangle mesh (`Utils.h` 195-247) -/

/-- The recursive BVH walk of `Utils.h` 195-211.  `fuel` bounds the recursion
depth; `indices` is the vector the walk appends to (a node index below `2^31`
is unchanged by its conversion to `int`). -/
def IntersectBVH (fuel : Nat) (ray : Ray) (mesh : TriangleMesh) (nodeIndex : Nat)
    (indices : List Nat) : Except Fault (List Nat) :=
  match fuel with
  | 0 => Except.error Fault.outOfFuel
  | fuel + 1 =>
    match mesh.bvhNodes[nodeIndex]? with
    | none => Except.error Fault.outOfRange
    | some node =>
      if SlabTest_BoundingBox node.minAABB node.maxAABB ray = false then Except.ok indices
      else if node.nrPrimitives ≠ 0 then Except.ok (indices ++ [nodeIndex])
      else
        match IntersectBVH fuel ray mesh node.leftFirst indices with
        | Except.error e => Except.error e
        | Except.ok indices1 =>
          IntersectBVH fuel ray mesh ((node.leftFirst + 1) % 2 ^ 32) indices1

/-- An element of a `std::vector` read at an `int` position. -/
def lookupInt {α : Type} (l : List α) (i : Int) : Option α :=
  if 0 ≤ i then l[i.toNat]? else none

/-- The triangle view of lines 220-222 and 231-234 for triangle number
`currentTriangle`. -/
def triangleAt (mesh : TriangleMesh) (currentTriangle : Nat) : Except Fault Triangle :=
  match mesh.indices[(currentTriangle * 3) % 2 ^ 32]?,
        mesh.indices[(currentTriangle * 3 + 1) % 2 ^ 32]?,
        mesh.indices[(currentTriangle * 3 + 2) % 2 ^ 32]?,
        mesh.transformedNormals[currentTriangle]? with
  | some i0, some i1, some i2, some normal =>
    match lookupInt mesh.transformedPositions i0, lookupInt mesh.transformedPositions i1,
          lookupInt mesh.transformedPositions i2 with
    | some v0, some v1, some v2 =>
      Except.ok { v0 := v0, v1 := v1, v2 := v2, normal := normal,
                  cullMode := mesh.cullMode, materialIndex := mesh.materialIndex }
    | _, _, _ => Except.error Fault.outOfRange
  | _, _, _, _ => Except.error Fault.outOfRange

/-- The inner loop of lines 229-237 with `n` iterations left, at triangle
number `currentTriangle`.  The `Bool` of the result tells whether the function
returned `true` from inside the loop (line 236). -/
def triangleLoop (mesh : TriangleMesh) (ray : Ray) (ignoreHitRecord : Bool) :
    Nat → Nat → HitRecord → Nat → Except Fault (Bool × HitRecord × Nat)
  | 0, _, hitRecord, tests => Except.ok (false, hitRecord, tests)
  | n + 1, currentTriangle, hitRecord, tests =>
    match triangleAt mesh currentTriangle with
    | Except.error e => Except.error e
    | Except.ok triangle =>
      if (HitTest_Triangle triangle ray hitRecord ignoreHitRecord).1 && ignoreHitRecord then
        Except.ok (true, (HitTest_Triangle triangle ray hitRecord ignoreHitRecord).2, tests + 1)
      else
        triangleLoop mesh ray ignoreHitRecord n (currentTriangle + 1)
          (HitTest_Triangle triangle ray hitRecord ignoreHitRecord).2 (tests + 1)

/-- The outer loop of lines 224-238 over the candidate leaves still to
visit. -/
def leafLoop (mesh : TriangleMesh) (ray : Ray) (ignoreHitRecord : Bool) :
    List Nat → HitRecord → Nat → Except Fault (Bool × HitRecord × Nat)
  | [], hitRecord, tests => Except.ok (false, hitRecord, tests)
  | index :: rest, hitRecord, tests =>
    match mesh.bvhNodes[index]? with
    | none => Except.error Fault.outOfRange
    | some node =>
      match triangleLoop mesh ray ignoreHitRecord
          ((node.leftFirst + node.nrPrimitives) % 2 ^ 32 - node.leftFirst) node.leftFirst
          hitRecord tests with
      | Except.error e => Except.error e
      | Except.ok (true, r, k) => Except.ok (true, r, k)
      | Except.ok (false, r, k) => leafLoop mesh ray ignoreHitRecord rest r k

/-- The mesh test of `Utils.h` 213-241. -/
def HitTest_TriangleMesh (fuel : Nat) (mesh : TriangleMesh) (ray : Ray) (hitRecord : HitRecord)
    (ignoreHitRecord : Bool) : Except Fault MeshResult :=
  match IntersectBVH fuel ray mesh mesh.rootNodeIndex [] with
  | Except.error e => Except.error e
  | Except.ok indices =>
    if indices.length = 0 then
      Except.ok { result := hitRecord.didHit, hitRecord := hitRecord, triangleTests := 0 }
    else
      match leafLoop mesh ray ignoreHitRecord indices hitRecord 0 with
      | Except.error e => Except.error e
      | Except.ok (true, r, k) => Except.ok { result := true, hitRecord := r, triangleTests := k }
      | Except.ok (false, r, k) =>
        Except.ok { result := r.didHit, hitRecord := r, triangleTests := k }

/-- The any-hit overload of `Utils.h` 243-247. -/
def HitTest_TriangleMesh_any (fuel : Nat) (mesh : TriangleMesh) (ray : Ray) :
    Except Fault MeshResult :=
  HitTest_TriangleMesh fuel mesh ray HitRecord.fresh true

/-! ## Quantities the statements speak of -/

/-- The determinant `dot(v1 - v0, cross(direction, v2 - v0))` of a triangle
and a ray. -/
def triangleDet (triangle : Triangle) (ray : Ray) : ℚ :=
  Dot (triangle.v1 - triangle.v0) (Cross ray.direction (triangle.v2 - triangle.v0))

/-- The point `ray.origin + t * direction` lies in the triangle's plane with
barycentric coordinates `u`, `v`. -/
def OnTriangle (triangle : Triangle) (ray : Ray) (t u v : ℚ) : Prop :=
  ray.origin + scale ray.direction t =
    triangle.v0 + scale (triangle.v1 - triangle.v0) u + scale (triangle.v2 - triangle.v0) v

/-- The first barycentric coordinate the program computes
(`firstCalculation`). -/
def triangleU (triangle : Triangle) (ray : Ray) : ℚ :=
  1 / triangleDet triangle ray *
    Dot (ray.origin - triangle.v0) (Cross ray.direction (triangle.v2 - triangle.v0))

/-- The second barycentric coordinate the program computes
(`secondCalculation`). -/
def triangleV (triangle : Triangle) (ray : Ray) : ℚ :=
  1 / triangleDet triangle ray *
    Dot ray.direction (Cross (ray.origin - triangle.v0) (triangle.v1 - triangle.v0))

/-- The distance the program computes (`calculatedT`). -/
def triangleT (triangle : Triangle) (ray : Ray) : ℚ :=
  1 / triangleDet triangle ray *
    Dot (triangle.v2 - triangle.v0) (Cross (ray.origin - triangle.v0) (triangle.v1 - triangle.v0))

/-- The cull test of `Utils.h` 136-145 rejects the triangle. -/
def TriangleCulled (triangle : Triangle) (ray : Ray) (ignoreHitRecord : Bool) : Prop :=
  (ignoreHitRecord = true ∧
    ((triangle.cullMode = TriangleCullMode.BackFaceCulling ∧ 0 < triangleDet triangle ray) ∨
     (triangle.cullMode = TriangleCullMode.FrontFaceCulling ∧ triangleDet triangle ray < 0))) ∨
  (ignoreHitRecord = false ∧
    ((triangle.cullMode = TriangleCullMode.BackFaceCulling ∧ triangleDet triangle ray < 0) ∨
     (triangle.cullMode = TriangleCullMode.FrontFaceCulling ∧ 0 < triangleDet triangle ray)))

instance (triangle : Triangle) (ray : Ray) (b : Bool) : Decidable (TriangleCulled triangle ray b) := by
  unfold TriangleCulled; infer_instance

/-- Every test of `HitTest_Triangle` before the hit record is looked at
passes. -/
def TriangleAccepts (triangle : Triangle) (ray : Ray) (ignoreHitRecord : Bool) : Prop :=
  triangleDet triangle ray ≠ 0 ∧ ¬ TriangleCulled triangle ray ignoreHitRecord ∧
  0 ≤ triangleU triangle ray ∧ triangleU triangle ray ≤ 1 ∧
  0 ≤ triangleV triangle ray ∧ triangleU triangle ray + triangleV triangle ray ≤ 1 ∧
  ray.min ≤ triangleT triangle ray ∧ (triangleT triangle ray : WithTop ℚ) ≤ ray.max

instance (triangle : Triangle) (ray : Ray) (b : Bool) : Decidable (TriangleAccepts triangle ray b) := by
  unfold TriangleAccepts; infer_instance

/-- The record a triangle commits. -/
def triangleCommit (triangle : Triangle) (ray : Ray) : HitRecord :=
  { t := (triangleT triangle ray : WithTop ℚ),
    materialIndex := triangle.materialIndex,
    didHit := true,
    origin := ray.origin + scale ray.direction (triangleT triangle ray),
    normal := triangle.normal }

/-- The triangle and the ray of the spec's triangle scenario. -/
def scenarioTriangle : Triangle :=
  { v0 := ⟨0, 0, 0⟩, v1 := ⟨1, 0, 0⟩, v2 := ⟨0, 1, 0⟩, normal := ⟨0, 0, -1⟩,
    cullMode := TriangleCullMode.None, materialIndex := 0 }

/-- The ray of the spec's triangle scenario: from `(0.2, 0.2, -1)` along
`+z`.  (The primitive tests do not read `inverseDirection`; its `x` and `y`
components, infinite in the program, are set to `0` here.) -/
def scenarioTriangleRay : Ray :=
  { origin := ⟨1/5, 1/5, -1⟩, direction := ⟨0, 0, 1⟩, inverseDirection := ⟨0, 0, 1⟩,
    min := 1/10000, max := ⊤ }

/-- The discriminant `b² - 4ac` the sphere test computes. -/
def sphereDiscriminant (sphere : Sphere) (ray : Ray) : ℚ :=
  2 * Dot ray.direction (ray.origin - sphere.origin) *
      (2 * Dot ray.direction (ray.origin - sphere.origin)) -
    4 * Dot ray.direction ray.direction *
      (Dot (ray.origin - sphere.origin) (ray.origin - sphere.origin) -
        sphere.radius * sphere.radius)

/-- The root `(-b - sqrt(discriminant)) * factor` of the sphere test. -/
def sphereFirstT (sqrtf : ℚ → ℚ) (sphere : Sphere) (ray : Ray) : Flt :=
  Flt.mulQ (-(2 * Dot ray.direction (ray.origin - sphere.origin)) -
      sqrtf (sphereDiscriminant sphere ray))
    (Flt.divQ 1 (2 * Dot ray.direction ray.direction))

/-- The root `(-b + sqrt(discriminant)) * factor` of the sphere test. -/
def sphereSecondT (sqrtf : ℚ → ℚ) (sphere : Sphere) (ray : Ray) : Flt :=
  Flt.mulQ (-(2 * Dot ray.direction (ray.origin - sphere.origin)) +
      sqrtf (sphereDiscriminant sphere ray))
    (Flt.divQ 1 (2 * Dot ray.direction ray.direction))

/-- The value of `calculatedT` the sphere test compares with the ray's
interval (after the conditional swap of line 60). -/
def sphereT (sqrtf : ℚ → ℚ) (sphere : Sphere) (ray : Ray) : Flt :=
  if Flt.lt (sphereSecondT sqrtf sphere ray) (sphereFirstT sqrtf sphere ray) &&
      Flt.lt (Flt.fin 0) (sphereSecondT sqrtf sphere ray) then
    sphereSecondT sqrtf sphere ray
  else sphereFirstT sqrtf sphere ray

/-- The record a sphere commits. -/
def sphereCommit (sqrtf : ℚ → ℚ) (sphere : Sphere) (ray : Ray) : HitRecord :=
  { t := ((sphereT sqrtf sphere ray).toRat : WithTop ℚ),
    materialIndex := sphere.materialIndex,
    didHit := true,
    origin := ray.origin + scale ray.direction (sphereT sqrtf sphere ray).toRat,
    normal := Normalize sqrtf
      (ray.origin + scale ray.direction (sphereT sqrtf sphere ray).toRat - sphere.origin) }

/-- The value of `calculatedT` the plane test computes. -/
def planeT (plane : Plane) (ray : Ray) : Flt :=
  Flt.divQ (Dot (plane.origin - ray.origin) plane.normal) (Dot ray.direction plane.normal)

/-- The record a plane commits. -/
def planeCommit (plane : Plane) (ray : Ray) : HitRecord :=
  { t := ((planeT plane ray).toRat : WithTop ℚ),
    materialIndex := plane.materialIndex,
    didHit := true,
    origin := ray.origin + scale ray.direction (planeT plane ray).toRat,
    normal := plane.normal }

/-- The interval test `calculatedT >= ray.min && calculatedT <= ray.max`. -/
def inInterval (ray : Ray) (T : Flt) : Bool :=
  Flt.le (Flt.fin ray.min) T && Flt.le T (Flt.ofTop ray.max)

/-- The shape shared by lines 62-80, 96-113 and 167-184: the interval test,
the any-hit return and the strictly-closer commit. -/
def acceptTail (ray : Ray) (hitRecord : HitRecord) (ignoreHitRecord : Bool) (T : Flt)
    (commit : HitRecord) : Bool × HitRecord :=
  if inInterval ray T then
    if ignoreHitRecord then (true, hitRecord)
    else if Flt.lt T (Flt.ofTop hitRecord.t) then (true, commit)
    else (true, hitRecord)
  else (false, hitRecord)

/-- The unit sphere at the world origin. -/
def scenarioSphere : Sphere := { origin := ⟨0, 0, 0⟩, radius := 1, materialIndex := 0 }

/-- The ray of the spec's sphere scenario: from `(0, 0, -5)` along `+z`,
interval `[0, +∞)`.  (The primitive tests do not read `inverseDirection`; its
`x` and `y` components, infinite in the program, are set to `0` here.) -/
def scenarioSphereRay : Ray :=
  { origin := ⟨0, 0, -5⟩, direction := ⟨0, 0, 1⟩, inverseDirection := ⟨0, 0, 1⟩,
    min := 0, max := ⊤ }

/-- A sphere, a plane or a triangle. -/
inductive Primitive where
  | sphere (s : Sphere) : Primitive
  | plane (p : Plane) : Primitive
  | triangle (t : Triangle) : Primitive

/-- The closest-hit test of a primitive (`ignoreHitRecord = false`). -/
def closestHit (sqrtf : ℚ → ℚ) (p : Primitive) (ray : Ray) (hitRecord : HitRecord) :
    Bool × HitRecord :=
  match p with
  | Primitive.sphere s => HitTest_Sphere sqrtf s ray hitRecord false
  | Primitive.plane pl => HitTest_Plane pl ray hitRecord false
  | Primitive.triangle tr => HitTest_Triangle tr ray hitRecord false

/-- The closest-hit tests of a list of primitives run in sequence on one
record; the result is the record after the last test. -/
def closestHitAll (sqrtf : ℚ → ℚ) (ray : Ray) (ps : List Primitive) (hitRecord : HitRecord) :
    HitRecord :=
  ps.foldl (fun r p => (closestHit sqrtf p ray r).2) hitRecord

/-- The distance `calculatedT` a primitive's test computes for a ray, as it
is compared with the record's `t`. -/
def hitDistance (sqrtf : ℚ → ℚ) (p : Primitive) (ray : Ray) : WithTop ℚ :=
  match p with
  | Primitive.sphere s => (sphereT sqrtf s ray).toTop
  | Primitive.plane pl => (planeT pl ray).toTop
  | Primitive.triangle tr => ((triangleT tr ray : ℚ) : WithTop ℚ)

/-- A point lies in the axis-aligned box with corners `minAABB`, `maxAABB`. -/
def InsideBox (minAABB maxAABB p : Vector3) : Prop :=
  minAABB.x ≤ p.x ∧ p.x ≤ maxAABB.x ∧ minAABB.y ≤ p.y ∧ p.y ≤ maxAABB.y ∧
  minAABB.z ≤ p.z ∧ p.z ≤ maxAABB.z

/-- The lower end `tmin` of the slab interval of line 31. -/
def slabTmin (minAABB maxAABB : Vector3) (ray : Ray) : ℚ :=
  max (max (min ((minAABB.x - ray.origin.x) * ray.inverseDirection.x)
                ((maxAABB.x - ray.origin.x) * ray.inverseDirection.x))
           (min ((minAABB.y - ray.origin.y) * ray.inverseDirection.y)
                ((maxAABB.y - ray.origin.y) * ray.inverseDirection.y)))
      (min ((minAABB.z - ray.origin.z) * ray.inverseDirection.z)
           ((maxAABB.z - ray.origin.z) * ray.inverseDirection.z))

/-- The upper end `tmax` of the slab interval of line 32. -/
def slabTmax (minAABB maxAABB : Vector3) (ray : Ray) : ℚ :=
  min (min (max ((minAABB.x - ray.origin.x) * ray.inverseDirection.x)
                ((maxAABB.x - ray.origin.x) * ray.inverseDirection.x))
           (max ((minAABB.y - ray.origin.y) * ray.inverseDirection.y)
                ((maxAABB.y - ray.origin.y) * ray.inverseDirection.y)))
      (max ((minAABB.z - ray.origin.z) * ray.inverseDirection.z)
           ((maxAABB.z - ray.origin.z) * ray.inverseDirection.z))

/-- A ray along the diagonal from the world origin with the short interval
`[0, 1]`. -/
def diagonalRay : Ray :=
  { origin := ⟨0, 0, 0⟩, direction := ⟨1, 1, 1⟩, inverseDirection := ⟨1, 1, 1⟩,
    min := 0, max := ((1 : ℚ) : WithTop ℚ) }

/-- The shape of a binary tree of node indices. -/
inductive BVHTree where
  | leaf (index : Nat) : BVHTree
  | inner (index : Nat) (left right : BVHTree) : BVHTree

/-- The node index at the root of a tree. -/
def BVHTree.index : BVHTree → Nat
  | BVHTree.leaf i => i
  | BVHTree.inner i _ _ => i

/-- The number of nodes on the longest path from the root to a leaf. -/
def BVHTree.height : BVHTree → Nat
  | BVHTree.leaf _ => 1
  | BVHTree.inner _ l r => max l.height r.height + 1

/-- All node indices of a tree, parents before children, left before
right. -/
def BVHTree.nodeIndices : BVHTree → List Nat
  | BVHTree.leaf i => [i]
  | BVHTree.inner i l r => i :: (l.nodeIndices ++ r.nodeIndices)

/-- The leaf indices of a tree, left to right. -/
def BVHTree.leafIndices : BVHTree → List Nat
  | BVHTree.leaf i => [i]
  | BVHTree.inner _ l r => l.leafIndices ++ r.leafIndices

/-- The node array holds the tree: a leaf of the tree is a node with
`nrPrimitives ≠ 0`, an inner node of the tree is a node with
`nrPrimitives = 0` whose subtrees sit at `leftFirst` and `leftFirst + 1`. -/
def IsBVH (nodes : List BVHNode) : BVHTree → Prop
  | BVHTree.leaf i => ∃ node, nodes[i]? = some node ∧ node.nrPrimitives ≠ 0
  | BVHTree.inner i l r =>
    ∃ node, nodes[i]? = some node ∧ node.nrPrimitives = 0 ∧
      l.index = node.leftFirst ∧ r.index = (node.leftFirst + 1) % 2 ^ 32 ∧
      IsBVH nodes l ∧ IsBVH nodes r

/-- The list `path` is the sequence of node indices from the root of the tree
down to its leaf `leaf`, both ends included. -/
inductive IsPathToLeaf : BVHTree → List Nat → Nat → Prop where
  | leaf (i : Nat) : IsPathToLeaf (BVHTree.leaf i) [i] i
  | left (i : Nat) (l r : BVHTree) (path : List Nat) (j : Nat) :
      IsPathToLeaf l path j → IsPathToLeaf (BVHTree.inner i l r) (i :: path) j
  | right (i : Nat) (l r : BVHTree) (path : List Nat) (j : Nat) :
      IsPathToLeaf r path j → IsPathToLeaf (BVHTree.inner i l r) (i :: path) j

/-- The box of node `i` passes the slab test for the ray. -/
def BoxPasses (nodes : List BVHNode) (ray : Ray) (i : Nat) : Prop :=
  ∃ node, nodes[i]? = some node ∧ SlabTest_BoundingBox node.minAABB node.maxAABB ray = true

/-- A mesh whose only content is a node array. -/
def meshOfNodes (nodes : List BVHNode) : TriangleMesh :=
  { transformedPositions := [], transformedNormals := [], indices := [],
    cullMode := TriangleCullMode.None, materialIndex := 0, bvhNodes := nodes,
    rootNodeIndex := 0 }

/-- Three nodes: an inner root whose box the diagonal ray misses, and two
leaves whose boxes it meets. -/
def looseNodes : List BVHNode :=
  [ { minAABB := ⟨100, 0, 0⟩, maxAABB := ⟨101, 1, 1⟩, leftFirst := 1, nrPrimitives := 0 },
    { minAABB := ⟨10, 10, 10⟩, maxAABB := ⟨11, 11, 11⟩, leftFirst := 0, nrPrimitives := 1 },
    { minAABB := ⟨10, 10, 10⟩, maxAABB := ⟨11, 11, 11⟩, leftFirst := 1, nrPrimitives := 1 } ]

/-- The tree of `looseNodes`. -/
def looseTree : BVHTree := BVHTree.inner 0 (BVHTree.leaf 1) (BVHTree.leaf 2)

/-- Three nodes: an inner root whose box contains the boxes of its two
leaves; the diagonal ray meets the root and the first leaf and misses the
second leaf. -/
def nestedNodes : List BVHNode :=
  [ { minAABB := ⟨10, 10, 10⟩, maxAABB := ⟨13, 11, 11⟩, leftFirst := 1, nrPrimitives := 0 },
    { minAABB := ⟨10, 10, 10⟩, maxAABB := ⟨11, 11, 11⟩, leftFirst := 0, nrPrimitives := 1 },
    { minAABB := ⟨12, 10, 10⟩, maxAABB := ⟨13, 11, 11⟩, leftFirst := 1, nrPrimitives := 1 } ]

/-- The triangle views of the `n` triangles numbered from `currentTriangle`
on. -/
def trianglesFrom (mesh : TriangleMesh) : Nat → Nat → Except Fault (List Triangle)
  | 0, _ => Except.ok []
  | n + 1, currentTriangle =>
    match triangleAt mesh currentTriangle with
    | Except.error e => Except.error e
    | Except.ok triangle =>
      match trianglesFrom mesh n (currentTriangle + 1) with
      | Except.error e => Except.error e
      | Except.ok rest => Except.ok (triangle :: rest)

/-- The number of triangles the loop of line 229 visits for a leaf. -/
def primitiveCount (node : BVHNode) : Nat :=
  (node.leftFirst + node.nrPrimitives) % 2 ^ 32 - node.leftFirst

/-- The triangles in the primitive ranges of a list of leaves, in the order
the loops of lines 224-238 visit them. -/
def candidateTriangles (mesh : TriangleMesh) : List Nat → Except Fault (List Triangle)
  | [] => Except.ok []
  | index :: rest =>
    match mesh.bvhNodes[index]? with
    | none => Except.error Fault.outOfRange
    | some node =>
      match trianglesFrom mesh (primitiveCount node) node.leftFirst with
      | Except.error e => Except.error e
      | Except.ok ts =>
        match candidateTriangles mesh rest with
        | Except.error e => Except.error e
        | Except.ok us => Except.ok (ts ++ us)

/-- Every leaf of the tree refers to triangles the mesh has: the index
buffer, the positions and the normals are long enough for its primitive
range. -/
def LeafDataOk (mesh : TriangleMesh) (T : BVHTree) : Prop :=
  ∀ i ∈ T.leafIndices, ∀ node, mesh.bvhNodes[i]? = some node →
    ∃ ts, trianglesFrom mesh (primitiveCount node) node.leftFirst = Except.ok ts

/-- The closest-hit triangle test run over a list of triangles on one
record. -/
def foldTriangles (ray : Ray) (tris : List Triangle) (hitRecord : HitRecord) : HitRecord :=
  tris.foldl (fun r tri => (HitTest_Triangle tri ray r false).2) hitRecord

/-- The triangle of the spec's triangle scenario as a mesh: three positions,
one triangle, and a BVH of a single leaf whose box is the triangle's. -/
def oneTriangleMesh : TriangleMesh :=
  { transformedPositions := [⟨0, 0, 0⟩, ⟨1, 0, 0⟩, ⟨0, 1, 0⟩],
    transformedNormals := [⟨0, 0, -1⟩],
    indices := [0, 1, 2],
    cullMode := TriangleCullMode.None,
    materialIndex := 7,
    bvhNodes := [{ minAABB := ⟨0, 0, 0⟩, maxAABB := ⟨1, 1, 0⟩, leftFirst := 0,
                   nrPrimitives := 1 }],
    rootNodeIndex := 0 }

/-- The triangle view of the only triangle of `oneTriangleMesh`. -/
def meshTriangle : Triangle :=
  { v0 := ⟨0, 0, 0⟩, v1 := ⟨1, 0, 0⟩, v2 := ⟨0, 1, 0⟩, normal := ⟨0, 0, -1⟩,
    cullMode := TriangleCullMode.None, materialIndex := 7 }

/-- A ray along the diagonal that meets the triangle of `oneTriangleMesh` at
`(0.2, 0.2, 0)` for `t = 1`. -/
def slantedRay : Ray :=
  { origin := ⟨-4/5, -4/5, -1⟩, direction := ⟨1, 1, 1⟩, inverseDirection := ⟨1, 1, 1⟩,
    min := 1/10000, max := ⊤ }

/-- The plane `z = 1`, which the slanted ray meets at `t = 2`. -/
def scenarioPlane : Plane := { origin := ⟨0, 0, 1⟩, normal := ⟨0, 0, 1⟩, materialIndex := 3 }

/-- A record whose `t` is `1/2`, closer than the triangle of
`oneTriangleMesh` along the slanted ray. -/
def nearRecord : HitRecord :=
  { origin := ⟨0, 0, 0⟩, normal := ⟨0, 0, 0⟩, t := ((1 / 2 : ℚ) : WithTop ℚ), didHit := true,
    materialIndex := 1 }

/-- A ray that starts at the centre of the unit sphere and runs along `+z`,
interval `[0, +∞)`.  (The primitive tests do not read `inverseDirection`; its
`x` and `y` components, infinite in the program, are set to `0` here.) -/
def insideRay : Ray :=
  { origin := ⟨0, 0, 0⟩, direction := ⟨0, 0, 1⟩, inverseDirection := ⟨0, 0, 1⟩,
    min := 0, max := ⊤ }

/-- Node `j` is a child of the internal node `i`: `j` is `leftFirst` or
`leftFirst + 1` of a node with `nrPrimitives = 0`. -/
def IsChild (nodes : List BVHNode) (i j : Nat) : Prop :=
  ∃ node, nodes[i]? = some node ∧ node.nrPrimitives = 0 ∧
    (j = node.leftFirst ∨ j = (node.leftFirst + 1) % 2 ^ 32)

/-- The box of `outer` contains the box of `inner`. -/
def BoxContains (outer inner : BVHNode) : Prop :=
  outer.minAABB.x ≤ inner.minAABB.x ∧ inner.maxAABB.x ≤ outer.maxAABB.x ∧
  outer.minAABB.y ≤ inner.minAABB.y ∧ inner.maxAABB.y ≤ outer.maxAABB.y ∧
  outer.minAABB.z ≤ inner.minAABB.z ∧ inner.maxAABB.z ≤ outer.maxAABB.z

/-- The box of every internal node of the tree contains the boxes of both of
its children. -/
def BoxesNested (nodes : List BVHNode) : BVHTree → Prop
  | BVHTree.leaf _ => True
  | BVHTree.inner i l r =>
    (∀ node child, nodes[i]? = some node →
      (nodes[l.index]? = some child ∨ nodes[r.index]? = some child) →
      BoxContains node child) ∧
    BoxesNested nodes l ∧ BoxesNested nodes r

/-- The box of every leaf of the tree contains the three vertices of every
triangle in the leaf's primitive range. -/
def LeafBoxesHoldTriangles (mesh : TriangleMesh) (T : BVHTree) : Prop :=
  ∀ i ∈ T.leafIndices, ∀ node, mesh.bvhNodes[i]? = some node →
    ∀ k, node.leftFirst ≤ k → k < (node.leftFirst + node.nrPrimitives) % 2 ^ 32 →
      ∀ tri, triangleAt mesh k = Except.ok tri →
        InsideBox node.minAABB node.maxAABB tri.v0 ∧
        InsideBox node.minAABB node.maxAABB tri.v1 ∧
        InsideBox node.minAABB node.maxAABB tri.v2

/-- The number of triangles of a mesh: three entries of the index buffer per
triangle. -/
def triangleCount (mesh : TriangleMesh) : Nat := mesh.indices.length / 3

/-- The triangle numbers in the primitive ranges of a list of leaves, leaf by
leaf. -/
def leafTriangleNumbers (nodes : List BVHNode) : List Nat → List Nat
  | [] => []
  | i :: rest =>
    (match nodes[i]? with
      | some node => List.range' node.leftFirst (primitiveCount node)
      | none => []) ++ leafTriangleNumbers nodes rest

/-- Two triangles in the plane `z = 0` as a mesh with a BVH of three nodes: an
inner root (node 0) whose box holds both triangles, and one leaf for each
triangle (nodes 1 and 2). -/
def twoLeafMesh : TriangleMesh :=
  { transformedPositions := [⟨0, 0, 0⟩, ⟨1, 0, 0⟩, ⟨0, 1, 0⟩, ⟨2, 0, 0⟩, ⟨3, 0, 0⟩, ⟨2, 1, 0⟩],
    transformedNormals := [⟨0, 0, -1⟩, ⟨0, 0, -1⟩],
    indices := [0, 1, 2, 3, 4, 5],
    cullMode := TriangleCullMode.None,
    materialIndex := 7,
    bvhNodes :=
      [ { minAABB := ⟨0, 0, 0⟩, maxAABB := ⟨3, 1, 0⟩, leftFirst := 1, nrPrimitives := 0 },
        { minAABB := ⟨0, 0, 0⟩, maxAABB := ⟨1, 1, 0⟩, leftFirst := 0, nrPrimitives := 1 },
        { minAABB := ⟨2, 0, 0⟩, maxAABB := ⟨3, 1, 0⟩, leftFirst := 1, nrPrimitives := 1 } ],
    rootNodeIndex := 0 }

/-- The tree of `twoLeafMesh`. -/
def twoLeafTree : BVHTree := BVHTree.inner 0 (BVHTree.leaf 1) (BVHTree.leaf 2)

/-- The second triangle of `twoLeafMesh`. -/
def secondMeshTriangle : Triangle :=
  { v0 := ⟨2, 0, 0⟩, v1 := ⟨3, 0, 0⟩, v2 := ⟨2, 1, 0⟩, normal := ⟨0, 0, -1⟩,
    cullMode := TriangleCullMode.None, materialIndex := 7 }

end GeometryUtils

/-! ## binary32 arithmetic

The definitions above read a `float` as an exact number.  The definitions
below read it as what the machine holds: an IEEE-754 binary32 value, every
operation rounded to nearest, ties to even, with signed zeros, infinities and
NaN.  Each operation of the program is one rounded operation (no fused
multiply-add, no wider intermediate precision). -/

/-- An IEEE-754 binary32 value: NaN, `-∞`, `+∞`, the negative zero, or a finite
number (`fin 0` is the positive zero).  The operations below produce only
`fin q` with `q` a binary32 number. -/
inductive F32 where
  | nan : F32
  | negInf : F32
  | posInf : F32
  | negZero : F32
  | fin (q : ℚ) : F32
deriving DecidableEq

namespace F32

/-- The power `2 ^ e` for an integer exponent. -/
def pow2 (e : Int) : ℚ :=
  if 0 ≤ e then ((2 ^ e.toNat : Nat) : ℚ) else 1 / ((2 ^ (-e).toNat : Nat) : ℚ)

/-- The binary logarithm of a natural number, rounded down, by halving at most
`fuel` times. -/
def log2Aux : Nat → Nat → Nat
  | 0, _ => 0
  | fuel + 1, n => if 2 ≤ n then log2Aux fuel (n / 2) + 1 else 0

/-- The binary logarithm of a natural number, rounded down (`0` for `0`). -/
def log2 (n : Nat) : Nat := log2Aux n n

/-- The exponent of a positive rational: the integer `e` with
`2 ^ e ≤ q < 2 ^ (e + 1)`. -/
def ilog2 (q : ℚ) : Int :=
  if pow2 ((log2 q.num.natAbs : Int) - (log2 q.den : Int)) ≤ q then
    (log2 q.num.natAbs : Int) - (log2 q.den : Int)
  else (log2 q.num.natAbs : Int) - (log2 q.den : Int) - 1

/-- The integer nearest to a rational, a tie going to the even one. -/
def rne (x : ℚ) : Int :=
  if x - (⌊x⌋ : ℚ) < 1 / 2 then ⌊x⌋
  else if 1 / 2 < x - (⌊x⌋ : ℚ) then ⌊x⌋ + 1
  else if ⌊x⌋ % 2 = 0 then ⌊x⌋ else ⌊x⌋ + 1

/-- The spacing of the binary32 numbers around a positive rational: `2 ^ (e -
23)` for the exponent `e` of the rational, and `2 ^ (-149)` below the smallest
normal number `2 ^ (-126)`. -/
def quantum (q : ℚ) : ℚ := pow2 (max (ilog2 q) (-126) - 23)

/-- The multiple of the spacing nearest to a positive rational (ties to
even).  A result of `2 ^ 128` or more stands for overflow. -/
def roundMag (q : ℚ) : ℚ := (rne (q / quantum q) : ℚ) * quantum q

/-- The binary32 value a non-zero exact result is rounded to; an exact zero is
given its sign by the operation that produced it. -/
def rnd (q : ℚ) : F32 :=
  if q = 0 then fin 0
  else if 0 < q then
    if roundMag q < pow2 128 then fin (roundMag q) else posInf
  else
    if roundMag (-q) < pow2 128 then
      if roundMag (-q) = 0 then negZero else fin (-roundMag (-q))
    else negInf

/-- The value is NaN. -/
def isNaN : F32 → Bool
  | nan => true
  | _ => false

/-- The value is an infinity. -/
def isInf : F32 → Bool
  | negInf => true
  | posInf => true
  | _ => false

/-- The value is a zero of either sign. -/
def isZero : F32 → Bool
  | negZero => true
  | fin q => decide (q = 0)
  | _ => false

/-- The sign bit of a value that is not NaN. -/
def signBit : F32 → Bool
  | negInf => true
  | negZero => true
  | fin q => decide (q < 0)
  | _ => false

/-- The rational value of a finite value (both zeros are `0`). -/
def toRat : F32 → ℚ
  | fin q => q
  | _ => 0

/-- The infinity with the given sign bit. -/
def signedInf (s : Bool) : F32 := if s then negInf else posInf

/-- The zero with the given sign bit. -/
def signedZero (s : Bool) : F32 := if s then negZero else fin 0

/-- Unary minus: the sign bit flipped. -/
def neg : F32 → F32
  | nan => nan
  | negInf => posInf
  | posInf => negInf
  | negZero => fin 0
  | fin q => if q = 0 then negZero else fin (-q)

/-- The sum.  `∞ + (-∞)` is NaN; an exact zero sum is `+0` unless both terms
are `-0`. -/
def add (x y : F32) : F32 :=
  if x.isNaN || y.isNaN then nan
  else if x.isInf then
    if y.isInf && (x.signBit != y.signBit) then nan else x
  else if y.isInf then y
  else if x = negZero ∧ y = negZero then negZero
  else rnd (x.toRat + y.toRat)

/-- The difference `x - y`, which IEEE-754 defines as `x + (-y)`. -/
def sub (x y : F32) : F32 := add x (neg y)

/-- The product.  `0 * ∞` is NaN; the sign of a zero or infinite product is
the exclusive or of the signs. -/
def mul (x y : F32) : F32 :=
  if x.isNaN || y.isNaN then nan
  else if x.isInf || y.isInf then
    if x.isZero || y.isZero then nan else signedInf (x.signBit != y.signBit)
  else if x.isZero || y.isZero then signedZero (x.signBit != y.signBit)
  else rnd (x.toRat * y.toRat)

/-- The quotient.  `0 / 0` and `∞ / ∞` are NaN; a non-zero number divided by a
zero is the infinity whose sign is the exclusive or of the signs. -/
def div (x y : F32) : F32 :=
  if x.isNaN || y.isNaN then nan
  else if x.isInf then
    if y.isInf then nan else signedInf (x.signBit != y.signBit)
  else if y.isInf then signedZero (x.signBit != y.signBit)
  else if y.isZero then
    if x.isZero then nan else signedInf (x.signBit != y.signBit)
  else if x.isZero then signedZero (x.signBit != y.signBit)
  else rnd (x.toRat / y.toRat)

/-- The integer square root by bits: `r` holds the bits of the root above
position `b`; each step keeps the next bit when the square stays at most `n`. -/
def isqrtAux (n : Nat) : Nat → Nat → Nat
  | 0, r => r
  | b + 1, r =>
    if (r + 2 ^ b) * (r + 2 ^ b) ≤ n then isqrtAux n b (r + 2 ^ b) else isqrtAux n b r

/-- The integer square root `⌊√n⌋`. -/
def isqrt (n : Nat) : Nat := isqrtAux n (log2 n / 2 + 1) 0

/-- The correctly rounded square root of a positive rational: with `u` the
spacing of the binary32 numbers around the root and `k = ⌊√q / u⌋`, the result
is `k * u` or `(k + 1) * u`, whichever is nearer to `√q` (ties to even). -/
def sqrtMag (q : ℚ) : ℚ :=
  let u := pow2 (max (ilog2 q / 2) (-126) - 23)
  let k := isqrt ⌊q / (u * u)⌋.toNat
  if q < (((k : ℚ) + 1 / 2) * u) * (((k : ℚ) + 1 / 2) * u) then (k : ℚ) * u
  else if (((k : ℚ) + 1 / 2) * u) * (((k : ℚ) + 1 / 2) * u) < q then ((k : ℚ) + 1) * u
  else if k % 2 = 0 then (k : ℚ) * u else ((k : ℚ) + 1) * u

/-- The square root (`sqrt` of `<cmath>`): NaN for a negative number, and
`sqrt(-0) = -0`. -/
def sqrt : F32 → F32
  | nan => nan
  | negInf => nan
  | posInf => posInf
  | negZero => negZero
  | fin q => if q < 0 then nan else if q = 0 then fin 0 else fin (sqrtMag q)

/-- The comparison `x < y`, false when either side is NaN. -/
def lt : F32 → F32 → Bool
  | nan, _ => false
  | _, nan => false
  | posInf, _ => false
  | _, negInf => false
  | negInf, _ => true
  | _, posInf => true
  | x, y => decide (x.toRat < y.toRat)

/-- The comparison `x <= y`, false when either side is NaN. -/
def le : F32 → F32 → Bool
  | nan, _ => false
  | _, nan => false
  | negInf, _ => true
  | _, posInf => true
  | posInf, _ => false
  | _, negInf => false
  | x, y => decide (x.toRat ≤ y.toRat)

/-- The comparison `x == y`: false when either side is NaN, true for two zeros
of different sign. -/
def beq : F32 → F32 → Bool
  | nan, _ => false
  | _, nan => false
  | negInf, negInf => true
  | negInf, _ => false
  | _, negInf => false
  | posInf, posInf => true
  | posInf, _ => false
  | _, posInf => false
  | x, y => decide (x.toRat = y.toRat)

/-- The `std::min` of `<algorithm>`: `(b < a) ? b : a`. -/
def std_min (a b : F32) : F32 := if lt b a then b else a

/-- The `std::max` of `<algorithm>`: `(a < b) ? b : a`. -/
def std_max (a b : F32) : F32 := if lt a b then b else a

/-- The value is a finite number. -/
def Finite (x : F32) : Prop := x = negZero ∨ ∃ q, x = fin q

instance (x : F32) : Decidable (Finite x) := by
  unfold Finite
  cases x
  · exact isFalse (by simp)
  · exact isFalse (by simp)
  · exact isFalse (by simp)
  · exact isTrue (Or.inl rfl)
  · exact isTrue (Or.inr ⟨_, rfl⟩)

/-- A rational is a binary32 number: rounding leaves it as it is. -/
def Rep (q : ℚ) : Prop := rnd q = fin q

instance (q : ℚ) : Decidable (Rep q) := by
  unfold Rep; infer_instance

end F32

/-! ## The program in binary32

The data model and the functions of `Utils.h` once more, every `float` a
binary32 value and every arithmetic operation the rounded one.  The names
are those of the source, in the namespace `binary32`. -/

namespace binary32

/-- Modelled from the spec: the `Vector3` of `Math.h` (absent from the
sources), three `float` components. -/
@[ext]
structure Vector3 where
  x : F32
  y : F32
  z : F32

instance : DecidableEq Vector3 := fun a b =>
  decidable_of_iff (a.x = b.x ∧ a.y = b.y ∧ a.z = b.z)
    ⟨fun h => Vector3.ext h.1 h.2.1 h.2.2, fun h => h ▸ ⟨rfl, rfl, rfl⟩⟩

namespace Vector3

/-- Modelled from the spec: `operator+` of `Vector3`, componentwise. -/
def add (a b : Vector3) : Vector3 := ⟨F32.add a.x b.x, F32.add a.y b.y, F32.add a.z b.z⟩

/-- Modelled from the spec: `operator-` of `Vector3`, componentwise. -/
def sub (a b : Vector3) : Vector3 := ⟨F32.sub a.x b.x, F32.sub a.y b.y, F32.sub a.z b.z⟩

/-- Modelled from the spec: `operator*(float)` of `Vector3`, each component
times the number. -/
def scale (a : Vector3) (s : F32) : Vector3 := ⟨F32.mul a.x s, F32.mul a.y s, F32.mul a.z s⟩

/-- Modelled from the spec: `Vector3::Dot`, `a.x * b.x + a.y * b.y + a.z *
b.z` evaluated from left to right. -/
def Dot (a b : Vector3) : F32 :=
  F32.add (F32.add (F32.mul a.x b.x) (F32.mul a.y b.y)) (F32.mul a.z b.z)

/-- Modelled from the spec: `Vector3::Cross`, the cross product. -/
def Cross (a b : Vector3) : Vector3 :=
  ⟨F32.sub (F32.mul a.y b.z) (F32.mul a.z b.y),
   F32.sub (F32.mul a.z b.x) (F32.mul a.x b.z),
   F32.sub (F32.mul a.x b.y) (F32.mul a.y b.x)⟩

/-- Modelled from the spec: `Vector3::Magnitude`, the square root of
`x * x + y * y + z * z`. -/
def Magnitude (a : Vector3) : F32 :=
  F32.sqrt (F32.add (F32.add (F32.mul a.x a.x) (F32.mul a.y a.y)) (F32.mul a.z a.z))

/-- Modelled from the spec: `Vector3::Normalize`, each component divided by
the magnitude (NaN components for a vector of magnitude zero). -/
def Normalize (a : Vector3) : Vector3 :=
  ⟨F32.div a.x (Magnitude a), F32.div a.y (Magnitude a), F32.div a.z (Magnitude a)⟩

end Vector3

/-- Modelled from the spec: the `Ray` of `DataTypes.h` (absent from the
sources). -/
structure Ray where
  origin : Vector3
  direction : Vector3
  inverseDirection : Vector3
  min : F32
  max : F32

/-- Modelled from the spec: the `HitRecord` of `DataTypes.h`. -/
@[ext]
structure HitRecord where
  origin : Vector3
  normal : Vector3
  t : F32
  didHit : Bool
  materialIndex : Nat

instance : DecidableEq HitRecord := fun a b =>
  decidable_of_iff (a.origin = b.origin ∧ a.normal = b.normal ∧ a.t = b.t ∧
      a.didHit = b.didHit ∧ a.materialIndex = b.materialIndex)
    ⟨fun h => HitRecord.ext h.1 h.2.1 h.2.2.1 h.2.2.2.1 h.2.2.2.2,
     fun h => h ▸ ⟨rfl, rfl, rfl, rfl, rfl⟩⟩

/-- Modelled from the spec: a value-initialised `HitRecord` (`HitRecord
temp{}`): `t = +∞`, `didHit = false`, everything else zero. -/
def HitRecord.fresh : HitRecord :=
  { origin := ⟨F32.fin 0, F32.fin 0, F32.fin 0⟩, normal := ⟨F32.fin 0, F32.fin 0, F32.fin 0⟩,
    t := F32.posInf, didHit := false, materialIndex := 0 }

/-- Modelled from the spec: the `Sphere` of `DataTypes.h`. -/
structure Sphere where
  origin : Vector3
  radius : F32
  materialIndex : Nat

/-- Modelled from the spec: the `Plane` of `DataTypes.h`. -/
structure Plane where
  origin : Vector3
  normal : Vector3
  materialIndex : Nat

/-- Modelled from the spec: the `Triangle` of `DataTypes.h`. -/
structure Triangle where
  v0 : Vector3
  v1 : Vector3
  v2 : Vector3
  normal : Vector3
  cullMode : TriangleCullMode
  materialIndex : Nat

/-- Modelled from the spec: the `BVHNode` of `DataTypes.h`: a box and two
`uint32_t` fields. -/
structure BVHNode where
  minAABB : Vector3
  maxAABB : Vector3
  leftFirst : Nat
  nrPrimitives : Nat

/-- Modelled from the spec: the fields of the `TriangleMesh` of `DataTypes.h`
that the intersection code reads. -/
structure TriangleMesh where
  transformedPositions : List Vector3
  transformedNormals : List Vector3
  indices : List Int
  cullMode : TriangleCullMode
  materialIndex : Nat
  bvhNodes : List BVHNode
  rootNodeIndex : Nat

/-- What `HitTest_TriangleMesh` leaves behind: the returned `bool`, the hit
record after the call, and (instrumentation, not part of the program) the
number of calls of `HitTest_Triangle` it made. -/
structure MeshResult where
  result : Bool
  hitRecord : HitRecord
  triangleTests : Nat

namespace GeometryUtils

/-- The slab test of `Utils.h` 14-35.  The C++ function is declared `float`
and returns the truth value of line 34 converted to `1.0f` / `0.0f`; its only
caller negates it, so it is a `Bool` here. -/
def SlabTest_BoundingBox (minAABB maxAABB : Vector3) (ray : Ray) : Bool :=
  let tx1 := F32.mul (F32.sub minAABB.x ray.origin.x) ray.inverseDirection.x
  let tx2 := F32.mul (F32.sub maxAABB.x ray.origin.x) ray.inverseDirection.x
  let tmin := F32.std_min tx1 tx2
  let tmax := F32.std_max tx1 tx2
  let ty1 := F32.mul (F32.sub minAABB.y ray.origin.y) ray.inverseDirection.y
  let ty2 := F32.mul (F32.sub maxAABB.y ray.origin.y) ray.inverseDirection.y
  let tmin := F32.std_max tmin (F32.std_min ty1 ty2)
  let tmax := F32.std_min tmax (F32.std_max ty1 ty2)
  let tz1 := F32.mul (F32.sub minAABB.z ray.origin.z) ray.inverseDirection.z
  let tz2 := F32.mul (F32.sub maxAABB.z ray.origin.z) ray.inverseDirection.z
  let tmin := F32.std_max tmin (F32.std_min tz1 tz2)
  let tmax := F32.std_min tmax (F32.std_max tz1 tz2)
  F32.lt (F32.fin 0) tmax && F32.le tmin tmax

/-- The closest-hit / any-hit sphere test of `Utils.h` 40-81. -/
def HitTest_Sphere (sphere : Sphere) (ray : Ray) (hitRecord : HitRecord)
    (ignoreHitRecord : Bool) : Bool × HitRecord :=
  let originVector := Vector3.sub ray.origin sphere.origin
  let a := Vector3.Dot ray.direction ray.direction
  let b := F32.mul (F32.fin 2) (Vector3.Dot ray.direction originVector)
  let discriminant :=
    F32.sub (F32.mul b b)
      (F32.mul (F32.mul (F32.fin 4) a)
        (F32.sub (Vector3.Dot originVector originVector)
          (F32.mul sphere.radius sphere.radius)))
  if F32.lt discriminant (F32.fin 0) then (false, hitRecord)
  else
    let sqrtDiscriminant := F32.sqrt discriminant
    let factor := F32.div (F32.fin 1) (F32.mul (F32.fin 2) a)
    let firstT := F32.mul (F32.sub (F32.neg b) sqrtDiscriminant) factor
    let secondT := F32.mul (F32.add (F32.neg b) sqrtDiscriminant) factor
    -- `std::swap(calculatedT, secondT)` under the guard of line 60
    let calculatedT :=
      if F32.lt secondT firstT && F32.lt (F32.fin 0) secondT then secondT else firstT
    if F32.le ray.min calculatedT && F32.le calculatedT ray.max then
      if ignoreHitRecord then (true, hitRecord)
      else if F32.lt calculatedT hitRecord.t then
        (true, { t := calculatedT,
                 materialIndex := sphere.materialIndex,
                 didHit := true,
                 origin := Vector3.add ray.origin (Vector3.scale ray.direction calculatedT),
                 normal := Vector3.Normalize
                   (Vector3.sub
                     (Vector3.add ray.origin (Vector3.scale ray.direction calculatedT))
                     sphere.origin) })
      else (true, hitRecord)
    else (false, hitRecord)

/-- The any-hit overload of `Utils.h` 83-87. -/
def HitTest_Sphere_any (sphere : Sphere) (ray : Ray) : Bool :=
  (HitTest_Sphere sphere ray HitRecord.fresh true).1

/-- The closest-hit / any-hit plane test of `Utils.h` 92-114. -/
def HitTest_Plane (plane : Plane) (ray : Ray) (hitRecord : HitRecord)
    (ignoreHitRecord : Bool) : Bool × HitRecord :=
  let calculatedT :=
    F32.div (Vector3.Dot (Vector3.sub plane.origin ray.origin) plane.normal)
      (Vector3.Dot ray.direction plane.normal)
  if F32.le ray.min calculatedT && F32.le calculatedT ray.max then
    if ignoreHitRecord then (true, hitRecord)
    else if F32.lt calculatedT hitRecord.t then
      (true, { t := calculatedT,
               materialIndex := plane.materialIndex,
               didHit := true,
               origin := Vector3.add ray.origin (Vector3.scale ray.direction calculatedT),
               normal := plane.normal })
    else (true, hitRecord)
  else (false, hitRecord)

/-- The closest-hit / any-hit triangle test of `Utils.h` 125-185
(Möller–Trumbore). -/
def HitTest_Triangle (triangle : Triangle) (ray : Ray) (hitRecord : HitRecord)
    (ignoreHitRecord : Bool) : Bool × HitRecord :=
  let edge1 := Vector3.sub triangle.v1 triangle.v0
  let edge2 := Vector3.sub triangle.v2 triangle.v0
  let rayDirectionAndEdge2Cross := Vector3.Cross ray.direction edge2
  let dot := Vector3.Dot edge1 rayDirectionAndEdge2Cross
  if F32.beq dot (F32.fin 0) then (false, hitRecord)
  else if ignoreHitRecord ∧
      ((triangle.cullMode = TriangleCullMode.BackFaceCulling ∧ F32.lt (F32.fin 0) dot) ∨
       (triangle.cullMode = TriangleCullMode.FrontFaceCulling ∧ F32.lt dot (F32.fin 0))) then
    (false, hitRecord)
  else if ¬ ignoreHitRecord ∧
      ((triangle.cullMode = TriangleCullMode.BackFaceCulling ∧ F32.lt dot (F32.fin 0)) ∨
       (triangle.cullMode = TriangleCullMode.FrontFaceCulling ∧ F32.lt (F32.fin 0) dot)) then
    (false, hitRecord)
  else
    let inverseDot := F32.div (F32.fin 1) dot
    let originVector := Vector3.sub ray.origin triangle.v0
    let firstCalculation :=
      F32.mul inverseDot (Vector3.Dot originVector rayDirectionAndEdge2Cross)
    if F32.lt firstCalculation (F32.fin 0) ∨ F32.lt (F32.fin 1) firstCalculation then
      (false, hitRecord)
    else
      let rayOriginAndEdge1Cross := Vector3.Cross originVector edge1
      let secondCalculation :=
        F32.mul inverseDot (Vector3.Dot ray.direction rayOriginAndEdge1Cross)
      if F32.lt secondCalculation (F32.fin 0) ∨
          F32.lt (F32.fin 1) (F32.add firstCalculation secondCalculation) then
        (false, hitRecord)
      else
        let calculatedT := F32.mul inverseDot (Vector3.Dot edge2 rayOriginAndEdge1Cross)
        if F32.le ray.min calculatedT && F32.le calculatedT ray.max then
          if ignoreHitRecord then (true, hitRecord)
          else if F32.lt calculatedT hitRecord.t then
            (true, { t := calculatedT,
                     materialIndex := triangle.materialIndex,
                     didHit := true,
                     origin := Vector3.add ray.origin (Vector3.scale ray.direction calculatedT),
                     normal := triangle.normal })
          else (true, hitRecord)
        else (false, hitRecord)

/-- The any-hit overload of `Utils.h` 187-191. -/
def HitTest_Triangle_any (triangle : Triangle) (ray : Ray) : Bool :=
  (HitTest_Triangle triangle ray HitRecord.fresh true).1

/-- The recursive BVH walk of `Utils.h` 195-211.  `fuel` bounds the recursion
depth; `indices` is the vector the walk appends to. -/
def IntersectBVH (fuel : Nat) (ray : Ray) (mesh : TriangleMesh) (nodeIndex : Nat)
    (indices : List Nat) : Except Fault (List Nat) :=
  match fuel with
  | 0 => Except.error Fault.outOfFuel
  | fuel + 1 =>
    match mesh.bvhNodes[nodeIndex]? with
    | none => Except.error Fault.outOfRange
    | some node =>
      if SlabTest_BoundingBox node.minAABB node.maxAABB ray = false then Except.ok indices
      else if node.nrPrimitives ≠ 0 then Except.ok (indices ++ [nodeIndex])
      else
        match IntersectBVH fuel ray mesh node.leftFirst indices with
        | Except.error e => Except.error e
        | Except.ok indices1 =>
          IntersectBVH fuel ray mesh ((node.leftFirst + 1) % 2 ^ 32) indices1

/-- The triangle view of lines 220-222 and 231-234 for triangle number
`currentTriangle`. -/
def triangleAt (mesh : TriangleMesh) (currentTriangle : Nat) : Except Fault Triangle :=
  match mesh.indices[(currentTriangle * 3) % 2 ^ 32]?,
        mesh.indices[(currentTriangle * 3 + 1) % 2 ^ 32]?,
        mesh.indices[(currentTriangle * 3 + 2) % 2 ^ 32]?,
        mesh.transformedNormals[currentTriangle]? with
  | some i0, some i1, some i2, some normal =>
    match dae.GeometryUtils.lookupInt mesh.transformedPositions i0,
          dae.GeometryUtils.lookupInt mesh.transformedPositions i1,
          dae.GeometryUtils.lookupInt mesh.transformedPositions i2 with
    | some v0, some v1, some v2 =>
      Except.ok { v0 := v0, v1 := v1, v2 := v2, normal := normal,
                  cullMode := mesh.cullMode, materialIndex := mesh.materialIndex }
    | _, _, _ => Except.error Fault.outOfRange
  | _, _, _, _ => Except.error Fault.outOfRange

/-- The inner loop of lines 229-237 with `n` iterations left, at triangle
number `currentTriangle`.  The `Bool` of the result tells whether the function
returned `true` from inside the loop (line 236). -/
def triangleLoop (mesh : TriangleMesh) (ray : Ray) (ignoreHitRecord : Bool) :
    Nat → Nat → HitRecord → Nat → Except Fault (Bool × HitRecord × Nat)
  | 0, _, hitRecord, tests => Except.ok (false, hitRecord, tests)
  | n + 1, currentTriangle, hitRecord, tests =>
    match triangleAt mesh currentTriangle with
    | Except.error e => Except.error e
    | Except.ok triangle =>
      if (HitTest_Triangle triangle ray hitRecord ignoreHitRecord).1 && ignoreHitRecord then
        Except.ok (true, (HitTest_Triangle triangle ray hitRecord ignoreHitRecord).2, tests + 1)
      else
        triangleLoop mesh ray ignoreHitRecord n (currentTriangle + 1)
          (HitTest_Triangle triangle ray hitRecord ignoreHitRecord).2 (tests + 1)

/-- The outer loop of lines 224-238 over the candidate leaves still to
visit. -/
def leafLoop (mesh : TriangleMesh) (ray : Ray) (ignoreHitRecord : Bool) :
    List Nat → HitRecord → Nat → Except Fault (Bool × HitRecord × Nat)
  | [], hitRecord, tests => Except.ok (false, hitRecord, tests)
  | index :: rest, hitRecord, tests =>
    match mesh.bvhNodes[index]? with
    | none => Except.error Fault.outOfRange
    | some node =>
      match triangleLoop mesh ray ignoreHitRecord
          ((node.leftFirst + node.nrPrimitives) % 2 ^ 32 - node.leftFirst) node.leftFirst
          hitRecord tests with
      | Except.error e => Except.error e
      | Except.ok (true, r, k) => Except.ok (true, r, k)
      | Except.ok (false, r, k) => leafLoop mesh ray ignoreHitRecord rest r k

/-- The mesh test of `Utils.h` 213-241. -/
def HitTest_TriangleMesh (fuel : Nat) (mesh : TriangleMesh) (ray : Ray) (hitRecord : HitRecord)
    (ignoreHitRecord : Bool) : Except Fault MeshResult :=
  match IntersectBVH fuel ray mesh mesh.rootNodeIndex [] with
  | Except.error e => Except.error e
  | Except.ok indices =>
    if indices.length = 0 then
      Except.ok { result := hitRecord.didHit, hitRecord := hitRecord, triangleTests := 0 }
    else
      match leafLoop mesh ray ignoreHitRecord indices hitRecord 0 with
      | Except.error e => Except.error e
      | Except.ok (true, r, k) => Except.ok { result := true, hitRecord := r, triangleTests := k }
      | Except.ok (false, r, k) =>
        Except.ok { result := r.didHit, hitRecord := r, triangleTests := k }

/-- The any-hit overload of `Utils.h` 243-247. -/
def HitTest_TriangleMesh_any (fuel : Nat) (mesh : TriangleMesh) (ray : Ray) :
    Except Fault MeshResult :=
  HitTest_TriangleMesh fuel mesh ray HitRecord.fresh true

end GeometryUtils

end binary32

/-! ## Quantities the binary32 statements speak of -/

namespace F32

/-- The distance a value stands for when it is an upper bound: `+∞` is the top
element, a finite value is its number. -/
def toTop : F32 → WithTop ℚ
  | fin q => (q : ℚ)
  | negZero => ((0 : ℚ) : WithTop ℚ)
  | _ => ⊤

/-- The value is the finite number `q` (a zero of either sign for `q = 0`). -/
def Sim (x : F32) (q : ℚ) : Prop := x = fin q ∨ (q = 0 ∧ x = negZero)

/-- Two values are the same number: equal, or zeros of either sign. -/
def Eqv (x y : F32) : Prop := x = y ∨ (x.isZero = true ∧ y.isZero = true)

/-- The value is NaN, `+∞`, `+0` or a positive number. -/
def NonNeg (x : F32) : Prop := x = nan ∨ x = posInf ∨ ∃ r, 0 ≤ r ∧ x = fin r

end F32

namespace binary32

/-- The exact vector a vector of finite binary32 values stands for. -/
def Vector3.toExact (v : Vector3) : dae.Vector3 := ⟨v.x.toRat, v.y.toRat, v.z.toRat⟩

/-- The vector with every component negated. -/
def Vector3.negate (v : Vector3) : Vector3 := ⟨F32.neg v.x, F32.neg v.y, F32.neg v.z⟩

/-- The ray with `origin`, `direction` and `inverseDirection` negated: the ray
reflected through the world origin. -/
def reflectRay (ray : Ray) : Ray :=
  { ray with origin := ray.origin.negate, direction := ray.direction.negate,
             inverseDirection := ray.inverseDirection.negate }

/-- The six slab values `tx1, tx2, ty1, ty2, tz1, tz2` of lines 16-29. -/
def slabValues (minAABB maxAABB : Vector3) (ray : Ray) : List F32 :=
  [F32.mul (F32.sub minAABB.x ray.origin.x) ray.inverseDirection.x,
   F32.mul (F32.sub maxAABB.x ray.origin.x) ray.inverseDirection.x,
   F32.mul (F32.sub minAABB.y ray.origin.y) ray.inverseDirection.y,
   F32.mul (F32.sub maxAABB.y ray.origin.y) ray.inverseDirection.y,
   F32.mul (F32.sub minAABB.z ray.origin.z) ray.inverseDirection.z,
   F32.mul (F32.sub maxAABB.z ray.origin.z) ray.inverseDirection.z]

/-- The lower end `tmin` of the slab interval as line 31 leaves it. -/
def slabTmin (minAABB maxAABB : Vector3) (ray : Ray) : F32 :=
  F32.std_max
    (F32.std_max
      (F32.std_min (F32.mul (F32.sub minAABB.x ray.origin.x) ray.inverseDirection.x)
        (F32.mul (F32.sub maxAABB.x ray.origin.x) ray.inverseDirection.x))
      (F32.std_min (F32.mul (F32.sub minAABB.y ray.origin.y) ray.inverseDirection.y)
        (F32.mul (F32.sub maxAABB.y ray.origin.y) ray.inverseDirection.y)))
    (F32.std_min (F32.mul (F32.sub minAABB.z ray.origin.z) ray.inverseDirection.z)
      (F32.mul (F32.sub maxAABB.z ray.origin.z) ray.inverseDirection.z))

/-- The upper end `tmax` of the slab interval as line 32 leaves it. -/
def slabTmax (minAABB maxAABB : Vector3) (ray : Ray) : F32 :=
  F32.std_min
    (F32.std_min
      (F32.std_max (F32.mul (F32.sub minAABB.x ray.origin.x) ray.inverseDirection.x)
        (F32.mul (F32.sub maxAABB.x ray.origin.x) ray.inverseDirection.x))
      (F32.std_max (F32.mul (F32.sub minAABB.y ray.origin.y) ray.inverseDirection.y)
        (F32.mul (F32.sub maxAABB.y ray.origin.y) ray.inverseDirection.y)))
    (F32.std_max (F32.mul (F32.sub minAABB.z ray.origin.z) ray.inverseDirection.z)
      (F32.mul (F32.sub maxAABB.z ray.origin.z) ray.inverseDirection.z))

/-- The plane `z = 1`. -/
def unitPlane : Plane :=
  { origin := ⟨F32.fin 0, F32.fin 0, F32.fin 1⟩, normal := ⟨F32.fin 0, F32.fin 0, F32.fin 1⟩,
    materialIndex := 0 }

/-- The ray from the world origin with direction `(0, 0, 41)`, interval
`[0, +∞)`; its inverse direction is `(1/+0, 1/+0, 1/41)` as binary32 computes
it. -/
def steepRay : Ray :=
  { origin := ⟨F32.fin 0, F32.fin 0, F32.fin 0⟩,
    direction := ⟨F32.fin 0, F32.fin 0, F32.fin 41⟩,
    inverseDirection := ⟨F32.posInf, F32.posInf, F32.fin (3273603 / 134217728)⟩,
    min := F32.fin 0, max := F32.posInf }

/-- The corners of the unit cube `[0, 1]³`. -/
def cubeMin : Vector3 := ⟨F32.fin 0, F32.fin 0, F32.fin 0⟩

/-- The far corner of the unit cube `[0, 1]³`. -/
def cubeMax : Vector3 := ⟨F32.fin 1, F32.fin 1, F32.fin 1⟩

/-- A ray along `+z` that starts on the face `y = 0` of the unit cube's slab:
origin `(0.5, 0, -5)`, direction `(0, 0, 1)`, inverse direction
`(1/+0, 1/+0, 1/1) = (+∞, +∞, 1)`. -/
def axisRay : Ray :=
  { origin := ⟨F32.fin (1 / 2), F32.fin 0, F32.fin (-5)⟩,
    direction := ⟨F32.fin 0, F32.fin 0, F32.fin 1⟩,
    inverseDirection := ⟨F32.posInf, F32.posInf, F32.fin 1⟩,
    min := F32.fin 0, max := F32.posInf }

/-- A ray along the diagonal from `(-1, -1, -1)`: direction `(1, 1, 1)`,
inverse direction `(1, 1, 1)`. -/
def cornerRay : Ray :=
  { origin := ⟨F32.fin (-1), F32.fin (-1), F32.fin (-1)⟩,
    direction := ⟨F32.fin 1, F32.fin 1, F32.fin 1⟩,
    inverseDirection := ⟨F32.fin 1, F32.fin 1, F32.fin 1⟩,
    min := F32.fin 0, max := F32.posInf }

end binary32
namespace binary32

/-- Every component of the vector is a finite number. -/
def Vector3.Finite (v : Vector3) : Prop := v.x.Finite ∧ v.y.Finite ∧ v.z.Finite

instance (v : Vector3) : Decidable v.Finite := by
  unfold Vector3.Finite; infer_instance

/-- No component of the exact sum rounds. -/
def AddExact (a b : dae.Vector3) : Prop :=
  F32.Rep (a.x + b.x) ∧ F32.Rep (a.y + b.y) ∧ F32.Rep (a.z + b.z)

/-- No component of the exact difference rounds. -/
def SubExact (a b : dae.Vector3) : Prop :=
  F32.Rep (a.x - b.x) ∧ F32.Rep (a.y - b.y) ∧ F32.Rep (a.z - b.z)

/-- No component of the exact scaled vector rounds. -/
def ScaleExact (a : dae.Vector3) (s : ℚ) : Prop :=
  F32.Rep (a.x * s) ∧ F32.Rep (a.y * s) ∧ F32.Rep (a.z * s)

/-- None of the three products and two sums of the dot product rounds. -/
def DotExact (a b : dae.Vector3) : Prop :=
  F32.Rep (a.x * b.x) ∧ F32.Rep (a.y * b.y) ∧ F32.Rep (a.x * b.x + a.y * b.y) ∧
  F32.Rep (a.z * b.z) ∧ F32.Rep (a.x * b.x + a.y * b.y + a.z * b.z)

/-- None of the six products and three differences of the cross product
rounds. -/
def CrossExact (a b : dae.Vector3) : Prop :=
  F32.Rep (a.y * b.z) ∧ F32.Rep (a.z * b.y) ∧ F32.Rep (a.y * b.z - a.z * b.y) ∧
  F32.Rep (a.z * b.x) ∧ F32.Rep (a.x * b.z) ∧ F32.Rep (a.z * b.x - a.x * b.z) ∧
  F32.Rep (a.x * b.y) ∧ F32.Rep (a.y * b.x) ∧ F32.Rep (a.x * b.y - a.y * b.x)

instance (a b : dae.Vector3) : Decidable (AddExact a b) := by
  unfold AddExact; infer_instance

instance (a b : dae.Vector3) : Decidable (SubExact a b) := by
  unfold SubExact; infer_instance

instance (a : dae.Vector3) (s : ℚ) : Decidable (ScaleExact a s) := by
  unfold ScaleExact; infer_instance

instance (a b : dae.Vector3) : Decidable (DotExact a b) := by
  unfold DotExact; infer_instance

instance (a b : dae.Vector3) : Decidable (CrossExact a b) := by
  unfold CrossExact; infer_instance

/-- The vector of binary32 values stands for the exact vector, component by
component. -/
def SimV (v : Vector3) (w : dae.Vector3) : Prop :=
  F32.Sim v.x w.x ∧ F32.Sim v.y w.y ∧ F32.Sim v.z w.z

end binary32
namespace binary32

/-- The exact ray a ray of binary32 values stands for (`max` may be `+∞`). -/
def Ray.toExact (ray : Ray) : dae.Ray :=
  { origin := ray.origin.toExact, direction := ray.direction.toExact,
    inverseDirection := ray.inverseDirection.toExact, min := ray.min.toRat,
    max := ray.max.toTop }

/-- The exact sphere a sphere of binary32 values stands for. -/
def Sphere.toExact (sphere : Sphere) : dae.Sphere :=
  { origin := sphere.origin.toExact, radius := sphere.radius.toRat,
    materialIndex := sphere.materialIndex }

/-- The exact plane a plane of binary32 values stands for. -/
def Plane.toExact (plane : Plane) : dae.Plane :=
  { origin := plane.origin.toExact, normal := plane.normal.toExact,
    materialIndex := plane.materialIndex }

/-- The exact triangle a triangle of binary32 values stands for. -/
def Triangle.toExact (triangle : Triangle) : dae.Triangle :=
  { v0 := triangle.v0.toExact, v1 := triangle.v1.toExact, v2 := triangle.v2.toExact,
    normal := triangle.normal.toExact, cullMode := triangle.cullMode,
    materialIndex := triangle.materialIndex }

/-- The fields of a ray that the primitive tests read are numbers: `origin`,
`direction` and `min` are finite, `max` is finite or `+∞`. -/
def Ray.Finite (ray : Ray) : Prop :=
  ray.origin.Finite ∧ ray.direction.Finite ∧ ray.min.Finite ∧
    (ray.max.Finite ∨ ray.max = F32.posInf)

/-- The centre and the radius of the sphere are finite. -/
def Sphere.Finite (sphere : Sphere) : Prop := sphere.origin.Finite ∧ sphere.radius.Finite

/-- The point and the normal of the plane are finite. -/
def Plane.Finite (plane : Plane) : Prop := plane.origin.Finite ∧ plane.normal.Finite

/-- The three vertices of the triangle are finite. -/
def Triangle.Finite (triangle : Triangle) : Prop :=
  triangle.v0.Finite ∧ triangle.v1.Finite ∧ triangle.v2.Finite

instance (ray : Ray) : Decidable ray.Finite := by
  unfold Ray.Finite; infer_instance

instance (sphere : Sphere) : Decidable sphere.Finite := by
  unfold Sphere.Finite; infer_instance

instance (plane : Plane) : Decidable plane.Finite := by
  unfold Plane.Finite; infer_instance

instance (triangle : Triangle) : Decidable triangle.Finite := by
  unfold Triangle.Finite; infer_instance

/-- The interval test `calculatedT >= ray.min && calculatedT <= ray.max`. -/
def inInterval (ray : Ray) (T : F32) : Bool := F32.le ray.min T && F32.le T ray.max

/-- The shape shared by lines 62-80, 96-113 and 167-184: the interval test,
the any-hit return and the strictly-closer commit. -/
def acceptTail (ray : Ray) (hitRecord : HitRecord) (ignoreHitRecord : Bool) (T : F32)
    (commit : HitRecord) : Bool × HitRecord :=
  if inInterval ray T then
    if ignoreHitRecord then (true, hitRecord)
    else if F32.lt T hitRecord.t then (true, commit)
    else (true, hitRecord)
  else (false, hitRecord)

/-- The value of `calculatedT` the plane test computes. -/
def planeT (plane : Plane) (ray : Ray) : F32 :=
  F32.div (Vector3.Dot (Vector3.sub plane.origin ray.origin) plane.normal)
    (Vector3.Dot ray.direction plane.normal)

/-- The record a plane commits. -/
def planeCommit (plane : Plane) (ray : Ray) : HitRecord :=
  { t := planeT plane ray,
    materialIndex := plane.materialIndex,
    didHit := true,
    origin := Vector3.add ray.origin (Vector3.scale ray.direction (planeT plane ray)),
    normal := plane.normal }

/-- No operation of the plane test rounds: every intermediate value of the
exact computation of lines 94 and 106 is a binary32 number. -/
def PlaneExact (plane : dae.Plane) (ray : dae.Ray) : Prop :=
  SubExact plane.origin ray.origin ∧
  DotExact (plane.origin - ray.origin) plane.normal ∧
  DotExact ray.direction plane.normal ∧
  F32.Rep (dae.Vector3.Dot (plane.origin - ray.origin) plane.normal /
    dae.Vector3.Dot ray.direction plane.normal) ∧
  ScaleExact ray.direction (dae.Vector3.Dot (plane.origin - ray.origin) plane.normal /
    dae.Vector3.Dot ray.direction plane.normal) ∧
  AddExact ray.origin (dae.Vector3.scale ray.direction
    (dae.Vector3.Dot (plane.origin - ray.origin) plane.normal /
      dae.Vector3.Dot ray.direction plane.normal))

instance (plane : dae.Plane) (ray : dae.Ray) : Decidable (PlaneExact plane ray) := by
  unfold PlaneExact; infer_instance

/-- The plane `z = 1` met by the ray from the world origin along `(0, 0, 4)`
at `t = 1/4`. -/
def quarterRay : Ray :=
  { origin := ⟨F32.fin 0, F32.fin 0, F32.fin 0⟩,
    direction := ⟨F32.fin 0, F32.fin 0, F32.fin 4⟩,
    inverseDirection := ⟨F32.posInf, F32.posInf, F32.fin (1 / 4)⟩,
    min := F32.fin 0, max := F32.posInf }

end binary32
namespace binary32

/-- The determinant `dot(v1 - v0, cross(direction, v2 - v0))` as the triangle
test computes it (`dot`). -/
def triangleDet (triangle : Triangle) (ray : Ray) : F32 :=
  Vector3.Dot (Vector3.sub triangle.v1 triangle.v0)
    (Vector3.Cross ray.direction (Vector3.sub triangle.v2 triangle.v0))

/-- The first barycentric coordinate as the triangle test computes it
(`firstCalculation`). -/
def triangleU (triangle : Triangle) (ray : Ray) : F32 :=
  F32.mul (F32.div (F32.fin 1) (triangleDet triangle ray))
    (Vector3.Dot (Vector3.sub ray.origin triangle.v0)
      (Vector3.Cross ray.direction (Vector3.sub triangle.v2 triangle.v0)))

/-- The second barycentric coordinate as the triangle test computes it
(`secondCalculation`). -/
def triangleV (triangle : Triangle) (ray : Ray) : F32 :=
  F32.mul (F32.div (F32.fin 1) (triangleDet triangle ray))
    (Vector3.Dot ray.direction
      (Vector3.Cross (Vector3.sub ray.origin triangle.v0)
        (Vector3.sub triangle.v1 triangle.v0)))

/-- The distance as the triangle test computes it (`calculatedT`). -/
def triangleT (triangle : Triangle) (ray : Ray) : F32 :=
  F32.mul (F32.div (F32.fin 1) (triangleDet triangle ray))
    (Vector3.Dot (Vector3.sub triangle.v2 triangle.v0)
      (Vector3.Cross (Vector3.sub ray.origin triangle.v0)
        (Vector3.sub triangle.v1 triangle.v0)))

/-- The cull test of `Utils.h` 136-145 rejects the triangle. -/
def TriangleCulled (triangle : Triangle) (ray : Ray) (ignoreHitRecord : Bool) : Prop :=
  (ignoreHitRecord = true ∧
    ((triangle.cullMode = TriangleCullMode.BackFaceCulling ∧
        F32.lt (F32.fin 0) (triangleDet triangle ray) = true) ∨
     (triangle.cullMode = TriangleCullMode.FrontFaceCulling ∧
        F32.lt (triangleDet triangle ray) (F32.fin 0) = true))) ∨
  (ignoreHitRecord = false ∧
    ((triangle.cullMode = TriangleCullMode.BackFaceCulling ∧
        F32.lt (triangleDet triangle ray) (F32.fin 0) = true) ∨
     (triangle.cullMode = TriangleCullMode.FrontFaceCulling ∧
        F32.lt (F32.fin 0) (triangleDet triangle ray) = true)))

instance (triangle : Triangle) (ray : Ray) (b : Bool) :
    Decidable (TriangleCulled triangle ray b) := by
  unfold TriangleCulled; infer_instance

/-- No test of lines 134-163 returns: the computed determinant is not zero,
the cull test passes, and the computed barycentric coordinates are not
rejected. -/
def TrianglePasses (triangle : Triangle) (ray : Ray) (ignoreHitRecord : Bool) : Prop :=
  F32.beq (triangleDet triangle ray) (F32.fin 0) = false ∧
  ¬ TriangleCulled triangle ray ignoreHitRecord ∧
  F32.lt (triangleU triangle ray) (F32.fin 0) = false ∧
  F32.lt (F32.fin 1) (triangleU triangle ray) = false ∧
  F32.lt (triangleV triangle ray) (F32.fin 0) = false ∧
  F32.lt (F32.fin 1) (F32.add (triangleU triangle ray) (triangleV triangle ray)) = false

instance (triangle : Triangle) (ray : Ray) (b : Bool) :
    Decidable (TrianglePasses triangle ray b) := by
  unfold TrianglePasses; infer_instance

/-- The record a triangle commits. -/
def triangleCommit (triangle : Triangle) (ray : Ray) : HitRecord :=
  { t := triangleT triangle ray,
    materialIndex := triangle.materialIndex,
    didHit := true,
    origin := Vector3.add ray.origin (Vector3.scale ray.direction (triangleT triangle ray)),
    normal := triangle.normal }

/-- No operation of lines 127-165 of the triangle test rounds: every
intermediate value of the exact computation is a binary32 number. -/
def TriangleExact (triangle : dae.Triangle) (ray : dae.Ray) : Prop :=
  SubExact triangle.v1 triangle.v0 ∧
  SubExact triangle.v2 triangle.v0 ∧
  CrossExact ray.direction (triangle.v2 - triangle.v0) ∧
  DotExact (triangle.v1 - triangle.v0)
    (dae.Vector3.Cross ray.direction (triangle.v2 - triangle.v0)) ∧
  F32.Rep (1 / dae.GeometryUtils.triangleDet triangle ray) ∧
  SubExact ray.origin triangle.v0 ∧
  DotExact (ray.origin - triangle.v0)
    (dae.Vector3.Cross ray.direction (triangle.v2 - triangle.v0)) ∧
  F32.Rep (dae.GeometryUtils.triangleU triangle ray) ∧
  CrossExact (ray.origin - triangle.v0) (triangle.v1 - triangle.v0) ∧
  DotExact ray.direction
    (dae.Vector3.Cross (ray.origin - triangle.v0) (triangle.v1 - triangle.v0)) ∧
  F32.Rep (dae.GeometryUtils.triangleV triangle ray) ∧
  F32.Rep (dae.GeometryUtils.triangleU triangle ray + dae.GeometryUtils.triangleV triangle ray) ∧
  DotExact (triangle.v2 - triangle.v0)
    (dae.Vector3.Cross (ray.origin - triangle.v0) (triangle.v1 - triangle.v0)) ∧
  F32.Rep (dae.GeometryUtils.triangleT triangle ray)

instance (triangle : dae.Triangle) (ray : dae.Ray) : Decidable (TriangleExact triangle ray) := by
  unfold TriangleExact; infer_instance

/-- The triangle of the spec's triangle scenario. -/
def scenarioTriangle : Triangle :=
  { v0 := ⟨F32.fin 0, F32.fin 0, F32.fin 0⟩, v1 := ⟨F32.fin 1, F32.fin 0, F32.fin 0⟩,
    v2 := ⟨F32.fin 0, F32.fin 1, F32.fin 0⟩, normal := ⟨F32.fin 0, F32.fin 0, F32.fin (-1)⟩,
    cullMode := TriangleCullMode.None, materialIndex := 0 }

/-- The ray of the spec's triangle scenario: from `(0.2, 0.2, -1)` along `+z`,
`0.2` being the binary32 number nearest to it, `13421773 / 2^26`; the interval
is `[0, +∞)` and the inverse direction `(1/+0, 1/+0, 1)`. -/
def scenarioTriangleRay : Ray :=
  { origin := ⟨F32.fin (13421773 / 67108864), F32.fin (13421773 / 67108864), F32.fin (-1)⟩,
    direction := ⟨F32.fin 0, F32.fin 0, F32.fin 1⟩,
    inverseDirection := ⟨F32.posInf, F32.posInf, F32.fin 1⟩,
    min := F32.fin 0, max := F32.posInf }

/-- A triangle with the vertices `(0,0,0)`, `(5,0,0)`, `(0,1,0)`. -/
def wideTriangle : Triangle :=
  { v0 := ⟨F32.fin 0, F32.fin 0, F32.fin 0⟩, v1 := ⟨F32.fin 5, F32.fin 0, F32.fin 0⟩,
    v2 := ⟨F32.fin 0, F32.fin 1, F32.fin 0⟩, normal := ⟨F32.fin 0, F32.fin 0, F32.fin 1⟩,
    cullMode := TriangleCullMode.None, materialIndex := 0 }

/-- The ray from `(6.125, 3.375, -9)` with direction `(-1, -1, 3)`, which meets
the plane `z = 0` at `(3.125, 0.375, 0)` for `t = 3`: a point of the edge from
`(5,0,0)` to `(0,1,0)`.  The inverse direction is `(-1, -1, fl(1/3))`. -/
def edgeRay : Ray :=
  { origin := ⟨F32.fin (49 / 8), F32.fin (27 / 8), F32.fin (-9)⟩,
    direction := ⟨F32.fin (-1), F32.fin (-1), F32.fin 3⟩,
    inverseDirection := ⟨F32.fin (-1), F32.fin (-1), F32.fin (11184811 / 33554432)⟩,
    min := F32.fin 0, max := F32.posInf }

end binary32
namespace F32

/-- The square root of a rational that is not negative, as binary32 computes
it: the correctly rounded root. -/
def sqrtQ (q : ℚ) : ℚ := (sqrt (fin q)).toRat

end F32

namespace binary32

/-- The coefficient `a = dot(direction, direction)` as the sphere test
computes it. -/
def sphereA (ray : Ray) : F32 := Vector3.Dot ray.direction ray.direction

/-- The coefficient `b = 2 * dot(direction, origin - sphere.origin)` as the
sphere test computes it. -/
def sphereB (sphere : Sphere) (ray : Ray) : F32 :=
  F32.mul (F32.fin 2) (Vector3.Dot ray.direction (Vector3.sub ray.origin sphere.origin))

/-- The discriminant `b * b - 4 * a * c` as the sphere test computes it. -/
def sphereDiscriminant (sphere : Sphere) (ray : Ray) : F32 :=
  F32.sub (F32.mul (sphereB sphere ray) (sphereB sphere ray))
    (F32.mul (F32.mul (F32.fin 4) (sphereA ray))
      (F32.sub
        (Vector3.Dot (Vector3.sub ray.origin sphere.origin)
          (Vector3.sub ray.origin sphere.origin))
        (F32.mul sphere.radius sphere.radius)))

/-- The value `factor = 1 / (2 * a)` as the sphere test computes it. -/
def sphereFactor (ray : Ray) : F32 := F32.div (F32.fin 1) (F32.mul (F32.fin 2) (sphereA ray))

/-- The root `(-b - sqrt(discriminant)) * factor` as the sphere test computes
it. -/
def sphereFirstT (sphere : Sphere) (ray : Ray) : F32 :=
  F32.mul (F32.sub (F32.neg (sphereB sphere ray)) (F32.sqrt (sphereDiscriminant sphere ray)))
    (sphereFactor ray)

/-- The root `(-b + sqrt(discriminant)) * factor` as the sphere test computes
it. -/
def sphereSecondT (sphere : Sphere) (ray : Ray) : F32 :=
  F32.mul (F32.add (F32.neg (sphereB sphere ray)) (F32.sqrt (sphereDiscriminant sphere ray)))
    (sphereFactor ray)

/-- The value of `calculatedT` the sphere test compares with the ray's
interval (after the conditional swap of line 60). -/
def sphereT (sphere : Sphere) (ray : Ray) : F32 :=
  if F32.lt (sphereSecondT sphere ray) (sphereFirstT sphere ray) &&
      F32.lt (F32.fin 0) (sphereSecondT sphere ray) then
    sphereSecondT sphere ray
  else sphereFirstT sphere ray

/-- The record a sphere commits. -/
def sphereCommit (sphere : Sphere) (ray : Ray) : HitRecord :=
  { t := sphereT sphere ray,
    materialIndex := sphere.materialIndex,
    didHit := true,
    origin := Vector3.add ray.origin (Vector3.scale ray.direction (sphereT sphere ray)),
    normal := Vector3.Normalize
      (Vector3.sub (Vector3.add ray.origin (Vector3.scale ray.direction (sphereT sphere ray)))
        sphere.origin) }

/-- No operation of lines 42-58 of the sphere test rounds: every intermediate
value of the exact computation of the smaller root is a binary32 number, the
square root of the discriminant included. -/
def SphereExact (sphere : dae.Sphere) (ray : dae.Ray) : Prop :=
  SubExact ray.origin sphere.origin ∧
  DotExact ray.direction ray.direction ∧
  DotExact ray.direction (ray.origin - sphere.origin) ∧
  F32.Rep (2 * dae.Vector3.Dot ray.direction (ray.origin - sphere.origin)) ∧
  F32.Rep (2 * dae.Vector3.Dot ray.direction (ray.origin - sphere.origin) *
    (2 * dae.Vector3.Dot ray.direction (ray.origin - sphere.origin))) ∧
  F32.Rep (4 * dae.Vector3.Dot ray.direction ray.direction) ∧
  DotExact (ray.origin - sphere.origin) (ray.origin - sphere.origin) ∧
  F32.Rep (sphere.radius * sphere.radius) ∧
  F32.Rep (dae.Vector3.Dot (ray.origin - sphere.origin) (ray.origin - sphere.origin) -
    sphere.radius * sphere.radius) ∧
  F32.Rep (4 * dae.Vector3.Dot ray.direction ray.direction *
    (dae.Vector3.Dot (ray.origin - sphere.origin) (ray.origin - sphere.origin) -
      sphere.radius * sphere.radius)) ∧
  F32.Rep (dae.GeometryUtils.sphereDiscriminant sphere ray) ∧
  F32.sqrtQ (dae.GeometryUtils.sphereDiscriminant sphere ray) *
      F32.sqrtQ (dae.GeometryUtils.sphereDiscriminant sphere ray) =
    dae.GeometryUtils.sphereDiscriminant sphere ray ∧
  F32.Rep (2 * dae.Vector3.Dot ray.direction ray.direction) ∧
  F32.Rep (1 / (2 * dae.Vector3.Dot ray.direction ray.direction)) ∧
  F32.Rep (-(2 * dae.Vector3.Dot ray.direction (ray.origin - sphere.origin)) -
    F32.sqrtQ (dae.GeometryUtils.sphereDiscriminant sphere ray)) ∧
  F32.Rep ((-(2 * dae.Vector3.Dot ray.direction (ray.origin - sphere.origin)) -
      F32.sqrtQ (dae.GeometryUtils.sphereDiscriminant sphere ray)) *
    (1 / (2 * dae.Vector3.Dot ray.direction ray.direction)))

instance (sphere : dae.Sphere) (ray : dae.Ray) : Decidable (SphereExact sphere ray) := by
  unfold SphereExact; infer_instance

/-- The exact root `(-b - sqrt(discriminant)) * (1 / (2a))`, the square root
the one binary32 computes. -/
def sphereRoot (sphere : dae.Sphere) (ray : dae.Ray) : ℚ :=
  (-(2 * dae.Vector3.Dot ray.direction (ray.origin - sphere.origin)) -
      F32.sqrtQ (dae.GeometryUtils.sphereDiscriminant sphere ray)) *
    (1 / (2 * dae.Vector3.Dot ray.direction ray.direction))

/-- The point `ray.origin + direction * t` does not round, for the exact root
`t`: the three products and the three sums are binary32 numbers. -/
def SphereCommitExact (sphere : dae.Sphere) (ray : dae.Ray) : Prop :=
  ScaleExact ray.direction (sphereRoot sphere ray) ∧
  AddExact ray.origin (dae.Vector3.scale ray.direction (sphereRoot sphere ray))

instance (sphere : dae.Sphere) (ray : dae.Ray) : Decidable (SphereCommitExact sphere ray) := by
  unfold SphereCommitExact; infer_instance

/-- The normalisation of `point - sphere.origin` does not round, for the point
`ray.origin + direction * t` at the exact root `t`: the difference, the dot
product, its square root and the three quotients are binary32 numbers. -/
def SphereNormalExact (sphere : dae.Sphere) (ray : dae.Ray) : Prop :=
  SubExact (ray.origin + dae.Vector3.scale ray.direction (sphereRoot sphere ray)) sphere.origin ∧
  DotExact (ray.origin + dae.Vector3.scale ray.direction (sphereRoot sphere ray) - sphere.origin)
    (ray.origin + dae.Vector3.scale ray.direction (sphereRoot sphere ray) - sphere.origin) ∧
  F32.sqrtQ (sphere.radius * sphere.radius) = sphere.radius ∧
  F32.Rep ((ray.origin + dae.Vector3.scale ray.direction (sphereRoot sphere ray) -
    sphere.origin).x / sphere.radius) ∧
  F32.Rep ((ray.origin + dae.Vector3.scale ray.direction (sphereRoot sphere ray) -
    sphere.origin).y / sphere.radius) ∧
  F32.Rep ((ray.origin + dae.Vector3.scale ray.direction (sphereRoot sphere ray) -
    sphere.origin).z / sphere.radius)

instance (sphere : dae.Sphere) (ray : dae.Ray) : Decidable (SphereNormalExact sphere ray) := by
  unfold SphereNormalExact; infer_instance

/-- The unit sphere at the world origin. -/
def scenarioSphere : Sphere :=
  { origin := ⟨F32.fin 0, F32.fin 0, F32.fin 0⟩, radius := F32.fin 1, materialIndex := 0 }

/-- The ray of the spec's sphere scenario: from `(0, 0, -5)` along `+z`,
interval `[0, +∞)`, the inverse direction `(1/+0, 1/+0, 1)`. -/
def scenarioSphereRay : Ray :=
  { origin := ⟨F32.fin 0, F32.fin 0, F32.fin (-5)⟩,
    direction := ⟨F32.fin 0, F32.fin 0, F32.fin 1⟩,
    inverseDirection := ⟨F32.posInf, F32.posInf, F32.fin 1⟩,
    min := F32.fin 0, max := F32.posInf }

/-- A ray that starts at the centre of the unit sphere and runs along `+z`,
interval `[0, +∞)`. -/
def insideRay : Ray :=
  { origin := ⟨F32.fin 0, F32.fin 0, F32.fin 0⟩,
    direction := ⟨F32.fin 0, F32.fin 0, F32.fin 1⟩,
    inverseDirection := ⟨F32.posInf, F32.posInf, F32.fin 1⟩,
    min := F32.fin 0, max := F32.posInf }

/-- The sphere of radius `11` at the world origin. -/
def wideSphere : Sphere :=
  { origin := ⟨F32.fin 0, F32.fin 0, F32.fin 0⟩, radius := F32.fin 11, materialIndex := 0 }

/-- A ray along `(1, 2, 2)` that starts just inside the sphere of radius `11`,
at `-s * (1, 2, 2)` for `s = 7689557 / 2^21`, the binary32 number next below
`11/3`; interval `[0, +∞)`. -/
def shellRay : Ray :=
  { origin := ⟨F32.fin (-7689557 / 2097152), F32.fin (-7689557 / 1048576),
      F32.fin (-7689557 / 1048576)⟩,
    direction := ⟨F32.fin 1, F32.fin 2, F32.fin 2⟩,
    inverseDirection := ⟨F32.fin 1, F32.fin (1 / 2), F32.fin (1 / 2)⟩,
    min := F32.fin 0, max := F32.posInf }

/-- The ray from `(0, 0, -2^24)` along `+z`, interval `[0, +∞)`. -/
def farRay : Ray :=
  { origin := ⟨F32.fin 0, F32.fin 0, F32.fin (-16777216)⟩,
    direction := ⟨F32.fin 0, F32.fin 0, F32.fin 1⟩,
    inverseDirection := ⟨F32.posInf, F32.posInf, F32.fin 1⟩,
    min := F32.fin 0, max := F32.posInf }

end binary32
namespace binary32

/-- No operation of the slab test rounds: the six differences `corner -
origin` and the six products with `inverseDirection` of the exact computation
are binary32 numbers. -/
def SlabExact (minAABB maxAABB : dae.Vector3) (ray : dae.Ray) : Prop :=
  (F32.Rep (minAABB.x - ray.origin.x) ∧ F32.Rep (maxAABB.x - ray.origin.x) ∧
    F32.Rep ((minAABB.x - ray.origin.x) * ray.inverseDirection.x) ∧
    F32.Rep ((maxAABB.x - ray.origin.x) * ray.inverseDirection.x)) ∧
  (F32.Rep (minAABB.y - ray.origin.y) ∧ F32.Rep (maxAABB.y - ray.origin.y) ∧
    F32.Rep ((minAABB.y - ray.origin.y) * ray.inverseDirection.y) ∧
    F32.Rep ((maxAABB.y - ray.origin.y) * ray.inverseDirection.y)) ∧
  (F32.Rep (minAABB.z - ray.origin.z) ∧ F32.Rep (maxAABB.z - ray.origin.z) ∧
    F32.Rep ((minAABB.z - ray.origin.z) * ray.inverseDirection.z) ∧
    F32.Rep ((maxAABB.z - ray.origin.z) * ray.inverseDirection.z))

instance (minAABB maxAABB : dae.Vector3) (ray : dae.Ray) :
    Decidable (SlabExact minAABB maxAABB ray) := by
  unfold SlabExact; infer_instance

/-- The near corner of the cube `[10, 11]³`. -/
def farCubeMin : Vector3 := ⟨F32.fin 10, F32.fin 10, F32.fin 10⟩

/-- The far corner of the cube `[10, 11]³`. -/
def farCubeMax : Vector3 := ⟨F32.fin 11, F32.fin 11, F32.fin 11⟩

/-- A ray along the diagonal from the world origin with the short interval
`[0, 1]`; the inverse direction is `(1, 1, 1)`. -/
def diagonalRay : Ray :=
  { origin := ⟨F32.fin 0, F32.fin 0, F32.fin 0⟩,
    direction := ⟨F32.fin 1, F32.fin 1, F32.fin 1⟩,
    inverseDirection := ⟨F32.fin 1, F32.fin 1, F32.fin 1⟩,
    min := F32.fin 0, max := F32.fin 1 }

/-- The near corner of the flat box `[0, 1] × [0, 1] × {0}`. -/
def flatBoxMin : Vector3 := ⟨F32.fin 0, F32.fin 0, F32.fin 0⟩

/-- The far corner of the flat box `[0, 1] × [0, 1] × {0}`. -/
def flatBoxMax : Vector3 := ⟨F32.fin 1, F32.fin 1, F32.fin 0⟩

/-- The ray from `(-1, 1.5, -41)` with direction `(1, -1, 41)`, which is at
`(0, 0.5, 0)` for `t = 1`; interval `[2^-10, +∞)`.  The inverse direction is
the one binary32 computes, `(1, -1, fl(1/41))` with `fl(1/41) = 3273603 /
2^27`. -/
def skewRay : Ray :=
  { origin := ⟨F32.fin (-1), F32.fin (3 / 2), F32.fin (-41)⟩,
    direction := ⟨F32.fin 1, F32.fin (-1), F32.fin 41⟩,
    inverseDirection := ⟨F32.fin 1, F32.fin (-1), F32.fin (3273603 / 134217728)⟩,
    min := F32.fin (1 / 1024), max := F32.posInf }

/-- The near corner of the box `[0, 1.5] × [1.75, 3] × [0, 2^26]`. -/
def tallBoxMin : Vector3 := ⟨F32.fin 0, F32.fin (7 / 4), F32.fin 0⟩

/-- The far corner of the box `[0, 1.5] × [1.75, 3] × [0, 2^26]`. -/
def tallBoxMax : Vector3 := ⟨F32.fin (3 / 2), F32.fin 3, F32.fin 67108864⟩

/-- The ray from `(-2^24, -2^24, 0)` along the diagonal `(1, 1, 1)`, inverse
direction `(1, 1, 1)`, interval `[0, +∞)`. -/
def distantRay : Ray :=
  { origin := ⟨F32.fin (-16777216), F32.fin (-16777216), F32.fin 0⟩,
    direction := ⟨F32.fin 1, F32.fin 1, F32.fin 1⟩,
    inverseDirection := ⟨F32.fin 1, F32.fin 1, F32.fin 1⟩,
    min := F32.fin 0, max := F32.posInf }

end binary32
namespace binary32

/-- The exact node a node of binary32 values stands for. -/
def BVHNode.toExact (node : BVHNode) : dae.BVHNode :=
  { minAABB := node.minAABB.toExact, maxAABB := node.maxAABB.toExact,
    leftFirst := node.leftFirst, nrPrimitives := node.nrPrimitives }

/-- The exact mesh a mesh of binary32 values stands for. -/
def TriangleMesh.toExact (mesh : TriangleMesh) : dae.TriangleMesh :=
  { transformedPositions := mesh.transformedPositions.map Vector3.toExact,
    transformedNormals := mesh.transformedNormals.map Vector3.toExact,
    indices := mesh.indices,
    cullMode := mesh.cullMode,
    materialIndex := mesh.materialIndex,
    bvhNodes := mesh.bvhNodes.map BVHNode.toExact,
    rootNodeIndex := mesh.rootNodeIndex }

/-- The exact record a record of binary32 values stands for in its `t` and
`didHit` (a `t` that is not finite stands for `+∞`). -/
def HitRecord.toExact (r : HitRecord) : dae.HitRecord :=
  { origin := r.origin.toExact, normal := r.normal.toExact, t := r.t.toTop,
    didHit := r.didHit, materialIndex := r.materialIndex }

/-- The record `r` of binary32 values and the exact record `q` agree in
`didHit` and in `t`, which is finite or `+∞`; and `r.t` is the value `init` or
a value that passed `t >= ray.min`. -/
def RecSim (init : F32) (ray : Ray) (r : HitRecord) (q : dae.HitRecord) : Prop :=
  r.didHit = q.didHit ∧ r.t.toTop = q.t ∧ (r.t.Finite ∨ r.t = F32.posInf) ∧
    (r.t = init ∨ F32.le ray.min r.t = true)

/-- The number of triangles of a mesh: three entries of the index buffer per
triangle. -/
def triangleCount (mesh : TriangleMesh) : Nat := mesh.indices.length / 3

/-- The triangle views of the `n` triangles numbered from `currentTriangle`
on. -/
def trianglesFrom (mesh : TriangleMesh) : Nat → Nat → Except Fault (List Triangle)
  | 0, _ => Except.ok []
  | n + 1, currentTriangle =>
    match GeometryUtils.triangleAt mesh currentTriangle with
    | Except.error e => Except.error e
    | Except.ok triangle =>
      match trianglesFrom mesh n (currentTriangle + 1) with
      | Except.error e => Except.error e
      | Except.ok rest => Except.ok (triangle :: rest)

/-- The closest-hit triangle test run over a list of triangles on one
record. -/
def foldTriangles (ray : Ray) (tris : List Triangle) (hitRecord : HitRecord) : HitRecord :=
  tris.foldl (fun r tri => (GeometryUtils.HitTest_Triangle tri ray r false).2) hitRecord

/-- No operation of the slab tests and of the triangle tests of the mesh
rounds for the ray: the values the tests read are finite, the slab test of
every node's box runs without rounding, and so does the triangle test of
every triangle view the mesh has. -/
def MeshExact (mesh : TriangleMesh) (ray : Ray) : Prop :=
  ray.Finite ∧ ray.inverseDirection.Finite ∧
  (∀ node ∈ mesh.bvhNodes, node.minAABB.Finite ∧ node.maxAABB.Finite ∧
    SlabExact node.minAABB.toExact node.maxAABB.toExact ray.toExact) ∧
  (∀ k tri, GeometryUtils.triangleAt mesh k = Except.ok tri →
    tri.Finite ∧ TriangleExact tri.toExact ray.toExact)

/-- How a loop of the binary32 mesh test and the same loop of the exact mesh
test ended: with the same fault, or with the same flag, the same number of
triangle tests and records that agree. -/
def LoopSim (init : F32) (ray : Ray) :
    Except Fault (Bool × HitRecord × Nat) → Except Fault (Bool × dae.HitRecord × Nat) → Prop
  | Except.ok (b, r, k), Except.ok (c, q, j) => b = c ∧ k = j ∧ RecSim init ray r q
  | Except.error e, Except.error f => e = f
  | _, _ => False

/-- How the binary32 mesh test and the exact mesh test ended: with the same
fault, or with the same result, the same number of triangle tests and records
that agree. -/
def MeshSim (init : F32) (ray : Ray) :
    Except Fault MeshResult → Except Fault dae.MeshResult → Prop
  | Except.ok o, Except.ok p =>
    o.result = p.result ∧ o.triangleTests = p.triangleTests ∧
      RecSim init ray o.hitRecord p.hitRecord
  | Except.error e, Except.error f => e = f
  | _, _ => False

end binary32
namespace binary32

/-- Two triangles in the plane `z = 0` as a binary32 mesh with a BVH of three
nodes: an inner root (node 0) whose box holds both triangles, and one leaf for
each triangle (nodes 1 and 2). -/
def twoLeafMesh : TriangleMesh :=
  { transformedPositions :=
      [⟨F32.fin 0, F32.fin 0, F32.fin 0⟩, ⟨F32.fin 1, F32.fin 0, F32.fin 0⟩,
       ⟨F32.fin 0, F32.fin 1, F32.fin 0⟩, ⟨F32.fin 2, F32.fin 0, F32.fin 0⟩,
       ⟨F32.fin 3, F32.fin 0, F32.fin 0⟩, ⟨F32.fin 2, F32.fin 1, F32.fin 0⟩],
    transformedNormals :=
      [⟨F32.fin 0, F32.fin 0, F32.fin (-1)⟩, ⟨F32.fin 0, F32.fin 0, F32.fin (-1)⟩],
    indices := [0, 1, 2, 3, 4, 5],
    cullMode := TriangleCullMode.None,
    materialIndex := 7,
    bvhNodes :=
      [ { minAABB := ⟨F32.fin 0, F32.fin 0, F32.fin 0⟩,
          maxAABB := ⟨F32.fin 3, F32.fin 1, F32.fin 0⟩, leftFirst := 1, nrPrimitives := 0 },
        { minAABB := ⟨F32.fin 0, F32.fin 0, F32.fin 0⟩,
          maxAABB := ⟨F32.fin 1, F32.fin 1, F32.fin 0⟩, leftFirst := 0, nrPrimitives := 1 },
        { minAABB := ⟨F32.fin 2, F32.fin 0, F32.fin 0⟩,
          maxAABB := ⟨F32.fin 3, F32.fin 1, F32.fin 0⟩, leftFirst := 1, nrPrimitives := 1 } ],
    rootNodeIndex := 0 }

/-- The first triangle of `twoLeafMesh`. -/
def meshTriangle : Triangle :=
  { v0 := ⟨F32.fin 0, F32.fin 0, F32.fin 0⟩, v1 := ⟨F32.fin 1, F32.fin 0, F32.fin 0⟩,
    v2 := ⟨F32.fin 0, F32.fin 1, F32.fin 0⟩, normal := ⟨F32.fin 0, F32.fin 0, F32.fin (-1)⟩,
    cullMode := TriangleCullMode.None, materialIndex := 7 }

/-- The second triangle of `twoLeafMesh`. -/
def secondMeshTriangle : Triangle :=
  { v0 := ⟨F32.fin 2, F32.fin 0, F32.fin 0⟩, v1 := ⟨F32.fin 3, F32.fin 0, F32.fin 0⟩,
    v2 := ⟨F32.fin 2, F32.fin 1, F32.fin 0⟩, normal := ⟨F32.fin 0, F32.fin 0, F32.fin (-1)⟩,
    cullMode := TriangleCullMode.None, materialIndex := 7 }

/-- A ray along the diagonal `(1, 1, 1)` from `(-0.75, -0.75, -1)`, which meets
the first triangle of `twoLeafMesh` at `(0.25, 0.25, 0)` for `t = 1`; interval
`[2^-10, +∞)`, inverse direction `(1, 1, 1)`. -/
def slopeRay : Ray :=
  { origin := ⟨F32.fin (-3 / 4), F32.fin (-3 / 4), F32.fin (-1)⟩,
    direction := ⟨F32.fin 1, F32.fin 1, F32.fin 1⟩,
    inverseDirection := ⟨F32.fin 1, F32.fin 1, F32.fin 1⟩,
    min := F32.fin (1 / 1024), max := F32.posInf }

/-- One triangle in the plane `z = 0` as a binary32 mesh with a BVH of a
single leaf whose box, the flat box `[0, 1] × [0, 1] × {0}`, is the
triangle's. -/
def flatMesh : TriangleMesh :=
  { transformedPositions :=
      [⟨F32.fin 0, F32.fin 0, F32.fin 0⟩, ⟨F32.fin 1, F32.fin 0, F32.fin 0⟩,
       ⟨F32.fin 0, F32.fin 1, F32.fin 0⟩],
    transformedNormals := [⟨F32.fin 0, F32.fin 0, F32.fin (-1)⟩],
    indices := [0, 1, 2],
    cullMode := TriangleCullMode.None,
    materialIndex := 7,
    bvhNodes :=
      [ { minAABB := ⟨F32.fin 0, F32.fin 0, F32.fin 0⟩,
          maxAABB := ⟨F32.fin 1, F32.fin 1, F32.fin 0⟩, leftFirst := 0, nrPrimitives := 1 } ],
    rootNodeIndex := 0 }

/-- What a run of the mesh test left behind, if it returned: the result, and
the record's `didHit` and `t`. -/
def meshOutcome (run : Except Fault MeshResult) : Option (Bool × Bool × F32) :=
  match run with
  | Except.ok out => some (out.result, out.hitRecord.didHit, out.hitRecord.t)
  | Except.error _ => none

end binary32

namespace binary32

/-- The triangle with the vertices `(0, 3, 8)`, `(2, 7, 7)`, `(2, 0, 8)` as a
binary32 mesh with a BVH of a single leaf whose box, `[0, 2] × [0, 7] × [7,
8]`, is the triangle's. -/
def tiltMesh : TriangleMesh :=
  { transformedPositions :=
      [⟨F32.fin 0, F32.fin 3, F32.fin 8⟩, ⟨F32.fin 2, F32.fin 7, F32.fin 7⟩,
       ⟨F32.fin 2, F32.fin 0, F32.fin 8⟩],
    transformedNormals := [⟨F32.fin 0, F32.fin 0, F32.fin 1⟩],
    indices := [0, 1, 2],
    cullMode := TriangleCullMode.None,
    materialIndex := 7,
    bvhNodes :=
      [ { minAABB := ⟨F32.fin 0, F32.fin 0, F32.fin 7⟩,
          maxAABB := ⟨F32.fin 2, F32.fin 7, F32.fin 8⟩, leftFirst := 0, nrPrimitives := 1 } ],
    rootNodeIndex := 0 }

/-- The triangle of `tiltMesh`. -/
def tiltTriangle : Triangle :=
  { v0 := ⟨F32.fin 0, F32.fin 3, F32.fin 8⟩, v1 := ⟨F32.fin 2, F32.fin 7, F32.fin 7⟩,
    v2 := ⟨F32.fin 2, F32.fin 0, F32.fin 8⟩, normal := ⟨F32.fin 0, F32.fin 0, F32.fin 1⟩,
    cullMode := TriangleCullMode.None, materialIndex := 7 }

/-- A ray from far away with direction `(2, -1, 2)`, whose reciprocals `(1/2,
-1, 1/2)` are binary32 numbers; interval `[2^-10, +∞)`. -/
def tiltRay : Ray :=
  { origin := ⟨F32.fin (-59692288), F32.fin 29846148, F32.fin (-59692284)⟩,
    direction := ⟨F32.fin 2, F32.fin (-1), F32.fin 2⟩,
    inverseDirection := ⟨F32.fin (1 / 2), F32.fin (-1), F32.fin (1 / 2)⟩,
    min := F32.fin (1 / 1024), max := F32.posInf }

end binary32

/-! # Theorems -/

namespace GeometryUtils

open Vector3

/-! ## Vector algebra -/

@[simp] theorem add_x (a b : Vector3) : (a + b).x = a.x + b.x := rfl
@[simp] theorem add_y (a b : Vector3) : (a + b).y = a.y + b.y := rfl
@[simp] theorem add_z (a b : Vector3) : (a + b).z = a.z + b.z := rfl
@[simp] theorem sub_x (a b : Vector3) : (a - b).x = a.x - b.x := rfl
@[simp] theorem sub_y (a b : Vector3) : (a - b).y = a.y - b.y := rfl
@[simp] theorem sub_z (a b : Vector3) : (a - b).z = a.z - b.z := rfl
@[simp] theorem scale_x (a : Vector3) (s : ℚ) : (scale a s).x = a.x * s := rfl
@[simp] theorem scale_y (a : Vector3) (s : ℚ) : (scale a s).y = a.y * s := rfl
@[simp] theorem scale_z (a : Vector3) (s : ℚ) : (scale a s).z = a.z * s := rfl

/-! ## Triangle: the barycentric solution -/

/-- Cramer: a solution of the plane equation has the coordinates the
program computes. -/
theorem onTriangle_unique (triangle : Triangle) (ray : Ray) (t u v : ℚ)
    (hdet : triangleDet triangle ray ≠ 0) (h : OnTriangle triangle ray t u v) :
    u = 1 / triangleDet triangle ray *
          Dot (ray.origin - triangle.v0) (Cross ray.direction (triangle.v2 - triangle.v0)) ∧
    v = 1 / triangleDet triangle ray *
          Dot ray.direction (Cross (ray.origin - triangle.v0) (triangle.v1 - triangle.v0)) ∧
    t = 1 / triangleDet triangle ray *
          Dot (triangle.v2 - triangle.v0)
            (Cross (ray.origin - triangle.v0) (triangle.v1 - triangle.v0)) := by
  have hx := congrArg Vector3.x h
  have hy := congrArg Vector3.y h
  have hz := congrArg Vector3.z h
  simp only [add_x, add_y, add_z, sub_x, sub_y, sub_z, scale_x, scale_y, scale_z] at hx hy hz
  have ox : ray.origin.x = triangle.v0.x + (triangle.v1.x - triangle.v0.x) * u +
      (triangle.v2.x - triangle.v0.x) * v - ray.direction.x * t := by linarith
  have oy : ray.origin.y = triangle.v0.y + (triangle.v1.y - triangle.v0.y) * u +
      (triangle.v2.y - triangle.v0.y) * v - ray.direction.y * t := by linarith
  have oz : ray.origin.z = triangle.v0.z + (triangle.v1.z - triangle.v0.z) * u +
      (triangle.v2.z - triangle.v0.z) * v - ray.direction.z * t := by linarith
  refine ⟨?_, ?_, ?_⟩
  · rw [eq_comm, one_div, inv_mul_eq_iff_eq_mul₀ hdet]
    simp only [triangleDet, Dot, Cross, sub_x, sub_y, sub_z]
    rw [ox, oy, oz]; ring
  · rw [eq_comm, one_div, inv_mul_eq_iff_eq_mul₀ hdet]
    simp only [triangleDet, Dot, Cross, sub_x, sub_y, sub_z]
    rw [ox, oy, oz]; ring
  · rw [eq_comm, one_div, inv_mul_eq_iff_eq_mul₀ hdet]
    simp only [triangleDet, Dot, Cross, sub_x, sub_y, sub_z]
    rw [ox, oy, oz]; ring

/-- Cramer: the coordinates the program computes solve the plane
equation. -/
theorem onTriangle_computed (triangle : Triangle) (ray : Ray)
    (hdet : triangleDet triangle ray ≠ 0) :
    OnTriangle triangle ray
      (1 / triangleDet triangle ray *
          Dot (triangle.v2 - triangle.v0)
            (Cross (ray.origin - triangle.v0) (triangle.v1 - triangle.v0)))
      (1 / triangleDet triangle ray *
          Dot (ray.origin - triangle.v0) (Cross ray.direction (triangle.v2 - triangle.v0)))
      (1 / triangleDet triangle ray *
          Dot ray.direction (Cross (ray.origin - triangle.v0) (triangle.v1 - triangle.v0))) := by
  unfold OnTriangle
  have hdet2 := hdet
  simp only [triangleDet, Dot, Cross, sub_x, sub_y, sub_z] at hdet2
  ext
  · simp only [triangleDet, Dot, Cross, add_x, sub_x, sub_y, sub_z, scale_x]
    field_simp
    ring
  · simp only [triangleDet, Dot, Cross, add_y, sub_x, sub_y, sub_z, scale_y]
    field_simp
    ring
  · simp only [triangleDet, Dot, Cross, add_z, sub_x, sub_y, sub_z, scale_z]
    field_simp
    ring

/-! ## Triangle: normal form of the test -/

theorem HitTest_Triangle_eq (triangle : Triangle) (ray : Ray) (hitRecord : HitRecord)
    (ignoreHitRecord : Bool) :
    HitTest_Triangle triangle ray hitRecord ignoreHitRecord =
      if TriangleAccepts triangle ray ignoreHitRecord then
        (true, if ignoreHitRecord = true then hitRecord
               else if (triangleT triangle ray : WithTop ℚ) < hitRecord.t then
                 triangleCommit triangle ray
               else hitRecord)
      else (false, hitRecord) := by
  have key : HitTest_Triangle triangle ray hitRecord ignoreHitRecord =
      if triangleDet triangle ray = 0 then (false, hitRecord)
      else if ignoreHitRecord ∧
          ((triangle.cullMode = TriangleCullMode.BackFaceCulling ∧ 0 < triangleDet triangle ray) ∨
           (triangle.cullMode = TriangleCullMode.FrontFaceCulling ∧ triangleDet triangle ray < 0)) then
        (false, hitRecord)
      else if ¬ ignoreHitRecord ∧
          ((triangle.cullMode = TriangleCullMode.BackFaceCulling ∧ triangleDet triangle ray < 0) ∨
           (triangle.cullMode = TriangleCullMode.FrontFaceCulling ∧ 0 < triangleDet triangle ray)) then
        (false, hitRecord)
      else if triangleU triangle ray < 0 ∨ 1 < triangleU triangle ray then (false, hitRecord)
      else if triangleV triangle ray < 0 ∨ 1 < triangleU triangle ray + triangleV triangle ray then
        (false, hitRecord)
      else if ray.min ≤ triangleT triangle ray ∧ (triangleT triangle ray : WithTop ℚ) ≤ ray.max then
        if ignoreHitRecord then (true, hitRecord)
        else if (triangleT triangle ray : WithTop ℚ) < hitRecord.t then
          (true, triangleCommit triangle ray)
        else (true, hitRecord)
      else (false, hitRecord) := rfl
  rw [key]
  clear key
  by_cases h1 : triangleDet triangle ray = 0
  · have hna : ¬ TriangleAccepts triangle ray ignoreHitRecord := fun h => h.1 h1
    rw [if_pos h1, if_neg hna]
  rw [if_neg h1]
  by_cases hc : TriangleCulled triangle ray ignoreHitRecord
  · have hna : ¬ TriangleAccepts triangle ray ignoreHitRecord := fun h => h.2.1 hc
    rw [if_neg hna]
    rcases hc with hc | hc
    · rw [if_pos hc]
    · have hni : ¬ (ignoreHitRecord = true) := by simp [hc.1]
      rw [if_neg (fun h => hni h.1), if_pos ⟨hni, hc.2⟩]
  · have hc2 := hc
    unfold TriangleCulled at hc2
    rw [not_or] at hc2
    have hc3 : ¬ (¬ ignoreHitRecord = true ∧
        ((triangle.cullMode = TriangleCullMode.BackFaceCulling ∧ triangleDet triangle ray < 0) ∨
         (triangle.cullMode = TriangleCullMode.FrontFaceCulling ∧ 0 < triangleDet triangle ray))) :=
      fun h => hc2.2 ⟨by simpa using h.1, h.2⟩
    rw [if_neg hc2.1, if_neg hc3]
    by_cases h4 : triangleU triangle ray < 0 ∨ 1 < triangleU triangle ray
    · have hna : ¬ TriangleAccepts triangle ray ignoreHitRecord := by
        rintro ⟨-, -, h5, h6, -⟩
        rcases h4 with h4 | h4 <;> linarith
      rw [if_pos h4, if_neg hna]
    rw [if_neg h4]
    by_cases h5 : triangleV triangle ray < 0 ∨ 1 < triangleU triangle ray + triangleV triangle ray
    · have hna : ¬ TriangleAccepts triangle ray ignoreHitRecord := by
        rintro ⟨-, -, -, -, h6, h7, -⟩
        rcases h5 with h5 | h5 <;> linarith
      rw [if_pos h5, if_neg hna]
    rw [if_neg h5]
    rw [not_or, not_lt, not_lt] at h4 h5
    by_cases h6 : ray.min ≤ triangleT triangle ray ∧ (triangleT triangle ray : WithTop ℚ) ≤ ray.max
    · have hacc : TriangleAccepts triangle ray ignoreHitRecord :=
        ⟨h1, hc, h4.1, h4.2, h5.1, h5.2, h6.1, h6.2⟩
      rw [if_pos h6, if_pos hacc]
      by_cases hi : ignoreHitRecord = true
      · rw [if_pos hi, if_pos hi]
      · rw [if_neg hi, if_neg hi]
        by_cases ht : (triangleT triangle ray : WithTop ℚ) < hitRecord.t
        · rw [if_pos ht, if_pos ht]
        · rw [if_neg ht, if_neg ht]
    · have hna : ¬ TriangleAccepts triangle ray ignoreHitRecord := by
        rintro ⟨-, -, -, -, -, -, h7, h8⟩
        exact h6 ⟨h7, h8⟩
      rw [if_neg h6, if_neg hna]

theorem HitTest_Triangle_fst (triangle : Triangle) (ray : Ray) (hitRecord : HitRecord)
    (ignoreHitRecord : Bool) :
    (HitTest_Triangle triangle ray hitRecord ignoreHitRecord).1 = true ↔
      TriangleAccepts triangle ray ignoreHitRecord := by
  rw [HitTest_Triangle_eq]
  split_ifs with h <;> simp [h]

theorem not_triangleCulled_of_none (triangle : Triangle) (ray : Ray) (b : Bool)
    (h : triangle.cullMode = TriangleCullMode.None) : ¬ TriangleCulled triangle ray b := by
  unfold TriangleCulled
  rw [h]
  simp

/-- In exact arithmetic: for a triangle with cull mode `None` and a ray with non-zero
determinant, `HitTest_Triangle` (any-hit and closest-hit alike) returns true
exactly when some `t` in `[ray.min, ray.max]` and barycentric `u ≥ 0`,
`v ≥ 0`, `u + v ≤ 1` satisfy `origin + t·direction = v0 + u·(v1-v0) +
v·(v2-v0)`; the solution of that equation is unique, and the `t` the test
compares and commits is that solution (the record's `t` after a closest-hit
call that reports a hit is the smaller of its old `t` and that `t`). -/
theorem HitTest_Triangle_barycentric_exact (triangle : Triangle) (ray : Ray) (hitRecord : HitRecord)
    (ignoreHitRecord : Bool)
    (hcull : triangle.cullMode = TriangleCullMode.None)
    (hdet : Dot (triangle.v1 - triangle.v0) (Cross ray.direction (triangle.v2 - triangle.v0)) ≠ 0) :
    ((HitTest_Triangle triangle ray hitRecord ignoreHitRecord).1 = true ↔
      ∃ t u v : ℚ, ray.min ≤ t ∧ (t : WithTop ℚ) ≤ ray.max ∧ 0 ≤ u ∧ 0 ≤ v ∧ u + v ≤ 1 ∧
        ray.origin + scale ray.direction t =
          triangle.v0 + scale (triangle.v1 - triangle.v0) u +
            scale (triangle.v2 - triangle.v0) v) ∧
    (∀ t u v t2 u2 v2 : ℚ,
      ray.origin + scale ray.direction t =
          triangle.v0 + scale (triangle.v1 - triangle.v0) u +
            scale (triangle.v2 - triangle.v0) v →
      ray.origin + scale ray.direction t2 =
          triangle.v0 + scale (triangle.v1 - triangle.v0) u2 +
            scale (triangle.v2 - triangle.v0) v2 →
      t2 = t ∧ u2 = u ∧ v2 = v) ∧
    (∀ t u v : ℚ,
      ray.origin + scale ray.direction t =
          triangle.v0 + scale (triangle.v1 - triangle.v0) u +
            scale (triangle.v2 - triangle.v0) v →
      (HitTest_Triangle triangle ray hitRecord false).1 = true →
      (HitTest_Triangle triangle ray hitRecord false).2.t = min hitRecord.t (t : WithTop ℚ)) := by
  have hd : triangleDet triangle ray ≠ 0 := hdet
  refine ⟨?_, ?_, ?_⟩
  · rw [HitTest_Triangle_fst]
    constructor
    · rintro ⟨-, -, hu0, -, hv0, huv, hmin, hmax⟩
      exact ⟨triangleT triangle ray, triangleU triangle ray, triangleV triangle ray,
        hmin, hmax, hu0, hv0, huv, onTriangle_computed triangle ray hd⟩
    · rintro ⟨t, u, v, hmin, hmax, hu0, hv0, huv, heq⟩
      obtain ⟨hu, hv, ht⟩ := onTriangle_unique triangle ray t u v hd heq
      have hu2 : triangleU triangle ray = u := hu.symm
      have hv2 : triangleV triangle ray = v := hv.symm
      have ht2 : triangleT triangle ray = t := ht.symm
      refine ⟨hd, not_triangleCulled_of_none triangle ray _ hcull, ?_, ?_, ?_, ?_, ?_, ?_⟩
      · rw [hu2]; exact hu0
      · rw [hu2]; linarith
      · rw [hv2]; exact hv0
      · rw [hu2, hv2]; exact huv
      · rw [ht2]; exact hmin
      · rw [ht2]; exact hmax
  · intro t u v t2 u2 v2 h1 h2
    obtain ⟨hu, hv, ht⟩ := onTriangle_unique triangle ray t u v hd h1
    obtain ⟨hu2, hv2, ht2⟩ := onTriangle_unique triangle ray t2 u2 v2 hd h2
    exact ⟨ht2.trans ht.symm, hu2.trans hu.symm, hv2.trans hv.symm⟩
  · intro t u v heq hhit
    obtain ⟨-, -, ht⟩ := onTriangle_unique triangle ray t u v hd heq
    have ht2 : triangleT triangle ray = t := ht.symm
    rw [HitTest_Triangle_fst] at hhit
    rw [HitTest_Triangle_eq, if_pos hhit]
    simp only [Bool.false_eq_true, if_false, ht2]
    by_cases hlt : (t : WithTop ℚ) < hitRecord.t
    · rw [if_pos hlt, min_eq_right hlt.le]
      simp [triangleCommit, ht2]
    · rw [if_neg hlt, min_eq_left (not_lt.mp hlt)]

/-! ## Floats -/

theorem Flt.finite_of_le_of_lt (m : ℚ) (T y : Flt) (h1 : Flt.le (Flt.fin m) T = true)
    (h2 : Flt.lt T y = true) : ∃ q : ℚ, T = Flt.fin q := by
  cases T with
  | nan => simp [Flt.le] at h1
  | negInf => simp [Flt.le] at h1
  | fin q => exact ⟨q, rfl⟩
  | posInf => cases y <;> simp [Flt.lt] at h2

theorem Flt.lt_ofTop_iff (m : ℚ) (T : Flt) (r : WithTop ℚ) (h1 : Flt.le (Flt.fin m) T = true) :
    Flt.lt T (Flt.ofTop r) = true ↔ T.toTop < r := by
  cases T with
  | nan => simp [Flt.le] at h1
  | negInf => simp [Flt.le] at h1
  | fin q =>
    cases r with
    | top => simp [Flt.lt, Flt.ofTop, Flt.toTop]
    | coe r => simp [Flt.lt, Flt.ofTop, Flt.toTop]
  | posInf =>
    cases r with
    | top => simp [Flt.lt, Flt.ofTop, Flt.toTop]
    | coe r => simp [Flt.lt, Flt.ofTop, Flt.toTop]

theorem Flt.le_ofTop_iff (q : ℚ) (r : WithTop ℚ) :
    Flt.le (Flt.fin q) (Flt.ofTop r) = true ↔ (q : WithTop ℚ) ≤ r := by
  cases r with
  | top => simp [Flt.le, Flt.ofTop]
  | coe r => simp [Flt.le, Flt.ofTop]

theorem Flt.toRat_coe_of_lt (T : Flt) (r : WithTop ℚ) (h : T.toTop < r) :
    ((T.toRat : ℚ) : WithTop ℚ) = T.toTop := by
  cases T <;> simp_all [Flt.toTop, Flt.toRat]

/-! ## Sphere and plane: normal form of the tests -/

theorem HitTest_Sphere_eq (sqrtf : ℚ → ℚ) (sphere : Sphere) (ray : Ray) (hitRecord : HitRecord)
    (ignoreHitRecord : Bool) :
    HitTest_Sphere sqrtf sphere ray hitRecord ignoreHitRecord =
      if sphereDiscriminant sphere ray < 0 then (false, hitRecord)
      else acceptTail ray hitRecord ignoreHitRecord (sphereT sqrtf sphere ray)
        (sphereCommit sqrtf sphere ray) := rfl

theorem HitTest_Plane_eq (plane : Plane) (ray : Ray) (hitRecord : HitRecord)
    (ignoreHitRecord : Bool) :
    HitTest_Plane plane ray hitRecord ignoreHitRecord =
      acceptTail ray hitRecord ignoreHitRecord (planeT plane ray) (planeCommit plane ray) := rfl

/-! ## Sphere: the quadratic -/

theorem dot_self_pos (d : Vector3) (h : d ≠ ⟨0, 0, 0⟩) : 0 < Dot d d := by
  obtain ⟨x, y, z⟩ := d
  simp only [Dot]
  have hne : x ≠ 0 ∨ y ≠ 0 ∨ z ≠ 0 := by
    by_contra hcon
    push_neg at hcon
    apply h
    rw [hcon.1, hcon.2.1, hcon.2.2]
  rcases hne with hx | hy | hz
  · have := mul_self_pos.mpr hx
    nlinarith [mul_self_nonneg y, mul_self_nonneg z]
  · have := mul_self_pos.mpr hy
    nlinarith [mul_self_nonneg x, mul_self_nonneg z]
  · have := mul_self_pos.mpr hz
    nlinarith [mul_self_nonneg x, mul_self_nonneg y]

/-- Either root of the quadratic, computed with an exact square root of the
discriminant, solves it. -/
theorem quadratic_root (a b c s q : ℚ) (ha : a ≠ 0) (hs : s * s = b * b - 4 * a * c)
    (hq : q = (-b - s) * (1 / (2 * a)) ∨ q = (-b + s) * (1 / (2 * a))) :
    a * (q * q) + b * q + c = 0 := by
  have h4 : 4 * a * (a * (q * q) + b * q + c) = 0 := by
    rcases hq with hq | hq
    · have h2 : 2 * a * q = -b - s := by rw [hq]; field_simp
      linear_combination (2 * a * q + b - s) * h2 + hs
    · have h2 : 2 * a * q = -b + s := by rw [hq]; field_simp
      linear_combination (2 * a * q + b + s) * h2 + hs
  rcases mul_eq_zero.mp h4 with h | h
  · exact absurd h (by simpa using ha)
  · exact h

/-- The squared distance of a ray point from the sphere's centre, as the
quadratic in `t`. -/
theorem sphere_point_dist (sphere : Sphere) (ray : Ray) (q : ℚ) :
    Dot (ray.origin + scale ray.direction q - sphere.origin)
        (ray.origin + scale ray.direction q - sphere.origin) =
      Dot ray.direction ray.direction * (q * q) +
        2 * Dot ray.direction (ray.origin - sphere.origin) * q +
        Dot (ray.origin - sphere.origin) (ray.origin - sphere.origin) := by
  simp only [Dot, add_x, add_y, add_z, sub_x, sub_y, sub_z, scale_x, scale_y, scale_z]
  ring

theorem rat_sqrt_four : Rat.sqrt 4 = 2 := by
  have h : (4 : ℚ) = 2 * 2 := by norm_num
  rw [h, Rat.sqrt_eq]
  norm_num

/-! ## The strictly-closer commit -/

theorem acceptTail_any (ray : Ray) (hitRecord : HitRecord) (T : Flt) (commit : HitRecord) :
    acceptTail ray hitRecord true T commit = (inInterval ray T, hitRecord) := by
  unfold acceptTail
  split_ifs with h <;> simp_all

theorem acceptTail_closest (ray : Ray) (hitRecord : HitRecord) (T : Flt) (commit : HitRecord) :
    acceptTail ray hitRecord false T commit =
      (inInterval ray T,
        if inInterval ray T = true ∧ T.toTop < hitRecord.t then commit else hitRecord) := by
  unfold acceptTail
  by_cases h : inInterval ray T = true
  · have h1 : Flt.le (Flt.fin ray.min) T = true := by
      simp only [inInterval, Bool.and_eq_true] at h
      exact h.1
    rw [if_pos h, h]
    simp only [Bool.false_eq_true, if_false, true_and]
    by_cases hlt : T.toTop < hitRecord.t
    · rw [if_pos ((Flt.lt_ofTop_iff ray.min T hitRecord.t h1).mpr hlt), if_pos hlt]
    · rw [if_neg (fun hc => hlt ((Flt.lt_ofTop_iff ray.min T hitRecord.t h1).mp hc)), if_neg hlt]
  · rw [if_neg h]
    simp only [Bool.not_eq_true] at h
    rw [h]
    simp

/-- The closest-hit test of any primitive: the result does not depend on the
record, and the record is replaced exactly when the test reports a hit whose
distance is strictly below the record's `t`. -/
theorem closestHit_eq (sqrtf : ℚ → ℚ) (p : Primitive) (ray : Ray) (hitRecord : HitRecord) :
    ∃ commit : HitRecord,
      (commit.t = hitDistance sqrtf p ray ∨ ¬ hitDistance sqrtf p ray < hitRecord.t) ∧
      closestHit sqrtf p ray hitRecord =
        ((closestHit sqrtf p ray HitRecord.fresh).1,
          if (closestHit sqrtf p ray HitRecord.fresh).1 = true ∧
              hitDistance sqrtf p ray < hitRecord.t then commit else hitRecord) := by
  cases p with
  | sphere s =>
    refine ⟨sphereCommit sqrtf s ray, ?_, ?_⟩
    · by_cases h : hitDistance sqrtf (Primitive.sphere s) ray < hitRecord.t
      · left
        exact Flt.toRat_coe_of_lt _ _ h
      · right; exact h
    · simp only [closestHit, hitDistance, HitTest_Sphere_eq]
      by_cases h : sphereDiscriminant s ray < 0
      · simp [h]
      · simp only [if_neg h, acceptTail_closest]
  | plane pl =>
    refine ⟨planeCommit pl ray, ?_, ?_⟩
    · by_cases h : hitDistance sqrtf (Primitive.plane pl) ray < hitRecord.t
      · left
        exact Flt.toRat_coe_of_lt _ _ h
      · right; exact h
    · simp only [closestHit, hitDistance, HitTest_Plane_eq, acceptTail_closest]
  | triangle tr =>
    refine ⟨triangleCommit tr ray, Or.inl rfl, ?_⟩
    simp only [closestHit, hitDistance, HitTest_Triangle_eq]
    split_ifs <;> simp_all

theorem closestHit_fst (sqrtf : ℚ → ℚ) (p : Primitive) (ray : Ray) (r1 r2 : HitRecord) :
    (closestHit sqrtf p ray r1).1 = (closestHit sqrtf p ray r2).1 := by
  obtain ⟨c1, -, h1⟩ := closestHit_eq sqrtf p ray r1
  obtain ⟨c2, -, h2⟩ := closestHit_eq sqrtf p ray r2
  rw [h1, h2]

theorem closestHit_unchanged (sqrtf : ℚ → ℚ) (p : Primitive) (ray : Ray) (hitRecord : HitRecord)
    (h : (closestHit sqrtf p ray hitRecord).1 = false ∨
      hitRecord.t ≤ hitDistance sqrtf p ray) :
    (closestHit sqrtf p ray hitRecord).2 = hitRecord := by
  obtain ⟨c, -, hc⟩ := closestHit_eq sqrtf p ray hitRecord
  rw [hc] at h ⊢
  simp only at h ⊢
  rw [if_neg]
  rintro ⟨h1, h2⟩
  rcases h with h | h
  · rw [h1] at h; exact absurd h (by simp)
  · exact absurd h (not_le.mpr h2)

theorem closestHit_t (sqrtf : ℚ → ℚ) (p : Primitive) (ray : Ray) (hitRecord : HitRecord) :
    (closestHit sqrtf p ray hitRecord).2.t =
      if (closestHit sqrtf p ray HitRecord.fresh).1 = true then
        min hitRecord.t (hitDistance sqrtf p ray)
      else hitRecord.t := by
  obtain ⟨c, hct, hc⟩ := closestHit_eq sqrtf p ray hitRecord
  rw [hc]
  simp only
  by_cases hhit : (closestHit sqrtf p ray HitRecord.fresh).1 = true
  · rw [if_pos hhit]
    by_cases hlt : hitDistance sqrtf p ray < hitRecord.t
    · rw [if_pos ⟨hhit, hlt⟩, min_eq_right hlt.le]
      rcases hct with hct | hct
      · exact hct
      · exact absurd hlt hct
    · rw [if_neg (fun h => hlt h.2), min_eq_left (not_lt.mp hlt)]
  · rw [if_neg hhit, if_neg (fun h => hhit h.1)]

theorem closestHitAll_isLeast (sqrtf : ℚ → ℚ) (ray : Ray) (ps : List Primitive)
    (hitRecord : HitRecord) :
    IsLeast {x | x = hitRecord.t ∨ ∃ p ∈ ps,
        (closestHit sqrtf p ray HitRecord.fresh).1 = true ∧ x = hitDistance sqrtf p ray}
      (closestHitAll sqrtf ray ps hitRecord).t := by
  induction ps generalizing hitRecord with
  | nil =>
    constructor
    · left; rfl
    · rintro x (hx | ⟨p, hp, -⟩)
      · rw [hx]; exact le_refl _
      · simp at hp
  | cons p ps ih =>
    have hstep : closestHitAll sqrtf ray (p :: ps) hitRecord =
        closestHitAll sqrtf ray ps (closestHit sqrtf p ray hitRecord).2 := rfl
    rw [hstep]
    obtain ⟨hmem, hlow⟩ := ih (closestHit sqrtf p ray hitRecord).2
    have ht := closestHit_t sqrtf p ray hitRecord
    constructor
    · rcases hmem with hm | ⟨q, hq, hqhit, hqd⟩
      · change (closestHitAll sqrtf ray ps (closestHit sqrtf p ray hitRecord).2).t = _ at hm
        rw [hm, ht]
        by_cases hhit : (closestHit sqrtf p ray HitRecord.fresh).1 = true
        · rw [if_pos hhit]
          rcases min_choice hitRecord.t (hitDistance sqrtf p ray) with hc | hc
          · left; exact hc
          · right; exact ⟨p, List.mem_cons_self _ _, hhit, hc⟩
        · rw [if_neg hhit]; left; rfl
      · right; exact ⟨q, List.mem_cons_of_mem _ hq, hqhit, hqd⟩
    · have h1 : (closestHitAll sqrtf ray ps (closestHit sqrtf p ray hitRecord).2).t ≤
          (closestHit sqrtf p ray hitRecord).2.t := hlow (Or.inl rfl)
      rintro x (hx | ⟨q, hq, hqhit, hqd⟩)
      · rw [hx]
        refine le_trans h1 ?_
        rw [ht]
        split_ifs
        · exact min_le_left _ _
        · exact le_refl _
      · rcases List.mem_cons.mp hq with hqp | hqps
        · subst hqp
          rw [hqd]
          refine le_trans h1 ?_
          rw [ht, if_pos hqhit]
          exact min_le_right _ _
        · exact hlow (Or.inr ⟨q, hqps, hqhit, hqd⟩)

/-- C3: running the closest-hit tests of a finite list of spheres, planes and
triangles in sequence on one record ends with the record's `t` equal to the
least of the initial `t` and the hit distances of the primitives that report
a hit (whether a primitive reports a hit does not depend on the record, and
its hit distance is the `t` it leaves in a fresh record), and the final `t` is
the same for every permutation of the list. -/
theorem closestHitAll_order_independent (sqrtf : ℚ → ℚ) (ray : Ray) (ps : List Primitive)
    (hitRecord : HitRecord) :
    IsLeast {x | x = hitRecord.t ∨ ∃ p ∈ ps,
        (closestHit sqrtf p ray hitRecord).1 = true ∧ x = hitDistance sqrtf p ray}
      (closestHitAll sqrtf ray ps hitRecord).t ∧
    (∀ p ∈ ps, ∀ r : HitRecord,
      (closestHit sqrtf p ray r).1 = (closestHit sqrtf p ray hitRecord).1) ∧
    (∀ p ∈ ps, (closestHit sqrtf p ray hitRecord).1 = true →
      (closestHit sqrtf p ray HitRecord.fresh).2.t = hitDistance sqrtf p ray) ∧
    (∀ qs : List Primitive, List.Perm ps qs →
      (closestHitAll sqrtf ray qs hitRecord).t = (closestHitAll sqrtf ray ps hitRecord).t) := by
  have hset : ∀ l : List Primitive,
      {x | x = hitRecord.t ∨ ∃ p ∈ l,
        (closestHit sqrtf p ray hitRecord).1 = true ∧ x = hitDistance sqrtf p ray} =
      {x | x = hitRecord.t ∨ ∃ p ∈ l,
        (closestHit sqrtf p ray HitRecord.fresh).1 = true ∧ x = hitDistance sqrtf p ray} := by
    intro l
    ext x
    simp only [Set.mem_setOf_eq, closestHit_fst sqrtf _ ray hitRecord HitRecord.fresh]
  refine ⟨?_, ?_, ?_, ?_⟩
  · rw [hset]
    exact closestHitAll_isLeast sqrtf ray ps hitRecord
  · intro p _ r
    exact closestHit_fst sqrtf p ray r hitRecord
  · intro p _ hhit
    rw [closestHit_t, if_pos ((closestHit_fst sqrtf p ray HitRecord.fresh hitRecord).trans hhit)]
    exact min_eq_right le_top
  · intro qs hperm
    have h1 := closestHitAll_isLeast sqrtf ray ps hitRecord
    have h2 := closestHitAll_isLeast sqrtf ray qs hitRecord
    have hsame : {x | x = hitRecord.t ∨ ∃ p ∈ qs,
        (closestHit sqrtf p ray HitRecord.fresh).1 = true ∧ x = hitDistance sqrtf p ray} =
        {x | x = hitRecord.t ∨ ∃ p ∈ ps,
        (closestHit sqrtf p ray HitRecord.fresh).1 = true ∧ x = hitDistance sqrtf p ray} := by
      ext x
      simp only [Set.mem_setOf_eq, hperm.mem_iff]
    rw [hsame] at h2
    exact h2.unique h1

theorem closestHit_t_le (sqrtf : ℚ → ℚ) (p : Primitive) (ray : Ray) (hitRecord : HitRecord) :
    (closestHit sqrtf p ray hitRecord).2.t ≤ hitRecord.t := by
  rw [closestHit_t]
  split_ifs
  · exact min_le_left _ _
  · exact le_refl _

theorem HitTest_Sphere_any_record (sqrtf : ℚ → ℚ) (sphere : Sphere) (ray : Ray)
    (hitRecord : HitRecord) : (HitTest_Sphere sqrtf sphere ray hitRecord true).2 = hitRecord := by
  rw [HitTest_Sphere_eq]
  split_ifs
  · rfl
  · rw [acceptTail_any]

theorem HitTest_Plane_any_record (plane : Plane) (ray : Ray) (hitRecord : HitRecord) :
    (HitTest_Plane plane ray hitRecord true).2 = hitRecord := by
  rw [HitTest_Plane_eq, acceptTail_any]

theorem HitTest_Triangle_any_record (triangle : Triangle) (ray : Ray) (hitRecord : HitRecord) :
    (HitTest_Triangle triangle ray hitRecord true).2 = hitRecord := by
  rw [HitTest_Triangle_eq]
  simp only [if_true]
  split_ifs <;> rfl

/-- C4: the hit record is only overwritten by a strictly closer hit.  For
each of `HitTest_Sphere`, `HitTest_Plane` and `HitTest_Triangle` in
closest-hit mode: if the call returns false, or returns true with a computed
distance `t ≥ record.t`, the record is unchanged in every field; the record's
`t` after the call is at most its `t` before; and in any-hit mode the record
is never changed. -/
theorem HitTest_record_frame (sqrtf : ℚ → ℚ) (sphere : Sphere) (plane : Plane)
    (triangle : Triangle) (ray : Ray) (hitRecord : HitRecord) :
    (((HitTest_Sphere sqrtf sphere ray hitRecord false).1 = false ∨
        ((HitTest_Sphere sqrtf sphere ray hitRecord false).1 = true ∧
          hitRecord.t ≤ (sphereT sqrtf sphere ray).toTop)) →
      (HitTest_Sphere sqrtf sphere ray hitRecord false).2 = hitRecord) ∧
    (HitTest_Sphere sqrtf sphere ray hitRecord false).2.t ≤ hitRecord.t ∧
    (HitTest_Sphere sqrtf sphere ray hitRecord true).2 = hitRecord ∧
    (((HitTest_Plane plane ray hitRecord false).1 = false ∨
        ((HitTest_Plane plane ray hitRecord false).1 = true ∧
          hitRecord.t ≤ (planeT plane ray).toTop)) →
      (HitTest_Plane plane ray hitRecord false).2 = hitRecord) ∧
    (HitTest_Plane plane ray hitRecord false).2.t ≤ hitRecord.t ∧
    (HitTest_Plane plane ray hitRecord true).2 = hitRecord ∧
    (((HitTest_Triangle triangle ray hitRecord false).1 = false ∨
        ((HitTest_Triangle triangle ray hitRecord false).1 = true ∧
          hitRecord.t ≤ ((triangleT triangle ray : ℚ) : WithTop ℚ))) →
      (HitTest_Triangle triangle ray hitRecord false).2 = hitRecord) ∧
    (HitTest_Triangle triangle ray hitRecord false).2.t ≤ hitRecord.t ∧
    (HitTest_Triangle triangle ray hitRecord true).2 = hitRecord := by
  refine ⟨?_, ?_, ?_, ?_, ?_, ?_, ?_, ?_, ?_⟩
  · intro h
    exact closestHit_unchanged sqrtf (Primitive.sphere sphere) ray hitRecord
      (h.imp id (fun h2 => h2.2))
  · exact closestHit_t_le sqrtf (Primitive.sphere sphere) ray hitRecord
  · exact HitTest_Sphere_any_record sqrtf sphere ray hitRecord
  · intro h
    exact closestHit_unchanged sqrtf (Primitive.plane plane) ray hitRecord
      (h.imp id (fun h2 => h2.2))
  · exact closestHit_t_le sqrtf (Primitive.plane plane) ray hitRecord
  · exact HitTest_Plane_any_record plane ray hitRecord
  · intro h
    exact closestHit_unchanged sqrtf (Primitive.triangle triangle) ray hitRecord
      (h.imp id (fun h2 => h2.2))
  · exact closestHit_t_le sqrtf (Primitive.triangle triangle) ray hitRecord
  · exact HitTest_Triangle_any_record triangle ray hitRecord

/-! ## Bounding box -/

theorem SlabTest_eq (minAABB maxAABB : Vector3) (ray : Ray) :
    SlabTest_BoundingBox minAABB maxAABB ray =
      decide (0 < slabTmax minAABB maxAABB ray ∧
        slabTmax minAABB maxAABB ray ≥ slabTmin minAABB maxAABB ray) := rfl

/-- One axis of the slab test: for `lo ≤ hi` and a non-zero direction
component `d`, the coordinate `o + d * t` lies in `[lo, hi]` exactly when `t`
lies between the two slab values. -/
theorem slab_axis (lo hi o d t : ℚ) (hd : d ≠ 0) (hle : lo ≤ hi) :
    (lo ≤ o + d * t ∧ o + d * t ≤ hi) ↔
      (min ((lo - o) * (1 / d)) ((hi - o) * (1 / d)) ≤ t ∧
        t ≤ max ((lo - o) * (1 / d)) ((hi - o) * (1 / d))) := by
  rcases lt_or_gt_of_ne hd with hneg | hpos
  · have hinv : 1 / d < 0 := one_div_neg.mpr hneg
    have h12 : (hi - o) * (1 / d) ≤ (lo - o) * (1 / d) :=
      mul_le_mul_of_nonpos_right (by linarith) hinv.le
    rw [min_eq_right h12, max_eq_left h12]
    have e1 : (hi - o) * (1 / d) ≤ t ↔ o + d * t ≤ hi := by
      rw [mul_one_div, div_le_iff_of_neg hneg]
      constructor <;> intro h <;> linarith
    have e2 : t ≤ (lo - o) * (1 / d) ↔ lo ≤ o + d * t := by
      rw [mul_one_div, le_div_iff_of_neg hneg]
      constructor <;> intro h <;> linarith
    rw [e1, e2]
    exact and_comm
  · have hinv : 0 < 1 / d := one_div_pos.mpr hpos
    have h12 : (lo - o) * (1 / d) ≤ (hi - o) * (1 / d) :=
      mul_le_mul_of_nonneg_right (by linarith) hinv.le
    rw [min_eq_left h12, max_eq_right h12]
    have e1 : (lo - o) * (1 / d) ≤ t ↔ lo ≤ o + d * t := by
      rw [mul_one_div, div_le_iff₀ hpos]
      constructor <;> intro h <;> linarith
    have e2 : t ≤ (hi - o) * (1 / d) ↔ o + d * t ≤ hi := by
      rw [mul_one_div, le_div_iff₀ hpos]
      constructor <;> intro h <;> linarith
    rw [e1, e2]

/-- The points of the ray inside the box are those with parameter in the
slab interval `[tmin, tmax]`. -/
theorem insideBox_iff_slab (minAABB maxAABB : Vector3) (ray : Ray) (t : ℚ)
    (hbox : minAABB.x ≤ maxAABB.x ∧ minAABB.y ≤ maxAABB.y ∧ minAABB.z ≤ maxAABB.z)
    (hdir : ray.direction.x ≠ 0 ∧ ray.direction.y ≠ 0 ∧ ray.direction.z ≠ 0)
    (hinv : ray.inverseDirection.x = 1 / ray.direction.x ∧
      ray.inverseDirection.y = 1 / ray.direction.y ∧
      ray.inverseDirection.z = 1 / ray.direction.z) :
    InsideBox minAABB maxAABB (ray.origin + scale ray.direction t) ↔
      (slabTmin minAABB maxAABB ray ≤ t ∧ t ≤ slabTmax minAABB maxAABB ray) := by
  have hx := slab_axis minAABB.x maxAABB.x ray.origin.x ray.direction.x t hdir.1 hbox.1
  have hy := slab_axis minAABB.y maxAABB.y ray.origin.y ray.direction.y t hdir.2.1 hbox.2.1
  have hz := slab_axis minAABB.z maxAABB.z ray.origin.z ray.direction.z t hdir.2.2 hbox.2.2
  simp only [InsideBox, slabTmin, slabTmax, add_x, add_y, add_z, scale_x, scale_y, scale_z,
    hinv.1, hinv.2.1, hinv.2.2, max_le_iff, le_min_iff]
  constructor
  · rintro ⟨a1, a2, a3, a4, a5, a6⟩
    have bx := hx.mp ⟨a1, a2⟩
    have bY := hy.mp ⟨a3, a4⟩
    have bz := hz.mp ⟨a5, a6⟩
    exact ⟨⟨⟨bx.1, bY.1⟩, bz.1⟩, ⟨bx.2, bY.2⟩, bz.2⟩
  · rintro ⟨⟨⟨a1, a3⟩, a5⟩, ⟨a2, a4⟩, a6⟩
    have bx := hx.mpr ⟨a1, a2⟩
    have bY := hy.mpr ⟨a3, a4⟩
    have bz := hz.mpr ⟨a5, a6⟩
    exact ⟨bx.1, bx.2, bY.1, bY.2, bz.1, bz.2⟩

/-- The slab test accepts exactly the rays that meet the box at some
parameter `t > 0`. -/
theorem SlabTest_iff_exists_pos (minAABB maxAABB : Vector3) (ray : Ray)
    (hbox : minAABB.x ≤ maxAABB.x ∧ minAABB.y ≤ maxAABB.y ∧ minAABB.z ≤ maxAABB.z)
    (hdir : ray.direction.x ≠ 0 ∧ ray.direction.y ≠ 0 ∧ ray.direction.z ≠ 0)
    (hinv : ray.inverseDirection.x = 1 / ray.direction.x ∧
      ray.inverseDirection.y = 1 / ray.direction.y ∧
      ray.inverseDirection.z = 1 / ray.direction.z) :
    SlabTest_BoundingBox minAABB maxAABB ray = true ↔
      ∃ t : ℚ, 0 < t ∧ InsideBox minAABB maxAABB (ray.origin + scale ray.direction t) := by
  rw [SlabTest_eq, decide_eq_true_iff]
  constructor
  · rintro ⟨hpos, hge⟩
    exact ⟨slabTmax minAABB maxAABB ray, hpos,
      (insideBox_iff_slab minAABB maxAABB ray _ hbox hdir hinv).mpr ⟨hge, le_refl _⟩⟩
  · rintro ⟨t, ht, hin⟩
    obtain ⟨h1, h2⟩ := (insideBox_iff_slab minAABB maxAABB ray t hbox hdir hinv).mp hin
    exact ⟨lt_of_lt_of_le ht h2, le_trans h1 h2⟩

theorem diagonalRay_slab :
    SlabTest_BoundingBox ⟨10, 10, 10⟩ ⟨11, 11, 11⟩ diagonalRay = true := by
  norm_num [SlabTest_BoundingBox, diagonalRay]

/-! ## BVH traversal -/

theorem IntersectBVH_spec (ray : Ray) (mesh : TriangleMesh) (T : BVHTree)
    (hT : IsBVH mesh.bvhNodes T) :
    ∃ added : List Nat,
      (∀ fuel indices, T.height ≤ fuel →
        IntersectBVH fuel ray mesh T.index indices = Except.ok (indices ++ added)) ∧
      (∀ j, j ∈ added ↔
        ∃ path, IsPathToLeaf T path j ∧ ∀ k ∈ path, BoxPasses mesh.bvhNodes ray k) ∧
      List.Sublist added T.leafIndices := by
  induction T with
  | leaf i =>
    obtain ⟨node, hnode, hprim⟩ := hT
    by_cases hs : SlabTest_BoundingBox node.minAABB node.maxAABB ray = false
    · refine ⟨[], ?_, ?_, ?_⟩
      · intro fuel indices hf
        obtain ⟨f, rfl⟩ : ∃ f, fuel = f + 1 := ⟨fuel - 1, by simp [BVHTree.height] at hf; omega⟩
        simp [IntersectBVH, BVHTree.index, hnode, hs]
      · intro j
        simp only [List.not_mem_nil, false_iff]
        rintro ⟨path, hp, hall⟩
        cases hp
        obtain ⟨node2, hn2, hpass⟩ := hall i (List.mem_singleton_self i)
        rw [hnode] at hn2
        cases hn2
        rw [hs] at hpass
        exact absurd hpass (by simp)
      · exact List.nil_sublist _
    · refine ⟨[i], ?_, ?_, ?_⟩
      · intro fuel indices hf
        obtain ⟨f, rfl⟩ : ∃ f, fuel = f + 1 := ⟨fuel - 1, by simp [BVHTree.height] at hf; omega⟩
        simp [IntersectBVH, BVHTree.index, hnode, hs, hprim]
      · intro j
        simp only [List.mem_singleton]
        constructor
        · rintro rfl
          refine ⟨[j], IsPathToLeaf.leaf j, ?_⟩
          intro k hk
          rw [List.mem_singleton] at hk
          subst hk
          exact ⟨node, hnode, by simpa using hs⟩
        · rintro ⟨path, hp, -⟩
          cases hp
          rfl
      · exact List.Sublist.refl _
  | inner i l r ihl ihr =>
    obtain ⟨node, hnode, hprim, hli, hri, hl, hr⟩ := hT
    obtain ⟨addedL, hLrun, hLmem, hLsub⟩ := ihl hl
    obtain ⟨addedR, hRrun, hRmem, hRsub⟩ := ihr hr
    by_cases hs : SlabTest_BoundingBox node.minAABB node.maxAABB ray = false
    · refine ⟨[], ?_, ?_, ?_⟩
      · intro fuel indices hf
        obtain ⟨f, rfl⟩ : ∃ f, fuel = f + 1 := ⟨fuel - 1, by simp [BVHTree.height] at hf; omega⟩
        simp [IntersectBVH, BVHTree.index, hnode, hs]
      · intro j
        simp only [List.not_mem_nil, false_iff]
        rintro ⟨path, hp, hall⟩
        have hmem : i ∈ path := by
          cases hp <;> exact List.mem_cons_self _ _
        obtain ⟨node2, hn2, hpass⟩ := hall i hmem
        rw [hnode] at hn2
        cases hn2
        rw [hs] at hpass
        exact absurd hpass (by simp)
      · exact List.nil_sublist _
    · refine ⟨addedL ++ addedR, ?_, ?_, ?_⟩
      · intro fuel indices hf
        obtain ⟨f, rfl⟩ : ∃ f, fuel = f + 1 := ⟨fuel - 1, by simp [BVHTree.height] at hf; omega⟩
        have hfl : l.height ≤ f := by simp [BVHTree.height] at hf; omega
        have hfr : r.height ≤ f := by simp [BVHTree.height] at hf; omega
        have h1 := hLrun f indices hfl
        have h2 := hRrun f (indices ++ addedL) hfr
        rw [hli] at h1
        rw [hri] at h2
        simp only [IntersectBVH, BVHTree.index, hnode, hs, hprim, h1, h2, if_false,
          ne_eq, not_true_eq_false, List.append_assoc]
        simp
      · intro j
        have hpassI : BoxPasses mesh.bvhNodes ray i := ⟨node, hnode, by simpa using hs⟩
        rw [List.mem_append, hLmem, hRmem]
        constructor
        · rintro (⟨path, hp, hall⟩ | ⟨path, hp, hall⟩)
          · refine ⟨i :: path, IsPathToLeaf.left i l r path j hp, ?_⟩
            intro k hk
            rcases List.mem_cons.mp hk with rfl | hk
            · exact hpassI
            · exact hall k hk
          · refine ⟨i :: path, IsPathToLeaf.right i l r path j hp, ?_⟩
            intro k hk
            rcases List.mem_cons.mp hk with rfl | hk
            · exact hpassI
            · exact hall k hk
        · rintro ⟨path, hp, hall⟩
          cases hp with
          | left _ _ _ p _ hp2 =>
            left
            exact ⟨p, hp2, fun k hk => hall k (List.mem_cons_of_mem _ hk)⟩
          | right _ _ _ p _ hp2 =>
            right
            exact ⟨p, hp2, fun k hk => hall k (List.mem_cons_of_mem _ hk)⟩
      · exact List.Sublist.append hLsub hRsub

theorem leafIndices_sublist_nodeIndices (T : BVHTree) :
    List.Sublist T.leafIndices T.nodeIndices := by
  induction T with
  | leaf i => exact List.Sublist.refl _
  | inner i l r ihl ihr =>
    exact List.Sublist.cons _ (List.Sublist.append ihl ihr)

theorem looseTree_isBVH : IsBVH looseNodes looseTree :=
  ⟨_, rfl, rfl, rfl, rfl, ⟨_, rfl, by decide⟩, ⟨_, rfl, by decide⟩⟩

theorem nestedTree_isBVH : IsBVH nestedNodes looseTree :=
  ⟨_, rfl, rfl, rfl, rfl, ⟨_, rfl, by decide⟩, ⟨_, rfl, by decide⟩⟩

theorem looseTree_nodup : looseTree.nodeIndices.Nodup := by
  decide

/-- C6, as stated, fails: in the three-node tree `looseNodes` (a valid binary
tree: one inner node, two leaves with one primitive each) leaf 1 belongs to
the subtree of node 0 and its box passes the slab test for the diagonal ray,
yet `IntersectBVH` from node 0 appends nothing, because the root's own box
fails the test. -/
theorem IntersectBVH_leaf_counterexample :
    (IsBVH looseNodes looseTree ∧ looseTree.nodeIndices.Nodup ∧ looseTree.index = 0) ∧
    (1 ∈ looseTree.leafIndices ∧ BoxPasses looseNodes diagonalRay 1) ∧
    IntersectBVH 2 diagonalRay (meshOfNodes looseNodes) 0 [] = Except.ok [] := by
  refine ⟨⟨looseTree_isBVH, looseTree_nodup, rfl⟩, ⟨by decide, ?_⟩, ?_⟩
  · exact ⟨_, rfl, diagonalRay_slab⟩
  · have hroot : SlabTest_BoundingBox ⟨100, 0, 0⟩ ⟨101, 1, 1⟩ diagonalRay = false := by
      norm_num [SlabTest_BoundingBox, diagonalRay]
    simp [IntersectBVH, meshOfNodes, looseNodes, hroot]

/-- C6 (amended): for a node array holding a binary tree with pairwise
distinct node indices, and enough recursion budget for its height,
`IntersectBVH` started at the tree's root returns, leaves the entries already
in the list unchanged, and appends exactly the leaves of the tree for which
the box of every node on the path from the starting node down to the leaf
(both included) passes `SlabTest_BoundingBox`, each exactly once. -/
theorem IntersectBVH_collects (ray : Ray) (mesh : TriangleMesh) (T : BVHTree)
    (indices : List Nat) (fuel : Nat)
    (hT : IsBVH mesh.bvhNodes T) (hnodup : T.nodeIndices.Nodup) (hfuel : T.height ≤ fuel) :
    ∃ added : List Nat,
      IntersectBVH fuel ray mesh T.index indices = Except.ok (indices ++ added) ∧
      (∀ j, j ∈ added ↔
        ∃ path, IsPathToLeaf T path j ∧ ∀ k ∈ path, BoxPasses mesh.bvhNodes ray k) ∧
      added.Nodup := by
  obtain ⟨added, hrun, hmem, hsub⟩ := IntersectBVH_spec ray mesh T hT
  exact ⟨added, hrun fuel indices hfuel, hmem,
    (hnodup.sublist (leafIndices_sublist_nodeIndices T)).sublist hsub⟩

theorem nestedNodes_run :
    IntersectBVH 2 diagonalRay (meshOfNodes nestedNodes) 0 [] = Except.ok [1] := by
  have h0 : SlabTest_BoundingBox ⟨10, 10, 10⟩ ⟨13, 11, 11⟩ diagonalRay = true := by
    norm_num [SlabTest_BoundingBox, diagonalRay]
  have h2 : SlabTest_BoundingBox ⟨12, 10, 10⟩ ⟨13, 11, 11⟩ diagonalRay = false := by
    norm_num [SlabTest_BoundingBox, diagonalRay]
  simp [IntersectBVH, meshOfNodes, nestedNodes, h0, h2, diagonalRay_slab]

/-- The amended C6 at the three-node tree `nestedNodes` and the diagonal ray:
the walk from the root appends leaf 1 only. -/
theorem IntersectBVH_collects_witness :
    IntersectBVH 2 diagonalRay (meshOfNodes nestedNodes) 0 [] = Except.ok [1] ∧
    (∃ path, IsPathToLeaf looseTree path 1 ∧
      ∀ k ∈ path, BoxPasses (meshOfNodes nestedNodes).bvhNodes diagonalRay k) := by
  obtain ⟨added, hrun, hmem, -⟩ := IntersectBVH_collects diagonalRay (meshOfNodes nestedNodes)
    looseTree [] 2 nestedTree_isBVH looseTree_nodup (by decide)
  have hrun2 : IntersectBVH 2 diagonalRay (meshOfNodes nestedNodes) 0 [] =
      Except.ok ([] ++ added) := hrun
  rw [nestedNodes_run] at hrun2
  have hadded : added = [1] := by
    simpa using (Except.ok.inj hrun2).symm
  refine ⟨nestedNodes_run, (hmem 1).mp ?_⟩
  rw [hadded]
  exact List.mem_singleton_self 1

/-! ## Mesh loops -/

theorem triangleLoop_any (mesh : TriangleMesh) (ray : Ray) (n : Nat) :
    ∀ (cur : Nat) (hitRecord : HitRecord) (tests : Nat) (ts : List Triangle),
      trianglesFrom mesh n cur = Except.ok ts →
      ∃ k, triangleLoop mesh ray true n cur hitRecord tests =
          Except.ok (ts.any (fun tri => (HitTest_Triangle tri ray hitRecord true).1),
            hitRecord, k) := by
  induction n with
  | zero =>
    intro cur hitRecord tests ts h
    simp only [trianglesFrom] at h
    cases h
    exact ⟨tests, rfl⟩
  | succ n ih =>
    intro cur hitRecord tests ts h
    simp only [trianglesFrom] at h
    cases hat : triangleAt mesh cur with
    | error e => rw [hat] at h; cases h
    | ok tri =>
      rw [hat] at h
      cases hrest : trianglesFrom mesh n (cur + 1) with
      | error e => rw [hrest] at h; cases h
      | ok rest =>
        rw [hrest] at h
        cases h
        simp only [triangleLoop, hat, HitTest_Triangle_any_record, Bool.and_true, List.any_cons]
        by_cases hhit : (HitTest_Triangle tri ray hitRecord true).1 = true
        · rw [if_pos hhit, hhit]
          exact ⟨tests + 1, rfl⟩
        · rw [if_neg hhit]
          obtain ⟨k, hk⟩ := ih (cur + 1) hitRecord (tests + 1) rest hrest
          rw [hk]
          simp only [Bool.not_eq_true] at hhit
          rw [hhit]
          exact ⟨k, rfl⟩

theorem triangleLoop_closest (mesh : TriangleMesh) (ray : Ray) (n : Nat) :
    ∀ (cur : Nat) (hitRecord : HitRecord) (tests : Nat) (ts : List Triangle),
      trianglesFrom mesh n cur = Except.ok ts →
      triangleLoop mesh ray false n cur hitRecord tests =
        Except.ok (false, foldTriangles ray ts hitRecord, tests + n) := by
  induction n with
  | zero =>
    intro cur hitRecord tests ts h
    simp only [trianglesFrom] at h
    cases h
    rfl
  | succ n ih =>
    intro cur hitRecord tests ts h
    simp only [trianglesFrom] at h
    cases hat : triangleAt mesh cur with
    | error e => rw [hat] at h; cases h
    | ok tri =>
      rw [hat] at h
      cases hrest : trianglesFrom mesh n (cur + 1) with
      | error e => rw [hrest] at h; cases h
      | ok rest =>
        rw [hrest] at h
        cases h
        simp only [triangleLoop, hat, Bool.and_false, Bool.false_eq_true, if_false]
        rw [ih (cur + 1) _ (tests + 1) rest hrest]
        simp only [foldTriangles, List.foldl_cons]
        congr 3
        omega

theorem foldTriangles_append (ray : Ray) (ts us : List Triangle) (hitRecord : HitRecord) :
    foldTriangles ray (ts ++ us) hitRecord = foldTriangles ray us (foldTriangles ray ts hitRecord) := by
  simp [foldTriangles, List.foldl_append]

theorem leafLoop_any (mesh : TriangleMesh) (ray : Ray) (indices : List Nat) :
    ∀ (hitRecord : HitRecord) (tests : Nat) (tris : List Triangle),
      candidateTriangles mesh indices = Except.ok tris →
      ∃ k, leafLoop mesh ray true indices hitRecord tests =
          Except.ok (tris.any (fun tri => (HitTest_Triangle tri ray hitRecord true).1),
            hitRecord, k) := by
  induction indices with
  | nil =>
    intro hitRecord tests tris h
    simp only [candidateTriangles] at h
    cases h
    exact ⟨tests, rfl⟩
  | cons i rest ih =>
    intro hitRecord tests tris h
    simp only [candidateTriangles] at h
    cases hnode : mesh.bvhNodes[i]? with
    | none => rw [hnode] at h; cases h
    | some node =>
      rw [hnode] at h
      simp only at h
      cases hts : trianglesFrom mesh (primitiveCount node) node.leftFirst with
      | error e => rw [hts] at h; cases h
      | ok ts =>
        rw [hts] at h
        simp only at h
        cases hus : candidateTriangles mesh rest with
        | error e => rw [hus] at h; cases h
        | ok us =>
          rw [hus] at h
          cases h
          obtain ⟨k1, hk1⟩ := triangleLoop_any mesh ray (primitiveCount node) node.leftFirst
            hitRecord tests ts hts
          have hk1b : triangleLoop mesh ray true
              ((node.leftFirst + node.nrPrimitives) % 2 ^ 32 - node.leftFirst) node.leftFirst
              hitRecord tests = Except.ok
                (ts.any (fun tri => (HitTest_Triangle tri ray hitRecord true).1), hitRecord, k1) :=
            hk1
          simp only [leafLoop, hnode, hk1b, List.any_append]
          cases hany : ts.any (fun tri => (HitTest_Triangle tri ray hitRecord true).1) with
          | true => exact ⟨k1, rfl⟩
          | false =>
            obtain ⟨k2, hk2⟩ := ih hitRecord k1 us hus
            exact ⟨k2, by simpa using hk2⟩

theorem leafLoop_closest (mesh : TriangleMesh) (ray : Ray) (indices : List Nat) :
    ∀ (hitRecord : HitRecord) (tests : Nat) (tris : List Triangle),
      candidateTriangles mesh indices = Except.ok tris →
      ∃ k, leafLoop mesh ray false indices hitRecord tests =
        Except.ok (false, foldTriangles ray tris hitRecord, k) := by
  induction indices with
  | nil =>
    intro hitRecord tests tris h
    simp only [candidateTriangles] at h
    cases h
    exact ⟨tests, rfl⟩
  | cons i rest ih =>
    intro hitRecord tests tris h
    simp only [candidateTriangles] at h
    cases hnode : mesh.bvhNodes[i]? with
    | none => rw [hnode] at h; cases h
    | some node =>
      rw [hnode] at h
      simp only at h
      cases hts : trianglesFrom mesh (primitiveCount node) node.leftFirst with
      | error e => rw [hts] at h; cases h
      | ok ts =>
        rw [hts] at h
        simp only at h
        cases hus : candidateTriangles mesh rest with
        | error e => rw [hus] at h; cases h
        | ok us =>
          rw [hus] at h
          cases h
          have hk1 : triangleLoop mesh ray false
              ((node.leftFirst + node.nrPrimitives) % 2 ^ 32 - node.leftFirst) node.leftFirst
              hitRecord tests = Except.ok
                (false, foldTriangles ray ts hitRecord, tests + (primitiveCount node)) :=
            triangleLoop_closest mesh ray (primitiveCount node) node.leftFirst hitRecord tests ts hts
          obtain ⟨k2, hk2⟩ := ih (foldTriangles ray ts hitRecord)
            (tests + (primitiveCount node)) us hus
          simp only [leafLoop, hnode, hk1, foldTriangles_append]
          exact ⟨k2, hk2⟩

theorem leaf_node_exists (nodes : List BVHNode) (T : BVHTree) (hT : IsBVH nodes T) :
    ∀ i ∈ T.leafIndices, ∃ node, nodes[i]? = some node := by
  induction T with
  | leaf j =>
    intro i hi
    obtain ⟨node, hnode, -⟩ := hT
    simp only [BVHTree.leafIndices, List.mem_singleton] at hi
    subst hi
    exact ⟨node, hnode⟩
  | inner j l r ihl ihr =>
    intro i hi
    obtain ⟨node, -, -, -, -, hl, hr⟩ := hT
    simp only [BVHTree.leafIndices, List.mem_append] at hi
    rcases hi with hi | hi
    · exact ihl hl i hi
    · exact ihr hr i hi

theorem candidateTriangles_ok (mesh : TriangleMesh) (indices : List Nat)
    (h : ∀ i ∈ indices, ∃ node, mesh.bvhNodes[i]? = some node ∧
      ∃ ts, trianglesFrom mesh (primitiveCount node) node.leftFirst = Except.ok ts) :
    ∃ tris, candidateTriangles mesh indices = Except.ok tris := by
  induction indices with
  | nil => exact ⟨[], rfl⟩
  | cons i rest ih =>
    obtain ⟨node, hnode, ts, hts⟩ := h i (List.mem_cons_self _ _)
    obtain ⟨us, hus⟩ := ih (fun k hk => h k (List.mem_cons_of_mem _ hk))
    exact ⟨ts ++ us, by simp only [candidateTriangles, hnode, hts, hus]⟩

theorem path_contains_root (T : BVHTree) (path : List Nat) (j : Nat)
    (h : IsPathToLeaf T path j) : T.index ∈ path := by
  cases h <;> exact List.mem_cons_self _ _

/-- The walk from the root of a mesh whose node array holds a tree and whose
leaves refer to triangles of the mesh: it returns a list of candidate leaves,
empty when the root's box fails the slab test, and the triangles of the
candidates can all be read. -/
theorem mesh_candidates (mesh : TriangleMesh) (ray : Ray) (T : BVHTree) (fuel : Nat)
    (hroot : T.index = mesh.rootNodeIndex) (hT : IsBVH mesh.bvhNodes T)
    (hdata : LeafDataOk mesh T) (hfuel : T.height ≤ fuel) :
    ∃ indices tris,
      IntersectBVH fuel ray mesh mesh.rootNodeIndex [] = Except.ok indices ∧
      candidateTriangles mesh indices = Except.ok tris ∧
      (¬ BoxPasses mesh.bvhNodes ray mesh.rootNodeIndex → indices = []) := by
  obtain ⟨added, hrun, hmem, hsub⟩ := IntersectBVH_spec ray mesh T hT
  have hrun2 := hrun fuel [] hfuel
  rw [hroot, List.nil_append] at hrun2
  have hcand : ∃ tris, candidateTriangles mesh added = Except.ok tris := by
    apply candidateTriangles_ok
    intro i hi
    have hleaf : i ∈ T.leafIndices := hsub.subset hi
    obtain ⟨node, hnode⟩ := leaf_node_exists mesh.bvhNodes T hT i hleaf
    exact ⟨node, hnode, hdata i hleaf node hnode⟩
  obtain ⟨tris, htris⟩ := hcand
  refine ⟨added, tris, hrun2, htris, ?_⟩
  intro hmiss
  rw [List.eq_nil_iff_forall_not_mem]
  intro j hj
  obtain ⟨path, hp, hall⟩ := (hmem j).mp hj
  apply hmiss
  rw [← hroot]
  exact hall _ (path_contains_root T path j hp)

/-! ## Mesh: a miss of the root box -/

/-- C7: for a mesh and a ray for which `SlabTest_BoundingBox` fails on the box
of the mesh's root node, `IntersectBVH` from `rootNodeIndex` yields an empty
candidate list and the closest-hit `HitTest_TriangleMesh` returns with every
field of the hit record unchanged, for every initial record (and it returns
the record's `didHit`, having tested no triangle). -/
theorem HitTest_TriangleMesh_root_miss (mesh : TriangleMesh) (ray : Ray) (hitRecord : HitRecord)
    (node : BVHNode) (fuel : Nat)
    (hroot : mesh.bvhNodes[mesh.rootNodeIndex]? = some node)
    (hmiss : SlabTest_BoundingBox node.minAABB node.maxAABB ray = false) :
    IntersectBVH (fuel + 1) ray mesh mesh.rootNodeIndex [] = Except.ok [] ∧
    ∃ out, HitTest_TriangleMesh (fuel + 1) mesh ray hitRecord false = Except.ok out ∧
      out.hitRecord = hitRecord ∧ out.result = hitRecord.didHit ∧ out.triangleTests = 0 := by
  have hrun : IntersectBVH (fuel + 1) ray mesh mesh.rootNodeIndex [] = Except.ok [] := by
    simp only [IntersectBVH, hroot, hmiss, if_true]
  refine ⟨hrun, ⟨hitRecord.didHit, hitRecord, 0⟩, ?_, rfl, rfl, rfl⟩
  simp only [HitTest_TriangleMesh, hrun, List.length_nil, if_true]

/-- C7 at the mesh of `looseNodes` and the diagonal ray, whose root box the
ray misses. -/
theorem HitTest_TriangleMesh_root_miss_witness :
    IntersectBVH 1 diagonalRay (meshOfNodes looseNodes) 0 [] = Except.ok [] ∧
    ∃ out, HitTest_TriangleMesh 1 (meshOfNodes looseNodes) diagonalRay HitRecord.fresh false =
        Except.ok out ∧
      out.hitRecord = HitRecord.fresh ∧ out.result = false ∧ out.triangleTests = 0 :=
  HitTest_TriangleMesh_root_miss (meshOfNodes looseNodes) diagonalRay HitRecord.fresh
    { minAABB := ⟨100, 0, 0⟩, maxAABB := ⟨101, 1, 1⟩, leftFirst := 1, nrPrimitives := 0 } 0
    rfl (by norm_num [SlabTest_BoundingBox, diagonalRay])

theorem triangleAt_cullMode (mesh : TriangleMesh) (k : Nat) (tri : Triangle)
    (h : triangleAt mesh k = Except.ok tri) :
    tri.cullMode = mesh.cullMode ∧ tri.materialIndex = mesh.materialIndex := by
  unfold triangleAt at h
  split at h
  · split at h
    · cases h
      exact ⟨rfl, rfl⟩
    · cases h
  · cases h

theorem trianglesFrom_cullMode (mesh : TriangleMesh) (n : Nat) :
    ∀ (cur : Nat) (ts : List Triangle), trianglesFrom mesh n cur = Except.ok ts →
      ∀ tri ∈ ts, tri.cullMode = mesh.cullMode := by
  induction n with
  | zero =>
    intro cur ts h
    simp only [trianglesFrom] at h
    cases h
    simp
  | succ n ih =>
    intro cur ts h
    simp only [trianglesFrom] at h
    cases hat : triangleAt mesh cur with
    | error e => rw [hat] at h; cases h
    | ok tri =>
      rw [hat] at h
      cases hrest : trianglesFrom mesh n (cur + 1) with
      | error e => rw [hrest] at h; cases h
      | ok rest =>
        rw [hrest] at h
        cases h
        intro t ht
        rcases List.mem_cons.mp ht with rfl | ht
        · exact (triangleAt_cullMode mesh cur _ hat).1
        · exact ih (cur + 1) rest hrest t ht

theorem candidateTriangles_cullMode (mesh : TriangleMesh) (indices : List Nat) :
    ∀ tris, candidateTriangles mesh indices = Except.ok tris →
      ∀ tri ∈ tris, tri.cullMode = mesh.cullMode := by
  induction indices with
  | nil =>
    intro tris h
    simp only [candidateTriangles] at h
    cases h
    simp
  | cons i rest ih =>
    intro tris h
    simp only [candidateTriangles] at h
    cases hnode : mesh.bvhNodes[i]? with
    | none => rw [hnode] at h; cases h
    | some node =>
      rw [hnode] at h
      simp only at h
      cases hts : trianglesFrom mesh (primitiveCount node) node.leftFirst with
      | error e => rw [hts] at h; cases h
      | ok ts =>
        rw [hts] at h
        simp only at h
        cases hus : candidateTriangles mesh rest with
        | error e => rw [hus] at h; cases h
        | ok us =>
          rw [hus] at h
          cases h
          intro t ht
          rcases List.mem_append.mp ht with ht | ht
          · exact trianglesFrom_cullMode mesh _ _ ts hts t ht
          · exact ih us hus t ht

theorem mem_trianglesFrom (mesh : TriangleMesh) (tri : Triangle) (n : Nat) :
    ∀ (cur : Nat) (ts : List Triangle), trianglesFrom mesh n cur = Except.ok ts →
      (tri ∈ ts ↔ ∃ k, cur ≤ k ∧ k < cur + n ∧ triangleAt mesh k = Except.ok tri) := by
  induction n with
  | zero =>
    intro cur ts h
    simp only [trianglesFrom] at h
    cases h
    simp only [List.not_mem_nil, false_iff]
    rintro ⟨k, h1, h2, -⟩
    omega
  | succ n ih =>
    intro cur ts h
    simp only [trianglesFrom] at h
    cases hat : triangleAt mesh cur with
    | error e => rw [hat] at h; cases h
    | ok first =>
      rw [hat] at h
      cases hrest : trianglesFrom mesh n (cur + 1) with
      | error e => rw [hrest] at h; cases h
      | ok rest =>
        rw [hrest] at h
        cases h
        rw [List.mem_cons, ih (cur + 1) rest hrest]
        constructor
        · rintro (rfl | ⟨k, h1, h2, h3⟩)
          · exact ⟨cur, le_refl _, by omega, hat⟩
          · exact ⟨k, by omega, by omega, h3⟩
        · rintro ⟨k, h1, h2, h3⟩
          by_cases hk : k = cur
          · subst hk
            rw [hat] at h3
            left
            exact (Except.ok.inj h3).symm
          · right
            exact ⟨k, by omega, by omega, h3⟩

/-- The candidate triangles are the triangle views of the triangle numbers
`leftFirst ≤ k < leftFirst + nrPrimitives` of the candidate leaves. -/
theorem mem_candidateTriangles (mesh : TriangleMesh) (tri : Triangle) (indices : List Nat) :
    ∀ tris, candidateTriangles mesh indices = Except.ok tris →
      (tri ∈ tris ↔ ∃ i ∈ indices, ∃ node, mesh.bvhNodes[i]? = some node ∧
        ∃ k, node.leftFirst ≤ k ∧ k < (node.leftFirst + node.nrPrimitives) % 2 ^ 32 ∧
          triangleAt mesh k = Except.ok tri) := by
  induction indices with
  | nil =>
    intro tris h
    simp only [candidateTriangles] at h
    cases h
    simp
  | cons i rest ih =>
    intro tris h
    simp only [candidateTriangles] at h
    cases hnode : mesh.bvhNodes[i]? with
    | none => rw [hnode] at h; cases h
    | some node =>
      rw [hnode] at h
      simp only at h
      cases hts : trianglesFrom mesh (primitiveCount node) node.leftFirst with
      | error e => rw [hts] at h; cases h
      | ok ts =>
        rw [hts] at h
        simp only at h
        cases hus : candidateTriangles mesh rest with
        | error e => rw [hus] at h; cases h
        | ok us =>
          rw [hus] at h
          cases h
          rw [List.mem_append, ih us hus, mem_trianglesFrom mesh tri _ _ ts hts]
          constructor
          · rintro (⟨k, h1, h2, h3⟩ | ⟨j, hj, nd, hnd, k, h1, h2, h3⟩)
            · refine ⟨i, List.mem_cons_self _ _, node, hnode, k, h1, ?_, h3⟩
              unfold primitiveCount at h2
              omega
            · exact ⟨j, List.mem_cons_of_mem _ hj, nd, hnd, k, h1, h2, h3⟩
          · rintro ⟨j, hj, nd, hnd, k, h1, h2, h3⟩
            rcases List.mem_cons.mp hj with rfl | hj
            · left
              rw [hnode] at hnd
              cases hnd
              refine ⟨k, h1, ?_, h3⟩
              unfold primitiveCount
              omega
            · right
              exact ⟨j, hj, nd, hnd, k, h1, h2, h3⟩

/-! ## Mesh: any-hit -/

/-- C8: for a mesh whose node array holds a binary tree rooted at
`rootNodeIndex` and whose leaves refer to triangles of the mesh, with enough
recursion budget, the any-hit `HitTest_TriangleMesh(mesh, ray)` returns, and it
returns true if and only if at least one triangle in the primitive range of
some candidate leaf returned by `IntersectBVH` passes the any-hit
`HitTest_Triangle` (the triangle views carry the mesh's cull mode); when the
ray misses the root bounding box it returns false having tested no
triangle. -/
theorem HitTest_TriangleMesh_any_iff (mesh : TriangleMesh) (ray : Ray) (T : BVHTree)
    (fuel : Nat)
    (hroot : T.index = mesh.rootNodeIndex) (hT : IsBVH mesh.bvhNodes T)
    (hdata : LeafDataOk mesh T) (hfuel : T.height ≤ fuel) :
    ∃ indices tris out,
      IntersectBVH fuel ray mesh mesh.rootNodeIndex [] = Except.ok indices ∧
      candidateTriangles mesh indices = Except.ok tris ∧
      (∀ tri, tri ∈ tris ↔ ∃ i ∈ indices, ∃ node, mesh.bvhNodes[i]? = some node ∧
        ∃ k, node.leftFirst ≤ k ∧ k < (node.leftFirst + node.nrPrimitives) % 2 ^ 32 ∧
          triangleAt mesh k = Except.ok tri) ∧
      (∀ tri ∈ tris, tri.cullMode = mesh.cullMode) ∧
      HitTest_TriangleMesh_any fuel mesh ray = Except.ok out ∧
      (out.result = true ↔ ∃ tri ∈ tris, HitTest_Triangle_any tri ray = true) ∧
      (¬ BoxPasses mesh.bvhNodes ray mesh.rootNodeIndex →
        out.result = false ∧ out.triangleTests = 0) := by
  obtain ⟨indices, tris, hrun, htris, hmiss⟩ :=
    mesh_candidates mesh ray T fuel hroot hT hdata hfuel
  have hcull : ∀ tri ∈ tris, tri.cullMode = mesh.cullMode :=
    candidateTriangles_cullMode mesh indices tris htris
  have hmemT := fun tri => mem_candidateTriangles mesh tri indices tris htris
  by_cases hlen : indices.length = 0
  · have hnil : indices = [] := List.length_eq_zero.mp hlen
    subst hnil
    simp only [candidateTriangles] at htris
    cases htris
    refine ⟨[], [], ⟨false, HitRecord.fresh, 0⟩, hrun, rfl, hmemT, hcull, ?_, by simp,
      fun _ => ⟨rfl, rfl⟩⟩
    simp only [HitTest_TriangleMesh_any, HitTest_TriangleMesh, hrun, List.length_nil, if_true]
    rfl
  · obtain ⟨k, hk⟩ := leafLoop_any mesh ray indices HitRecord.fresh 0 tris htris
    have hne : ¬ indices = [] := fun h => hlen (by rw [h]; rfl)
    cases hany : tris.any (fun tri => (HitTest_Triangle tri ray HitRecord.fresh true).1) with
    | true =>
      rw [hany] at hk
      refine ⟨indices, tris, ⟨true, HitRecord.fresh, k⟩, hrun, htris, hmemT, hcull, ?_, ?_, ?_⟩
      · simp only [HitTest_TriangleMesh_any, HitTest_TriangleMesh, hrun, hlen, if_false, hk]
      · simp only [true_iff]
        obtain ⟨tri, htri, hhit⟩ := List.any_eq_true.mp hany
        exact ⟨tri, htri, hhit⟩
      · intro hm
        exact absurd (hmiss hm) hne
    | false =>
      rw [hany] at hk
      refine ⟨indices, tris, ⟨false, HitRecord.fresh, k⟩, hrun, htris, hmemT, hcull, ?_, ?_, ?_⟩
      · simp only [HitTest_TriangleMesh_any, HitTest_TriangleMesh, hrun, hlen, if_false, hk]
        rfl
      · constructor
        · intro h
          exact absurd h (by simp)
        · rintro ⟨tri, htri, hhit⟩
          have : tris.any (fun tri => (HitTest_Triangle tri ray HitRecord.fresh true).1) = true :=
            List.any_eq_true.mpr ⟨tri, htri, hhit⟩
          rw [hany] at this
          exact absurd this (by simp)
      · intro hm
        exact absurd (hmiss hm) hne

theorem oneTriangleMesh_isBVH : IsBVH oneTriangleMesh.bvhNodes (BVHTree.leaf 0) :=
  ⟨_, rfl, by decide⟩

theorem oneTriangleMesh_triangles :
    trianglesFrom oneTriangleMesh 1 0 = Except.ok [meshTriangle] := by
  simp [trianglesFrom, triangleAt, lookupInt, oneTriangleMesh, meshTriangle]

theorem oneTriangleMesh_dataOk : LeafDataOk oneTriangleMesh (BVHTree.leaf 0) := by
  intro i hi node hnode
  simp only [BVHTree.leafIndices, List.mem_singleton] at hi
  subst hi
  have hn : node = ⟨⟨0, 0, 0⟩, ⟨1, 1, 0⟩, 0, 1⟩ := by
    simpa [oneTriangleMesh] using hnode.symm
  subst hn
  exact ⟨_, oneTriangleMesh_triangles⟩

theorem oneTriangleMesh_run :
    IntersectBVH 1 slantedRay oneTriangleMesh oneTriangleMesh.rootNodeIndex [] =
      Except.ok [0] := by
  have hbox : SlabTest_BoundingBox ⟨0, 0, 0⟩ ⟨1, 1, 0⟩ slantedRay = true := by
    norm_num [SlabTest_BoundingBox, slantedRay]
  simp [IntersectBVH, oneTriangleMesh, hbox]

theorem oneTriangleMesh_candidates :
    candidateTriangles oneTriangleMesh [0] = Except.ok [meshTriangle] := by
  have h := oneTriangleMesh_triangles
  simp only [candidateTriangles, oneTriangleMesh, primitiveCount] at h ⊢
  simp [h]

theorem meshTriangle_accepts (b : Bool) : TriangleAccepts meshTriangle slantedRay b := by
  have hdet : triangleDet meshTriangle slantedRay = -1 := by
    norm_num [triangleDet, meshTriangle, slantedRay, Dot, Cross]
  have hu : triangleU meshTriangle slantedRay = 1 / 5 := by
    rw [triangleU, hdet]
    norm_num [meshTriangle, slantedRay, Dot, Cross]
  have hv : triangleV meshTriangle slantedRay = 1 / 5 := by
    rw [triangleV, hdet]
    norm_num [meshTriangle, slantedRay, Dot, Cross]
  have ht : triangleT meshTriangle slantedRay = 1 := by
    rw [triangleT, hdet]
    norm_num [meshTriangle, slantedRay, Dot, Cross]
  refine ⟨by rw [hdet]; norm_num, not_triangleCulled_of_none _ _ _ rfl, ?_, ?_, ?_, ?_, ?_, ?_⟩
  · rw [hu]; norm_num
  · rw [hu]; norm_num
  · rw [hv]; norm_num
  · rw [hu, hv]; norm_num
  · rw [ht]; norm_num [slantedRay]
  · rw [ht]; simp [slantedRay]

/-- C8 at the one-triangle mesh and the slanted ray: the any-hit mesh test
returns true. -/
theorem HitTest_TriangleMesh_any_iff_witness :
    ∃ out, HitTest_TriangleMesh_any 1 oneTriangleMesh slantedRay = Except.ok out ∧
      out.result = true := by
  obtain ⟨indices, tris, out, hrun, htris, -, -, hout, hiff, -⟩ :=
    HitTest_TriangleMesh_any_iff oneTriangleMesh slantedRay (BVHTree.leaf 0) 1 rfl
      oneTriangleMesh_isBVH oneTriangleMesh_dataOk (by decide)
  rw [oneTriangleMesh_run] at hrun
  have hi : indices = [0] := (Except.ok.inj hrun).symm
  subst hi
  rw [oneTriangleMesh_candidates] at htris
  have ht : tris = [meshTriangle] := (Except.ok.inj htris).symm
  subst ht
  refine ⟨out, hout, hiff.mpr ⟨meshTriangle, List.mem_singleton_self _, ?_⟩⟩
  exact (HitTest_Triangle_fst meshTriangle slantedRay HitRecord.fresh true).mpr
    (meshTriangle_accepts true)

/-! ## Mesh: closest-hit -/

theorem foldTriangles_eq_closestHitAll (ray : Ray) (tris : List Triangle) (hitRecord : HitRecord) :
    foldTriangles ray tris hitRecord =
      closestHitAll id ray (tris.map Primitive.triangle) hitRecord := by
  simp only [foldTriangles, closestHitAll, List.foldl_map, closestHit]

theorem foldTriangles_t_lt_iff (ray : Ray) (tris : List Triangle) (hitRecord : HitRecord) :
    (foldTriangles ray tris hitRecord).t < hitRecord.t ↔
      ∃ tri ∈ tris, (HitTest_Triangle tri ray hitRecord false).1 = true ∧
        ((triangleT tri ray : ℚ) : WithTop ℚ) < hitRecord.t := by
  rw [foldTriangles_eq_closestHitAll]
  obtain ⟨hmem, hlow⟩ := closestHitAll_isLeast id ray (tris.map Primitive.triangle) hitRecord
  constructor
  · intro hlt
    rcases hmem with h | ⟨p, hp, hhit, hd⟩
    · rw [h] at hlt
      exact absurd hlt (lt_irrefl _)
    · obtain ⟨tri, htri, rfl⟩ := List.mem_map.mp hp
      refine ⟨tri, htri, ?_, ?_⟩
      · have := closestHit_fst id (Primitive.triangle tri) ray hitRecord HitRecord.fresh
        exact this.trans hhit
      · have hd2 : (closestHitAll id ray (tris.map Primitive.triangle) hitRecord).t =
            ((triangleT tri ray : ℚ) : WithTop ℚ) := hd
        rw [← hd2]
        exact hlt
  · rintro ⟨tri, htri, hhit, hlt⟩
    refine lt_of_le_of_lt (hlow ?_) hlt
    right
    refine ⟨Primitive.triangle tri, List.mem_map.mpr ⟨tri, htri, rfl⟩, ?_, rfl⟩
    have := closestHit_fst id (Primitive.triangle tri) ray HitRecord.fresh hitRecord
    exact this.trans hhit

theorem foldTriangles_didHit (ray : Ray) (tris : List Triangle) :
    ∀ hitRecord : HitRecord,
      (foldTriangles ray tris hitRecord).t ≤ hitRecord.t ∧
      ((foldTriangles ray tris hitRecord).didHit = true ↔
        hitRecord.didHit = true ∨ (foldTriangles ray tris hitRecord).t < hitRecord.t) ∧
      (¬ (foldTriangles ray tris hitRecord).t < hitRecord.t →
        foldTriangles ray tris hitRecord = hitRecord) := by
  induction tris with
  | nil =>
    intro hitRecord
    simp [foldTriangles]
  | cons tri rest ih =>
    intro hitRecord
    have hstep : foldTriangles ray (tri :: rest) hitRecord =
        foldTriangles ray rest (HitTest_Triangle tri ray hitRecord false).2 := rfl
    rw [hstep]
    obtain ⟨h1, h2, h3⟩ := ih (HitTest_Triangle tri ray hitRecord false).2
    have hle : (HitTest_Triangle tri ray hitRecord false).2.t ≤ hitRecord.t :=
      closestHit_t_le id (Primitive.triangle tri) ray hitRecord
    by_cases hcommit : TriangleAccepts tri ray false ∧
        ((triangleT tri ray : ℚ) : WithTop ℚ) < hitRecord.t
    · have hr : (HitTest_Triangle tri ray hitRecord false).2 = triangleCommit tri ray := by
        rw [HitTest_Triangle_eq, if_pos hcommit.1]
        simp only [Bool.false_eq_true, if_false, if_pos hcommit.2]
      have hlt : (HitTest_Triangle tri ray hitRecord false).2.t < hitRecord.t := by
        rw [hr]; exact hcommit.2
      have hdid : (HitTest_Triangle tri ray hitRecord false).2.didHit = true := by
        rw [hr]; rfl
      have hfin : (foldTriangles ray rest (HitTest_Triangle tri ray hitRecord false).2).t <
          hitRecord.t := lt_of_le_of_lt h1 hlt
      refine ⟨hfin.le, ?_, fun hn => absurd hfin hn⟩
      constructor
      · intro _; right; exact hfin
      · intro _; exact h2.mpr (Or.inl hdid)
    · have hr : (HitTest_Triangle tri ray hitRecord false).2 = hitRecord := by
        rw [HitTest_Triangle_eq]
        by_cases hacc : TriangleAccepts tri ray false
        · rw [if_pos hacc]
          simp only [Bool.false_eq_true, if_false]
          rw [if_neg (fun h => hcommit ⟨hacc, h⟩)]
        · rw [if_neg hacc]
      rw [hr] at h1 h2 h3 ⊢
      exact ⟨h1, h2, h3⟩

/-- C9: for a mesh whose node array holds a binary tree rooted at
`rootNodeIndex` and whose leaves refer to triangles of the mesh, with enough
recursion budget, the closest-hit `HitTest_TriangleMesh` returns the record's
`didHit` flag as it stands after the call, having run the closest-hit triangle
test over all candidate triangles; it returns true if and only if `didHit` was
true on entry or some candidate triangle committed a strictly closer hit (its
test accepts with a distance below the entry `t`, equivalently the record's
`t` went down); when no BVH leaf overlaps the ray it returns the entry value
of `didHit` and leaves the record as it was. -/
theorem HitTest_TriangleMesh_closest (mesh : TriangleMesh) (ray : Ray) (T : BVHTree)
    (fuel : Nat) (hitRecord : HitRecord)
    (hroot : T.index = mesh.rootNodeIndex) (hT : IsBVH mesh.bvhNodes T)
    (hdata : LeafDataOk mesh T) (hfuel : T.height ≤ fuel) :
    ∃ indices tris out,
      IntersectBVH fuel ray mesh mesh.rootNodeIndex [] = Except.ok indices ∧
      candidateTriangles mesh indices = Except.ok tris ∧
      (∀ tri, tri ∈ tris ↔ ∃ i ∈ indices, ∃ node, mesh.bvhNodes[i]? = some node ∧
        ∃ k, node.leftFirst ≤ k ∧ k < (node.leftFirst + node.nrPrimitives) % 2 ^ 32 ∧
          triangleAt mesh k = Except.ok tri) ∧
      HitTest_TriangleMesh fuel mesh ray hitRecord false = Except.ok out ∧
      out.hitRecord = foldTriangles ray tris hitRecord ∧
      out.result = out.hitRecord.didHit ∧
      (out.result = true ↔ hitRecord.didHit = true ∨
        ∃ tri ∈ tris, (HitTest_Triangle tri ray hitRecord false).1 = true ∧
          ((triangleT tri ray : ℚ) : WithTop ℚ) < hitRecord.t) ∧
      (out.result = true ↔ hitRecord.didHit = true ∨ out.hitRecord.t < hitRecord.t) ∧
      (indices = [] → out.result = hitRecord.didHit ∧ out.hitRecord = hitRecord) := by
  obtain ⟨indices, tris, hrun, htris, -⟩ :=
    mesh_candidates mesh ray T fuel hroot hT hdata hfuel
  obtain ⟨-, hdid, -⟩ := foldTriangles_didHit ray tris hitRecord
  have hlt := foldTriangles_t_lt_iff ray tris hitRecord
  have hmemT := fun tri => mem_candidateTriangles mesh tri indices tris htris
  by_cases hlen : indices.length = 0
  · have hnil : indices = [] := List.length_eq_zero.mp hlen
    subst hnil
    simp only [candidateTriangles] at htris
    cases htris
    refine ⟨[], [], ⟨hitRecord.didHit, hitRecord, 0⟩, hrun, rfl, hmemT, ?_, rfl, rfl, ?_, ?_,
      fun _ => ⟨rfl, rfl⟩⟩
    · simp only [HitTest_TriangleMesh, hrun, List.length_nil, if_true]
    · simp
    · simp
  · obtain ⟨k, hk⟩ := leafLoop_closest mesh ray indices hitRecord 0 tris htris
    have hne : ¬ indices = [] := fun h => hlen (by rw [h]; rfl)
    refine ⟨indices, tris, ⟨(foldTriangles ray tris hitRecord).didHit,
      foldTriangles ray tris hitRecord, k⟩, hrun, htris, hmemT, ?_, rfl, rfl, ?_, hdid,
      fun h => absurd h hne⟩
    · simp only [HitTest_TriangleMesh, hrun, hlen, if_false, hk]
    · rw [← hlt]
      exact hdid

/-- C9 at the one-triangle mesh and the slanted ray, from a fresh record: the
closest-hit mesh test returns true and the record's `t` went down. -/
theorem HitTest_TriangleMesh_closest_witness :
    ∃ out, HitTest_TriangleMesh 1 oneTriangleMesh slantedRay HitRecord.fresh false =
        Except.ok out ∧
      out.result = true ∧ out.hitRecord.didHit = true ∧ out.hitRecord.t < HitRecord.fresh.t := by
  obtain ⟨indices, tris, out, hrun, htris, -, hout, -, hres, hiff, hiff2, -⟩ :=
    HitTest_TriangleMesh_closest oneTriangleMesh slantedRay (BVHTree.leaf 0) 1 HitRecord.fresh rfl
      oneTriangleMesh_isBVH oneTriangleMesh_dataOk (by decide)
  rw [oneTriangleMesh_run] at hrun
  have hi : indices = [0] := (Except.ok.inj hrun).symm
  subst hi
  rw [oneTriangleMesh_candidates] at htris
  have ht : tris = [meshTriangle] := (Except.ok.inj htris).symm
  subst ht
  have htrue : out.result = true := by
    refine hiff.mpr (Or.inr ⟨meshTriangle, List.mem_singleton_self _, ?_, ?_⟩)
    · exact (HitTest_Triangle_fst meshTriangle slantedRay HitRecord.fresh false).mpr
        (meshTriangle_accepts false)
    · exact WithTop.coe_lt_top _
  refine ⟨out, hout, htrue, hres ▸ htrue, ?_⟩
  rcases hiff2.mp htrue with h | h
  · exact absurd h (by simp [HitRecord.fresh])
  · exact h

/-! ## Triangle: the two cull policies -/

/-- C3 at the slanted ray with a plane (hit at `t = 2`) and a triangle (hit at
`t = 1`): both orders of testing leave the same `t`. -/
theorem closestHitAll_order_independent_witness :
    (closestHitAll id slantedRay
        [Primitive.triangle meshTriangle, Primitive.plane scenarioPlane] HitRecord.fresh).t =
      (closestHitAll id slantedRay
        [Primitive.plane scenarioPlane, Primitive.triangle meshTriangle] HitRecord.fresh).t :=
  (closestHitAll_order_independent id slantedRay
    [Primitive.plane scenarioPlane, Primitive.triangle meshTriangle] HitRecord.fresh).2.2.2
    [Primitive.triangle meshTriangle, Primitive.plane scenarioPlane] (List.Perm.swap _ _ _)

/-- C4 at the slanted ray and a record that is already closer (`t = 1/2`)
than the triangle's hit (`t = 1`): the closest-hit triangle test reports the
hit and leaves the record as it was. -/
theorem HitTest_record_frame_witness :
    (HitTest_Triangle meshTriangle slantedRay nearRecord false).1 = true ∧
    (HitTest_Triangle meshTriangle slantedRay nearRecord false).2 = nearRecord := by
  have hhit : (HitTest_Triangle meshTriangle slantedRay nearRecord false).1 = true :=
    (HitTest_Triangle_fst meshTriangle slantedRay nearRecord false).mpr
      (meshTriangle_accepts false)
  have ht : triangleT meshTriangle slantedRay = 1 := by
    have hdet : triangleDet meshTriangle slantedRay = -1 := by
      norm_num [triangleDet, meshTriangle, slantedRay, Dot, Cross]
    rw [triangleT, hdet]
    norm_num [meshTriangle, slantedRay, Dot, Cross]
  have hle : nearRecord.t ≤ ((triangleT meshTriangle slantedRay : ℚ) : WithTop ℚ) := by
    rw [ht]
    exact WithTop.coe_le_coe.mpr (by norm_num)
  exact ⟨hhit,
    (HitTest_record_frame id scenarioSphere scenarioPlane meshTriangle slantedRay
      nearRecord).2.2.2.2.2.2.1 (Or.inr ⟨hhit, hle⟩)⟩

theorem dot_self_nonneg (d : Vector3) : 0 ≤ Dot d d := by
  simp only [Dot]
  nlinarith [mul_self_nonneg d.x, mul_self_nonneg d.y, mul_self_nonneg d.z]

/-- A product with `+∞` is never strictly below a product of a smaller or
equal finite factor with `+∞`. -/
theorem Flt.mulQ_posInf_not_lt (x y : ℚ) (h : x ≤ y) :
    Flt.lt (Flt.mulQ y Flt.posInf) (Flt.mulQ x Flt.posInf) = false := by
  simp only [Flt.mulQ]
  by_cases hy0 : y = 0
  · simp [hy0, Flt.lt]
  · by_cases hypos : 0 < y
    · rw [if_neg hy0, if_pos hypos]
      split_ifs <;> rfl
    · have hyneg : y < 0 := lt_of_le_of_ne (not_lt.mp hypos) hy0
      have hxneg : x < 0 := lt_of_le_of_lt h hyneg
      rw [if_neg hy0, if_neg hypos, if_neg hxneg.ne, if_neg (not_lt.mpr hxneg.le)]
      rfl

/-- The guard of the swap of line 60 is never satisfied when the square root
is not negative. -/
theorem sphere_second_not_lt_first (sqrtf : ℚ → ℚ) (sphere : Sphere) (ray : Ray)
    (hs : 0 ≤ sqrtf (sphereDiscriminant sphere ray)) :
    Flt.lt (sphereSecondT sqrtf sphere ray) (sphereFirstT sqrtf sphere ray) = false := by
  by_cases ha : 2 * Dot ray.direction ray.direction = 0
  · have hdiv : Flt.divQ 1 (2 * Dot ray.direction ray.direction) = Flt.posInf := by
      simp [Flt.divQ, ha]
    rw [sphereSecondT, sphereFirstT, hdiv]
    exact Flt.mulQ_posInf_not_lt _ _ (by linarith)
  · have hapos : 0 < 2 * Dot ray.direction ray.direction :=
      lt_of_le_of_ne (by have := dot_self_nonneg ray.direction; linarith) (Ne.symm ha)
    simp only [sphereSecondT, sphereFirstT, Flt.divQ, if_neg ha, Flt.mulQ, Flt.lt,
      decide_eq_false_iff_not, not_lt]
    have hinv : 0 ≤ 1 / (2 * Dot ray.direction ray.direction) := (one_div_pos.mpr hapos).le
    exact mul_le_mul_of_nonneg_right (by linarith) hinv

theorem sphereT_eq_first (sqrtf : ℚ → ℚ) (sphere : Sphere) (ray : Ray)
    (hs : 0 ≤ sqrtf (sphereDiscriminant sphere ray)) :
    sphereT sqrtf sphere ray = sphereFirstT sqrtf sphere ray := by
  rw [sphereT, sphere_second_not_lt_first sqrtf sphere ray hs]
  simp

theorem acceptTail_outside (ray : Ray) (hitRecord : HitRecord) (b : Bool) (T : Flt)
    (commit : HitRecord) (h : inInterval ray T = false) :
    acceptTail ray hitRecord b T commit = (false, hitRecord) := by
  simp [acceptTail, h]

theorem insideRay_discriminant : sphereDiscriminant scenarioSphere insideRay = 4 := by
  norm_num [sphereDiscriminant, scenarioSphere, insideRay, Dot]

theorem insideRay_first : sphereFirstT Rat.sqrt scenarioSphere insideRay = Flt.fin (-1) := by
  rw [sphereFirstT, insideRay_discriminant, rat_sqrt_four]
  norm_num [scenarioSphere, insideRay, Dot, Flt.divQ, Flt.mulQ]

/-- C11 fails on the code: for the unit sphere and the ray from its centre
along `+z` with interval `[0, +∞)` the quadratic `t² - 1 = 0` has the roots
`-1` and `1`; the smallest root greater than `0` is `1`, which lies in the
interval, but the value `HitTest_Sphere` tests is `-1` and the test returns
false in both modes. -/
theorem HitTest_Sphere_inside_tests_negative_root :
    (Dot insideRay.direction insideRay.direction * (1 * 1) +
        2 * Dot insideRay.direction (insideRay.origin - scenarioSphere.origin) * 1 +
        (Dot (insideRay.origin - scenarioSphere.origin)
            (insideRay.origin - scenarioSphere.origin) -
          scenarioSphere.radius * scenarioSphere.radius) = 0) ∧
    (∀ t : ℚ, 0 < t →
      Dot insideRay.direction insideRay.direction * (t * t) +
        2 * Dot insideRay.direction (insideRay.origin - scenarioSphere.origin) * t +
        (Dot (insideRay.origin - scenarioSphere.origin)
            (insideRay.origin - scenarioSphere.origin) -
          scenarioSphere.radius * scenarioSphere.radius) = 0 → 1 ≤ t) ∧
    (insideRay.min ≤ 1 ∧ ((1 : ℚ) : WithTop ℚ) ≤ insideRay.max) ∧
    sphereT Rat.sqrt scenarioSphere insideRay = Flt.fin (-1) ∧
    HitTest_Sphere Rat.sqrt scenarioSphere insideRay HitRecord.fresh false =
      (false, HitRecord.fresh) ∧
    HitTest_Sphere_any Rat.sqrt scenarioSphere insideRay = false := by
  have hT : sphereT Rat.sqrt scenarioSphere insideRay = Flt.fin (-1) := by
    rw [sphereT_eq_first Rat.sqrt scenarioSphere insideRay (Rat.sqrt_nonneg _), insideRay_first]
  have hout : inInterval insideRay (Flt.fin (-1)) = false := by
    norm_num [inInterval, Flt.le, insideRay]
  refine ⟨by norm_num [scenarioSphere, insideRay, Dot], ?_,
    ⟨by norm_num [insideRay], by simp [insideRay]⟩, hT, ?_, ?_⟩
  · intro t ht heq
    norm_num [scenarioSphere, insideRay, Dot] at heq
    nlinarith
  · rw [HitTest_Sphere_eq, insideRay_discriminant, hT]
    norm_num [acceptTail_outside _ _ _ _ _ hout]
  · rw [HitTest_Sphere_any, HitTest_Sphere_eq, insideRay_discriminant, hT]
    norm_num [acceptTail_outside _ _ _ _ _ hout]

/-! ## Plane -/

theorem nodup_length_le (l : List Nat) (n : Nat) (hnd : l.Nodup) (hlt : ∀ a ∈ l, a < n) :
    l.length ≤ n := by
  have hsub : l.toFinset ⊆ Finset.range n := by
    intro a ha
    rw [List.mem_toFinset] at ha
    exact Finset.mem_range.mpr (hlt a ha)
  have hcard := Finset.card_le_card hsub
  rw [List.toFinset_card_of_nodup hnd, Finset.card_range] at hcard
  exact hcard

/-- A node array in which the children of every internal node are in range
and no node is its own descendant holds a finite tree below every node. -/
theorem exists_tree_aux (nodes : List BVHNode)
    (hrange : ∀ i j, IsChild nodes i j → j < nodes.length)
    (hacyclic : ∀ i, ¬ Relation.TransGen (IsChild nodes) i i) :
    ∀ (k : Nat) (anc : List Nat) (i : Nat), anc.Nodup → (∀ a ∈ anc, a < nodes.length) →
      (∀ a ∈ anc, Relation.TransGen (IsChild nodes) a i) → i < nodes.length →
      nodes.length - anc.length ≤ k → ∃ T : BVHTree, T.index = i ∧ IsBVH nodes T := by
  intro k
  induction k with
  | zero =>
    intro anc i hnd hlt hanc hi hk
    have hni : i ∉ anc := fun h => hacyclic i (hanc i h)
    have hnd2 : (i :: anc).Nodup := List.nodup_cons.mpr ⟨hni, hnd⟩
    have hlen := nodup_length_le (i :: anc) nodes.length hnd2 (by
      intro a ha
      rcases List.mem_cons.mp ha with rfl | ha
      · exact hi
      · exact hlt a ha)
    simp only [List.length_cons] at hlen
    omega
  | succ k ih =>
    intro anc i hnd hlt hanc hi hk
    have hni : i ∉ anc := fun h => hacyclic i (hanc i h)
    have hnd2 : (i :: anc).Nodup := List.nodup_cons.mpr ⟨hni, hnd⟩
    have hlt2 : ∀ a ∈ i :: anc, a < nodes.length := by
      intro a ha
      rcases List.mem_cons.mp ha with rfl | ha
      · exact hi
      · exact hlt a ha
    obtain ⟨node, hnode⟩ : ∃ node, nodes[i]? = some node :=
      ⟨nodes[i], List.getElem?_eq_getElem hi⟩
    by_cases hprim : node.nrPrimitives = 0
    · have hc1 : IsChild nodes i node.leftFirst := ⟨node, hnode, hprim, Or.inl rfl⟩
      have hc2 : IsChild nodes i ((node.leftFirst + 1) % 2 ^ 32) :=
        ⟨node, hnode, hprim, Or.inr rfl⟩
      have hanc2 : ∀ c, IsChild nodes i c →
          ∀ a ∈ i :: anc, Relation.TransGen (IsChild nodes) a c := by
        intro c hc a ha
        rcases List.mem_cons.mp ha with rfl | ha
        · exact Relation.TransGen.single hc
        · exact Relation.TransGen.tail (hanc a ha) hc
      have hk2 : nodes.length - (i :: anc).length ≤ k := by
        simp only [List.length_cons]
        omega
      obtain ⟨l, hli, hl⟩ := ih (i :: anc) node.leftFirst hnd2 hlt2 (hanc2 _ hc1)
        (hrange _ _ hc1) hk2
      obtain ⟨r, hri, hr⟩ := ih (i :: anc) ((node.leftFirst + 1) % 2 ^ 32) hnd2 hlt2
        (hanc2 _ hc2) (hrange _ _ hc2) hk2
      exact ⟨BVHTree.inner i l r, rfl, node, hnode, hprim, hli, hri, hl, hr⟩
    · exact ⟨BVHTree.leaf i, rfl, node, hnode, hprim⟩

theorem exists_tree (nodes : List BVHNode) (root : Nat) (hroot : root < nodes.length)
    (hrange : ∀ i j, IsChild nodes i j → j < nodes.length)
    (hacyclic : ∀ i, ¬ Relation.TransGen (IsChild nodes) i i) :
    ∃ T : BVHTree, T.index = root ∧ IsBVH nodes T :=
  exists_tree_aux nodes hrange hacyclic nodes.length [] root List.nodup_nil
    (fun _ h => absurd h (List.not_mem_nil _)) (fun _ h => absurd h (List.not_mem_nil _))
    hroot (by simp)

theorem triangleAt_not_outOfFuel (mesh : TriangleMesh) (k : Nat) :
    triangleAt mesh k ≠ Except.error Fault.outOfFuel := by
  unfold triangleAt
  split
  · split
    · simp
    · simp
  · simp

theorem triangleLoop_not_outOfFuel (mesh : TriangleMesh) (ray : Ray) (b : Bool) (n : Nat) :
    ∀ (cur : Nat) (hitRecord : HitRecord) (tests : Nat),
      triangleLoop mesh ray b n cur hitRecord tests ≠ Except.error Fault.outOfFuel := by
  induction n with
  | zero =>
    intro cur hitRecord tests
    simp [triangleLoop]
  | succ n ih =>
    intro cur hitRecord tests
    simp only [triangleLoop]
    cases hat : triangleAt mesh cur with
    | error e =>
      simp only
      intro h
      apply triangleAt_not_outOfFuel mesh cur
      rw [hat, Except.error.inj h]
    | ok tri =>
      simp only
      split_ifs
      · simp
      · exact ih _ _ _

theorem leafLoop_not_outOfFuel (mesh : TriangleMesh) (ray : Ray) (b : Bool)
    (indices : List Nat) :
    ∀ (hitRecord : HitRecord) (tests : Nat),
      leafLoop mesh ray b indices hitRecord tests ≠ Except.error Fault.outOfFuel := by
  induction indices with
  | nil =>
    intro hitRecord tests
    simp [leafLoop]
  | cons i rest ih =>
    intro hitRecord tests
    simp only [leafLoop]
    cases hnode : mesh.bvhNodes[i]? with
    | none => simp
    | some node =>
      simp only
      cases hloop : triangleLoop mesh ray b
          ((node.leftFirst + node.nrPrimitives) % 2 ^ 32 - node.leftFirst) node.leftFirst
          hitRecord tests with
      | error e =>
        simp only
        intro h
        apply triangleLoop_not_outOfFuel mesh ray b _ node.leftFirst hitRecord tests
        rw [hloop, Except.error.inj h]
      | ok res =>
        obtain ⟨early, r, k⟩ := res
        cases early
        · exact ih r k
        · simp

theorem HitTest_TriangleMesh_ok (mesh : TriangleMesh) (ray : Ray) (T : BVHTree) (fuel : Nat)
    (hitRecord : HitRecord) (b : Bool)
    (hroot : T.index = mesh.rootNodeIndex) (hT : IsBVH mesh.bvhNodes T)
    (hdata : LeafDataOk mesh T) (hfuel : T.height ≤ fuel) :
    ∃ out, HitTest_TriangleMesh fuel mesh ray hitRecord b = Except.ok out := by
  obtain ⟨indices, tris, hrun, htris, -⟩ :=
    mesh_candidates mesh ray T fuel hroot hT hdata hfuel
  by_cases hlen : indices.length = 0
  · simp only [HitTest_TriangleMesh, hrun, hlen, if_true]
    exact ⟨_, rfl⟩
  · cases b
    · obtain ⟨k, hk⟩ := leafLoop_closest mesh ray indices hitRecord 0 tris htris
      simp only [HitTest_TriangleMesh, hrun, hlen, if_false, hk]
      exact ⟨_, rfl⟩
    · obtain ⟨k, hk⟩ := leafLoop_any mesh ray indices hitRecord 0 tris htris
      cases hany : tris.any (fun tri => (HitTest_Triangle tri ray hitRecord true).1) with
      | true =>
        rw [hany] at hk
        simp only [HitTest_TriangleMesh, hrun, hlen, if_false, hk]
        exact ⟨_, rfl⟩
      | false =>
        rw [hany] at hk
        simp only [HitTest_TriangleMesh, hrun, hlen, if_false, hk]
        exact ⟨_, rfl⟩

theorem HitTest_TriangleMesh_not_outOfFuel (mesh : TriangleMesh) (ray : Ray) (fuel : Nat)
    (hitRecord : HitRecord) (b : Bool) (indices : List Nat)
    (hrun : IntersectBVH fuel ray mesh mesh.rootNodeIndex [] = Except.ok indices) :
    HitTest_TriangleMesh fuel mesh ray hitRecord b ≠ Except.error Fault.outOfFuel := by
  simp only [HitTest_TriangleMesh, hrun]
  split_ifs
  · simp
  · cases hloop : leafLoop mesh ray b indices hitRecord 0 with
    | error e =>
      simp only
      intro h
      apply leafLoop_not_outOfFuel mesh ray b indices hitRecord 0
      rw [hloop, Except.error.inj h]
    | ok res =>
      obtain ⟨early, r, k⟩ := res
      cases early <;> simp

/-- C19: for a node array that forms a finite binary tree rooted at
`rootNodeIndex` (the root is in range, the children `leftFirst` and
`leftFirst + 1` of every internal node are in range, and no node is its own
descendant) and every ray, `IntersectBVH` returns when given a recursion
budget equal to the height of the tree (so its recursion is never deeper than
the height), without reading the node array out of range, and leaves the
entries already in the list in place; `HitTest_TriangleMesh` in either mode
never runs out of that budget, and it returns a result whenever the leaves
refer to triangles the mesh has. -/
theorem IntersectBVH_terminates (ray : Ray) (mesh : TriangleMesh) (hitRecord : HitRecord)
    (ignoreHitRecord : Bool)
    (hroot : mesh.rootNodeIndex < mesh.bvhNodes.length)
    (hrange : ∀ i j, IsChild mesh.bvhNodes i j → j < mesh.bvhNodes.length)
    (hacyclic : ∀ i, ¬ Relation.TransGen (IsChild mesh.bvhNodes) i i) :
    ∃ T : BVHTree, T.index = mesh.rootNodeIndex ∧ IsBVH mesh.bvhNodes T ∧
      (∀ fuel indices, T.height ≤ fuel →
        ∃ added, IntersectBVH fuel ray mesh mesh.rootNodeIndex indices =
          Except.ok (indices ++ added)) ∧
      (∀ fuel, T.height ≤ fuel →
        HitTest_TriangleMesh fuel mesh ray hitRecord ignoreHitRecord ≠
          Except.error Fault.outOfFuel) ∧
      (LeafDataOk mesh T → ∀ fuel, T.height ≤ fuel →
        ∃ out, HitTest_TriangleMesh fuel mesh ray hitRecord ignoreHitRecord = Except.ok out) := by
  obtain ⟨T, hidx, hT⟩ := exists_tree mesh.bvhNodes mesh.rootNodeIndex hroot hrange hacyclic
  obtain ⟨added, hrun, -, -⟩ := IntersectBVH_spec ray mesh T hT
  refine ⟨T, hidx, hT, ?_, ?_, ?_⟩
  · intro fuel indices hfuel
    exact ⟨added, hidx ▸ hrun fuel indices hfuel⟩
  · intro fuel hfuel
    have h := hrun fuel [] hfuel
    rw [hidx] at h
    exact HitTest_TriangleMesh_not_outOfFuel mesh ray fuel hitRecord ignoreHitRecord _ h
  · intro hdata fuel hfuel
    exact HitTest_TriangleMesh_ok mesh ray T fuel hitRecord ignoreHitRecord hidx hT hdata hfuel

/-! ## A mesh of two leaves -/

theorem twoLeafMesh_node (i : Nat) (node : BVHNode)
    (h : twoLeafMesh.bvhNodes[i]? = some node) :
    (i = 0 ∧ node = ⟨⟨0, 0, 0⟩, ⟨3, 1, 0⟩, 1, 0⟩) ∨
    (i = 1 ∧ node = ⟨⟨0, 0, 0⟩, ⟨1, 1, 0⟩, 0, 1⟩) ∨
    (i = 2 ∧ node = ⟨⟨2, 0, 0⟩, ⟨3, 1, 0⟩, 1, 1⟩) := by
  have hi : i < 3 := by
    have := (List.getElem?_eq_some_iff.mp h).1
    simpa [twoLeafMesh] using this
  interval_cases i
  · left; exact ⟨rfl, by simpa [twoLeafMesh] using h.symm⟩
  · right; left; exact ⟨rfl, by simpa [twoLeafMesh] using h.symm⟩
  · right; right; exact ⟨rfl, by simpa [twoLeafMesh] using h.symm⟩

/-- The only internal node of `twoLeafMesh` is the root, with the children `1`
and `2`. -/
theorem twoLeafMesh_child (i j : Nat) (h : IsChild twoLeafMesh.bvhNodes i j) :
    i = 0 ∧ (j = 1 ∨ j = 2) := by
  obtain ⟨node, hnode, hprim, hj⟩ := h
  rcases twoLeafMesh_node i node hnode with ⟨hi, hn⟩ | ⟨hi, hn⟩ | ⟨hi, hn⟩
  · subst hn
    refine ⟨hi, ?_⟩
    rcases hj with hj | hj
    · left; exact hj
    · right; exact hj
  · subst hn; exact absurd hprim (by decide)
  · subst hn; exact absurd hprim (by decide)

theorem twoLeafMesh_isBVH : IsBVH twoLeafMesh.bvhNodes twoLeafTree :=
  ⟨_, rfl, rfl, rfl, rfl, ⟨_, rfl, by decide⟩, ⟨_, rfl, by decide⟩⟩

/-- The node array of `twoLeafMesh` holds one tree below its root: the root
with its two leaves. -/
theorem twoLeafMesh_tree (T : BVHTree) (hidx : T.index = twoLeafMesh.rootNodeIndex)
    (hT : IsBVH twoLeafMesh.bvhNodes T) : T = twoLeafTree := by
  have leaf_of : ∀ (S : BVHTree) (k : Nat), (k = 1 ∨ k = 2) → S.index = k →
      IsBVH twoLeafMesh.bvhNodes S → S = BVHTree.leaf k := by
    intro S k hk hSi hS
    cases S with
    | leaf i => rw [show i = k from hSi]
    | inner i l r =>
      obtain ⟨node, hnode, hprim, -⟩ := hS
      have hc := twoLeafMesh_child i node.leftFirst ⟨node, hnode, hprim, Or.inl rfl⟩
      have hi : i = k := hSi
      rcases hk with hk | hk <;> omega
  cases T with
  | leaf i =>
    obtain ⟨node, hnode, hprim⟩ := hT
    have hi : i = 0 := hidx
    subst hi
    have hn : node = ⟨⟨0, 0, 0⟩, ⟨3, 1, 0⟩, 1, 0⟩ := by
      simpa [twoLeafMesh] using hnode.symm
    subst hn
    exact absurd rfl hprim
  | inner i l r =>
    obtain ⟨node, hnode, hprim, hl, hr, hTl, hTr⟩ := hT
    have hi : i = 0 := hidx
    subst hi
    have hn : node = ⟨⟨0, 0, 0⟩, ⟨3, 1, 0⟩, 1, 0⟩ := by
      simpa [twoLeafMesh] using hnode.symm
    subst hn
    have e1 := leaf_of l 1 (Or.inl rfl) hl hTl
    have e2 := leaf_of r 2 (Or.inr rfl) hr hTr
    rw [e1, e2]
    rfl

theorem twoLeafMesh_triangles :
    trianglesFrom twoLeafMesh (triangleCount twoLeafMesh) 0 =
      Except.ok [meshTriangle, secondMeshTriangle] := by
  simp [trianglesFrom, triangleAt, lookupInt, twoLeafMesh, meshTriangle, secondMeshTriangle,
    triangleCount]

theorem twoLeafMesh_dataOk : LeafDataOk twoLeafMesh twoLeafTree := by
  intro i hi node hnode
  have hi2 : i = 1 ∨ i = 2 := by
    simpa [twoLeafTree, BVHTree.leafIndices] using hi
  rcases twoLeafMesh_node i node hnode with ⟨h0, hn⟩ | ⟨h1, hn⟩ | ⟨h2, hn⟩
  · omega
  · subst hn
    exact ⟨[meshTriangle], by
      simp [trianglesFrom, triangleAt, lookupInt, twoLeafMesh, meshTriangle, primitiveCount]⟩
  · subst hn
    exact ⟨[secondMeshTriangle], by
      simp [trianglesFrom, triangleAt, lookupInt, twoLeafMesh, secondMeshTriangle,
        primitiveCount]⟩

/-- C19 at a mesh of three nodes, an inner root with two leaves: the children
of the root are in range, no node is its own descendant, the tree has height
two, and with a recursion budget of two the walk returns and the mesh test
returns in closest-hit mode. -/
theorem IntersectBVH_terminates_witness :
    (∃ added, IntersectBVH 2 slantedRay twoLeafMesh twoLeafMesh.rootNodeIndex [] =
      Except.ok ([] ++ added)) ∧
    ∃ out, HitTest_TriangleMesh 2 twoLeafMesh slantedRay HitRecord.fresh false =
      Except.ok out := by
  obtain ⟨T, hidx, hT, hwalk, -, hok⟩ :=
    IntersectBVH_terminates slantedRay twoLeafMesh HitRecord.fresh false
      (by decide)
      (fun i j h => by
        have hj := (twoLeafMesh_child i j h).2
        have hlen : twoLeafMesh.bvhNodes.length = 3 := rfl
        omega)
      (fun i h => by
        obtain ⟨c, hc, hrest⟩ := Relation.TransGen.head'_iff.mp h
        obtain ⟨hi, hcj⟩ := twoLeafMesh_child i c hc
        rcases Relation.ReflTransGen.cases_head hrest with hci | ⟨d, hcd, -⟩
        · omega
        · have := (twoLeafMesh_child c d hcd).1
          omega)
  have hshape := twoLeafMesh_tree T hidx hT
  subst hshape
  exact ⟨hwalk 2 [] (by decide), hok twoLeafMesh_dataOk 2 (by decide)⟩

/-! ## Pruning by the BVH does not change the result -/

theorem convex_lower (m a b c u v : ℚ) (hu : 0 ≤ u) (hv : 0 ≤ v) (huv : u + v ≤ 1)
    (ha : m ≤ a) (hb : m ≤ b) (hc : m ≤ c) : m ≤ a + (b - a) * u + (c - a) * v := by
  have e : a + (b - a) * u + (c - a) * v - m =
      u * (b - m) + v * (c - m) + (1 - u - v) * (a - m) := by ring
  have h1 := mul_nonneg hu (sub_nonneg.mpr hb)
  have h2 := mul_nonneg hv (sub_nonneg.mpr hc)
  have h3 := mul_nonneg (by linarith : (0 : ℚ) ≤ 1 - u - v) (sub_nonneg.mpr ha)
  linarith

theorem convex_upper (m a b c u v : ℚ) (hu : 0 ≤ u) (hv : 0 ≤ v) (huv : u + v ≤ 1)
    (ha : a ≤ m) (hb : b ≤ m) (hc : c ≤ m) : a + (b - a) * u + (c - a) * v ≤ m := by
  have e : m - (a + (b - a) * u + (c - a) * v) =
      u * (m - b) + v * (m - c) + (1 - u - v) * (m - a) := by ring
  have h1 := mul_nonneg hu (sub_nonneg.mpr hb)
  have h2 := mul_nonneg hv (sub_nonneg.mpr hc)
  have h3 := mul_nonneg (by linarith : (0 : ℚ) ≤ 1 - u - v) (sub_nonneg.mpr ha)
  linarith

/-- The hit point of an accepted triangle lies in every box that contains the
triangle's three vertices. -/
theorem hit_point_inside (tri : Triangle) (ray : Ray) (b : Bool) (bmin bmax : Vector3)
    (hacc : TriangleAccepts tri ray b)
    (h0 : InsideBox bmin bmax tri.v0) (h1 : InsideBox bmin bmax tri.v1)
    (h2 : InsideBox bmin bmax tri.v2) :
    InsideBox bmin bmax (ray.origin + scale ray.direction (triangleT tri ray)) := by
  obtain ⟨hdet, -, hu0, -, hv0, huv, -, -⟩ := hacc
  have hon : ray.origin + scale ray.direction (triangleT tri ray) =
      tri.v0 + scale (tri.v1 - tri.v0) (triangleU tri ray) +
        scale (tri.v2 - tri.v0) (triangleV tri ray) := onTriangle_computed tri ray hdet
  rw [hon]
  obtain ⟨a1, a2, a3, a4, a5, a6⟩ := h0
  obtain ⟨b1, b2, b3, b4, b5, b6⟩ := h1
  obtain ⟨c1, c2, c3, c4, c5, c6⟩ := h2
  simp only [InsideBox, add_x, add_y, add_z, sub_x, sub_y, sub_z, scale_x, scale_y, scale_z]
  exact ⟨convex_lower _ _ _ _ _ _ hu0 hv0 huv a1 b1 c1,
    convex_upper _ _ _ _ _ _ hu0 hv0 huv a2 b2 c2,
    convex_lower _ _ _ _ _ _ hu0 hv0 huv a3 b3 c3,
    convex_upper _ _ _ _ _ _ hu0 hv0 huv a4 b4 c4,
    convex_lower _ _ _ _ _ _ hu0 hv0 huv a5 b5 c5,
    convex_upper _ _ _ _ _ _ hu0 hv0 huv a6 b6 c6⟩

/-- A box that holds a ray point with positive parameter passes the slab
test. -/
theorem slab_pass_of_inside (bmin bmax : Vector3) (ray : Ray) (t : ℚ) (ht : 0 < t)
    (hin : InsideBox bmin bmax (ray.origin + scale ray.direction t))
    (hdir : ray.direction.x ≠ 0 ∧ ray.direction.y ≠ 0 ∧ ray.direction.z ≠ 0)
    (hinv : ray.inverseDirection.x = 1 / ray.direction.x ∧
      ray.inverseDirection.y = 1 / ray.direction.y ∧
      ray.inverseDirection.z = 1 / ray.direction.z) :
    SlabTest_BoundingBox bmin bmax ray = true := by
  have hbox : bmin.x ≤ bmax.x ∧ bmin.y ≤ bmax.y ∧ bmin.z ≤ bmax.z := by
    obtain ⟨a1, a2, a3, a4, a5, a6⟩ := hin
    exact ⟨le_trans a1 a2, le_trans a3 a4, le_trans a5 a6⟩
  exact (SlabTest_iff_exists_pos bmin bmax ray hbox hdir hinv).mpr ⟨t, ht, hin⟩

theorem insideBox_of_contains (outer inner : BVHNode) (p : Vector3)
    (hc : BoxContains outer inner) (hin : InsideBox inner.minAABB inner.maxAABB p) :
    InsideBox outer.minAABB outer.maxAABB p := by
  obtain ⟨c1, c2, c3, c4, c5, c6⟩ := hc
  obtain ⟨a1, a2, a3, a4, a5, a6⟩ := hin
  exact ⟨le_trans c1 a1, le_trans a2 c2, le_trans c3 a3, le_trans a4 c4, le_trans c5 a5,
    le_trans a6 c6⟩

theorem root_node_exists (nodes : List BVHNode) (T : BVHTree) (hT : IsBVH nodes T) :
    ∃ node, nodes[T.index]? = some node := by
  cases T with
  | leaf i =>
    obtain ⟨node, hnode, -⟩ := hT
    exact ⟨node, hnode⟩
  | inner i l r =>
    obtain ⟨node, hnode, -⟩ := hT
    exact ⟨node, hnode⟩

/-- In a tree with nested boxes, a point of a leaf's box lies in the box of
every node on the path from the root to the leaf. -/
theorem path_boxes_hold (nodes : List BVHNode) (p : Vector3) (T : BVHTree) (path : List Nat)
    (j : Nat) (hp : IsPathToLeaf T path j) :
    IsBVH nodes T → BoxesNested nodes T →
    ∀ nodej, nodes[j]? = some nodej → InsideBox nodej.minAABB nodej.maxAABB p →
    ∀ k ∈ path, ∃ nodek, nodes[k]? = some nodek ∧ InsideBox nodek.minAABB nodek.maxAABB p := by
  induction hp with
  | leaf i =>
    intro _ _ nodej hj hin k hk
    rw [List.mem_singleton] at hk
    subst hk
    exact ⟨nodej, hj, hin⟩
  | left i l r path j hp ih =>
    intro hT hnest nodej hj hin k hk
    obtain ⟨node, hnode, -, -, -, hl, -⟩ := hT
    obtain ⟨hcont, hnl, -⟩ := hnest
    have hsub := ih hl hnl nodej hj hin
    rcases List.mem_cons.mp hk with rfl | hk
    · obtain ⟨nodel, hnodel, hinl⟩ := hsub l.index (path_contains_root l path j hp)
      exact ⟨node, hnode, insideBox_of_contains node nodel p
        (hcont node nodel hnode (Or.inl hnodel)) hinl⟩
    · exact hsub k hk
  | right i l r path j hp ih =>
    intro hT hnest nodej hj hin k hk
    obtain ⟨node, hnode, -, -, -, -, hr⟩ := hT
    obtain ⟨hcont, -, hnr⟩ := hnest
    have hsub := ih hr hnr nodej hj hin
    rcases List.mem_cons.mp hk with rfl | hk
    · obtain ⟨noder, hnoder, hinr⟩ := hsub r.index (path_contains_root r path j hp)
      exact ⟨node, hnode, insideBox_of_contains node noder p
        (hcont node noder hnode (Or.inr hnoder)) hinr⟩
    · exact hsub k hk

theorem leaf_has_path (T : BVHTree) : ∀ j ∈ T.leafIndices, ∃ path, IsPathToLeaf T path j := by
  induction T with
  | leaf i =>
    intro j hj
    simp only [BVHTree.leafIndices, List.mem_singleton] at hj
    subst hj
    exact ⟨[j], IsPathToLeaf.leaf j⟩
  | inner i l r ihl ihr =>
    intro j hj
    simp only [BVHTree.leafIndices, List.mem_append] at hj
    rcases hj with hj | hj
    · obtain ⟨path, hp⟩ := ihl j hj
      exact ⟨i :: path, IsPathToLeaf.left i l r path j hp⟩
    · obtain ⟨path, hp⟩ := ihr j hj
      exact ⟨i :: path, IsPathToLeaf.right i l r path j hp⟩

theorem trianglesFrom_at (mesh : TriangleMesh) (n : Nat) :
    ∀ (cur : Nat) (ts : List Triangle), trianglesFrom mesh n cur = Except.ok ts →
      ∀ k, cur ≤ k → k < cur + n → ∃ tri, triangleAt mesh k = Except.ok tri := by
  induction n with
  | zero =>
    intro cur ts _ k h1 h2
    omega
  | succ n ih =>
    intro cur ts h k h1 h2
    simp only [trianglesFrom] at h
    cases hat : triangleAt mesh cur with
    | error e => rw [hat] at h; cases h
    | ok first =>
      rw [hat] at h
      cases hrest : trianglesFrom mesh n (cur + 1) with
      | error e => rw [hrest] at h; cases h
      | ok rest =>
        by_cases hk : k = cur
        · subst hk
          exact ⟨first, hat⟩
        · exact ih (cur + 1) rest hrest k (by omega) (by omega)

theorem trianglesFrom_ok (mesh : TriangleMesh) (n : Nat) :
    ∀ cur : Nat, (∀ k, cur ≤ k → k < cur + n → ∃ tri, triangleAt mesh k = Except.ok tri) →
      ∃ ts, trianglesFrom mesh n cur = Except.ok ts := by
  induction n with
  | zero =>
    intro cur _
    exact ⟨[], rfl⟩
  | succ n ih =>
    intro cur h
    obtain ⟨first, hfirst⟩ := h cur (le_refl _) (by omega)
    obtain ⟨rest, hrest⟩ := ih (cur + 1) (fun k h1 h2 => h k (by omega) (by omega))
    exact ⟨first :: rest, by simp only [trianglesFrom, hfirst, hrest]⟩

theorem mem_leafTriangleNumbers (nodes : List BVHNode) (k : Nat) (l : List Nat) :
    k ∈ leafTriangleNumbers nodes l ↔
      ∃ i ∈ l, ∃ node, nodes[i]? = some node ∧ node.leftFirst ≤ k ∧
        k < (node.leftFirst + node.nrPrimitives) % 2 ^ 32 := by
  induction l with
  | nil => simp [leafTriangleNumbers]
  | cons i rest ih =>
    simp only [leafTriangleNumbers, List.mem_append, ih]
    constructor
    · rintro (h | ⟨j, hj, node, hnode, h1, h2⟩)
      · cases hnode : nodes[i]? with
        | none => rw [hnode] at h; simp at h
        | some node =>
          rw [hnode] at h
          simp only [List.mem_range'_1, primitiveCount] at h
          exact ⟨i, List.mem_cons_self _ _, node, hnode, h.1, by omega⟩
      · exact ⟨j, List.mem_cons_of_mem _ hj, node, hnode, h1, h2⟩
    · rintro ⟨j, hj, node, hnode, h1, h2⟩
      rcases List.mem_cons.mp hj with rfl | hj
      · left
        rw [hnode]
        simp only [List.mem_range'_1, primitiveCount]
        exact ⟨h1, by omega⟩
      · right
        exact ⟨j, hj, node, hnode, h1, h2⟩

/-- When the leaves' primitive ranges are triangle numbers of the mesh and all
triangles of the mesh can be read, every leaf refers to triangles the mesh
has. -/
theorem leafDataOk_of_partition (mesh : TriangleMesh) (T : BVHTree) (allTris : List Triangle)
    (hall : trianglesFrom mesh (triangleCount mesh) 0 = Except.ok allTris)
    (hpart : List.Perm (leafTriangleNumbers mesh.bvhNodes T.leafIndices)
      (List.range (triangleCount mesh))) :
    LeafDataOk mesh T := by
  intro i hi node hnode
  apply trianglesFrom_ok
  intro k h1 h2
  have hk : k ∈ leafTriangleNumbers mesh.bvhNodes T.leafIndices := by
    rw [mem_leafTriangleNumbers]
    refine ⟨i, hi, node, hnode, h1, ?_⟩
    unfold primitiveCount at h2
    omega
  have hlt : k < triangleCount mesh := List.mem_range.mp (hpart.mem_iff.mp hk)
  exact trianglesFrom_at mesh _ 0 allTris hall k (Nat.zero_le _) (by omega)

/-- The candidate leaves of a walk from the root, with what is known about
them. -/
theorem mesh_candidates_full (mesh : TriangleMesh) (ray : Ray) (T : BVHTree) (fuel : Nat)
    (hroot : T.index = mesh.rootNodeIndex) (hT : IsBVH mesh.bvhNodes T)
    (hdata : LeafDataOk mesh T) (hfuel : T.height ≤ fuel) :
    ∃ indices tris,
      IntersectBVH fuel ray mesh mesh.rootNodeIndex [] = Except.ok indices ∧
      candidateTriangles mesh indices = Except.ok tris ∧
      (∀ j, j ∈ indices ↔
        ∃ path, IsPathToLeaf T path j ∧ ∀ k ∈ path, BoxPasses mesh.bvhNodes ray k) ∧
      List.Sublist indices T.leafIndices := by
  obtain ⟨added, hrun, hmem, hsub⟩ := IntersectBVH_spec ray mesh T hT
  have hrun2 := hrun fuel [] hfuel
  rw [hroot, List.nil_append] at hrun2
  have hcand : ∃ tris, candidateTriangles mesh added = Except.ok tris := by
    apply candidateTriangles_ok
    intro i hi
    have hleaf : i ∈ T.leafIndices := hsub.subset hi
    obtain ⟨node, hnode⟩ := leaf_node_exists mesh.bvhNodes T hT i hleaf
    exact ⟨node, hnode, hdata i hleaf node hnode⟩
  obtain ⟨tris, htris⟩ := hcand
  exact ⟨added, tris, hrun2, htris, hmem, hsub⟩

theorem HitTest_TriangleMesh_any_eq (mesh : TriangleMesh) (ray : Ray) (fuel : Nat)
    (indices : List Nat) (tris : List Triangle)
    (hrun : IntersectBVH fuel ray mesh mesh.rootNodeIndex [] = Except.ok indices)
    (htris : candidateTriangles mesh indices = Except.ok tris) :
    ∃ k, HitTest_TriangleMesh_any fuel mesh ray =
      Except.ok ⟨tris.any (fun tri => HitTest_Triangle_any tri ray), HitRecord.fresh, k⟩ := by
  by_cases hlen : indices.length = 0
  · have hnil : indices = [] := List.length_eq_zero.mp hlen
    subst hnil
    simp only [candidateTriangles] at htris
    cases htris
    refine ⟨0, ?_⟩
    simp only [HitTest_TriangleMesh_any, HitTest_TriangleMesh, hrun, List.length_nil, if_true]
    rfl
  · obtain ⟨k, hk⟩ := leafLoop_any mesh ray indices HitRecord.fresh 0 tris htris
    refine ⟨k, ?_⟩
    have hsame : (tris.any fun tri => (HitTest_Triangle tri ray HitRecord.fresh true).1) =
        tris.any (fun tri => HitTest_Triangle_any tri ray) := rfl
    rw [← hsame]
    cases hany : tris.any (fun tri => (HitTest_Triangle tri ray HitRecord.fresh true).1) with
    | true =>
      rw [hany] at hk
      simp only [HitTest_TriangleMesh_any, HitTest_TriangleMesh, hrun, hlen, if_false, hk]
    | false =>
      rw [hany] at hk
      simp only [HitTest_TriangleMesh_any, HitTest_TriangleMesh, hrun, hlen, if_false, hk]
      rfl

theorem HitTest_TriangleMesh_closest_eq (mesh : TriangleMesh) (ray : Ray) (fuel : Nat)
    (hitRecord : HitRecord) (indices : List Nat) (tris : List Triangle)
    (hrun : IntersectBVH fuel ray mesh mesh.rootNodeIndex [] = Except.ok indices)
    (htris : candidateTriangles mesh indices = Except.ok tris) :
    ∃ k, HitTest_TriangleMesh fuel mesh ray hitRecord false =
      Except.ok ⟨(foldTriangles ray tris hitRecord).didHit, foldTriangles ray tris hitRecord, k⟩ := by
  by_cases hlen : indices.length = 0
  · have hnil : indices = [] := List.length_eq_zero.mp hlen
    subst hnil
    simp only [candidateTriangles] at htris
    cases htris
    refine ⟨0, ?_⟩
    simp only [HitTest_TriangleMesh, hrun, List.length_nil, if_true]
    rfl
  · obtain ⟨k, hk⟩ := leafLoop_closest mesh ray indices hitRecord 0 tris htris
    refine ⟨k, ?_⟩
    simp only [HitTest_TriangleMesh, hrun, hlen, if_false, hk]

/-- Two lists with the same accepted triangles fold to the same `t` and the
same `didHit`. -/
theorem foldTriangles_congr (ray : Ray) (L1 L2 : List Triangle) (hitRecord : HitRecord)
    (h : ∀ tri, TriangleAccepts tri ray false → (tri ∈ L1 ↔ tri ∈ L2)) :
    (foldTriangles ray L1 hitRecord).t = (foldTriangles ray L2 hitRecord).t ∧
    (foldTriangles ray L1 hitRecord).didHit = (foldTriangles ray L2 hitRecord).didHit := by
  have ht : (foldTriangles ray L1 hitRecord).t = (foldTriangles ray L2 hitRecord).t := by
    have h1 := closestHitAll_isLeast id ray (L1.map Primitive.triangle) hitRecord
    have h2 := closestHitAll_isLeast id ray (L2.map Primitive.triangle) hitRecord
    rw [← foldTriangles_eq_closestHitAll] at h1 h2
    have hset : {x | x = hitRecord.t ∨ ∃ p ∈ L1.map Primitive.triangle,
          (closestHit id p ray HitRecord.fresh).1 = true ∧ x = hitDistance id p ray} =
        {x | x = hitRecord.t ∨ ∃ p ∈ L2.map Primitive.triangle,
          (closestHit id p ray HitRecord.fresh).1 = true ∧ x = hitDistance id p ray} := by
      ext x
      simp only [Set.mem_setOf_eq, List.mem_map]
      constructor
      · rintro (hx | ⟨p, ⟨tri, htri, rfl⟩, hhit, hx⟩)
        · left; exact hx
        · right
          have hacc : TriangleAccepts tri ray false :=
            (HitTest_Triangle_fst tri ray HitRecord.fresh false).mp hhit
          exact ⟨_, ⟨tri, (h tri hacc).mp htri, rfl⟩, hhit, hx⟩
      · rintro (hx | ⟨p, ⟨tri, htri, rfl⟩, hhit, hx⟩)
        · left; exact hx
        · right
          have hacc : TriangleAccepts tri ray false :=
            (HitTest_Triangle_fst tri ray HitRecord.fresh false).mp hhit
          exact ⟨_, ⟨tri, (h tri hacc).mpr htri, rfl⟩, hhit, hx⟩
    rw [hset] at h1
    exact h1.unique h2
  refine ⟨ht, ?_⟩
  obtain ⟨-, hd1, -⟩ := foldTriangles_didHit ray L1 hitRecord
  obtain ⟨-, hd2, -⟩ := foldTriangles_didHit ray L2 hitRecord
  rw [Bool.eq_iff_iff, hd1, hd2, ht]

/-- In exact arithmetic, pruning by the BVH does not change the result.  For a mesh whose node
array holds a binary tree rooted at `rootNodeIndex` in which the box of every
internal node contains the boxes of both children, the box of every leaf
contains the vertices of the triangles in its primitive range, and the leaves'
primitive ranges partition the triangle numbers of the mesh, and for a ray
with `ray.min > 0`, all direction components non-zero and `inverseDirection`
their reciprocals: (a) the any-hit `HitTest_TriangleMesh` equals the
disjunction of the any-hit `HitTest_Triangle` over all triangles of the mesh,
and (b) the record's `t` and `didHit` after the closest-hit
`HitTest_TriangleMesh` equal those obtained by folding the closest-hit
`HitTest_Triangle` over all triangles of the mesh. -/
theorem HitTest_TriangleMesh_pruning_exact (mesh : TriangleMesh) (ray : Ray) (T : BVHTree)
    (fuel : Nat) (hitRecord : HitRecord) (allTris : List Triangle)
    (hroot : T.index = mesh.rootNodeIndex) (hT : IsBVH mesh.bvhNodes T)
    (hnest : BoxesNested mesh.bvhNodes T)
    (hleaf : LeafBoxesHoldTriangles mesh T)
    (hall : trianglesFrom mesh (triangleCount mesh) 0 = Except.ok allTris)
    (hpart : List.Perm (leafTriangleNumbers mesh.bvhNodes T.leafIndices)
      (List.range (triangleCount mesh)))
    (hfuel : T.height ≤ fuel)
    (hmin : 0 < ray.min)
    (hdir : ray.direction.x ≠ 0 ∧ ray.direction.y ≠ 0 ∧ ray.direction.z ≠ 0)
    (hinv : ray.inverseDirection.x = 1 / ray.direction.x ∧
      ray.inverseDirection.y = 1 / ray.direction.y ∧
      ray.inverseDirection.z = 1 / ray.direction.z) :
    (∃ outAny, HitTest_TriangleMesh_any fuel mesh ray = Except.ok outAny ∧
      outAny.result = allTris.any (fun tri => HitTest_Triangle_any tri ray)) ∧
    (∃ out, HitTest_TriangleMesh fuel mesh ray hitRecord false = Except.ok out ∧
      out.hitRecord.t = (foldTriangles ray allTris hitRecord).t ∧
      out.hitRecord.didHit = (foldTriangles ray allTris hitRecord).didHit ∧
      out.result = (foldTriangles ray allTris hitRecord).didHit) := by
  have hdata := leafDataOk_of_partition mesh T allTris hall hpart
  obtain ⟨indices, tris, hrun, htris, hmem, hsub⟩ :=
    mesh_candidates_full mesh ray T fuel hroot hT hdata hfuel
  -- a candidate triangle is a triangle of the mesh
  have hfwd : ∀ tri, tri ∈ tris → tri ∈ allTris := by
    intro tri htri
    obtain ⟨i, hi, node, hnode, k, h1, h2, hat⟩ :=
      (mem_candidateTriangles mesh tri indices tris htris).mp htri
    have hk : k ∈ leafTriangleNumbers mesh.bvhNodes T.leafIndices :=
      (mem_leafTriangleNumbers _ _ _).mpr ⟨i, hsub.subset hi, node, hnode, h1, h2⟩
    have hlt : k < triangleCount mesh := List.mem_range.mp (hpart.mem_iff.mp hk)
    exact (mem_trianglesFrom mesh tri _ 0 allTris hall).mpr ⟨k, Nat.zero_le _, by omega, hat⟩
  -- an accepted triangle of the mesh is a candidate triangle
  have hbwd : ∀ (b : Bool) tri, TriangleAccepts tri ray b → tri ∈ allTris → tri ∈ tris := by
    intro b tri hacc htri
    obtain ⟨k, -, hlt, hat⟩ := (mem_trianglesFrom mesh tri _ 0 allTris hall).mp htri
    have hk : k ∈ leafTriangleNumbers mesh.bvhNodes T.leafIndices :=
      hpart.mem_iff.mpr (List.mem_range.mpr (by omega))
    obtain ⟨i, hi, node, hnode, h1, h2⟩ := (mem_leafTriangleNumbers _ _ _).mp hk
    obtain ⟨hv0, hv1, hv2⟩ := hleaf i hi node hnode k h1 h2 tri hat
    have hin := hit_point_inside tri ray b node.minAABB node.maxAABB hacc hv0 hv1 hv2
    have htpos : 0 < triangleT tri ray := lt_of_lt_of_le hmin hacc.2.2.2.2.2.2.1
    obtain ⟨path, hp⟩ := leaf_has_path T i hi
    have hboxes := path_boxes_hold mesh.bvhNodes _ T path i hp hT hnest node hnode hin
    have hcand : i ∈ indices := by
      rw [hmem]
      refine ⟨path, hp, ?_⟩
      intro k2 hk2
      obtain ⟨nodek, hnodek, hink⟩ := hboxes k2 hk2
      exact ⟨nodek, hnodek,
        slab_pass_of_inside nodek.minAABB nodek.maxAABB ray _ htpos hink hdir hinv⟩
    exact (mem_candidateTriangles mesh tri indices tris htris).mpr
      ⟨i, hcand, node, hnode, k, h1, h2, hat⟩
  constructor
  · obtain ⟨k, hk⟩ := HitTest_TriangleMesh_any_eq mesh ray fuel indices tris hrun htris
    refine ⟨_, hk, ?_⟩
    simp only
    rw [Bool.eq_iff_iff, List.any_eq_true, List.any_eq_true]
    constructor
    · rintro ⟨tri, htri, hhit⟩
      exact ⟨tri, hfwd tri htri, hhit⟩
    · rintro ⟨tri, htri, hhit⟩
      have hacc : TriangleAccepts tri ray true :=
        (HitTest_Triangle_fst tri ray HitRecord.fresh true).mp hhit
      exact ⟨tri, hbwd true tri hacc htri, hhit⟩
  · obtain ⟨k, hk⟩ :=
      HitTest_TriangleMesh_closest_eq mesh ray fuel hitRecord indices tris hrun htris
    obtain ⟨ht, hd⟩ := foldTriangles_congr ray tris allTris hitRecord
      (fun tri hacc => ⟨hfwd tri, hbwd false tri hacc⟩)
    exact ⟨_, hk, ht, hd, hd⟩

end GeometryUtils

namespace F32

/-! ## binary32: rounding -/

theorem pow2_eq_zpow (e : Int) : pow2 e = (2 : ℚ) ^ e := by
  unfold pow2
  split_ifs with h
  · obtain ⟨n, rfl⟩ := Int.eq_ofNat_of_zero_le h
    simp
  · push_neg at h
    obtain ⟨n, hn⟩ := Int.eq_ofNat_of_zero_le (by omega : 0 ≤ -e)
    have he : e = -(n : Int) := by omega
    subst he
    simp

theorem pow2_pos (e : Int) : 0 < pow2 e := by
  rw [pow2_eq_zpow]; positivity

theorem pow2_add (a b : Int) : pow2 (a + b) = pow2 a * pow2 b := by
  simp only [pow2_eq_zpow]
  exact zpow_add₀ (by norm_num) a b

theorem pow2_le_pow2 {a b : Int} (h : a ≤ b) : pow2 a ≤ pow2 b := by
  simp only [pow2_eq_zpow]
  exact zpow_le_zpow_right₀ (by norm_num) h

theorem pow2_lt_pow2 {a b : Int} (h : a < b) : pow2 a < pow2 b := by
  simp only [pow2_eq_zpow]
  exact zpow_lt_zpow_right₀ (by norm_num) h

theorem log2Aux_eq (fuel n : Nat) (h : n < 2 ^ fuel) : log2Aux fuel n = Nat.log2 n := by
  induction fuel generalizing n with
  | zero =>
    have hn : n = 0 := by simpa using h
    subst hn
    simp [log2Aux, Nat.log2]
  | succ k ih =>
    rw [log2Aux, Nat.log2]
    by_cases h2 : 2 ≤ n
    · have hk : n / 2 < 2 ^ k := by
        rw [Nat.div_lt_iff_lt_mul (by norm_num)]
        rw [pow_succ] at h
        exact h
      simp only [h2, if_true, ge_iff_le, ih _ hk]
    · simp [h2]

theorem log2_eq (n : Nat) : log2 n = Nat.log2 n :=
  log2Aux_eq n n (Nat.lt_two_pow n)

theorem pow2_log2_le (n : Nat) (hn : n ≠ 0) : pow2 (log2 n : Int) ≤ (n : ℚ) := by
  rw [pow2_eq_zpow, log2_eq, zpow_natCast]
  exact_mod_cast Nat.log2_self_le hn

theorem lt_pow2_log2 (n : Nat) : (n : ℚ) < pow2 ((log2 n : Int) + 1) := by
  rw [pow2_eq_zpow, log2_eq]
  have h : (n : ℚ) < ((2 ^ (n.log2 + 1) : Nat) : ℚ) := by exact_mod_cast Nat.lt_log2_self
  have e : ((2 : ℚ) ^ ((n.log2 : Int) + 1)) = ((2 ^ (n.log2 + 1) : Nat) : ℚ) := by
    rw [show ((n.log2 : Int) + 1) = ((n.log2 + 1 : Nat) : Int) by push_cast; rfl, zpow_natCast]
    push_cast; rfl
  rw [e]; exact h

/-- The exponent found by `ilog2` brackets a positive rational. -/
theorem ilog2_spec (q : ℚ) (hq : 0 < q) : pow2 (ilog2 q) ≤ q ∧ q < pow2 (ilog2 q + 1) := by
  have hnum : 0 < q.num := Rat.num_pos.mpr hq
  have hden : (0 : ℚ) < q.den := by exact_mod_cast q.den_pos
  have hna : ((q.num.natAbs : Nat) : ℚ) = (q.num : ℚ) := by
    have h : ((q.num.natAbs : Nat) : Int) = q.num := Int.natAbs_of_nonneg hnum.le
    rw [← Int.cast_natCast, h]
  have hqe : q = (q.num.natAbs : ℚ) / (q.den : ℚ) := by
    rw [hna]; exact (Rat.num_div_den q).symm
  have ha0 : q.num.natAbs ≠ 0 := by
    intro h; rw [Int.natAbs_eq_zero] at h; omega
  have h1 := pow2_log2_le q.num.natAbs ha0
  have h2 := lt_pow2_log2 q.num.natAbs
  have h3 := pow2_log2_le q.den q.den_nz
  have h4 := lt_pow2_log2 q.den
  set a : Int := (log2 q.num.natAbs : Int) with ha
  set b : Int := (log2 q.den : Int) with hb
  have hlow : pow2 (a - b - 1) ≤ q := by
    have e : pow2 a = pow2 (a - b - 1) * pow2 (b + 1) := by
      rw [← pow2_add]; congr 1; ring
    rw [hqe, le_div_iff₀ hden]
    calc pow2 (a - b - 1) * (q.den : ℚ) ≤ pow2 (a - b - 1) * pow2 (b + 1) :=
          mul_le_mul_of_nonneg_left h4.le (pow2_pos _).le
      _ = pow2 a := e.symm
      _ ≤ _ := h1
  have hhigh : q < pow2 (a - b + 1) := by
    have e : pow2 (a + 1) = pow2 (a - b + 1) * pow2 b := by
      rw [← pow2_add]; congr 1; ring
    rw [hqe, div_lt_iff₀ hden]
    calc (q.num.natAbs : ℚ) < pow2 (a + 1) := h2
      _ = pow2 (a - b + 1) * pow2 b := e
      _ ≤ pow2 (a - b + 1) * (q.den : ℚ) :=
          mul_le_mul_of_nonneg_left h3 (pow2_pos _).le
  unfold ilog2
  simp only [← ha, ← hb]
  split_ifs with h
  · exact ⟨h, hhigh⟩
  · push_neg at h
    refine ⟨hlow, ?_⟩
    rw [show a - b - 1 + 1 = a - b by ring]
    exact h

theorem ilog2_mono {p q : ℚ} (hp : 0 < p) (hpq : p ≤ q) : ilog2 p ≤ ilog2 q := by
  by_contra hlt
  push_neg at hlt
  have h1 := (ilog2_spec p hp).1
  have h2 := (ilog2_spec q (hp.trans_le hpq)).2
  have h3 : pow2 (ilog2 q + 1) ≤ pow2 (ilog2 p) := pow2_le_pow2 (by omega)
  linarith

end F32

namespace F32

theorem floor_le_rne (x : ℚ) : ⌊x⌋ ≤ rne x := by
  unfold rne; split_ifs <;> omega

theorem rne_le_floor_succ (x : ℚ) : rne x ≤ ⌊x⌋ + 1 := by
  unfold rne; split_ifs <;> omega

theorem rne_intCast (n : Int) : rne (n : ℚ) = n := by
  unfold rne
  simp

theorem rne_mono {x y : ℚ} (h : x ≤ y) : rne x ≤ rne y := by
  have hf : ⌊x⌋ ≤ ⌊y⌋ := Int.floor_mono h
  rcases lt_or_eq_of_le hf with hlt | heq
  · have h1 := rne_le_floor_succ x
    have h2 := floor_le_rne y
    omega
  · unfold rne
    rw [← heq]
    have hxy : x - (⌊x⌋ : ℚ) ≤ y - (⌊x⌋ : ℚ) := by linarith
    split_ifs <;> first | omega | (exfalso; linarith)

theorem rne_nonneg {x : ℚ} (h : 0 ≤ x) : 0 ≤ rne x := by
  have := rne_mono h
  rwa [show ((0 : ℚ)) = ((0 : Int) : ℚ) by simp, rne_intCast] at this

theorem rne_le_of_le {x : ℚ} {n : Int} (h : x ≤ (n : ℚ)) : rne x ≤ n := by
  have := rne_mono h
  rwa [rne_intCast] at this

theorem le_rne_of_le {x : ℚ} {n : Int} (h : (n : ℚ) ≤ x) : n ≤ rne x := by
  have := rne_mono h
  rwa [rne_intCast] at this

theorem quantum_pos (q : ℚ) : 0 < quantum q := pow2_pos _

theorem roundMag_nonneg {q : ℚ} (hq : 0 ≤ q) : 0 ≤ roundMag q := by
  unfold roundMag
  have h1 : 0 ≤ q / quantum q := div_nonneg hq (quantum_pos q).le
  have h2 : (0 : ℚ) ≤ (rne (q / quantum q) : ℚ) := by exact_mod_cast rne_nonneg h1
  exact mul_nonneg h2 (quantum_pos q).le

/-- Rounding a positive number to the nearest binary32 magnitude is
monotone. -/
theorem roundMag_mono {p q : ℚ} (hp : 0 < p) (hpq : p ≤ q) : roundMag p ≤ roundMag q := by
  have hq : 0 < q := hp.trans_le hpq
  have hlog := ilog2_mono hp hpq
  rcases lt_or_eq_of_le (max_le_max hlog (le_refl (-126 : Int))) with hlt | heq
  · -- the exponents differ: a power of two lies between the two results
    set ep := max (ilog2 p) (-126) with hep
    set eq := max (ilog2 q) (-126) with heq'
    have hqe : eq = ilog2 q := by
      rcases le_total (ilog2 q) (-126) with h | h
      · exfalso
        have h1 : eq = -126 := max_eq_right h
        have h2 : (-126 : Int) ≤ ep := le_max_right _ _
        omega
      · exact max_eq_left h
    have hpu : p < pow2 (ep + 1) :=
      (ilog2_spec p hp).2.trans_le (pow2_le_pow2 (by have := le_max_left (ilog2 p) (-126); omega))
    have hql : pow2 eq ≤ q := hqe ▸ (ilog2_spec q hq).1
    have h1 : roundMag p ≤ pow2 (ep + 1) := by
      unfold roundMag quantum
      rw [← hep]
      have e : pow2 (ep + 1) = ((2 ^ 24 : Int) : ℚ) * pow2 (ep - 23) := by
        rw [show ep + 1 = 24 + (ep - 23) by ring, pow2_add]
        congr 1
      rw [e]
      refine mul_le_mul_of_nonneg_right ?_ (pow2_pos _).le
      have : rne (p / pow2 (ep - 23)) ≤ 2 ^ 24 := by
        apply rne_le_of_le
        rw [div_le_iff₀ (pow2_pos _), ← e]
        exact hpu.le
      exact_mod_cast this
    have h2 : pow2 eq ≤ roundMag q := by
      unfold roundMag quantum
      rw [← heq']
      have e : pow2 eq = ((2 ^ 23 : Int) : ℚ) * pow2 (eq - 23) := by
        rw [show eq = 23 + (eq - 23) by ring, pow2_add, show 23 + (eq - 23) - 23 = eq - 23 by ring]
        congr 1
      rw [e]
      refine mul_le_mul_of_nonneg_right ?_ (pow2_pos _).le
      have : (2 ^ 23 : Int) ≤ rne (q / pow2 (eq - 23)) := by
        apply le_rne_of_le
        rw [le_div_iff₀ (pow2_pos _), ← e]
        exact hql
      exact_mod_cast this
    have h3 : pow2 (ep + 1) ≤ pow2 eq := pow2_le_pow2 (by omega)
    linarith
  · -- the same exponent: the same grid
    unfold roundMag quantum
    rw [heq]
    refine mul_le_mul_of_nonneg_right ?_ (pow2_pos _).le
    have : rne (p / pow2 (max (ilog2 q) (-126) - 23)) ≤ rne (q / pow2 (max (ilog2 q) (-126) - 23)) :=
      rne_mono (div_le_div_of_nonneg_right hpq (pow2_pos _).le)
    exact_mod_cast this

theorem neg_neg_eq (x : F32) : neg (neg x) = x := by
  cases x with
  | fin q =>
    by_cases h : q = 0
    · simp [neg, h]
    · simp [neg, h]
  | _ => simp [neg]

theorem rnd_neg {q : ℚ} (hq : q ≠ 0) : rnd (-q) = neg (rnd q) := by
  rcases lt_or_gt_of_ne hq with h | h
  · have h1 : 0 < -q := by linarith
    have h2 : ¬ (0 < q) := by linarith
    have h3 : -q ≠ 0 := by linarith
    simp only [rnd, hq, h3, h1, h2, if_true, if_false]
    split_ifs with h4 h5
    · simp [neg, h5]
    · have : -roundMag (-q) ≠ 0 := by simpa using h5
      simp [neg, h5]
    · simp [neg]
  · have h1 : ¬ (0 < -q) := by linarith
    have h3 : -q ≠ 0 := by linarith
    simp only [rnd, hq, h3, h1, h, if_true, if_false, neg_neg]
    split_ifs with h4 h5
    · simp [neg, h5]
    · simp [neg, h5]
    · simp [neg]

/-- What rounding a positive number gives: a non-negative number or `+∞`. -/
theorem rnd_of_pos {q : ℚ} (hq : 0 < q) :
    rnd q = posInf ∨ ∃ r, 0 ≤ r ∧ rnd q = fin r := by
  have h0 : q ≠ 0 := hq.ne'
  simp only [rnd, h0, hq, if_true, if_false]
  split_ifs
  · exact Or.inr ⟨_, roundMag_nonneg hq.le, rfl⟩
  · exact Or.inl rfl

theorem rnd_not_nan (q : ℚ) : rnd q ≠ nan := by
  unfold rnd
  split_ifs <;> simp

/-- Rounding is monotone. -/
theorem rnd_mono {p q : ℚ} (h : p ≤ q) : le (rnd p) (rnd q) = true := by
  rcases lt_trichotomy p 0 with hp | hp | hp
  · have hp' : ¬ (0 < p) := by linarith
    have hnp : 0 < -p := by linarith
    rcases lt_trichotomy q 0 with hq | hq | hq
    · have hq' : ¬ (0 < q) := by linarith
      have hm := roundMag_mono (by linarith : 0 < -q) (by linarith : -q ≤ -p)
      have hn := roundMag_nonneg (by linarith : 0 ≤ -q)
      simp only [rnd, hp.ne, hq.ne, hp', hq', if_false]
      split_ifs <;> simp_all [le, toRat] <;> linarith
    · subst hq
      have hn := roundMag_nonneg hnp.le
      simp only [rnd, hp.ne, hp', if_false, if_true]
      split_ifs <;> simp_all [le, toRat]
    · have hn := roundMag_nonneg hnp.le
      have hn2 := roundMag_nonneg hq.le
      simp only [rnd, hp.ne, hq.ne', hp', hq, if_false, if_true]
      split_ifs <;> simp_all [le, toRat] <;> linarith
  · subst hp
    rcases lt_or_eq_of_le h with hq | hq
    · have hn2 := roundMag_nonneg hq.le
      simp only [rnd, hq.ne', hq, if_false, if_true]
      split_ifs <;> simp_all [le, toRat]
    · subst hq
      simp [rnd, le, toRat]
  · have hq : 0 < q := hp.trans_le h
    have hm := roundMag_mono hp h
    simp only [rnd, hp.ne', hq.ne', hp, hq, if_false, if_true]
    split_ifs <;> simp_all [le, toRat] <;> linarith

end F32

namespace F32

/-! ## binary32: comparisons -/

theorem lt_nan_left (x : F32) : lt nan x = false := by cases x <;> rfl

theorem lt_nan_right (x : F32) : lt x nan = false := by cases x <;> rfl

theorem le_nan_left (x : F32) : le nan x = false := by cases x <;> rfl

theorem le_nan_right (x : F32) : le x nan = false := by cases x <;> rfl

theorem lt_posInf_left (x : F32) : lt posInf x = false := by cases x <;> rfl

theorem lt_negInf_right (x : F32) : lt x negInf = false := by cases x <;> rfl

theorem lt_irrefl (x : F32) : lt x x = false := by
  cases x <;> simp [lt]

theorem lt_false_of_le {a b : F32} (h : le a b = true) : lt b a = false := by
  cases a <;> cases b <;> simp_all [lt, le, toRat]

theorem le_of_not_lt {a b : F32} (h : lt b a = false) (ha : a.isNaN = false)
    (hb : b.isNaN = false) : le a b = true := by
  cases a <;> cases b <;> simp_all [lt, le, toRat, isNaN]

theorem le_of_lt {a b : F32} (h : lt a b = true) : le a b = true := by
  cases a <;> cases b <;> simp_all [lt, le, toRat] <;> exact h.le

theorem lt_trans {a b c : F32} (h1 : lt a b = true) (h2 : lt b c = true) : lt a c = true := by
  cases a <;> cases b <;> cases c <;> simp_all [lt, toRat] <;> linarith

theorem lt_of_lt_of_le {a b c : F32} (h1 : lt a b = true) (h2 : le b c = true) :
    lt a c = true := by
  cases a <;> cases b <;> cases c <;> simp_all [lt, le, toRat] <;> linarith

theorem lt_of_le_of_lt {a b c : F32} (h1 : le a b = true) (h2 : lt b c = true) :
    lt a c = true := by
  cases a <;> cases b <;> cases c <;> simp_all [lt, le, toRat] <;> linarith

theorem le_trans {a b c : F32} (h1 : le a b = true) (h2 : le b c = true) : le a c = true := by
  cases a <;> cases b <;> cases c <;> simp_all [lt, le, toRat] <;> linarith

theorem not_nan_of_le_left {a b : F32} (h : le a b = true) : a.isNaN = false := by
  cases a <;> simp_all [le, isNaN]

theorem not_nan_of_le_right {a b : F32} (h : le a b = true) : b.isNaN = false := by
  cases a <;> cases b <;> simp_all [le, isNaN]

theorem not_nan_of_lt_left {a b : F32} (h : lt a b = true) : a.isNaN = false := by
  cases a <;> simp_all [lt, isNaN]

theorem not_nan_of_lt_right {a b : F32} (h : lt a b = true) : b.isNaN = false := by
  cases a <;> cases b <;> simp_all [lt, isNaN]

/-! ## binary32: the same number up to the sign of zero -/

theorem Eqv.eqv_refl (x : F32) : Eqv x x := Or.inl rfl

theorem Eqv.eqv_symm {x y : F32} (h : Eqv x y) : Eqv y x := by
  rcases h with h | ⟨h1, h2⟩
  · exact Or.inl h.symm
  · exact Or.inr ⟨h2, h1⟩

theorem Eqv.eqv_trans {x y z : F32} (h1 : Eqv x y) (h2 : Eqv y z) : Eqv x z := by
  rcases h1 with h1 | ⟨h1, h1'⟩
  · subst h1; exact h2
  · rcases h2 with h2 | ⟨h2, h2'⟩
    · subst h2; exact Or.inr ⟨h1, h1'⟩
    · exact Or.inr ⟨h1, h2'⟩

theorem isZero_iff (x : F32) : x.isZero = true ↔ x = negZero ∨ x = fin 0 := by
  cases x <;> simp [isZero]

theorem Eqv.eqv_toRat {x y : F32} (h : Eqv x y) : x.toRat = y.toRat := by
  rcases h with h | ⟨h1, h2⟩
  · rw [h]
  · rw [isZero_iff] at h1 h2
    rcases h1 with h1 | h1 <;> rcases h2 with h2 | h2 <;> simp [h1, h2, toRat]

theorem Eqv.eqv_isNaN {x y : F32} (h : Eqv x y) : x.isNaN = y.isNaN := by
  rcases h with h | ⟨h1, h2⟩
  · rw [h]
  · rw [isZero_iff] at h1 h2
    rcases h1 with h1 | h1 <;> rcases h2 with h2 | h2 <;> simp [h1, h2, isNaN]

theorem Eqv.lt_congr {x x' y y' : F32} (hx : Eqv x x') (hy : Eqv y y') :
    lt x y = lt x' y' := by
  rcases hx with hx | ⟨hx1, hx2⟩
  · subst hx
    rcases hy with hy | ⟨hy1, hy2⟩
    · subst hy; rfl
    · rw [isZero_iff] at hy1 hy2
      rcases hy1 with h1 | h1 <;> rcases hy2 with h2 | h2 <;> subst h1 <;> subst h2 <;>
        cases x <;> simp [lt, toRat]
  · rw [isZero_iff] at hx1 hx2
    rcases hy with hy | ⟨hy1, hy2⟩
    · subst hy
      rcases hx1 with h1 | h1 <;> rcases hx2 with h2 | h2 <;> subst h1 <;> subst h2 <;>
        cases y <;> simp [lt, toRat]
    · rw [isZero_iff] at hy1 hy2
      rcases hx1 with h1 | h1 <;> rcases hx2 with h2 | h2 <;> subst h1 <;> subst h2 <;>
        rcases hy1 with h3 | h3 <;> rcases hy2 with h4 | h4 <;> subst h3 <;> subst h4 <;>
        simp [lt, toRat]

theorem Eqv.le_congr {x x' y y' : F32} (hx : Eqv x x') (hy : Eqv y y') :
    le x y = le x' y' := by
  rcases hx with hx | ⟨hx1, hx2⟩
  · subst hx
    rcases hy with hy | ⟨hy1, hy2⟩
    · subst hy; rfl
    · rw [isZero_iff] at hy1 hy2
      rcases hy1 with h1 | h1 <;> rcases hy2 with h2 | h2 <;> subst h1 <;> subst h2 <;>
        cases x <;> simp [le, toRat]
  · rw [isZero_iff] at hx1 hx2
    rcases hy with hy | ⟨hy1, hy2⟩
    · subst hy
      rcases hx1 with h1 | h1 <;> rcases hx2 with h2 | h2 <;> subst h1 <;> subst h2 <;>
        cases y <;> simp [le, toRat]
    · rw [isZero_iff] at hy1 hy2
      rcases hx1 with h1 | h1 <;> rcases hx2 with h2 | h2 <;> subst h1 <;> subst h2 <;>
        rcases hy1 with h3 | h3 <;> rcases hy2 with h4 | h4 <;> subst h3 <;> subst h4 <;>
        simp [le, toRat]

/-- Two numbers neither of which is below the other are the same number. -/
theorem Eqv.of_not_lt {a b : F32} (h1 : lt a b = false) (h2 : lt b a = false)
    (ha : a.isNaN = false) (hb : b.isNaN = false) : Eqv a b := by
  cases a <;> cases b <;> simp_all [lt, toRat, isNaN, Eqv, isZero]
  · rename_i q
    exact le_antisymm h1 h2
  · rename_i q
    exact le_antisymm h2 h1
  · rename_i p q
    have := le_antisymm h2 h1
    by_cases hp : p = 0
    · right; exact ⟨hp, by rw [← this, hp]⟩
    · left; exact this

theorem std_min_not_nan {a b : F32} (ha : a.isNaN = false) (hb : b.isNaN = false) :
    (std_min a b).isNaN = false := by
  unfold std_min; split_ifs <;> assumption

theorem std_max_not_nan {a b : F32} (ha : a.isNaN = false) (hb : b.isNaN = false) :
    (std_max a b).isNaN = false := by
  unfold std_max; split_ifs <;> assumption

theorem Eqv.std_min_congr {a a' b b' : F32} (ha : Eqv a a') (hb : Eqv b b') :
    Eqv (std_min a b) (std_min a' b') := by
  unfold std_min
  rw [Eqv.lt_congr hb ha]
  split_ifs <;> assumption

theorem Eqv.std_max_congr {a a' b b' : F32} (ha : Eqv a a') (hb : Eqv b b') :
    Eqv (std_max a b) (std_max a' b') := by
  unfold std_max
  rw [Eqv.lt_congr ha hb]
  split_ifs <;> assumption

/-- `std::min` is symmetric on numbers, up to the sign of zero. -/
theorem std_min_comm {a b : F32} (ha : a.isNaN = false) (hb : b.isNaN = false) :
    Eqv (std_min a b) (std_min b a) := by
  unfold std_min
  by_cases h1 : lt b a = true
  · have h2 : lt a b = false := lt_false_of_le (le_of_lt h1)
    simp [h1, h2, Eqv.eqv_refl]
  · have h1' : lt b a = false := by simpa using h1
    by_cases h2 : lt a b = true
    · simp [h1', h2, Eqv.eqv_refl]
    · have h2' : lt a b = false := by simpa using h2
      simp only [h1', h2', if_false, Bool.false_eq_true]
      exact Eqv.of_not_lt h2' h1' ha hb

/-- `std::max` is symmetric on numbers, up to the sign of zero. -/
theorem std_max_comm {a b : F32} (ha : a.isNaN = false) (hb : b.isNaN = false) :
    Eqv (std_max a b) (std_max b a) := by
  unfold std_max
  by_cases h1 : lt a b = true
  · have h2 : lt b a = false := lt_false_of_le (le_of_lt h1)
    simp [h1, h2, Eqv.eqv_refl]
  · have h1' : lt a b = false := by simpa using h1
    by_cases h2 : lt b a = true
    · simp [h1', h2, Eqv.eqv_refl]
    · have h2' : lt b a = false := by simpa using h2
      simp only [h1', h2', if_false, Bool.false_eq_true]
      exact Eqv.of_not_lt h1' h2' ha hb

end F32

namespace F32

/-! ## binary32: negation -/

theorem isNaN_neg (x : F32) : (neg x).isNaN = x.isNaN := by
  cases x with
  | fin q => by_cases h : q = 0 <;> simp [neg, isNaN, h]
  | _ => simp [neg, isNaN]

theorem isInf_neg (x : F32) : (neg x).isInf = x.isInf := by
  cases x with
  | fin q => by_cases h : q = 0 <;> simp [neg, isInf, h]
  | _ => simp [neg, isInf]

theorem isZero_neg (x : F32) : (neg x).isZero = x.isZero := by
  cases x with
  | fin q => by_cases h : q = 0 <;> simp [neg, isZero, h]
  | _ => simp [neg, isZero]

theorem toRat_neg (x : F32) : (neg x).toRat = -x.toRat := by
  cases x with
  | fin q => by_cases h : q = 0 <;> simp [neg, toRat, h]
  | _ => simp [neg, toRat]

theorem signBit_neg (x : F32) (h : x.isNaN = false) : (neg x).signBit = !x.signBit := by
  cases x with
  | fin q =>
    by_cases h0 : q = 0
    · simp [neg, signBit, h0]
    · rcases lt_or_gt_of_ne h0 with h1 | h1
      · have : ¬ (0 < q) := by linarith
        simp [neg, signBit, h0, h1, this]
      · have : ¬ (q < 0) := by linarith
        simp [neg, signBit, h0, h1, this]
  | nan => simp [isNaN] at h
  | _ => simp [neg, signBit]

theorem mul_neg_neg (x y : F32) : mul (neg x) (neg y) = mul x y := by
  unfold mul
  simp only [isNaN_neg, isInf_neg, isZero_neg, toRat_neg, neg_mul_neg]
  by_cases hx : x.isNaN = true
  · simp [hx]
  · by_cases hy : y.isNaN = true
    · simp [hy]
    · have hx' : x.isNaN = false := by simpa using hx
      have hy' : y.isNaN = false := by simpa using hy
      rw [signBit_neg x hx', signBit_neg y hy']
      cases x.signBit <;> cases y.signBit <;> rfl

theorem rnd_neg_eqv (q : ℚ) : Eqv (rnd (-q)) (neg (rnd q)) := by
  by_cases h : q = 0
  · subst h
    right
    simp [rnd, neg, isZero]
  · exact Or.inl (rnd_neg h)

theorem Eqv.neg_congr {x y : F32} (h : Eqv x y) : Eqv (neg x) (neg y) := by
  rcases h with h | ⟨h1, h2⟩
  · exact Or.inl (by rw [h])
  · exact Or.inr ⟨by rw [isZero_neg]; exact h1, by rw [isZero_neg]; exact h2⟩

theorem isZero_rnd_zero : (rnd 0).isZero = true := by
  simp [rnd, isZero]

/-- The sum of two finite values is the rounded exact sum, up to the sign of
zero. -/
theorem add_eqv_rnd {x y : F32} (hx : x.Finite) (hy : y.Finite) :
    Eqv (add x y) (rnd (x.toRat + y.toRat)) := by
  rcases hx with rfl | ⟨p, rfl⟩ <;> rcases hy with rfl | ⟨q, rfl⟩
  · right; simp [add, isNaN, isInf, toRat, isZero, rnd]
  · left; simp [add, isNaN, isInf, toRat]
  · left; simp [add, isNaN, isInf, toRat]
  · left; simp [add, isNaN, isInf, toRat]

theorem finite_neg {x : F32} (hx : x.Finite) : (neg x).Finite := by
  rcases hx with rfl | ⟨p, rfl⟩
  · exact Or.inr ⟨0, rfl⟩
  · by_cases h : p = 0
    · left; simp [neg, h]
    · right; exact ⟨-p, by simp [neg, h]⟩

theorem not_finite_cases {x : F32} (hx : ¬ x.Finite) : x = nan ∨ x = negInf ∨ x = posInf := by
  cases x with
  | nan => simp
  | negInf => simp
  | posInf => simp
  | negZero => exact absurd (Or.inl rfl) hx
  | fin q => exact absurd (Or.inr ⟨q, rfl⟩) hx

theorem sub_neg_neg_eqv (a b : F32) : Eqv (sub (neg a) (neg b)) (neg (sub a b)) := by
  unfold sub
  rw [neg_neg_eq]
  by_cases ha : a.Finite
  · by_cases hb : b.Finite
    · have h1 := add_eqv_rnd (finite_neg ha) hb
      have h2 := add_eqv_rnd ha (finite_neg hb)
      rw [toRat_neg] at h1 h2
      have h3 : -a.toRat + b.toRat = -(a.toRat + -b.toRat) := by ring
      rw [h3] at h1
      exact h1.eqv_trans ((rnd_neg_eqv _).eqv_trans (Eqv.neg_congr h2.eqv_symm))
    · left
      rcases not_finite_cases hb with rfl | rfl | rfl <;>
        rcases ha with rfl | ⟨p, rfl⟩ <;>
        (try by_cases hp : p = 0) <;> simp [add, neg, isNaN, isInf, signBit, *]
  · left
    rcases not_finite_cases ha with rfl | rfl | rfl <;> cases b with
    | fin q => by_cases hq : q = 0 <;> simp [add, neg, isNaN, isInf, signBit, hq]
    | _ => simp [add, neg, isNaN, isInf, signBit]

theorem Eqv.mul_congr_left {x x' : F32} (h : Eqv x x') (y : F32) :
    Eqv (mul x y) (mul x' y) := by
  rcases h with h | ⟨h1, h2⟩
  · rw [h]; exact Eqv.eqv_refl _
  · rw [isZero_iff] at h1 h2
    rcases h1 with rfl | rfl <;> rcases h2 with rfl | rfl <;> cases y with
    | fin q =>
      by_cases hq : q = 0
      · simp [mul, isNaN, isInf, isZero, signBit, signedZero, Eqv, hq]
      · by_cases hq' : q < 0 <;>
          simp [mul, isNaN, isInf, isZero, signBit, signedZero, Eqv, hq, hq']
    | _ => simp [mul, isNaN, isInf, isZero, signBit, signedZero, Eqv]

/-- One slab value of the reflected ray and box is the other slab value of the
same axis, up to the sign of zero. -/
theorem slab_value_reflect (b o i : F32) :
    Eqv (mul (sub (neg b) (neg o)) (neg i)) (mul (sub b o) i) := by
  have h := Eqv.mul_congr_left (sub_neg_neg_eqv b o) (neg i)
  rw [mul_neg_neg] at h
  exact h

end F32

namespace binary32

namespace GeometryUtils

theorem SlabTest_BoundingBox_eq32 (minAABB maxAABB : Vector3) (ray : Ray) :
    SlabTest_BoundingBox minAABB maxAABB ray =
      (F32.lt (F32.fin 0) (slabTmax minAABB maxAABB ray) &&
        F32.le (slabTmin minAABB maxAABB ray) (slabTmax minAABB maxAABB ray)) := rfl

/-- C16, amended: when none of the six slab values is NaN, the slab test gives
the same result for the ray reflected through the world origin (`origin`,
`direction` and `inverseDirection` negated) and the reflected box (corners
`-max` and `-min`). -/
theorem SlabTest_BoundingBox_reflect (minAABB maxAABB : Vector3) (ray : Ray)
    (h : ∀ t ∈ slabValues minAABB maxAABB ray, t.isNaN = false) :
    SlabTest_BoundingBox maxAABB.negate minAABB.negate (reflectRay ray) =
      SlabTest_BoundingBox minAABB maxAABB ray := by
  simp only [slabValues, List.mem_cons, List.mem_singleton, forall_eq_or_imp, forall_eq,
    List.not_mem_nil, false_implies, implies_true, and_true] at h
  obtain ⟨hx1, hx2, hy1, hy2, hz1, hz2⟩ := h
  have ex1 := F32.slab_value_reflect maxAABB.x ray.origin.x ray.inverseDirection.x
  have ex2 := F32.slab_value_reflect minAABB.x ray.origin.x ray.inverseDirection.x
  have ey1 := F32.slab_value_reflect maxAABB.y ray.origin.y ray.inverseDirection.y
  have ey2 := F32.slab_value_reflect minAABB.y ray.origin.y ray.inverseDirection.y
  have ez1 := F32.slab_value_reflect maxAABB.z ray.origin.z ray.inverseDirection.z
  have ez2 := F32.slab_value_reflect minAABB.z ray.origin.z ray.inverseDirection.z
  have hmin : F32.Eqv (slabTmin maxAABB.negate minAABB.negate (reflectRay ray))
      (slabTmin minAABB maxAABB ray) := by
    unfold slabTmin
    simp only [Vector3.negate, reflectRay]
    refine F32.Eqv.std_max_congr (F32.Eqv.std_max_congr ?_ ?_) ?_
    · exact (F32.Eqv.std_min_congr ex1 ex2).eqv_trans (F32.std_min_comm hx2 hx1)
    · exact (F32.Eqv.std_min_congr ey1 ey2).eqv_trans (F32.std_min_comm hy2 hy1)
    · exact (F32.Eqv.std_min_congr ez1 ez2).eqv_trans (F32.std_min_comm hz2 hz1)
  have hmax : F32.Eqv (slabTmax maxAABB.negate minAABB.negate (reflectRay ray))
      (slabTmax minAABB maxAABB ray) := by
    unfold slabTmax
    simp only [Vector3.negate, reflectRay]
    refine F32.Eqv.std_min_congr (F32.Eqv.std_min_congr ?_ ?_) ?_
    · exact (F32.Eqv.std_max_congr ex1 ex2).eqv_trans (F32.std_max_comm hx2 hx1)
    · exact (F32.Eqv.std_max_congr ey1 ey2).eqv_trans (F32.std_max_comm hy2 hy1)
    · exact (F32.Eqv.std_max_congr ez1 ez2).eqv_trans (F32.std_max_comm hz2 hz1)
  rw [SlabTest_BoundingBox_eq32, SlabTest_BoundingBox_eq32,
    F32.Eqv.lt_congr (F32.Eqv.eqv_refl _) hmax, F32.Eqv.le_congr hmin hmax]

/-- C16 at the unit cube and the diagonal ray from `(-1, -1, -1)`: both the ray
and its reflection meet their box. -/
theorem SlabTest_BoundingBox_reflect_witness :
    SlabTest_BoundingBox cubeMax.negate cubeMin.negate (reflectRay cornerRay) =
        SlabTest_BoundingBox cubeMin cubeMax cornerRay ∧
      SlabTest_BoundingBox cubeMin cubeMax cornerRay = true :=
  ⟨SlabTest_BoundingBox_reflect cubeMin cubeMax cornerRay (by decide!), by decide!⟩

/-- C16 fails on the code: for the unit cube and the ray from `(0.5, 0, -5)`
along `+z`, whose inverse direction is `(+∞, +∞, 1)`, the slab test returns
true (`ty1 = 0 * ∞` is NaN and `std::max(tmin, NaN)` keeps `tmin`), while for
the reflected ray and box it returns false (`std::min(+∞, NaN)` is `+∞` and
becomes `tmin`). -/
theorem SlabTest_BoundingBox_reflect_counterexample :
    SlabTest_BoundingBox cubeMin cubeMax axisRay = true ∧
      SlabTest_BoundingBox cubeMax.negate cubeMin.negate (reflectRay axisRay) = false := by
  decide!

end GeometryUtils

end binary32

namespace F32

/-! ## binary32: operations that do not round -/

theorem sim_fin (q : ℚ) : Sim (fin q) q := Or.inl rfl

theorem Sim.sim_finite {x : F32} {q : ℚ} (h : Sim x q) : x.Finite := by
  rcases h with h | ⟨-, h⟩
  · exact Or.inr ⟨q, h⟩
  · exact Or.inl h

theorem Sim.sim_toRat {x : F32} {q : ℚ} (h : Sim x q) : x.toRat = q := by
  rcases h with h | ⟨h0, h⟩
  · rw [h]; rfl
  · rw [h, h0]; rfl

theorem sim_of_finite {x : F32} (h : x.Finite) : Sim x x.toRat := by
  rcases h with rfl | ⟨q, rfl⟩
  · exact Or.inr ⟨rfl, rfl⟩
  · exact Or.inl rfl

theorem Sim.isNaN_false {x : F32} {q : ℚ} (h : Sim x q) : x.isNaN = false := by
  rcases h with h | ⟨-, h⟩ <;> rw [h] <;> rfl

theorem Sim.isInf_false {x : F32} {q : ℚ} (h : Sim x q) : x.isInf = false := by
  rcases h with h | ⟨-, h⟩ <;> rw [h] <;> rfl

theorem Sim.isZero_eq {x : F32} {q : ℚ} (h : Sim x q) : x.isZero = decide (q = 0) := by
  rcases h with h | ⟨h0, h⟩
  · rw [h]; rfl
  · rw [h, h0]; simp [F32.isZero]

theorem sim_zero_of_isZero {x : F32} (h : x.isZero = true) : Sim x 0 := by
  rw [isZero_iff] at h
  rcases h with h | h
  · exact Or.inr ⟨rfl, h⟩
  · exact Or.inl h

theorem Sim.neg_sim {x : F32} {q : ℚ} (h : Sim x q) : Sim (neg x) (-q) := by
  rcases h with h | ⟨h0, h⟩
  · subst h
    by_cases hq : q = 0
    · right; simp [F32.neg, hq]
    · left; simp [F32.neg, hq]
  · subst h; subst h0
    left; simp [F32.neg]

theorem Sim.add_exact {x y : F32} {p q : ℚ} (hx : Sim x p) (hy : Sim y q) (he : Rep (p + q)) :
    Sim (add x y) (p + q) := by
  have e := add_eqv_rnd hx.sim_finite hy.sim_finite
  rw [hx.sim_toRat, hy.sim_toRat, he] at e
  rcases e with e | ⟨e1, e2⟩
  · exact Or.inl e
  · have h0 : p + q = 0 := by simpa [F32.isZero] using e2
    rw [h0]
    exact sim_zero_of_isZero e1

theorem Sim.sub_exact {x y : F32} {p q : ℚ} (hx : Sim x p) (hy : Sim y q) (he : Rep (p - q)) :
    Sim (sub x y) (p - q) := by
  have h := Sim.add_exact hx hy.neg_sim (by rw [← sub_eq_add_neg]; exact he)
  rw [← sub_eq_add_neg] at h
  exact h

theorem Sim.mul_exact {x y : F32} {p q : ℚ} (hx : Sim x p) (hy : Sim y q) (he : Rep (p * q)) :
    Sim (mul x y) (p * q) := by
  unfold F32.mul
  simp only [hx.isNaN_false, hy.isNaN_false, hx.isInf_false, hy.isInf_false, hx.isZero_eq, hy.isZero_eq, hx.sim_toRat,
    hy.sim_toRat, Bool.or_self, Bool.false_eq_true, if_false]
  by_cases h0 : p = 0 ∨ q = 0
  · have hpq : p * q = 0 := by rcases h0 with h | h <;> simp [h]
    have hc : (decide (p = 0) || decide (q = 0)) = true := by
      rcases h0 with h | h <;> simp [h]
    rw [hc, if_pos rfl, hpq]
    unfold signedZero
    split_ifs
    · exact Or.inr ⟨rfl, rfl⟩
    · exact Or.inl rfl
  · push_neg at h0
    have hc : (decide (p = 0) || decide (q = 0)) = false := by simp [h0.1, h0.2]
    rw [hc, if_neg (by simp), he]
    exact Or.inl rfl

theorem Sim.div_exact {x y : F32} {p q : ℚ} (hx : Sim x p) (hy : Sim y q) (hq : q ≠ 0)
    (he : Rep (p / q)) : Sim (div x y) (p / q) := by
  unfold F32.div
  simp only [hx.isNaN_false, hy.isNaN_false, hx.isInf_false, hy.isInf_false, hx.isZero_eq, hy.isZero_eq, hx.sim_toRat,
    hy.sim_toRat, Bool.or_self, Bool.false_eq_true, if_false, hq, decide_False]
  by_cases h0 : p = 0
  · subst h0
    simp only [decide_True, if_true, zero_div]
    unfold signedZero
    split_ifs
    · exact Or.inr ⟨rfl, rfl⟩
    · exact Or.inl rfl
  · simp only [h0, decide_False, Bool.false_eq_true, if_false]
    rw [he]
    exact Or.inl rfl

theorem Sim.lt_eq {x y : F32} {p q : ℚ} (hx : Sim x p) (hy : Sim y q) :
    lt x y = decide (p < q) := by
  rcases hx with hx | ⟨hp, hx⟩ <;> rcases hy with hy | ⟨hq, hy⟩ <;> subst hx <;> subst hy <;>
    simp [F32.lt, toRat, *]

theorem Sim.le_eq {x y : F32} {p q : ℚ} (hx : Sim x p) (hy : Sim y q) :
    le x y = decide (p ≤ q) := by
  rcases hx with hx | ⟨hp, hx⟩ <;> rcases hy with hy | ⟨hq, hy⟩ <;> subst hx <;> subst hy <;>
    simp [F32.le, toRat, *]

theorem Sim.beq_eq {x y : F32} {p q : ℚ} (hx : Sim x p) (hy : Sim y q) :
    beq x y = decide (p = q) := by
  rcases hx with hx | ⟨hp, hx⟩ <;> rcases hy with hy | ⟨hq, hy⟩ <;> subst hx <;> subst hy <;>
    simp [F32.beq, toRat, *]

theorem Sim.lt_posInf {x : F32} {p : ℚ} (hx : Sim x p) : lt x posInf = true := by
  rcases hx with hx | ⟨hp, hx⟩ <;> subst hx <;> rfl

theorem Sim.le_posInf {x : F32} {p : ℚ} (hx : Sim x p) : le x posInf = true := by
  rcases hx with hx | ⟨hp, hx⟩ <;> subst hx <;> rfl

/-- Comparing a finite value with an upper bound that is finite or `+∞`. -/
theorem Sim.le_top {x y : F32} {p : ℚ} (hx : Sim x p) (hy : y.Finite ∨ y = posInf) :
    le x y = decide ((p : WithTop ℚ) ≤ y.toTop) := by
  rcases hy with hy | rfl
  · rw [Sim.le_eq hx (sim_of_finite hy)]
    rcases hy with rfl | ⟨q, rfl⟩ <;> simp [toTop, toRat]
  · rw [hx.le_posInf]; simp [toTop]

theorem Sim.lt_top {x y : F32} {p : ℚ} (hx : Sim x p) (hy : y.Finite ∨ y = posInf) :
    lt x y = decide ((p : WithTop ℚ) < y.toTop) := by
  rcases hy with hy | rfl
  · rw [Sim.lt_eq hx (sim_of_finite hy)]
    rcases hy with rfl | ⟨q, rfl⟩ <;> simp [toTop, toRat]
  · rw [hx.lt_posInf]; simp [toTop]

theorem Sim.sim_eqv {x y : F32} {q : ℚ} (hx : Sim x q) (hy : Sim y q) : Eqv x y := by
  rcases hx with hx | ⟨hp, hx⟩ <;> rcases hy with hy | ⟨hq, hy⟩ <;> subst hx <;> subst hy
  · exact Or.inl rfl
  · subst hq; exact Or.inr ⟨rfl, rfl⟩
  · subst hp; exact Or.inr ⟨rfl, rfl⟩
  · exact Or.inl rfl

end F32

namespace binary32

theorem simV_of_finite {v : Vector3} (h : v.Finite) : SimV v v.toExact :=
  ⟨F32.sim_of_finite h.1, F32.sim_of_finite h.2.1, F32.sim_of_finite h.2.2⟩

theorem SimV.simV_finite {v : Vector3} {w : dae.Vector3} (h : SimV v w) : v.Finite :=
  ⟨h.1.sim_finite, h.2.1.sim_finite, h.2.2.sim_finite⟩

theorem SimV.simV_toExact {v : Vector3} {w : dae.Vector3} (h : SimV v w) : v.toExact = w := by
  apply dae.Vector3.ext
  · exact h.1.sim_toRat
  · exact h.2.1.sim_toRat
  · exact h.2.2.sim_toRat

theorem SimV.vadd_exact {a b : Vector3} {a' b' : dae.Vector3} (ha : SimV a a') (hb : SimV b b')
    (he : AddExact a' b') : SimV (Vector3.add a b) (a' + b') :=
  ⟨ha.1.add_exact hb.1 he.1, ha.2.1.add_exact hb.2.1 he.2.1, ha.2.2.add_exact hb.2.2 he.2.2⟩

theorem SimV.vsub_exact {a b : Vector3} {a' b' : dae.Vector3} (ha : SimV a a') (hb : SimV b b')
    (he : SubExact a' b') : SimV (Vector3.sub a b) (a' - b') :=
  ⟨ha.1.sub_exact hb.1 he.1, ha.2.1.sub_exact hb.2.1 he.2.1, ha.2.2.sub_exact hb.2.2 he.2.2⟩

theorem SimV.scale_exact {a : Vector3} {a' : dae.Vector3} {s : F32} {s' : ℚ} (ha : SimV a a')
    (hs : F32.Sim s s') (he : ScaleExact a' s') :
    SimV (Vector3.scale a s) (dae.Vector3.scale a' s') :=
  ⟨ha.1.mul_exact hs he.1, ha.2.1.mul_exact hs he.2.1, ha.2.2.mul_exact hs he.2.2⟩

theorem SimV.dot_exact {a b : Vector3} {a' b' : dae.Vector3} (ha : SimV a a') (hb : SimV b b')
    (he : DotExact a' b') : F32.Sim (Vector3.Dot a b) (dae.Vector3.Dot a' b') :=
  ((ha.1.mul_exact hb.1 he.1).add_exact (ha.2.1.mul_exact hb.2.1 he.2.1) he.2.2.1).add_exact
    (ha.2.2.mul_exact hb.2.2 he.2.2.2.1) he.2.2.2.2

theorem SimV.cross_exact {a b : Vector3} {a' b' : dae.Vector3} (ha : SimV a a') (hb : SimV b b')
    (he : CrossExact a' b') : SimV (Vector3.Cross a b) (dae.Vector3.Cross a' b') := by
  obtain ⟨h1, h2, h3, h4, h5, h6, h7, h8, h9⟩ := he
  exact ⟨(ha.2.1.mul_exact hb.2.2 h1).sub_exact (ha.2.2.mul_exact hb.2.1 h2) h3,
    (ha.2.2.mul_exact hb.1 h4).sub_exact (ha.1.mul_exact hb.2.2 h5) h6,
    (ha.1.mul_exact hb.2.1 h7).sub_exact (ha.2.1.mul_exact hb.1 h8) h9⟩

end binary32

namespace binary32

namespace GeometryUtils

/-! ## binary32: the shared tail -/

theorem acceptTail_fst32 (ray : Ray) (hitRecord : HitRecord) (b : Bool) (T : F32)
    (commit : HitRecord) : (acceptTail ray hitRecord b T commit).1 = inInterval ray T := by
  unfold acceptTail
  split_ifs <;> simp_all

theorem acceptTail_any32 (ray : Ray) (hitRecord : HitRecord) (T : F32) (commit : HitRecord) :
    (acceptTail ray hitRecord true T commit).2 = hitRecord := by
  unfold acceptTail
  split_ifs <;> simp_all

theorem acceptTail_commit32 (ray : Ray) (hitRecord : HitRecord) (T : F32) (commit : HitRecord)
    (h1 : inInterval ray T = true) (h2 : F32.lt T hitRecord.t = true) :
    acceptTail ray hitRecord false T commit = (true, commit) := by
  simp [acceptTail, h1, h2]

theorem acceptTail_keep32 (ray : Ray) (hitRecord : HitRecord) (T : F32) (commit : HitRecord)
    (h : inInterval ray T = false ∨ F32.lt T hitRecord.t = false) :
    (acceptTail ray hitRecord false T commit).2 = hitRecord := by
  unfold acceptTail
  rcases h with h | h <;> split_ifs <;> simp_all

/-- The interval test on a finite value is the exact interval test. -/
theorem inInterval_sim {ray : Ray} {T : F32} {q : ℚ} (hr : ray.Finite) (hT : F32.Sim T q) :
    inInterval ray T = true ↔ ray.toExact.min ≤ q ∧ (q : WithTop ℚ) ≤ ray.toExact.max := by
  unfold inInterval
  rw [F32.Sim.le_eq (F32.sim_of_finite hr.2.2.1) hT, F32.Sim.le_top hT hr.2.2.2]
  simp [Ray.toExact]

/-! ## binary32: the plane test -/

theorem HitTest_Plane_eq32 (plane : Plane) (ray : Ray) (hitRecord : HitRecord) (b : Bool) :
    HitTest_Plane plane ray hitRecord b =
      acceptTail ray hitRecord b (planeT plane ray) (planeCommit plane ray) := rfl

/-- What the plane test computes when no operation rounds: the exact
quotient, and the exact point `ray.origin + direction * t`. -/
theorem planeT_exact (plane : Plane) (ray : Ray) (hp : plane.Finite) (hr : ray.Finite)
    (hden : dae.Vector3.Dot ray.toExact.direction plane.toExact.normal ≠ 0)
    (hex : PlaneExact plane.toExact ray.toExact) :
    F32.Sim (planeT plane ray)
        (dae.Vector3.Dot (plane.toExact.origin - ray.toExact.origin) plane.toExact.normal /
          dae.Vector3.Dot ray.toExact.direction plane.toExact.normal) ∧
      SimV (planeCommit plane ray).origin
        (ray.toExact.origin + dae.Vector3.scale ray.toExact.direction
          (dae.Vector3.Dot (plane.toExact.origin - ray.toExact.origin) plane.toExact.normal /
            dae.Vector3.Dot ray.toExact.direction plane.toExact.normal)) := by
  obtain ⟨h1, h2, h3, h4, h5, h6⟩ := hex
  have so := simV_of_finite hr.1
  have sd := simV_of_finite hr.2.1
  have spo := simV_of_finite hp.1
  have spn := simV_of_finite hp.2
  have st : F32.Sim (planeT plane ray) _ :=
    F32.Sim.div_exact (((spo.vsub_exact so h1).dot_exact spn h2)) (sd.dot_exact spn h3) hden h4
  exact ⟨st, so.vadd_exact (sd.scale_exact st h5) h6⟩

/-- The exact quotient puts the point on the plane. -/
theorem plane_point_on (plane : dae.Plane) (ray : dae.Ray)
    (hden : dae.Vector3.Dot ray.direction plane.normal ≠ 0) :
    dae.Vector3.Dot
      (ray.origin + dae.Vector3.scale ray.direction
          (dae.Vector3.Dot (plane.origin - ray.origin) plane.normal /
            dae.Vector3.Dot ray.direction plane.normal) - plane.origin) plane.normal = 0 := by
  have e : dae.Vector3.Dot
      (ray.origin + dae.Vector3.scale ray.direction
          (dae.Vector3.Dot (plane.origin - ray.origin) plane.normal /
            dae.Vector3.Dot ray.direction plane.normal) - plane.origin) plane.normal =
      dae.Vector3.Dot ray.direction plane.normal *
        (dae.Vector3.Dot (plane.origin - ray.origin) plane.normal /
            dae.Vector3.Dot ray.direction plane.normal) -
        dae.Vector3.Dot (plane.origin - ray.origin) plane.normal := by
    simp only [dae.Vector3.Dot, dae.GeometryUtils.sub_x, dae.GeometryUtils.sub_y,
      dae.GeometryUtils.sub_z, dae.GeometryUtils.add_x, dae.GeometryUtils.add_y,
      dae.GeometryUtils.add_z, dae.GeometryUtils.scale_x, dae.GeometryUtils.scale_y,
      dae.GeometryUtils.scale_z]
    ring
  rw [e, mul_div_cancel₀ _ hden, sub_self]

/-- C13, amended.  In binary32, for every plane, ray and record:
`HitTest_Plane` returns true exactly when the quotient `t` it computed passes
`t >= ray.min && t <= ray.max`; the any-hit form leaves the record alone; the
closest-hit form that finds `t < hitRecord.t` commits `t`, the computed point
`ray.origin + direction * t`, the plane's normal as it is, the plane's
material and `didHit`.  When `dot(direction, normal) ≠ 0` and no operation
rounds, `t` is the exact quotient, the result is true exactly when the exact
quotient lies in `[ray.min, ray.max]`, and the committed point lies on the
plane. -/
theorem HitTest_Plane_spec (plane : Plane) (ray : Ray) (hitRecord : HitRecord)
    (ignoreHitRecord : Bool) :
    ((HitTest_Plane plane ray hitRecord ignoreHitRecord).1 = true ↔
      F32.le ray.min (planeT plane ray) = true ∧ F32.le (planeT plane ray) ray.max = true) ∧
    (HitTest_Plane plane ray hitRecord true).2 = hitRecord ∧
    ((HitTest_Plane plane ray hitRecord false).1 = true →
      F32.lt (planeT plane ray) hitRecord.t = true →
      (HitTest_Plane plane ray hitRecord false).2 =
        { t := planeT plane ray,
          materialIndex := plane.materialIndex,
          didHit := true,
          origin := Vector3.add ray.origin (Vector3.scale ray.direction (planeT plane ray)),
          normal := plane.normal }) ∧
    (plane.Finite → ray.Finite →
      dae.Vector3.Dot ray.toExact.direction plane.toExact.normal ≠ 0 →
      PlaneExact plane.toExact ray.toExact →
      F32.Sim (planeT plane ray)
          (dae.Vector3.Dot (plane.toExact.origin - ray.toExact.origin) plane.toExact.normal /
            dae.Vector3.Dot ray.toExact.direction plane.toExact.normal) ∧
        ((HitTest_Plane plane ray hitRecord ignoreHitRecord).1 = true ↔
          ray.toExact.min ≤
              dae.Vector3.Dot (plane.toExact.origin - ray.toExact.origin)
                  plane.toExact.normal /
                dae.Vector3.Dot ray.toExact.direction plane.toExact.normal ∧
            ((dae.Vector3.Dot (plane.toExact.origin - ray.toExact.origin)
                  plane.toExact.normal /
                dae.Vector3.Dot ray.toExact.direction plane.toExact.normal : ℚ) :
              WithTop ℚ) ≤ ray.toExact.max) ∧
        dae.Vector3.Dot
          ((Vector3.add ray.origin (Vector3.scale ray.direction (planeT plane ray))).toExact -
            plane.toExact.origin) plane.toExact.normal = 0) := by
  refine ⟨?_, ?_, ?_, ?_⟩
  · rw [HitTest_Plane_eq32, acceptTail_fst32, inInterval, Bool.and_eq_true]
  · rw [HitTest_Plane_eq32, acceptTail_any32]
  · intro h1 h2
    rw [HitTest_Plane_eq32, acceptTail_fst32] at h1
    rw [HitTest_Plane_eq32, acceptTail_commit32 _ _ _ _ h1 h2]
    rfl
  · intro hp hr hden hex
    obtain ⟨st, so⟩ := planeT_exact plane ray hp hr hden hex
    refine ⟨st, ?_, ?_⟩
    · rw [HitTest_Plane_eq32, acceptTail_fst32]
      exact inInterval_sim hr st
    · have e := so.simV_toExact
      simp only [planeCommit] at e
      rw [e]
      exact plane_point_on plane.toExact ray.toExact hden

/-- C13 at the plane `z = 1` and the ray from the world origin along
`(0, 0, 4)`: no operation rounds, the test returns true with `t = 1/4`, the
closest-hit form commits the plane's normal as it is, and the committed point
`(0, 0, 1)` lies on the plane. -/
theorem HitTest_Plane_spec_witness :
    (HitTest_Plane unitPlane quarterRay HitRecord.fresh false).1 = true ∧
      (HitTest_Plane unitPlane quarterRay HitRecord.fresh false).2 =
        { t := F32.fin (1 / 4), materialIndex := 0, didHit := true,
          origin := ⟨F32.fin 0, F32.fin 0, F32.fin 1⟩,
          normal := ⟨F32.fin 0, F32.fin 0, F32.fin 1⟩ } ∧
      F32.Sim (planeT unitPlane quarterRay) (1 / 4) ∧
      dae.Vector3.Dot
        ((Vector3.add quarterRay.origin
            (Vector3.scale quarterRay.direction (planeT unitPlane quarterRay))).toExact -
          unitPlane.toExact.origin) unitPlane.toExact.normal = 0 := by
  have hall := HitTest_Plane_spec unitPlane quarterRay HitRecord.fresh false
  have h := hall.2.2.2 (by decide!) (by decide!) (by decide!) (by decide!)
  have hhit := h.2.1.mpr (by decide!)
  have hrec := hall.2.2.1 hhit (by decide!)
  refine ⟨hhit, ?_, ?_, h.2.2⟩
  · rw [hrec]
    decide!
  · have e : dae.Vector3.Dot (unitPlane.toExact.origin - quarterRay.toExact.origin)
        unitPlane.toExact.normal /
          dae.Vector3.Dot quarterRay.toExact.direction unitPlane.toExact.normal = 1 / 4 := by
      decide!
    rw [← e]
    exact h.1

/-- C13 fails on the code: for the plane `z = 1` and the ray from the world
origin along `(0, 0, 41)` the closest-hit test commits `t = fl(1/41)` and the
point `(0, 0, fl(41 * fl(1/41))) = (0, 0, 1 - 2^-24)`, which is not on the
plane: `dot(origin - plane.origin, normal) = -2^-24`, also as binary32
computes it. -/
theorem HitTest_Plane_rounding_counterexample :
    dae.Vector3.Dot steepRay.toExact.direction unitPlane.toExact.normal ≠ 0 ∧
    HitTest_Plane unitPlane steepRay HitRecord.fresh false =
      (true, { origin := ⟨F32.fin 0, F32.fin 0, F32.fin (16777215 / 16777216)⟩,
               normal := ⟨F32.fin 0, F32.fin 0, F32.fin 1⟩,
               t := F32.fin (3273603 / 134217728), didHit := true, materialIndex := 0 }) ∧
    dae.Vector3.Dot
      ((HitTest_Plane unitPlane steepRay HitRecord.fresh false).2.origin.toExact -
        unitPlane.toExact.origin) unitPlane.toExact.normal = -1 / 16777216 ∧
    Vector3.Dot
      (Vector3.sub (HitTest_Plane unitPlane steepRay HitRecord.fresh false).2.origin
        unitPlane.origin) unitPlane.normal = F32.fin (-1 / 16777216) := by
  decide!

end GeometryUtils

end binary32

namespace binary32

namespace GeometryUtils

/-! ## binary32: the triangle test -/

theorem HitTest_Triangle_eq32 (triangle : Triangle) (ray : Ray) (hitRecord : HitRecord)
    (ignoreHitRecord : Bool) :
    HitTest_Triangle triangle ray hitRecord ignoreHitRecord =
      if TrianglePasses triangle ray ignoreHitRecord then
        acceptTail ray hitRecord ignoreHitRecord (triangleT triangle ray)
          (triangleCommit triangle ray)
      else (false, hitRecord) := by
  have key : HitTest_Triangle triangle ray hitRecord ignoreHitRecord =
      if F32.beq (triangleDet triangle ray) (F32.fin 0) = true then (false, hitRecord)
      else if ignoreHitRecord ∧
          ((triangle.cullMode = TriangleCullMode.BackFaceCulling ∧
              F32.lt (F32.fin 0) (triangleDet triangle ray) = true) ∨
           (triangle.cullMode = TriangleCullMode.FrontFaceCulling ∧
              F32.lt (triangleDet triangle ray) (F32.fin 0) = true)) then
        (false, hitRecord)
      else if ¬ ignoreHitRecord ∧
          ((triangle.cullMode = TriangleCullMode.BackFaceCulling ∧
              F32.lt (triangleDet triangle ray) (F32.fin 0) = true) ∨
           (triangle.cullMode = TriangleCullMode.FrontFaceCulling ∧
              F32.lt (F32.fin 0) (triangleDet triangle ray) = true)) then
        (false, hitRecord)
      else if F32.lt (triangleU triangle ray) (F32.fin 0) = true ∨
          F32.lt (F32.fin 1) (triangleU triangle ray) = true then (false, hitRecord)
      else if F32.lt (triangleV triangle ray) (F32.fin 0) = true ∨
          F32.lt (F32.fin 1) (F32.add (triangleU triangle ray) (triangleV triangle ray)) = true then
        (false, hitRecord)
      else acceptTail ray hitRecord ignoreHitRecord (triangleT triangle ray)
        (triangleCommit triangle ray) := rfl
  rw [key]
  clear key
  by_cases h1 : F32.beq (triangleDet triangle ray) (F32.fin 0) = true
  · have hna : ¬ TrianglePasses triangle ray ignoreHitRecord := fun h => by
      rw [h.1] at h1; exact Bool.false_ne_true h1
    rw [if_pos h1, if_neg hna]
  rw [if_neg h1]
  by_cases hc : TriangleCulled triangle ray ignoreHitRecord
  · have hna : ¬ TrianglePasses triangle ray ignoreHitRecord := fun h => h.2.1 hc
    rw [if_neg hna]
    rcases hc with hc | hc
    · rw [if_pos hc]
    · have hni : ¬ (ignoreHitRecord = true) := by simp [hc.1]
      rw [if_neg (fun h => hni h.1), if_pos ⟨hni, hc.2⟩]
  · have hc2 := hc
    unfold TriangleCulled at hc2
    rw [not_or] at hc2
    have hc3 : ¬ (¬ ignoreHitRecord = true ∧
        ((triangle.cullMode = TriangleCullMode.BackFaceCulling ∧
            F32.lt (triangleDet triangle ray) (F32.fin 0) = true) ∨
         (triangle.cullMode = TriangleCullMode.FrontFaceCulling ∧
            F32.lt (F32.fin 0) (triangleDet triangle ray) = true))) :=
      fun h => hc2.2 ⟨by simpa using h.1, h.2⟩
    rw [if_neg hc2.1, if_neg hc3]
    by_cases h4 : F32.lt (triangleU triangle ray) (F32.fin 0) = true ∨
        F32.lt (F32.fin 1) (triangleU triangle ray) = true
    · have hna : ¬ TrianglePasses triangle ray ignoreHitRecord := by
        rintro ⟨-, -, h5, h6, -⟩
        rcases h4 with h4 | h4
        · rw [h5] at h4; exact Bool.false_ne_true h4
        · rw [h6] at h4; exact Bool.false_ne_true h4
      rw [if_pos h4, if_neg hna]
    rw [if_neg h4]
    by_cases h5 : F32.lt (triangleV triangle ray) (F32.fin 0) = true ∨
        F32.lt (F32.fin 1) (F32.add (triangleU triangle ray) (triangleV triangle ray)) = true
    · have hna : ¬ TrianglePasses triangle ray ignoreHitRecord := by
        rintro ⟨-, -, -, -, h6, h7⟩
        rcases h5 with h5 | h5
        · rw [h6] at h5; exact Bool.false_ne_true h5
        · rw [h7] at h5; exact Bool.false_ne_true h5
      rw [if_pos h5, if_neg hna]
    rw [if_neg h5]
    rw [not_or] at h4 h5
    have hacc : TrianglePasses triangle ray ignoreHitRecord :=
      ⟨by simpa using h1, hc, by simpa using h4.1, by simpa using h4.2, by simpa using h5.1,
        by simpa using h5.2⟩
    rw [if_pos hacc]

theorem HitTest_Triangle_fst32 (triangle : Triangle) (ray : Ray) (hitRecord : HitRecord)
    (b : Bool) :
    (HitTest_Triangle triangle ray hitRecord b).1 = true ↔
      TrianglePasses triangle ray b ∧ inInterval ray (triangleT triangle ray) = true := by
  rw [HitTest_Triangle_eq32]
  by_cases h : TrianglePasses triangle ray b
  · rw [if_pos h, acceptTail_fst32]
    exact ⟨fun h2 => ⟨h, h2⟩, fun h2 => h2.2⟩
  · rw [if_neg h]
    exact ⟨fun h2 => absurd h2 (by simp), fun h2 => absurd h2.1 h⟩

/-- What the triangle test computes when no operation rounds: the exact
determinant and, for a non-zero determinant, the exact barycentric
coordinates, their exact sum and the exact distance. -/
theorem triangle_exact (triangle : Triangle) (ray : Ray) (ht : triangle.Finite)
    (hr : ray.Finite)
    (hdet : dae.GeometryUtils.triangleDet triangle.toExact ray.toExact ≠ 0)
    (hex : TriangleExact triangle.toExact ray.toExact) :
    F32.Sim (triangleDet triangle ray)
        (dae.GeometryUtils.triangleDet triangle.toExact ray.toExact) ∧
      F32.Sim (triangleU triangle ray)
        (dae.GeometryUtils.triangleU triangle.toExact ray.toExact) ∧
      F32.Sim (triangleV triangle ray)
        (dae.GeometryUtils.triangleV triangle.toExact ray.toExact) ∧
      F32.Sim (F32.add (triangleU triangle ray) (triangleV triangle ray))
        (dae.GeometryUtils.triangleU triangle.toExact ray.toExact +
          dae.GeometryUtils.triangleV triangle.toExact ray.toExact) ∧
      F32.Sim (triangleT triangle ray)
        (dae.GeometryUtils.triangleT triangle.toExact ray.toExact) := by
  obtain ⟨h1, h2, h3, h4, h5, h6, h7, h8, h9, h10, h11, h12, h13, h14⟩ := hex
  have so := simV_of_finite hr.1
  have sd := simV_of_finite hr.2.1
  have s0 := simV_of_finite ht.1
  have s1 := simV_of_finite ht.2.1
  have s2 := simV_of_finite ht.2.2
  have se1 := s1.vsub_exact s0 h1
  have se2 := s2.vsub_exact s0 h2
  have sp := sd.cross_exact se2 h3
  have sdet : F32.Sim (triangleDet triangle ray)
      (dae.GeometryUtils.triangleDet triangle.toExact ray.toExact) := se1.dot_exact sp h4
  have sinv := F32.Sim.div_exact (F32.sim_fin 1) sdet hdet h5
  have sov := so.vsub_exact s0 h6
  have su : F32.Sim (triangleU triangle ray)
      (dae.GeometryUtils.triangleU triangle.toExact ray.toExact) :=
    sinv.mul_exact (sov.dot_exact sp h7) h8
  have sq := sov.cross_exact se1 h9
  have sv : F32.Sim (triangleV triangle ray)
      (dae.GeometryUtils.triangleV triangle.toExact ray.toExact) :=
    sinv.mul_exact (sd.dot_exact sq h10) h11
  have st : F32.Sim (triangleT triangle ray)
      (dae.GeometryUtils.triangleT triangle.toExact ray.toExact) :=
    sinv.mul_exact (se2.dot_exact sq h13) h14
  exact ⟨sdet, su, sv, su.add_exact sv h12, st⟩

/-- When no operation rounds, the binary32 triangle test accepts exactly when
the exact one does. -/
theorem HitTest_Triangle_exact_run (triangle : Triangle) (ray : Ray) (hitRecord : HitRecord)
    (b : Bool) (ht : triangle.Finite) (hr : ray.Finite)
    (hdet : dae.GeometryUtils.triangleDet triangle.toExact ray.toExact ≠ 0)
    (hex : TriangleExact triangle.toExact ray.toExact) :
    (HitTest_Triangle triangle ray hitRecord b).1 = true ↔
      dae.GeometryUtils.TriangleAccepts triangle.toExact ray.toExact b := by
  obtain ⟨sdet, su, sv, suv, st⟩ := triangle_exact triangle ray ht hr hdet hex
  rw [HitTest_Triangle_fst32, inInterval_sim hr st]
  unfold TrianglePasses TriangleCulled dae.GeometryUtils.TriangleAccepts
    dae.GeometryUtils.TriangleCulled
  rw [F32.Sim.beq_eq sdet (F32.sim_fin 0), F32.Sim.lt_eq (F32.sim_fin 0) sdet,
    F32.Sim.lt_eq sdet (F32.sim_fin 0), F32.Sim.lt_eq su (F32.sim_fin 0),
    F32.Sim.lt_eq (F32.sim_fin 1) su, F32.Sim.lt_eq sv (F32.sim_fin 0),
    F32.Sim.lt_eq (F32.sim_fin 1) suv]
  simp only [decide_eq_true_eq, decide_eq_false_iff_not, not_lt, Triangle.toExact]
  tauto

end GeometryUtils

end binary32

namespace binary32

namespace GeometryUtils

/-- C1, amended.  In binary32, for every triangle with cull mode `None`, every
ray and every record, in both modes: `HitTest_Triangle` returns true exactly
when the determinant it computed is not zero, the barycentric coordinates `u`,
`v` it computed are not rejected by `u < 0`, `1 < u`, `v < 0` and `1 < u + v`
(the sum rounded), and the distance `t` it computed passes `t >= ray.min &&
t <= ray.max`.  When the exact determinant is not zero and no operation of the
computation rounds, that is the case exactly when there are `t` in `[ray.min,
ray.max]` and `u ≥ 0`, `v ≥ 0` with `u + v ≤ 1` such that `ray.origin +
t·direction = v0 + u·(v1 - v0) + v·(v2 - v0)`, and the computed `t`, `u`, `v`
are the only solution of that equation. -/
theorem HitTest_Triangle_barycentric (triangle : Triangle) (ray : Ray) (hitRecord : HitRecord)
    (ignoreHitRecord : Bool) (hcull : triangle.cullMode = TriangleCullMode.None) :
    ((HitTest_Triangle triangle ray hitRecord ignoreHitRecord).1 = true ↔
      F32.beq (triangleDet triangle ray) (F32.fin 0) = false ∧
      F32.lt (triangleU triangle ray) (F32.fin 0) = false ∧
      F32.lt (F32.fin 1) (triangleU triangle ray) = false ∧
      F32.lt (triangleV triangle ray) (F32.fin 0) = false ∧
      F32.lt (F32.fin 1) (F32.add (triangleU triangle ray) (triangleV triangle ray)) = false ∧
      F32.le ray.min (triangleT triangle ray) = true ∧
      F32.le (triangleT triangle ray) ray.max = true) ∧
    (triangle.Finite → ray.Finite →
      dae.GeometryUtils.triangleDet triangle.toExact ray.toExact ≠ 0 →
      TriangleExact triangle.toExact ray.toExact →
      ((HitTest_Triangle triangle ray hitRecord ignoreHitRecord).1 = true ↔
        ∃ t u v : ℚ, ray.toExact.min ≤ t ∧ (t : WithTop ℚ) ≤ ray.toExact.max ∧
          0 ≤ u ∧ 0 ≤ v ∧ u + v ≤ 1 ∧
          dae.GeometryUtils.OnTriangle triangle.toExact ray.toExact t u v) ∧
      (∀ t u v : ℚ, dae.GeometryUtils.OnTriangle triangle.toExact ray.toExact t u v →
        F32.Sim (triangleT triangle ray) t ∧ F32.Sim (triangleU triangle ray) u ∧
          F32.Sim (triangleV triangle ray) v)) := by
  refine ⟨?_, ?_⟩
  · rw [HitTest_Triangle_fst32]
    have hnc : ¬ TriangleCulled triangle ray ignoreHitRecord := by
      unfold TriangleCulled
      rw [hcull]
      simp
    unfold TrianglePasses inInterval
    rw [Bool.and_eq_true]
    constructor
    · rintro ⟨⟨h1, -, h2, h3, h4, h5⟩, h6, h7⟩
      exact ⟨h1, h2, h3, h4, h5, h6, h7⟩
    · rintro ⟨h1, h2, h3, h4, h5, h6, h7⟩
      exact ⟨⟨h1, hnc, h2, h3, h4, h5⟩, h6, h7⟩
  · intro ht hr hdet hex
    have hcull' : triangle.toExact.cullMode = TriangleCullMode.None := hcull
    have hold := dae.GeometryUtils.HitTest_Triangle_barycentric_exact triangle.toExact
      ray.toExact dae.HitRecord.fresh ignoreHitRecord hcull' hdet
    obtain ⟨sdet, su, sv, -, st⟩ := triangle_exact triangle ray ht hr hdet hex
    refine ⟨?_, ?_⟩
    · rw [HitTest_Triangle_exact_run triangle ray hitRecord ignoreHitRecord ht hr hdet hex,
        ← dae.GeometryUtils.HitTest_Triangle_fst triangle.toExact ray.toExact
          dae.HitRecord.fresh ignoreHitRecord]
      exact hold.1
    · intro t u v h
      obtain ⟨hu, hv, ht'⟩ := dae.GeometryUtils.onTriangle_unique triangle.toExact ray.toExact
        t u v hdet h
      rw [ht', hu, hv]
      exact ⟨st, su, sv⟩

/-- C1 at the spec's triangle scenario (the ray from `(0.2, 0.2, -1)` along
`+z`, `0.2` rounded to binary32): no operation rounds, the test returns true,
the ray meets the triangle with barycentric coordinates in range, and the
distance the test computed is the `t = 1` of the one solution. -/
theorem HitTest_Triangle_barycentric_witness :
    (HitTest_Triangle scenarioTriangle scenarioTriangleRay HitRecord.fresh false).1 = true ∧
      F32.Sim (triangleT scenarioTriangle scenarioTriangleRay) 1 ∧
      ∃ t u v : ℚ, scenarioTriangleRay.toExact.min ≤ t ∧
        (t : WithTop ℚ) ≤ scenarioTriangleRay.toExact.max ∧ 0 ≤ u ∧ 0 ≤ v ∧ u + v ≤ 1 ∧
        dae.GeometryUtils.OnTriangle scenarioTriangle.toExact scenarioTriangleRay.toExact
          t u v := by
  have hall := HitTest_Triangle_barycentric scenarioTriangle scenarioTriangleRay HitRecord.fresh
    false rfl
  have hacc : (HitTest_Triangle scenarioTriangle scenarioTriangleRay HitRecord.fresh false).1 =
      true := hall.1.mpr (by decide!)
  have h := hall.2 (by decide!) (by decide!) (by decide!) (by decide!)
  have hon : dae.GeometryUtils.OnTriangle scenarioTriangle.toExact scenarioTriangleRay.toExact
      1 (13421773 / 67108864) (13421773 / 67108864) := by
    unfold dae.GeometryUtils.OnTriangle
    decide!
  exact ⟨hacc, (h.2 1 _ _ hon).1, h.1.mp hacc⟩

/-- C1 fails on the code: the triangle `(0,0,0)`, `(5,0,0)`, `(0,1,0)` with
cull mode `None` and the ray from `(6.125, 3.375, -9)` with direction
`(-1, -1, 3)`, interval `[0, +∞)`, have determinant `-15`, and the ray meets
the triangle at `t = 3` with `u = 5/8`, `v = 3/8`, a point of its edge; the
test computes `u = 0.62500006`, `v = 0.37500003`, whose rounded sum is above
`1`, and returns false in both modes. -/
theorem HitTest_Triangle_edge_counterexample :
    wideTriangle.cullMode = TriangleCullMode.None ∧
    dae.GeometryUtils.triangleDet wideTriangle.toExact edgeRay.toExact = -15 ∧
    triangleDet wideTriangle edgeRay = F32.fin (-15) ∧
    (edgeRay.toExact.min ≤ 3 ∧ ((3 : ℚ) : WithTop ℚ) ≤ edgeRay.toExact.max ∧
      (0 : ℚ) ≤ 5 / 8 ∧ (0 : ℚ) ≤ 3 / 8 ∧ (5 / 8 + 3 / 8 : ℚ) ≤ 1 ∧
      dae.GeometryUtils.OnTriangle wideTriangle.toExact edgeRay.toExact 3 (5 / 8) (3 / 8)) ∧
    triangleU wideTriangle edgeRay = F32.fin (10485761 / 16777216) ∧
    triangleV wideTriangle edgeRay = F32.fin (12582913 / 33554432) ∧
    F32.add (triangleU wideTriangle edgeRay) (triangleV wideTriangle edgeRay) =
      F32.fin (8388609 / 8388608) ∧
    (HitTest_Triangle wideTriangle edgeRay HitRecord.fresh true).1 = false ∧
    (HitTest_Triangle wideTriangle edgeRay HitRecord.fresh false).1 = false := by
  refine ⟨rfl, by decide!, by decide!, ⟨by decide!, ?_, by norm_num, by norm_num, by norm_num,
    ?_⟩, by decide!, by decide!, by decide!, by decide!, by decide!⟩
  · exact le_top
  · unfold dae.GeometryUtils.OnTriangle
    decide!

end GeometryUtils

end binary32

namespace F32

/-! ## binary32: signs and monotonicity of the operations -/

theorem nonNeg_fin {r : ℚ} (h : 0 ≤ r) : NonNeg (fin r) := Or.inr (Or.inr ⟨r, h, rfl⟩)

theorem nonNeg_rnd {q : ℚ} (h : 0 ≤ q) : NonNeg (rnd q) := by
  rcases lt_or_eq_of_le h with h | h
  · rcases rnd_of_pos h with h1 | h1
    · exact Or.inr (Or.inl h1)
    · exact Or.inr (Or.inr h1)
  · rw [← h]
    exact Or.inr (Or.inr ⟨0, le_refl _, by simp [rnd]⟩)

theorem nonNeg_mul {x y : F32} (hx : NonNeg x) (hy : NonNeg y) : NonNeg (mul x y) := by
  rcases hx with rfl | rfl | ⟨p, hp, rfl⟩
  · left; simp [mul, isNaN]
  · rcases hy with rfl | rfl | ⟨q, hq, rfl⟩
    · left; simp [mul, isNaN]
    · right; left; simp [mul, isNaN, isInf, isZero, signBit, signedInf]
    · by_cases h0 : q = 0
      · left; simp [mul, isNaN, isInf, isZero, h0]
      · have : ¬ q < 0 := by linarith
        right; left; simp [mul, isNaN, isInf, isZero, signBit, signedInf, h0, this]
  · rcases hy with rfl | rfl | ⟨q, hq, rfl⟩
    · left; simp [mul, isNaN]
    · by_cases h0 : p = 0
      · left; simp [mul, isNaN, isInf, isZero, h0]
      · have : ¬ p < 0 := by linarith
        right; left; simp [mul, isNaN, isInf, isZero, signBit, signedInf, h0, this]
    · have hp' : ¬ p < 0 := by linarith
      have hq' : ¬ q < 0 := by linarith
      by_cases h0 : p = 0 ∨ q = 0
      · right; right
        refine ⟨0, le_refl _, ?_⟩
        rcases h0 with h0 | h0 <;>
          simp [mul, isNaN, isInf, isZero, signBit, signedZero, h0, hp', hq']
      · push_neg at h0
        have e : mul (fin p) (fin q) = rnd (p * q) := by
          simp [mul, isNaN, isInf, isZero, toRat, h0.1, h0.2]
        rw [e]
        exact nonNeg_rnd (mul_nonneg hp hq)

theorem nonNeg_mul_self (x : F32) : NonNeg (mul x x) := by
  cases x with
  | nan => left; simp [mul, isNaN]
  | negInf => right; left; simp [mul, isNaN, isInf, isZero, signBit, signedInf]
  | posInf => right; left; simp [mul, isNaN, isInf, isZero, signBit, signedInf]
  | negZero =>
    right; right
    exact ⟨0, le_refl _, by simp [mul, isNaN, isInf, isZero, signBit, signedZero]⟩
  | fin q =>
    by_cases h0 : q = 0
    · right; right
      exact ⟨0, le_refl _, by simp [mul, isNaN, isInf, isZero, signBit, signedZero, h0]⟩
    · have e : mul (fin q) (fin q) = rnd (q * q) := by
        simp [mul, isNaN, isInf, isZero, toRat, h0]
      rw [e]
      exact nonNeg_rnd (mul_self_nonneg q)

theorem nonNeg_add {x y : F32} (hx : NonNeg x) (hy : NonNeg y) : NonNeg (add x y) := by
  rcases hx with rfl | rfl | ⟨p, hp, rfl⟩
  · left; simp [add, isNaN]
  · rcases hy with rfl | rfl | ⟨q, hq, rfl⟩
    · left; simp [add, isNaN]
    · right; left; simp [add, isNaN, isInf, signBit]
    · right; left; simp [add, isNaN, isInf]
  · rcases hy with rfl | rfl | ⟨q, hq, rfl⟩
    · left; simp [add, isNaN]
    · right; left; simp [add, isNaN, isInf]
    · have e : add (fin p) (fin q) = rnd (p + q) := by
        simp [add, isNaN, isInf, toRat]
      rw [e]
      exact nonNeg_rnd (add_nonneg hp hq)

theorem nonNeg_div_one {y : F32} (hy : NonNeg y) : NonNeg (div (fin 1) y) := by
  rcases hy with rfl | rfl | ⟨q, hq, rfl⟩
  · left; simp [div, isNaN]
  · right; right
    exact ⟨0, le_refl _, by simp [div, isNaN, isInf, signBit, signedZero]⟩
  · by_cases h0 : q = 0
    · right; left
      simp [div, isNaN, isInf, isZero, signBit, signedInf, h0]
    · have e : div (fin 1) (fin q) = rnd (1 / q) := by
        simp [div, isNaN, isInf, isZero, toRat, h0]
      rw [e]
      exact nonNeg_rnd (div_nonneg zero_le_one hq)

theorem isqrt_cast_nonneg (n : Nat) : (0 : ℚ) ≤ (isqrt n : ℚ) := Nat.cast_nonneg _

theorem sqrtMag_nonneg (q : ℚ) : 0 ≤ sqrtMag q := by
  unfold sqrtMag
  have hu : 0 < pow2 (max (ilog2 q / 2) (-126) - 23) := pow2_pos _
  have hk := isqrt_cast_nonneg ⌊q / (pow2 (max (ilog2 q / 2) (-126) - 23) *
    pow2 (max (ilog2 q / 2) (-126) - 23))⌋.toNat
  simp only []
  split_ifs <;> first
    | exact mul_nonneg hk hu.le
    | exact mul_nonneg (by linarith) hu.le

/-- What a square root is: NaN, `+∞`, `-0`, or a number that is not
negative. -/
theorem sqrt_class (x : F32) :
    sqrt x = nan ∨ sqrt x = posInf ∨ sqrt x = negZero ∨ ∃ r, 0 ≤ r ∧ sqrt x = fin r := by
  cases x with
  | nan => left; rfl
  | negInf => left; rfl
  | posInf => right; left; rfl
  | negZero => right; right; left; rfl
  | fin q =>
    simp only [sqrt]
    split_ifs
    · left; rfl
    · right; right; right; exact ⟨0, le_refl _, rfl⟩
    · right; right; right; exact ⟨_, sqrtMag_nonneg q, rfl⟩

theorem add_fin_eqv (n : F32) (hn : n.Finite) (r : ℚ) :
    Eqv (add n (fin r)) (rnd (n.toRat + r)) :=
  add_eqv_rnd hn (Or.inr ⟨r, rfl⟩)

/-- Adding a number that is not negative gives no less than subtracting
it. -/
theorem add_not_lt_sub (nb s : F32)
    (hs : s = nan ∨ s = posInf ∨ s = negZero ∨ ∃ r, 0 ≤ r ∧ s = fin r) :
    lt (add nb s) (sub nb s) = false := by
  unfold sub
  rcases hs with rfl | rfl | rfl | ⟨r, hr, rfl⟩
  · have : add nb nan = nan := by simp [add, isNaN]
    rw [this, lt_nan_left]
  · cases nb with
    | fin q => simp [add, isNaN, isInf, neg, lt]
    | _ => simp [add, isNaN, isInf, signBit, neg, lt]
  · by_cases hn : nb.Finite
    · have h1 := add_eqv_rnd hn (Or.inl rfl : negZero.Finite)
      have h2 := add_eqv_rnd hn (finite_neg (Or.inl rfl : negZero.Finite))
      rw [toRat_neg] at h2
      simp only [toRat, neg_zero] at h1 h2
      rw [Eqv.lt_congr h1 h2, lt_irrefl]
    · rcases not_finite_cases hn with rfl | rfl | rfl <;>
        simp [add, isNaN, isInf, signBit, neg, lt]
  · by_cases hn : nb.Finite
    · have h1 := add_eqv_rnd hn (Or.inr ⟨r, rfl⟩ : (fin r).Finite)
      have h2 := add_eqv_rnd hn (finite_neg (Or.inr ⟨r, rfl⟩ : (fin r).Finite))
      rw [toRat_neg] at h2
      simp only [toRat] at h1 h2
      rw [Eqv.lt_congr h1 h2]
      exact lt_false_of_le (rnd_mono (by linarith))
    · rcases not_finite_cases hn with rfl | rfl | rfl <;> by_cases h0 : r = 0 <;>
        simp [add, isNaN, isInf, signBit, neg, lt, h0]

theorem mul_fin_eqv (x : F32) (hx : x.Finite) {r : ℚ} (hr : r ≠ 0) :
    Eqv (mul x (fin r)) (rnd (x.toRat * r)) := by
  rcases hx with rfl | ⟨p, rfl⟩
  · right
    by_cases h : r < 0 <;>
      simp [mul, isNaN, isInf, isZero, signBit, signedZero, toRat, rnd, hr, h]
  · by_cases h0 : p = 0
    · right
      by_cases h : r < 0 <;>
        simp [mul, isNaN, isInf, isZero, signBit, signedZero, toRat, rnd, hr, h, h0]
    · left
      simp [mul, isNaN, isInf, isZero, toRat, hr, h0]

theorem toRat_le_of_not_lt {x y : F32} (hx : x.Finite) (hy : y.Finite)
    (h : lt y x = false) : x.toRat ≤ y.toRat := by
  rcases hx with rfl | ⟨p, rfl⟩ <;> rcases hy with rfl | ⟨q, rfl⟩ <;>
    simp_all [lt, toRat]

theorem mul_nan_right (x : F32) : mul x nan = nan := by
  simp [mul, isNaN]

theorem mul_nan_left (x : F32) : mul nan x = nan := by
  simp [mul, isNaN]

theorem mul_fin_posInf (q : ℚ) :
    mul (fin q) posInf = if q = 0 then nan else if q < 0 then negInf else posInf := by
  by_cases h0 : q = 0
  · simp [mul, isNaN, isInf, isZero, h0]
  · by_cases h1 : q < 0 <;> simp [mul, isNaN, isInf, isZero, signBit, signedInf, h0, h1]

theorem mul_posInf_fin {r : ℚ} (hr : 0 < r) : mul posInf (fin r) = posInf := by
  have h1 : ¬ r = 0 := hr.ne'
  have h2 : ¬ r < 0 := by linarith
  simp [mul, isNaN, isInf, isZero, signBit, signedInf, h1, h2]

theorem mul_negInf_fin {r : ℚ} (hr : 0 < r) : mul negInf (fin r) = negInf := by
  have h1 : ¬ r = 0 := hr.ne'
  have h2 : ¬ r < 0 := by linarith
  simp [mul, isNaN, isInf, isZero, signBit, signedInf, h1, h2]

/-- Multiplying by a number that is not negative keeps the order. -/
theorem mul_not_lt {x1 x2 f : F32} (hf : NonNeg f) (h : lt x2 x1 = false) :
    lt (mul x2 f) (mul x1 f) = false := by
  rcases hf with rfl | rfl | ⟨r, hr, rfl⟩
  · rw [mul_nan_right, lt_nan_left]
  · cases x2 with
    | nan => rw [mul_nan_left, lt_nan_left]
    | posInf =>
      have e : mul posInf posInf = posInf := rfl
      rw [e, lt_posInf_left]
    | negZero =>
      have e : mul negZero posInf = nan := rfl
      rw [e, lt_nan_left]
    | negInf =>
      cases x1 with
      | nan => rw [mul_nan_left, lt_nan_right]
      | negInf =>
        have e : mul negInf posInf = negInf := rfl
        rw [e, lt_negInf_right]
      | posInf => simp [lt] at h
      | negZero => simp [lt] at h
      | fin p => simp [lt] at h
    | fin q =>
      rw [mul_fin_posInf]
      by_cases hq0 : q = 0
      · rw [if_pos hq0, lt_nan_left]
      · rw [if_neg hq0]
        by_cases hq : q < 0
        · rw [if_pos hq]
          cases x1 with
          | nan => rw [mul_nan_left, lt_nan_right]
          | negInf =>
            have e : mul negInf posInf = negInf := rfl
            rw [e, lt_negInf_right]
          | posInf => simp [lt] at h
          | negZero =>
            have e : mul negZero posInf = nan := rfl
            rw [e, lt_nan_right]
          | fin p =>
            have hpq : p ≤ q := by simpa [lt, toRat] using h
            have hp : p < 0 := by linarith
            rw [mul_fin_posInf, if_neg hp.ne, if_pos hp, lt_negInf_right]
        · rw [if_neg hq, lt_posInf_left]
  · by_cases h0 : r = 0
    · subst h0
      cases x1 <;> cases x2 <;>
        simp [mul, isNaN, isInf, isZero, signBit, signedZero, lt, toRat] <;>
        split_ifs <;> simp [lt, toRat]
    · have hr' : 0 < r := lt_of_le_of_ne hr (Ne.symm h0)
      have hnr : ¬ r < 0 := by linarith
      by_cases h1 : x1.Finite
      · by_cases h2 : x2.Finite
        · rw [Eqv.lt_congr (mul_fin_eqv x2 h2 h0) (mul_fin_eqv x1 h1 h0)]
          apply lt_false_of_le
          apply rnd_mono
          exact mul_le_mul_of_nonneg_right (toRat_le_of_not_lt h1 h2 h) hr
        · rcases not_finite_cases h2 with rfl | rfl | rfl
          · rw [mul_nan_left, lt_nan_left]
          · rcases h1 with rfl | ⟨p, rfl⟩ <;> simp [lt] at h
          · rw [mul_posInf_fin hr', lt_posInf_left]
      · rcases not_finite_cases h1 with rfl | rfl | rfl
        · rw [mul_nan_left, lt_nan_right]
        · rw [mul_negInf_fin hr', lt_negInf_right]
        · cases x2 with
          | nan => rw [mul_nan_left, lt_nan_left]
          | posInf => rw [mul_posInf_fin hr', lt_posInf_left]
          | negInf => simp [lt] at h
          | negZero => simp [lt] at h
          | fin q => simp [lt] at h

end F32

namespace F32

/-! ## binary32: the square root -/

theorem sqrtQ_nonneg (q : ℚ) : 0 ≤ sqrtQ q := by
  unfold sqrtQ
  rcases sqrt_class (fin q) with h | h | h | ⟨r, hr, h⟩
  · rw [h]; exact le_refl _
  · rw [h]; exact le_refl _
  · rw [h]; exact le_refl _
  · rw [h]; exact hr

/-- The square root of a finite number that is not negative is the number
`sqrtQ` names. -/
theorem Sim.sqrt_exact {x : F32} {q : ℚ} (h : Sim x q) (hq : 0 ≤ q) : Sim (sqrt x) (sqrtQ q) := by
  rcases h with rfl | ⟨rfl, rfl⟩
  · left
    have hn : ¬ q < 0 := not_lt.mpr hq
    by_cases h0 : q = 0
    · simp [sqrtQ, sqrt, h0, toRat]
    · simp [sqrtQ, sqrt, h0, hn, toRat]
  · right
    exact ⟨by simp [sqrtQ, sqrt, toRat], rfl⟩

/-- One divided by a zero is an infinity. -/
theorem div_one_zero {y : F32} (h : Sim y 0) :
    div (fin 1) y = posInf ∨ div (fin 1) y = negInf := by
  rcases h with rfl | ⟨-, rfl⟩
  · left; simp [div, isNaN, isInf, isZero, signBit, signedInf]
  · right; simp [div, isNaN, isInf, isZero, signBit, signedInf]

/-- A zero times an infinity is NaN. -/
theorem mul_zero_inf {x f : F32} (hx : Sim x 0) (hf : f = posInf ∨ f = negInf) :
    mul x f = nan := by
  rcases hx with rfl | ⟨-, rfl⟩ <;> rcases hf with rfl | rfl <;>
    simp [mul, isNaN, isInf, isZero]

end F32

namespace binary32

namespace GeometryUtils

/-! ## binary32: the sphere test -/

theorem HitTest_Sphere_eq32 (sphere : Sphere) (ray : Ray) (hitRecord : HitRecord) (b : Bool) :
    HitTest_Sphere sphere ray hitRecord b =
      if F32.lt (sphereDiscriminant sphere ray) (F32.fin 0) then (false, hitRecord)
      else acceptTail ray hitRecord b (sphereT sphere ray) (sphereCommit sphere ray) := rfl

theorem sphereFactor_nonNeg (ray : Ray) : F32.NonNeg (sphereFactor ray) :=
  F32.nonNeg_div_one
    (F32.nonNeg_mul (F32.nonNeg_fin (by norm_num))
      (F32.nonNeg_add (F32.nonNeg_add (F32.nonNeg_mul_self _) (F32.nonNeg_mul_self _))
        (F32.nonNeg_mul_self _)))

/-- The computed second root is never below the computed first root. -/
theorem sphere_second_not_lt_first32 (sphere : Sphere) (ray : Ray) :
    F32.lt (sphereSecondT sphere ray) (sphereFirstT sphere ray) = false :=
  F32.mul_not_lt (sphereFactor_nonNeg ray) (F32.add_not_lt_sub _ _ (F32.sqrt_class _))

theorem sphereT_eq_first32 (sphere : Sphere) (ray : Ray) :
    sphereT sphere ray = sphereFirstT sphere ray := by
  rw [sphereT, sphere_second_not_lt_first32]
  simp

theorem acceptTail_outside32 (ray : Ray) (hitRecord : HitRecord) (b : Bool) (T : F32)
    (commit : HitRecord) (h : inInterval ray T = false) :
    acceptTail ray hitRecord b T commit = (false, hitRecord) := by
  simp [acceptTail, h]

/-- What the sphere test computes when no operation rounds: the exact
discriminant and the exact numerator `-b - sqrt(discriminant)`. -/
theorem sphere_exact (sphere : Sphere) (ray : Ray) (hs : sphere.Finite) (hr : ray.Finite)
    (hex : SphereExact sphere.toExact ray.toExact) :
    F32.Sim (sphereA ray) (dae.Vector3.Dot ray.toExact.direction ray.toExact.direction) ∧
    F32.Sim (sphereDiscriminant sphere ray)
      (dae.GeometryUtils.sphereDiscriminant sphere.toExact ray.toExact) ∧
    F32.Sim (F32.mul (F32.fin 2) (sphereA ray))
      (2 * dae.Vector3.Dot ray.toExact.direction ray.toExact.direction) ∧
    (0 ≤ dae.GeometryUtils.sphereDiscriminant sphere.toExact ray.toExact →
      F32.Sim (F32.sub (F32.neg (sphereB sphere ray)) (F32.sqrt (sphereDiscriminant sphere ray)))
        (-(2 * dae.Vector3.Dot ray.toExact.direction
              (ray.toExact.origin - sphere.toExact.origin)) -
          F32.sqrtQ (dae.GeometryUtils.sphereDiscriminant sphere.toExact ray.toExact))) := by
  obtain ⟨h1, h2, h3, h4, h5, h6, h7, h8, h9, h10, h11, -, h13, -, h15, -⟩ := hex
  have so := simV_of_finite hr.1
  have sd := simV_of_finite hr.2.1
  have sc := simV_of_finite hs.1
  have sr := F32.sim_of_finite hs.2
  have soV := so.vsub_exact sc h1
  have sa : F32.Sim (sphereA ray) _ := sd.dot_exact sd h2
  have sb : F32.Sim (sphereB sphere ray) _ :=
    F32.Sim.mul_exact (F32.sim_fin 2) (sd.dot_exact soV h3) h4
  have sD : F32.Sim (sphereDiscriminant sphere ray) _ :=
    F32.Sim.sub_exact (F32.Sim.mul_exact sb sb h5)
      (F32.Sim.mul_exact (F32.Sim.mul_exact (F32.sim_fin 4) sa h6)
        (F32.Sim.sub_exact (soV.dot_exact soV h7) (F32.Sim.mul_exact sr sr h8) h9) h10) h11
  refine ⟨sa, sD, F32.Sim.mul_exact (F32.sim_fin 2) sa h13, ?_⟩
  intro hD
  exact F32.Sim.sub_exact sb.neg_sim (sD.sqrt_exact hD) h15

/-- What the sphere test computes for a ray with non-zero direction when no
operation rounds: the exact smaller root. -/
theorem sphereFirstT_exact (sphere : Sphere) (ray : Ray) (hs : sphere.Finite) (hr : ray.Finite)
    (hex : SphereExact sphere.toExact ray.toExact)
    (hD : 0 ≤ dae.GeometryUtils.sphereDiscriminant sphere.toExact ray.toExact)
    (hdir : ray.toExact.direction ≠ ⟨0, 0, 0⟩) :
    F32.Sim (sphereFirstT sphere ray) (sphereRoot sphere.toExact ray.toExact) := by
  obtain ⟨-, -, s2a, snum⟩ := sphere_exact sphere ray hs hr hex
  obtain ⟨-, -, -, -, -, -, -, -, -, -, -, -, -, h14, -, h16⟩ := hex
  have ha : 2 * dae.Vector3.Dot ray.toExact.direction ray.toExact.direction ≠ 0 := by
    have := dae.GeometryUtils.dot_self_pos ray.toExact.direction hdir
    linarith
  exact F32.Sim.mul_exact (snum hD) (F32.Sim.div_exact (F32.sim_fin 1) s2a ha h14) h16

/-- The smaller root of a quadratic with `a > 0` and `c < 0` is negative. -/
theorem first_root_neg (a b c s : ℚ) (ha : 0 < a) (hc : c < 0) (hs0 : 0 ≤ s)
    (hs : s * s = b * b - 4 * a * c) : (-b - s) * (1 / (2 * a)) < 0 := by
  have hnum : -b - s < 0 := by
    by_contra hcon
    push_neg at hcon
    nlinarith [mul_pos ha (neg_pos.mpr hc)]
  exact mul_neg_of_neg_of_pos hnum (one_div_pos.mpr (by linarith))

/-- From strictly inside the sphere, when no operation rounds, the test
rejects: the smaller root is negative, or (for a zero direction) the tested
value is NaN. -/
theorem sphereFirstT_outside32 (sphere : Sphere) (ray : Ray) (hs : sphere.Finite)
    (hr : ray.Finite) (hex : SphereExact sphere.toExact ray.toExact)
    (hinside : dae.Vector3.Dot (ray.toExact.origin - sphere.toExact.origin)
        (ray.toExact.origin - sphere.toExact.origin) <
      sphere.toExact.radius * sphere.toExact.radius)
    (hmin : 0 ≤ ray.toExact.min) :
    F32.lt (sphereDiscriminant sphere ray) (F32.fin 0) = false ∧
      inInterval ray (sphereFirstT sphere ray) = false := by
  have hann := dae.GeometryUtils.dot_self_nonneg ray.toExact.direction
  have hD : 0 ≤ dae.GeometryUtils.sphereDiscriminant sphere.toExact ray.toExact := by
    unfold dae.GeometryUtils.sphereDiscriminant
    nlinarith [mul_self_nonneg (2 * dae.Vector3.Dot ray.toExact.direction
      (ray.toExact.origin - sphere.toExact.origin)),
      mul_nonneg hann (sub_pos.mpr hinside).le]
  obtain ⟨sa, sD, s2a, snum⟩ := sphere_exact sphere ray hs hr hex
  refine ⟨?_, ?_⟩
  · rw [F32.Sim.lt_eq sD (F32.sim_fin 0)]
    simpa using hD
  by_cases hdir : ray.toExact.direction = ⟨0, 0, 0⟩
  · have hdd : dae.Vector3.Dot ray.toExact.direction ray.toExact.direction = 0 := by
      rw [hdir]; simp [dae.Vector3.Dot]
    have hdo : dae.Vector3.Dot ray.toExact.direction
        (ray.toExact.origin - sphere.toExact.origin) = 0 := by
      rw [hdir]; simp [dae.Vector3.Dot]
    have hD0 : dae.GeometryUtils.sphereDiscriminant sphere.toExact ray.toExact = 0 := by
      simp [dae.GeometryUtils.sphereDiscriminant, hdd, hdo]
    have hq0 : F32.sqrtQ 0 = 0 := by simp [F32.sqrtQ, F32.sqrt, F32.toRat]
    have hnum := snum hD
    rw [hdo, hD0, hq0] at hnum
    rw [hdd] at s2a
    simp only [mul_zero, neg_zero, sub_zero] at hnum s2a
    have hnan : sphereFirstT sphere ray = F32.nan :=
      F32.mul_zero_inf hnum (F32.div_one_zero s2a)
    rw [hnan]
    simp [inInterval, F32.le_nan_right]
  · have hapos := dae.GeometryUtils.dot_self_pos ray.toExact.direction hdir
    have st := sphereFirstT_exact sphere ray hs hr hex hD hdir
    have hneg : sphereRoot sphere.toExact ray.toExact < 0 :=
      first_root_neg _ _ _ _ hapos (sub_neg.mpr hinside) (F32.sqrtQ_nonneg _) hex.2.2.2.2.2.2.2.2.2.2.2.1
    have hle : F32.le ray.min (sphereFirstT sphere ray) = false := by
      rw [F32.Sim.le_eq (F32.sim_of_finite hr.2.2.1) st]
      simp only [decide_eq_false_iff_not, not_le]
      exact lt_of_lt_of_le hneg hmin
    simp [inInterval, hle]

/-- C20, amended.  In binary32, for every sphere and every ray: the guard of
the swap in `HitTest_Sphere` (`secondT < calculatedT && secondT > 0`) is never
satisfied, the computed `(-b + sqrt(discriminant)) * factor` being never below
the computed `(-b - sqrt(discriminant)) * factor`; so when the computed
discriminant is not negative the only value tested against `[ray.min,
ray.max]` is the computed `(-b - sqrt(discriminant)) * factor`.  When no
operation rounds, the exact discriminant is not negative and the direction is
not zero, that value is the root `(-b - sqrt(discriminant)) / (2a)`, which is
at most the other root; and when no operation rounds, for a ray whose origin
is strictly inside the sphere and whose `ray.min ≥ 0`, `HitTest_Sphere`
returns false (in both modes, the record unchanged). -/
theorem HitTest_Sphere_swap_never (sphere : Sphere) (ray : Ray) (hitRecord : HitRecord)
    (ignoreHitRecord : Bool) :
    (F32.lt (sphereSecondT sphere ray) (sphereFirstT sphere ray) &&
      F32.lt (F32.fin 0) (sphereSecondT sphere ray)) = false ∧
    F32.lt (sphereSecondT sphere ray) (sphereFirstT sphere ray) = false ∧
    (F32.lt (sphereDiscriminant sphere ray) (F32.fin 0) = false →
      HitTest_Sphere sphere ray hitRecord ignoreHitRecord =
        acceptTail ray hitRecord ignoreHitRecord (sphereFirstT sphere ray)
          (sphereCommit sphere ray)) ∧
    (sphere.Finite → ray.Finite → SphereExact sphere.toExact ray.toExact →
      0 ≤ dae.GeometryUtils.sphereDiscriminant sphere.toExact ray.toExact →
      ray.toExact.direction ≠ ⟨0, 0, 0⟩ →
      F32.Sim (sphereFirstT sphere ray)
          ((-(2 * dae.Vector3.Dot ray.toExact.direction
                (ray.toExact.origin - sphere.toExact.origin)) -
              F32.sqrtQ (dae.GeometryUtils.sphereDiscriminant sphere.toExact ray.toExact)) /
            (2 * dae.Vector3.Dot ray.toExact.direction ray.toExact.direction)) ∧
        (-(2 * dae.Vector3.Dot ray.toExact.direction
                (ray.toExact.origin - sphere.toExact.origin)) -
              F32.sqrtQ (dae.GeometryUtils.sphereDiscriminant sphere.toExact ray.toExact)) /
            (2 * dae.Vector3.Dot ray.toExact.direction ray.toExact.direction) ≤
          (-(2 * dae.Vector3.Dot ray.toExact.direction
                (ray.toExact.origin - sphere.toExact.origin)) +
              F32.sqrtQ (dae.GeometryUtils.sphereDiscriminant sphere.toExact ray.toExact)) /
            (2 * dae.Vector3.Dot ray.toExact.direction ray.toExact.direction)) ∧
    (sphere.Finite → ray.Finite → SphereExact sphere.toExact ray.toExact →
      dae.Vector3.Dot (ray.toExact.origin - sphere.toExact.origin)
          (ray.toExact.origin - sphere.toExact.origin) <
        sphere.toExact.radius * sphere.toExact.radius →
      0 ≤ ray.toExact.min →
      HitTest_Sphere sphere ray hitRecord ignoreHitRecord = (false, hitRecord)) := by
  have hswap := sphere_second_not_lt_first32 sphere ray
  refine ⟨by rw [hswap]; rfl, hswap, ?_, ?_, ?_⟩
  · intro hD
    rw [HitTest_Sphere_eq32, if_neg (by simp [hD]), sphereT_eq_first32]
  · intro hs hr hex hD hdir
    have st := sphereFirstT_exact sphere ray hs hr hex hD hdir
    have hapos := dae.GeometryUtils.dot_self_pos ray.toExact.direction hdir
    have hq := F32.sqrtQ_nonneg (dae.GeometryUtils.sphereDiscriminant sphere.toExact ray.toExact)
    refine ⟨?_, ?_⟩
    · rw [sphereRoot, mul_one_div] at st
      exact st
    · exact div_le_div_of_nonneg_right (by linarith) (by linarith)
  · intro hs hr hex hinside hmin
    obtain ⟨hD, hout⟩ := sphereFirstT_outside32 sphere ray hs hr hex hinside hmin
    rw [HitTest_Sphere_eq32, if_neg (by simp [hD]), sphereT_eq_first32]
    exact acceptTail_outside32 _ _ _ _ _ hout

/-- C20 at the unit sphere and the ray from its centre along `+z`: the
computed discriminant is not negative, so the value tested is the computed
`(-b - sqrt(discriminant)) * factor`; no operation rounds, that value is the
root `-1`, and the test returns false. -/
theorem HitTest_Sphere_swap_never_witness :
    HitTest_Sphere scenarioSphere insideRay HitRecord.fresh false =
        acceptTail insideRay HitRecord.fresh false (sphereFirstT scenarioSphere insideRay)
          (sphereCommit scenarioSphere insideRay) ∧
      F32.Sim (sphereFirstT scenarioSphere insideRay) (-1) ∧
      HitTest_Sphere scenarioSphere insideRay HitRecord.fresh false =
        (false, HitRecord.fresh) := by
  have h := HitTest_Sphere_swap_never scenarioSphere insideRay HitRecord.fresh false
  refine ⟨h.2.2.1 (by decide!), ?_,
    h.2.2.2.2 (by decide!) (by decide!) (by decide!) (by decide!) (by decide!)⟩
  have h1 := (h.2.2.2.1 (by decide!) (by decide!) (by decide!) (by decide!) (by decide!)).1
  have e : (-(2 * dae.Vector3.Dot insideRay.toExact.direction
                (insideRay.toExact.origin - scenarioSphere.toExact.origin)) -
              F32.sqrtQ (dae.GeometryUtils.sphereDiscriminant scenarioSphere.toExact
                insideRay.toExact)) /
            (2 * dae.Vector3.Dot insideRay.toExact.direction insideRay.toExact.direction) =
      -1 := by decide!
  rw [← e]
  exact h1

/-- C20 fails on the code: the ray `shellRay` starts strictly inside the sphere
of radius `11` (its origin at squared distance `< 121` from the centre) and has
`ray.min = 0`, yet in binary32 `dot(originVector, originVector) - radius²`
rounds to `0`, the discriminant is `b² = 4356`, the tested value is `(66 - 66)
* factor = 0`, and `HitTest_Sphere` returns true in both modes, committing
`t = 0`. -/
theorem HitTest_Sphere_inside_counterexample :
    wideSphere.Finite ∧ shellRay.Finite ∧
    dae.Vector3.Dot (shellRay.toExact.origin - wideSphere.toExact.origin)
        (shellRay.toExact.origin - wideSphere.toExact.origin) <
      wideSphere.toExact.radius * wideSphere.toExact.radius ∧
    0 ≤ shellRay.toExact.min ∧
    0 ≤ dae.GeometryUtils.sphereDiscriminant wideSphere.toExact shellRay.toExact ∧
    sphereDiscriminant wideSphere shellRay = F32.fin 4356 ∧
    sphereFirstT wideSphere shellRay = F32.fin 0 ∧
    (HitTest_Sphere wideSphere shellRay HitRecord.fresh true).1 = true ∧
    (HitTest_Sphere wideSphere shellRay HitRecord.fresh false).1 = true ∧
    (HitTest_Sphere wideSphere shellRay HitRecord.fresh false).2.t = F32.fin 0 ∧
    (HitTest_Sphere wideSphere shellRay HitRecord.fresh false).2.didHit = true := by
  decide!

end GeometryUtils

end binary32

namespace binary32

namespace GeometryUtils

/-! ## binary32: the record a sphere commits -/

/-- The point the sphere test commits when no operation rounds: the exact
point of the ray at the exact smaller root, which lies on the sphere. -/
theorem sphereCommit_exact (sphere : Sphere) (ray : Ray) (hs : sphere.Finite) (hr : ray.Finite)
    (hdir : ray.toExact.direction ≠ ⟨0, 0, 0⟩)
    (hex : SphereExact sphere.toExact ray.toExact)
    (hD : 0 ≤ dae.GeometryUtils.sphereDiscriminant sphere.toExact ray.toExact)
    (hce : SphereCommitExact sphere.toExact ray.toExact) :
    F32.Sim (sphereT sphere ray) (sphereRoot sphere.toExact ray.toExact) ∧
    SimV (sphereCommit sphere ray).origin
      (ray.toExact.origin +
        dae.Vector3.scale ray.toExact.direction (sphereRoot sphere.toExact ray.toExact)) ∧
    dae.Vector3.Dot ray.toExact.direction ray.toExact.direction *
          (sphereRoot sphere.toExact ray.toExact * sphereRoot sphere.toExact ray.toExact) +
        2 * dae.Vector3.Dot ray.toExact.direction
            (ray.toExact.origin - sphere.toExact.origin) *
          sphereRoot sphere.toExact ray.toExact +
        (dae.Vector3.Dot (ray.toExact.origin - sphere.toExact.origin)
            (ray.toExact.origin - sphere.toExact.origin) -
          sphere.toExact.radius * sphere.toExact.radius) = 0 ∧
    dae.Vector3.Dot
        (ray.toExact.origin +
          dae.Vector3.scale ray.toExact.direction (sphereRoot sphere.toExact ray.toExact) -
          sphere.toExact.origin)
        (ray.toExact.origin +
          dae.Vector3.scale ray.toExact.direction (sphereRoot sphere.toExact ray.toExact) -
          sphere.toExact.origin) =
      sphere.toExact.radius * sphere.toExact.radius := by
  have st : F32.Sim (sphereT sphere ray) (sphereRoot sphere.toExact ray.toExact) := by
    rw [sphereT_eq_first32]
    exact sphereFirstT_exact sphere ray hs hr hex hD hdir
  have so := simV_of_finite hr.1
  have sd := simV_of_finite hr.2.1
  have sP : SimV (sphereCommit sphere ray).origin _ :=
    so.vadd_exact (sd.scale_exact st hce.1) hce.2
  have ha : dae.Vector3.Dot ray.toExact.direction ray.toExact.direction ≠ 0 :=
    (dae.GeometryUtils.dot_self_pos ray.toExact.direction hdir).ne'
  have hquad := dae.GeometryUtils.quadratic_root
    (dae.Vector3.Dot ray.toExact.direction ray.toExact.direction)
    (2 * dae.Vector3.Dot ray.toExact.direction (ray.toExact.origin - sphere.toExact.origin))
    (dae.Vector3.Dot (ray.toExact.origin - sphere.toExact.origin)
        (ray.toExact.origin - sphere.toExact.origin) -
      sphere.toExact.radius * sphere.toExact.radius)
    (F32.sqrtQ (dae.GeometryUtils.sphereDiscriminant sphere.toExact ray.toExact))
    (sphereRoot sphere.toExact ray.toExact) ha hex.2.2.2.2.2.2.2.2.2.2.2.1 (Or.inl rfl)
  refine ⟨st, sP, hquad, ?_⟩
  rw [dae.GeometryUtils.sphere_point_dist]
  linarith

/-- C2, amended.  In binary32, for every sphere and ray: if the any-hit
`HitTest_Sphere` returns true, then the closest-hit `HitTest_Sphere` started
from a record with `t = +∞` also returns true and the computed value `t` it
tested passes `t >= ray.min && t <= ray.max`; if that `t` is below `+∞` the
record gets `didHit`, `t` and the computed point `ray.origin + direction * t`.
When moreover the direction is not zero and no operation rounds, `didHit` is
set, the record's `t` is the exact root and lies in `[ray.min, ray.max]`, and
the record's origin is at squared distance `radius²` from the sphere's centre
(so at distance `radius` when the radius is not negative). -/
theorem HitTest_Sphere_any_then_closest (sphere : Sphere) (ray : Ray) (hitRecord : HitRecord)
    (hfresh : hitRecord.t = F32.posInf)
    (hany : HitTest_Sphere_any sphere ray = true) :
    (HitTest_Sphere sphere ray hitRecord false).1 = true ∧
    F32.le ray.min (sphereT sphere ray) = true ∧
    F32.le (sphereT sphere ray) ray.max = true ∧
    (F32.lt (sphereT sphere ray) F32.posInf = true →
      (HitTest_Sphere sphere ray hitRecord false).2.didHit = true ∧
      (HitTest_Sphere sphere ray hitRecord false).2.t = sphereT sphere ray ∧
      (HitTest_Sphere sphere ray hitRecord false).2.origin =
        Vector3.add ray.origin (Vector3.scale ray.direction (sphereT sphere ray))) ∧
    (sphere.Finite → ray.Finite → ray.toExact.direction ≠ ⟨0, 0, 0⟩ →
      SphereExact sphere.toExact ray.toExact → SphereCommitExact sphere.toExact ray.toExact →
      (HitTest_Sphere sphere ray hitRecord false).2.didHit = true ∧
      (∃ t : ℚ, F32.Sim (HitTest_Sphere sphere ray hitRecord false).2.t t ∧
        ray.toExact.min ≤ t ∧ (t : WithTop ℚ) ≤ ray.toExact.max) ∧
      dae.Vector3.Dot
          ((HitTest_Sphere sphere ray hitRecord false).2.origin.toExact - sphere.toExact.origin)
          ((HitTest_Sphere sphere ray hitRecord false).2.origin.toExact - sphere.toExact.origin) =
        sphere.toExact.radius * sphere.toExact.radius ∧
      (∀ dist : ℚ, 0 ≤ dist → 0 ≤ sphere.toExact.radius →
        dist * dist =
          dae.Vector3.Dot
            ((HitTest_Sphere sphere ray hitRecord false).2.origin.toExact -
              sphere.toExact.origin)
            ((HitTest_Sphere sphere ray hitRecord false).2.origin.toExact -
              sphere.toExact.origin) →
        dist = sphere.toExact.radius)) := by
  unfold HitTest_Sphere_any at hany
  rw [HitTest_Sphere_eq32] at hany
  by_cases hDlt : F32.lt (sphereDiscriminant sphere ray) (F32.fin 0) = true
  · rw [if_pos hDlt] at hany
    exact absurd hany (by simp)
  rw [if_neg hDlt, acceptTail_fst32] at hany
  have hin := hany
  simp only [inInterval, Bool.and_eq_true] at hin
  have hcommit : F32.lt (sphereT sphere ray) F32.posInf = true →
      HitTest_Sphere sphere ray hitRecord false = (true, sphereCommit sphere ray) := by
    intro hlt
    rw [HitTest_Sphere_eq32, if_neg hDlt]
    exact acceptTail_commit32 _ _ _ _ hany (by rw [hfresh]; exact hlt)
  refine ⟨?_, hin.1, hin.2, ?_, ?_⟩
  · rw [HitTest_Sphere_eq32, if_neg hDlt, acceptTail_fst32]
    exact hany
  · intro hlt
    rw [hcommit hlt]
    exact ⟨rfl, rfl, rfl⟩
  · intro hs hr hdir hex hce
    have sD := (sphere_exact sphere ray hs hr hex).2.1
    have hD : 0 ≤ dae.GeometryUtils.sphereDiscriminant sphere.toExact ray.toExact := by
      have h := F32.Sim.lt_eq sD (F32.sim_fin 0)
      rw [Bool.not_eq_true] at hDlt
      rw [hDlt] at h
      simpa using h.symm
    obtain ⟨st, sP, -, hdist⟩ := sphereCommit_exact sphere ray hs hr hdir hex hD hce
    rw [hcommit st.lt_posInf]
    have e := sP.simV_toExact
    have hdist2 : dae.Vector3.Dot
        ((sphereCommit sphere ray).origin.toExact - sphere.toExact.origin)
        ((sphereCommit sphere ray).origin.toExact - sphere.toExact.origin) =
        sphere.toExact.radius * sphere.toExact.radius := by
      rw [e]; exact hdist
    refine ⟨rfl, ⟨_, st, (inInterval_sim hr st).mp hany⟩, hdist2, ?_⟩
    intro dist hd0 hr0 hdd
    simp only [] at hdist2
    rw [hdist2] at hdd
    nlinarith [mul_self_nonneg (dist - sphere.toExact.radius),
      mul_self_nonneg (dist + sphere.toExact.radius)]

/-- C2 at the spec's sphere scenario (unit sphere, ray from `(0, 0, -5)` along
`+z`): no operation rounds, the any-hit test accepts, and the closest-hit test
on a fresh record reports the hit at `t = 4`, at squared distance `1` from the
centre, so at distance `1`, the radius. -/
theorem HitTest_Sphere_any_then_closest_witness :
    HitTest_Sphere_any scenarioSphere scenarioSphereRay = true ∧
    (HitTest_Sphere scenarioSphere scenarioSphereRay HitRecord.fresh false).1 = true ∧
    (HitTest_Sphere scenarioSphere scenarioSphereRay HitRecord.fresh false).2.didHit = true ∧
    (HitTest_Sphere scenarioSphere scenarioSphereRay HitRecord.fresh false).2.t = F32.fin 4 ∧
    dae.Vector3.Dot
        ((HitTest_Sphere scenarioSphere scenarioSphereRay HitRecord.fresh false).2.origin.toExact
          - scenarioSphere.toExact.origin)
        ((HitTest_Sphere scenarioSphere scenarioSphereRay HitRecord.fresh false).2.origin.toExact
          - scenarioSphere.toExact.origin) = 1 ∧
    (1 : ℚ) = scenarioSphere.toExact.radius := by
  have hany : HitTest_Sphere_any scenarioSphere scenarioSphereRay = true := by decide!
  have h := HitTest_Sphere_any_then_closest scenarioSphere scenarioSphereRay HitRecord.fresh
    rfl hany
  have h5 := h.2.2.2.2 (by decide!) (by decide!) (by decide!) (by decide!) (by decide!)
  have ht : sphereT scenarioSphere scenarioSphereRay = F32.fin 4 := by decide!
  have h4 := h.2.2.2.1 (by rw [ht]; rfl)
  have hd : dae.Vector3.Dot
      ((HitTest_Sphere scenarioSphere scenarioSphereRay HitRecord.fresh false).2.origin.toExact
        - scenarioSphere.toExact.origin)
      ((HitTest_Sphere scenarioSphere scenarioSphereRay HitRecord.fresh false).2.origin.toExact
        - scenarioSphere.toExact.origin) = 1 := by
    rw [h5.2.2.1]
    decide!
  exact ⟨hany, h.1, h5.1, by rw [h4.2.1, ht], hd,
    h5.2.2.2 1 (by norm_num) (by decide!) (by rw [hd]; norm_num)⟩

/-- C2 fails on the code: for the unit sphere and the ray from `(0, 0, -2^24)`
along `+z` the any-hit test returns true, and the closest-hit test on a fresh
record returns true and commits `t = 2^24` and the point `(0, 0, 0)`: the
centre of the sphere, at distance `0` from it and not `1`.  (In binary32
`2^48 - 1` rounds to `2^48`, so the computed discriminant is `0`.) -/
theorem HitTest_Sphere_far_counterexample :
    farRay.toExact.direction ≠ ⟨0, 0, 0⟩ ∧
    HitTest_Sphere_any scenarioSphere farRay = true ∧
    (HitTest_Sphere scenarioSphere farRay HitRecord.fresh false).1 = true ∧
    (HitTest_Sphere scenarioSphere farRay HitRecord.fresh false).2.didHit = true ∧
    (HitTest_Sphere scenarioSphere farRay HitRecord.fresh false).2.t = F32.fin 16777216 ∧
    (HitTest_Sphere scenarioSphere farRay HitRecord.fresh false).2.origin =
      ⟨F32.fin 0, F32.fin 0, F32.fin 0⟩ ∧
    dae.Vector3.Dot
        ((HitTest_Sphere scenarioSphere farRay HitRecord.fresh false).2.origin.toExact -
          scenarioSphere.toExact.origin)
        ((HitTest_Sphere scenarioSphere farRay HitRecord.fresh false).2.origin.toExact -
          scenarioSphere.toExact.origin) = 0 ∧
    scenarioSphere.toExact.radius * scenarioSphere.toExact.radius = 1 := by
  decide!

/-- A vector of squared length `r²` divided by `r` has unit length. -/
theorem unit_of_dist (x y z r : ℚ) (hr : r ≠ 0) (h : x * x + y * y + z * z = r * r) :
    x / r * (x / r) + y / r * (y / r) + z / r * (z / r) = 1 := by
  have e : x / r * (x / r) + y / r * (y / r) + z / r * (z / r) =
      (x * x + y * y + z * z) / (r * r) := by
    field_simp
  rw [e, h, div_self (mul_ne_zero hr hr)]

/-- The magnitude is the square root of the dot product of the vector with
itself. -/
theorem magnitude_eq32 (v : Vector3) : Vector3.Magnitude v = F32.sqrt (Vector3.Dot v v) := rfl

/-- C12, amended.  In binary32, for every sphere, ray and record: whenever the
closest-hit `HitTest_Sphere` commits a hit (it returns true and the tested
value is below `hitRecord.t`), the record holds `t` = the tested value, which
is the computed `(-b - sqrt(discriminant)) * factor`, `origin` = the computed
`ray.origin + direction * t`, `normal` = the computed normalisation of `origin
- sphere.origin`, the sphere's `materialIndex`, and `didHit = true`.  When
moreover the radius is positive, the direction is not zero and no operation
rounds, `t` is a root of the quadratic, `origin` is the exact point
`ray.origin + t·direction`, and `normal` is `(origin - sphere.origin) /
radius`, which has unit length. -/
theorem HitTest_Sphere_commit (sphere : Sphere) (ray : Ray) (hitRecord : HitRecord)
    (hhit : (HitTest_Sphere sphere ray hitRecord false).1 = true)
    (hcloser : F32.lt (sphereT sphere ray) hitRecord.t = true) :
    HitTest_Sphere sphere ray hitRecord false =
      (true, { t := sphereT sphere ray,
               materialIndex := sphere.materialIndex,
               didHit := true,
               origin := Vector3.add ray.origin (Vector3.scale ray.direction (sphereT sphere ray)),
               normal := Vector3.Normalize
                 (Vector3.sub
                   (Vector3.add ray.origin (Vector3.scale ray.direction (sphereT sphere ray)))
                   sphere.origin) }) ∧
    sphereT sphere ray =
      F32.mul (F32.sub (F32.neg (sphereB sphere ray)) (F32.sqrt (sphereDiscriminant sphere ray)))
        (sphereFactor ray) ∧
    (sphere.Finite → ray.Finite → 0 < sphere.toExact.radius →
      ray.toExact.direction ≠ ⟨0, 0, 0⟩ →
      SphereExact sphere.toExact ray.toExact → SphereCommitExact sphere.toExact ray.toExact →
      SphereNormalExact sphere.toExact ray.toExact →
      ∃ t : ℚ,
        F32.Sim (HitTest_Sphere sphere ray hitRecord false).2.t t ∧
        dae.Vector3.Dot ray.toExact.direction ray.toExact.direction * (t * t) +
          2 * dae.Vector3.Dot ray.toExact.direction
              (ray.toExact.origin - sphere.toExact.origin) * t +
          (dae.Vector3.Dot (ray.toExact.origin - sphere.toExact.origin)
              (ray.toExact.origin - sphere.toExact.origin) -
            sphere.toExact.radius * sphere.toExact.radius) = 0 ∧
        (HitTest_Sphere sphere ray hitRecord false).2.origin.toExact =
          ray.toExact.origin + dae.Vector3.scale ray.toExact.direction t ∧
        (HitTest_Sphere sphere ray hitRecord false).2.normal.toExact =
          ⟨((HitTest_Sphere sphere ray hitRecord false).2.origin.toExact -
              sphere.toExact.origin).x / sphere.toExact.radius,
           ((HitTest_Sphere sphere ray hitRecord false).2.origin.toExact -
              sphere.toExact.origin).y / sphere.toExact.radius,
           ((HitTest_Sphere sphere ray hitRecord false).2.origin.toExact -
              sphere.toExact.origin).z / sphere.toExact.radius⟩ ∧
        (HitTest_Sphere sphere ray hitRecord false).2.normal.Finite ∧
        dae.Vector3.Dot (HitTest_Sphere sphere ray hitRecord false).2.normal.toExact
          (HitTest_Sphere sphere ray hitRecord false).2.normal.toExact = 1) := by
  have hDlt : ¬ F32.lt (sphereDiscriminant sphere ray) (F32.fin 0) = true := by
    intro hneg
    rw [HitTest_Sphere_eq32, if_pos hneg] at hhit
    exact absurd hhit (by simp)
  have hin : inInterval ray (sphereT sphere ray) = true := by
    rw [HitTest_Sphere_eq32, if_neg hDlt, acceptTail_fst32] at hhit
    exact hhit
  have hres : HitTest_Sphere sphere ray hitRecord false = (true, sphereCommit sphere ray) := by
    rw [HitTest_Sphere_eq32, if_neg hDlt]
    exact acceptTail_commit32 _ _ _ _ hin hcloser
  refine ⟨hres, sphereT_eq_first32 sphere ray, ?_⟩
  intro hs hr hrad hdir hex hce hne
  have sD := (sphere_exact sphere ray hs hr hex).2.1
  have hD : 0 ≤ dae.GeometryUtils.sphereDiscriminant sphere.toExact ray.toExact := by
    have h := F32.Sim.lt_eq sD (F32.sim_fin 0)
    rw [Bool.not_eq_true] at hDlt
    rw [hDlt] at h
    simpa using h.symm
  obtain ⟨st, sP, hquad, hdist⟩ := sphereCommit_exact sphere ray hs hr hdir hex hD hce
  obtain ⟨n1, n2, n3, n4, n5, n6⟩ := hne
  have sc : SimV sphere.origin sphere.toExact.origin := simV_of_finite hs.1
  have sn := sP.vsub_exact sc n1
  have smag : F32.Sim
      (Vector3.Magnitude (Vector3.sub (sphereCommit sphere ray).origin sphere.origin))
      sphere.toExact.radius := by
    rw [magnitude_eq32]
    have h := (sn.dot_exact sn n2).sqrt_exact (dae.GeometryUtils.dot_self_nonneg _)
    rw [hdist, n3] at h
    exact h
  have hr0 : sphere.toExact.radius ≠ 0 := hrad.ne'
  have sN : SimV (sphereCommit sphere ray).normal
      ⟨(ray.toExact.origin + dae.Vector3.scale ray.toExact.direction
            (sphereRoot sphere.toExact ray.toExact) - sphere.toExact.origin).x /
          sphere.toExact.radius,
       (ray.toExact.origin + dae.Vector3.scale ray.toExact.direction
            (sphereRoot sphere.toExact ray.toExact) - sphere.toExact.origin).y /
          sphere.toExact.radius,
       (ray.toExact.origin + dae.Vector3.scale ray.toExact.direction
            (sphereRoot sphere.toExact ray.toExact) - sphere.toExact.origin).z /
          sphere.toExact.radius⟩ :=
    ⟨F32.Sim.div_exact sn.1 smag hr0 n4, F32.Sim.div_exact sn.2.1 smag hr0 n5,
      F32.Sim.div_exact sn.2.2 smag hr0 n6⟩
  rw [hres]
  have eP := sP.simV_toExact
  have eN := sN.simV_toExact
  refine ⟨_, st, hquad, eP, ?_, sN.simV_finite, ?_⟩
  · simp only []
    rw [eN, eP]
  · simp only []
    rw [eN]
    exact unit_of_dist _ _ _ _ hr0 hdist

/-- C12 at the spec's sphere scenario (unit sphere, ray from `(0, 0, -5)`
along `+z`, fresh record): no operation rounds, and the record holds `t = 4`,
origin `(0, 0, -1)` and the unit normal `(0, 0, -1)`. -/
theorem HitTest_Sphere_commit_witness :
    HitTest_Sphere scenarioSphere scenarioSphereRay HitRecord.fresh false =
      (true, { t := F32.fin 4, materialIndex := 0, didHit := true,
               origin := ⟨F32.fin 0, F32.fin 0, F32.fin (-1)⟩,
               normal := ⟨F32.fin 0, F32.fin 0, F32.fin (-1)⟩ }) ∧
    dae.Vector3.Dot
        (HitTest_Sphere scenarioSphere scenarioSphereRay HitRecord.fresh false).2.normal.toExact
        (HitTest_Sphere scenarioSphere scenarioSphereRay HitRecord.fresh false).2.normal.toExact
      = 1 := by
  have h := HitTest_Sphere_commit scenarioSphere scenarioSphereRay HitRecord.fresh
    (by decide!) (by decide!)
  obtain ⟨t, -, -, -, -, -, h1⟩ := h.2.2 (by decide!) (by decide!) (by decide!) (by decide!)
    (by decide!) (by decide!) (by decide!)
  refine ⟨?_, h1⟩
  rw [h.1]
  decide!

/-- C12 fails on the code: for the unit sphere and the ray from `(0, 0,
-2^24)` along `+z` (positive radius, non-zero direction) the closest-hit test
on a fresh record commits a hit whose point is `(0, 0, 0)` and whose normal is
`(NaN, NaN, NaN)`: `origin - sphere.origin` has magnitude `0` and each
component is `0 / 0`.  The normal is neither of unit length nor `(origin -
sphere.origin) / radius = (0, 0, 0)`. -/
theorem HitTest_Sphere_normal_counterexample :
    0 < scenarioSphere.toExact.radius ∧
    farRay.toExact.direction ≠ ⟨0, 0, 0⟩ ∧
    (HitTest_Sphere scenarioSphere farRay HitRecord.fresh false).1 = true ∧
    F32.lt (sphereT scenarioSphere farRay) HitRecord.fresh.t = true ∧
    HitTest_Sphere scenarioSphere farRay HitRecord.fresh false =
      (true, { t := F32.fin 16777216, materialIndex := 0, didHit := true,
               origin := ⟨F32.fin 0, F32.fin 0, F32.fin 0⟩,
               normal := ⟨F32.nan, F32.nan, F32.nan⟩ }) ∧
    Vector3.Dot (HitTest_Sphere scenarioSphere farRay HitRecord.fresh false).2.normal
        (HitTest_Sphere scenarioSphere farRay HitRecord.fresh false).2.normal = F32.nan ∧
    F32.div (F32.sub (HitTest_Sphere scenarioSphere farRay HitRecord.fresh false).2.origin.z
        scenarioSphere.origin.z) scenarioSphere.radius = F32.fin 0 := by
  decide!

end GeometryUtils

end binary32

namespace F32

/-! ## binary32: `std::min` and `std::max` on finite numbers -/

theorem Sim.std_min_exact {x y : F32} {p q : ℚ} (hx : Sim x p) (hy : Sim y q) :
    Sim (std_min x y) (min p q) := by
  unfold std_min
  rw [Sim.lt_eq hy hx]
  by_cases h : q < p
  · rw [if_pos (by simpa using h), min_eq_right h.le]
    exact hy
  · rw [if_neg (by simpa using h), min_eq_left (not_lt.mp h)]
    exact hx

theorem Sim.std_max_exact {x y : F32} {p q : ℚ} (hx : Sim x p) (hy : Sim y q) :
    Sim (std_max x y) (max p q) := by
  unfold std_max
  rw [Sim.lt_eq hx hy]
  by_cases h : p < q
  · rw [if_pos (by simpa using h), max_eq_right h.le]
    exact hy
  · rw [if_neg (by simpa using h), max_eq_left (not_lt.mp h)]
    exact hx

end F32

namespace binary32

namespace GeometryUtils

/-! ## binary32: the slab test -/

/-- What the slab test computes when no operation rounds: the exact ends of
the slab interval. -/
theorem slab_exact (minAABB maxAABB : Vector3) (ray : Ray)
    (hmin : minAABB.Finite) (hmax : maxAABB.Finite) (ho : ray.origin.Finite)
    (hi : ray.inverseDirection.Finite)
    (hex : SlabExact minAABB.toExact maxAABB.toExact ray.toExact) :
    F32.Sim (slabTmin minAABB maxAABB ray)
        (dae.GeometryUtils.slabTmin minAABB.toExact maxAABB.toExact ray.toExact) ∧
      F32.Sim (slabTmax minAABB maxAABB ray)
        (dae.GeometryUtils.slabTmax minAABB.toExact maxAABB.toExact ray.toExact) := by
  obtain ⟨⟨x1, x2, x3, x4⟩, ⟨y1, y2, y3, y4⟩, ⟨z1, z2, z3, z4⟩⟩ := hex
  have smin := simV_of_finite hmin
  have smax := simV_of_finite hmax
  have so := simV_of_finite ho
  have si := simV_of_finite hi
  have tx1 := F32.Sim.mul_exact (F32.Sim.sub_exact smin.1 so.1 x1) si.1 x3
  have tx2 := F32.Sim.mul_exact (F32.Sim.sub_exact smax.1 so.1 x2) si.1 x4
  have ty1 := F32.Sim.mul_exact (F32.Sim.sub_exact smin.2.1 so.2.1 y1) si.2.1 y3
  have ty2 := F32.Sim.mul_exact (F32.Sim.sub_exact smax.2.1 so.2.1 y2) si.2.1 y4
  have tz1 := F32.Sim.mul_exact (F32.Sim.sub_exact smin.2.2 so.2.2 z1) si.2.2 z3
  have tz2 := F32.Sim.mul_exact (F32.Sim.sub_exact smax.2.2 so.2.2 z2) si.2.2 z4
  exact ⟨((tx1.std_min_exact tx2).std_max_exact (ty1.std_min_exact ty2)).std_max_exact
      (tz1.std_min_exact tz2),
    ((tx1.std_max_exact tx2).std_min_exact (ty1.std_max_exact ty2)).std_min_exact
      (tz1.std_max_exact tz2)⟩

/-- When no operation rounds, the binary32 slab test returns what the exact
one returns. -/
theorem SlabTest_exact_run (minAABB maxAABB : Vector3) (ray : Ray)
    (hmin : minAABB.Finite) (hmax : maxAABB.Finite) (ho : ray.origin.Finite)
    (hi : ray.inverseDirection.Finite)
    (hex : SlabExact minAABB.toExact maxAABB.toExact ray.toExact) :
    SlabTest_BoundingBox minAABB maxAABB ray =
      dae.GeometryUtils.SlabTest_BoundingBox minAABB.toExact maxAABB.toExact ray.toExact := by
  obtain ⟨s1, s2⟩ := slab_exact minAABB maxAABB ray hmin hmax ho hi hex
  rw [SlabTest_BoundingBox_eq32, dae.GeometryUtils.SlabTest_eq,
    F32.Sim.lt_eq (F32.sim_fin 0) s2, F32.Sim.le_eq s1 s2]
  simp [Bool.decide_and]

theorem SlabTest_iff32 (minAABB maxAABB : Vector3) (ray : Ray) :
    SlabTest_BoundingBox minAABB maxAABB ray = true ↔
      F32.lt (F32.fin 0) (slabTmax minAABB maxAABB ray) = true ∧
        F32.le (slabTmin minAABB maxAABB ray) (slabTmax minAABB maxAABB ray) = true := by
  rw [SlabTest_BoundingBox_eq32, Bool.and_eq_true]

/-- C5, amended.  In binary32, for every box and every ray: `SlabTest_BoundingBox`
returns true if and only if the computed ends of the slab interval satisfy
`tmax > 0` and `tmax >= tmin`; `ray.min` and `ray.max` are not read and do not
affect the result.  When moreover the box has `min ≤ max` on each axis, the
direction components are all non-zero, `inverseDirection` is their
componentwise reciprocal and no operation of the test rounds, it returns true
if and only if there is a parameter `t > 0` with `ray.origin + t·direction`
inside the box. -/
theorem SlabTest_BoundingBox_overlap (minAABB maxAABB : Vector3) (ray : Ray) :
    (SlabTest_BoundingBox minAABB maxAABB ray = true ↔
      F32.lt (F32.fin 0) (slabTmax minAABB maxAABB ray) = true ∧
        F32.le (slabTmin minAABB maxAABB ray) (slabTmax minAABB maxAABB ray) = true) ∧
    (∀ m M : F32,
      SlabTest_BoundingBox minAABB maxAABB { ray with min := m, max := M } =
        SlabTest_BoundingBox minAABB maxAABB ray) ∧
    (minAABB.Finite → maxAABB.Finite → ray.origin.Finite → ray.inverseDirection.Finite →
      (minAABB.toExact.x ≤ maxAABB.toExact.x ∧ minAABB.toExact.y ≤ maxAABB.toExact.y ∧
        minAABB.toExact.z ≤ maxAABB.toExact.z) →
      (ray.toExact.direction.x ≠ 0 ∧ ray.toExact.direction.y ≠ 0 ∧
        ray.toExact.direction.z ≠ 0) →
      (ray.toExact.inverseDirection.x = 1 / ray.toExact.direction.x ∧
        ray.toExact.inverseDirection.y = 1 / ray.toExact.direction.y ∧
        ray.toExact.inverseDirection.z = 1 / ray.toExact.direction.z) →
      SlabExact minAABB.toExact maxAABB.toExact ray.toExact →
      (SlabTest_BoundingBox minAABB maxAABB ray = true ↔
        ∃ t : ℚ, 0 < t ∧
          dae.GeometryUtils.InsideBox minAABB.toExact maxAABB.toExact
            (ray.toExact.origin + dae.Vector3.scale ray.toExact.direction t))) := by
  refine ⟨SlabTest_iff32 minAABB maxAABB ray, fun _ _ => rfl, ?_⟩
  intro hmin hmax ho hi hbox hdir hinv hex
  rw [SlabTest_exact_run minAABB maxAABB ray hmin hmax ho hi hex]
  exact dae.GeometryUtils.SlabTest_iff_exists_pos _ _ _ hbox hdir hinv

/-- C5 at the box `[10, 11]³` and the diagonal ray from the world origin: no
operation rounds, the ray is inside the box at `t = 10`, and the test returns
true. -/
theorem SlabTest_BoundingBox_overlap_witness :
    SlabTest_BoundingBox farCubeMin farCubeMax diagonalRay = true ∧
      dae.GeometryUtils.InsideBox farCubeMin.toExact farCubeMax.toExact
        (diagonalRay.toExact.origin + dae.Vector3.scale diagonalRay.toExact.direction 10) := by
  have hin : dae.GeometryUtils.InsideBox farCubeMin.toExact farCubeMax.toExact
      (diagonalRay.toExact.origin + dae.Vector3.scale diagonalRay.toExact.direction 10) := by
    unfold dae.GeometryUtils.InsideBox
    decide!
  exact ⟨((SlabTest_BoundingBox_overlap farCubeMin farCubeMax diagonalRay).2.2
    (by decide!) (by decide!) (by decide!) (by decide!) (by decide!) (by decide!)
    (by decide!) (by decide!)).mpr ⟨10, by norm_num, hin⟩, hin⟩

/-- C5 fails on the code, in both directions.  The box `[10, 11]³` and the
diagonal ray from the world origin with interval `[0, 1]`: the slab test
returns true although no parameter in `[ray.min, ray.max]` gives a point of
the box.  The flat box `[0, 1] × [0, 1] × {0}` and the ray from `(-1, 1.5,
-41)` with direction `(1, -1, 41)`, whose inverse direction is the one
binary32 computes: the ray is inside the box at `t = 1`, which lies in
`[ray.min, ray.max]`, yet the slab test returns false, the computed `tmax =
41 * fl(1/41) = 1 - 2^-24` being below the computed `tmin = 1`. -/
theorem SlabTest_segment_counterexample :
    (SlabTest_BoundingBox farCubeMin farCubeMax diagonalRay = true ∧
      ¬ ∃ t : ℚ, diagonalRay.toExact.min ≤ t ∧ (t : WithTop ℚ) ≤ diagonalRay.toExact.max ∧
        dae.GeometryUtils.InsideBox farCubeMin.toExact farCubeMax.toExact
          (diagonalRay.toExact.origin + dae.Vector3.scale diagonalRay.toExact.direction t)) ∧
    (skewRay.inverseDirection =
        ⟨F32.div (F32.fin 1) skewRay.direction.x, F32.div (F32.fin 1) skewRay.direction.y,
          F32.div (F32.fin 1) skewRay.direction.z⟩ ∧
      (skewRay.toExact.min ≤ 1 ∧ ((1 : ℚ) : WithTop ℚ) ≤ skewRay.toExact.max) ∧
      dae.GeometryUtils.InsideBox flatBoxMin.toExact flatBoxMax.toExact
        (skewRay.toExact.origin + dae.Vector3.scale skewRay.toExact.direction 1) ∧
      slabTmin flatBoxMin flatBoxMax skewRay = F32.fin 1 ∧
      slabTmax flatBoxMin flatBoxMax skewRay = F32.fin (16777215 / 16777216) ∧
      SlabTest_BoundingBox flatBoxMin flatBoxMax skewRay = false) := by
  refine ⟨⟨by decide!, ?_⟩, by decide!, ⟨by decide!, ?_⟩,
    by unfold dae.GeometryUtils.InsideBox; decide!, by decide!, by decide!, by decide!⟩
  · rintro ⟨t, -, hmax, hin⟩
    have h1 : t ≤ 1 := by
      have : (t : WithTop ℚ) ≤ ((1 : ℚ) : WithTop ℚ) := hmax
      exact WithTop.coe_le_coe.mp this
    have h2 : (10 : ℚ) ≤ 0 + 1 * t := hin.1
    linarith
  · exact le_top

/-- C18, amended.  In binary32, for every box and every ray:
`SlabTest_BoundingBox` returns true if and only if `tmax > 0` and `tmax >=
tmin` for the computed ends `tmin`, `tmax` of the intersected per-axis slab
interval; the result does not depend on `ray.min` or `ray.max`.  When moreover
the box has `min ≤ max` on each axis, the direction components are all
non-zero, `inverseDirection` is their componentwise reciprocal and no
operation of the test rounds, the computed ends are the exact ones, the
parameters at which the ray is inside the box are those of `[tmin, tmax]`,
and `tmax > 0` and `tmax >= tmin` hold if and only if there is a `t > 0` with
`ray.origin + t·direction` inside the box. -/
theorem SlabTest_BoundingBox_interval (minAABB maxAABB : Vector3) (ray : Ray) :
    (SlabTest_BoundingBox minAABB maxAABB ray = true ↔
      F32.lt (F32.fin 0) (slabTmax minAABB maxAABB ray) = true ∧
        F32.le (slabTmin minAABB maxAABB ray) (slabTmax minAABB maxAABB ray) = true) ∧
    (∀ m M : F32,
      SlabTest_BoundingBox minAABB maxAABB { ray with min := m, max := M } =
        SlabTest_BoundingBox minAABB maxAABB ray) ∧
    (minAABB.Finite → maxAABB.Finite → ray.origin.Finite → ray.inverseDirection.Finite →
      (minAABB.toExact.x ≤ maxAABB.toExact.x ∧ minAABB.toExact.y ≤ maxAABB.toExact.y ∧
        minAABB.toExact.z ≤ maxAABB.toExact.z) →
      (ray.toExact.direction.x ≠ 0 ∧ ray.toExact.direction.y ≠ 0 ∧
        ray.toExact.direction.z ≠ 0) →
      (ray.toExact.inverseDirection.x = 1 / ray.toExact.direction.x ∧
        ray.toExact.inverseDirection.y = 1 / ray.toExact.direction.y ∧
        ray.toExact.inverseDirection.z = 1 / ray.toExact.direction.z) →
      SlabExact minAABB.toExact maxAABB.toExact ray.toExact →
      F32.Sim (slabTmin minAABB maxAABB ray)
          (dae.GeometryUtils.slabTmin minAABB.toExact maxAABB.toExact ray.toExact) ∧
        F32.Sim (slabTmax minAABB maxAABB ray)
          (dae.GeometryUtils.slabTmax minAABB.toExact maxAABB.toExact ray.toExact) ∧
        (∀ t : ℚ,
          dae.GeometryUtils.InsideBox minAABB.toExact maxAABB.toExact
              (ray.toExact.origin + dae.Vector3.scale ray.toExact.direction t) ↔
            dae.GeometryUtils.slabTmin minAABB.toExact maxAABB.toExact ray.toExact ≤ t ∧
              t ≤ dae.GeometryUtils.slabTmax minAABB.toExact maxAABB.toExact ray.toExact) ∧
        ((F32.lt (F32.fin 0) (slabTmax minAABB maxAABB ray) = true ∧
            F32.le (slabTmin minAABB maxAABB ray) (slabTmax minAABB maxAABB ray) = true) ↔
          ∃ t : ℚ, 0 < t ∧
            dae.GeometryUtils.InsideBox minAABB.toExact maxAABB.toExact
              (ray.toExact.origin + dae.Vector3.scale ray.toExact.direction t))) := by
  refine ⟨SlabTest_iff32 minAABB maxAABB ray, fun _ _ => rfl, ?_⟩
  intro hmin hmax ho hi hbox hdir hinv hex
  obtain ⟨s1, s2⟩ := slab_exact minAABB maxAABB ray hmin hmax ho hi hex
  refine ⟨s1, s2,
    fun t => dae.GeometryUtils.insideBox_iff_slab _ _ _ t hbox hdir hinv, ?_⟩
  rw [← SlabTest_iff32, SlabTest_exact_run minAABB maxAABB ray hmin hmax ho hi hex]
  exact dae.GeometryUtils.SlabTest_iff_exists_pos _ _ _ hbox hdir hinv

/-- C18 at the box `[10, 11]³` and the diagonal ray from the world origin: no
operation rounds, the computed slab interval is `[10, 11]`, and `tmax > 0`,
`tmax >= tmin` hold. -/
theorem SlabTest_BoundingBox_interval_witness :
    F32.Sim (slabTmin farCubeMin farCubeMax diagonalRay) 10 ∧
    F32.Sim (slabTmax farCubeMin farCubeMax diagonalRay) 11 ∧
    (F32.lt (F32.fin 0) (slabTmax farCubeMin farCubeMax diagonalRay) = true ∧
      F32.le (slabTmin farCubeMin farCubeMax diagonalRay)
        (slabTmax farCubeMin farCubeMax diagonalRay) = true) := by
  have h := (SlabTest_BoundingBox_interval farCubeMin farCubeMax diagonalRay).2.2
    (by decide!) (by decide!) (by decide!) (by decide!) (by decide!) (by decide!)
    (by decide!) (by decide!)
  have e1 : dae.GeometryUtils.slabTmin farCubeMin.toExact farCubeMax.toExact
      diagonalRay.toExact = 10 := by decide!
  have e2 : dae.GeometryUtils.slabTmax farCubeMin.toExact farCubeMax.toExact
      diagonalRay.toExact = 11 := by decide!
  refine ⟨?_, ?_,
    h.2.2.2.mpr ⟨10, by norm_num, by unfold dae.GeometryUtils.InsideBox; decide!⟩⟩
  · rw [← e1]; exact h.1
  · rw [← e2]; exact h.2.1

/-- C18 fails on the code: for the box `[0, 1.5] × [1.75, 3] × [0, 2^26]` and
the ray from `(-2^24, -2^24, 0)` along `(1, 1, 1)` (box ordered, direction
components non-zero, inverse direction their exact reciprocal) the computed
slab ends are `tmin = tmax = 2^24 + 2`, so `tmax > 0` and `tmax >= tmin` hold
and the slab test returns true; yet no parameter `t` puts `ray.origin +
t·direction` inside the box: `x ≤ 1.5` needs `t ≤ 2^24 + 1.5` and `y ≥ 1.75`
needs `t ≥ 2^24 + 1.75`. -/
theorem SlabTest_rounding_counterexample :
    (tallBoxMin.toExact.x ≤ tallBoxMax.toExact.x ∧ tallBoxMin.toExact.y ≤ tallBoxMax.toExact.y ∧
      tallBoxMin.toExact.z ≤ tallBoxMax.toExact.z) ∧
    (distantRay.toExact.direction.x ≠ 0 ∧ distantRay.toExact.direction.y ≠ 0 ∧
      distantRay.toExact.direction.z ≠ 0) ∧
    (distantRay.toExact.inverseDirection.x = 1 / distantRay.toExact.direction.x ∧
      distantRay.toExact.inverseDirection.y = 1 / distantRay.toExact.direction.y ∧
      distantRay.toExact.inverseDirection.z = 1 / distantRay.toExact.direction.z) ∧
    slabTmin tallBoxMin tallBoxMax distantRay = F32.fin 16777218 ∧
    slabTmax tallBoxMin tallBoxMax distantRay = F32.fin 16777218 ∧
    SlabTest_BoundingBox tallBoxMin tallBoxMax distantRay = true ∧
    ¬ ∃ t : ℚ, 0 < t ∧
      dae.GeometryUtils.InsideBox tallBoxMin.toExact tallBoxMax.toExact
        (distantRay.toExact.origin + dae.Vector3.scale distantRay.toExact.direction t) := by
  refine ⟨by decide!, by decide!, by decide!, by decide!, by decide!, by decide!, ?_⟩
  rintro ⟨t, -, hin⟩
  have h1 : -16777216 + 1 * t ≤ (3 / 2 : ℚ) := hin.2.1
  have h2 : (7 / 4 : ℚ) ≤ -16777216 + 1 * t := hin.2.2.1
  linarith

end GeometryUtils

end binary32

namespace F32

theorem Sim.toTop_eq {x : F32} {q : ℚ} (h : Sim x q) : x.toTop = (q : WithTop ℚ) := by
  rcases h with rfl | ⟨rfl, rfl⟩ <;> rfl

end F32

namespace binary32

namespace GeometryUtils

/-! ## binary32: the mesh test when no operation rounds -/

theorem lookupInt_map {α β : Type} (f : α → β) (l : List α) (i : Int) :
    dae.GeometryUtils.lookupInt (l.map f) i = (dae.GeometryUtils.lookupInt l i).map f := by
  unfold dae.GeometryUtils.lookupInt
  split_ifs
  · rw [List.getElem?_map]
  · rfl

/-- The exact mesh has the triangle views of the binary32 mesh. -/
theorem triangleAt_toExact (mesh : TriangleMesh) (k : Nat) :
    dae.GeometryUtils.triangleAt mesh.toExact k =
      match triangleAt mesh k with
      | Except.ok tri => Except.ok tri.toExact
      | Except.error e => Except.error e := by
  simp only [dae.GeometryUtils.triangleAt, triangleAt, TriangleMesh.toExact, List.getElem?_map,
    lookupInt_map]
  cases mesh.indices[k * 3 % 2 ^ 32]? <;> cases mesh.indices[(k * 3 + 1) % 2 ^ 32]? <;>
    cases mesh.indices[(k * 3 + 2) % 2 ^ 32]? <;> cases mesh.transformedNormals[k]? <;>
    simp only [Option.map]
  rename_i i0 i1 i2 nrm
  cases dae.GeometryUtils.lookupInt mesh.transformedPositions i0 <;>
    cases dae.GeometryUtils.lookupInt mesh.transformedPositions i1 <;>
    cases dae.GeometryUtils.lookupInt mesh.transformedPositions i2 <;>
    simp only [Option.map] <;> rfl

/-- The exact walk collects the leaves the binary32 walk collects, when no
slab test rounds. -/
theorem IntersectBVH_toExact (mesh : TriangleMesh) (ray : Ray)
    (ho : ray.origin.Finite) (hi : ray.inverseDirection.Finite)
    (hex : ∀ node ∈ mesh.bvhNodes, node.minAABB.Finite ∧ node.maxAABB.Finite ∧
      SlabExact node.minAABB.toExact node.maxAABB.toExact ray.toExact) :
    ∀ (fuel idx : Nat) (acc : List Nat),
      IntersectBVH fuel ray mesh idx acc =
        dae.GeometryUtils.IntersectBVH fuel ray.toExact mesh.toExact idx acc := by
  intro fuel
  induction fuel with
  | zero => intro idx acc; rfl
  | succ fuel ih =>
    intro idx acc
    simp only [IntersectBVH, dae.GeometryUtils.IntersectBVH]
    have hmap : mesh.toExact.bvhNodes[idx]? = (mesh.bvhNodes[idx]?).map BVHNode.toExact := by
      simp [TriangleMesh.toExact, List.getElem?_map]
    rw [hmap]
    cases hnode : mesh.bvhNodes[idx]? with
    | none => rfl
    | some node =>
      have hmem : node ∈ mesh.bvhNodes := List.mem_iff_getElem?.mpr ⟨idx, hnode⟩
      obtain ⟨h1, h2, h3⟩ := hex node hmem
      have hslab := SlabTest_exact_run node.minAABB node.maxAABB ray h1 h2 ho hi h3
      simp only [Option.map, BVHNode.toExact]
      rw [hslab]
      simp only [ih]

/-- One triangle test of the binary32 mesh test and of the exact one end
alike, when the triangle test does not round. -/
theorem HitTest_Triangle_toExact (init : F32) (triangle : Triangle) (ray : Ray)
    (r : HitRecord) (q : dae.HitRecord) (b : Bool)
    (ht : triangle.Finite) (hr : ray.Finite)
    (hex : TriangleExact triangle.toExact ray.toExact) (hsim : RecSim init ray r q) :
    (HitTest_Triangle triangle ray r b).1 =
        (dae.GeometryUtils.HitTest_Triangle triangle.toExact ray.toExact q b).1 ∧
      RecSim init ray (HitTest_Triangle triangle ray r b).2
        (dae.GeometryUtils.HitTest_Triangle triangle.toExact ray.toExact q b).2 := by
  by_cases hdet : dae.GeometryUtils.triangleDet triangle.toExact ray.toExact = 0
  · -- a zero determinant: both tests return at line 134
    have sdet : F32.Sim (triangleDet triangle ray)
        (dae.GeometryUtils.triangleDet triangle.toExact ray.toExact) := by
      obtain ⟨h1, h2, h3, h4, -⟩ := hex
      exact ((simV_of_finite ht.2.1).vsub_exact (simV_of_finite ht.1) h1).dot_exact
        ((simV_of_finite hr.2.1).cross_exact
          ((simV_of_finite ht.2.2).vsub_exact (simV_of_finite ht.1) h2) h3) h4
    have hbeq : F32.beq (triangleDet triangle ray) (F32.fin 0) = true := by
      rw [F32.Sim.beq_eq sdet (F32.sim_fin 0)]
      simpa using hdet
    have hnp : ¬ TrianglePasses triangle ray b := fun h => by
      rw [h.1] at hbeq; exact Bool.false_ne_true hbeq
    have hna : ¬ dae.GeometryUtils.TriangleAccepts triangle.toExact ray.toExact b :=
      fun h => h.1 hdet
    rw [HitTest_Triangle_eq32, dae.GeometryUtils.HitTest_Triangle_eq, if_neg hnp, if_neg hna]
    exact ⟨rfl, hsim⟩
  · obtain ⟨-, -, -, -, st⟩ := triangle_exact triangle ray ht hr hdet hex
    have hrun := HitTest_Triangle_exact_run triangle ray r b ht hr hdet hex
    have hfst := HitTest_Triangle_fst32 triangle ray r b
    by_cases hacc : dae.GeometryUtils.TriangleAccepts triangle.toExact ray.toExact b
    · obtain ⟨hp, hin⟩ := hfst.mp (hrun.mpr hacc)
      rw [HitTest_Triangle_eq32, dae.GeometryUtils.HitTest_Triangle_eq, if_pos hp, if_pos hacc]
      cases b
      · by_cases hlt : F32.lt (triangleT triangle ray) r.t = true
        · have hlt2 : ((dae.GeometryUtils.triangleT triangle.toExact ray.toExact : ℚ) :
              WithTop ℚ) < q.t := by
            rw [F32.Sim.lt_top st hsim.2.2.1, hsim.2.1] at hlt
            simpa using hlt
          rw [acceptTail_commit32 _ _ _ _ hin hlt]
          simp only [Bool.false_eq_true, if_false, if_pos hlt2]
          refine ⟨trivial, rfl, ?_, Or.inl st.sim_finite, Or.inr ?_⟩
          · simp only [triangleCommit, dae.GeometryUtils.triangleCommit]
            exact st.toTop_eq
          · simp only [inInterval, Bool.and_eq_true] at hin
            exact hin.1
        · have hlt2 : ¬ ((dae.GeometryUtils.triangleT triangle.toExact ray.toExact : ℚ) :
              WithTop ℚ) < q.t := by
            intro hc
            apply hlt
            rw [F32.Sim.lt_top st hsim.2.2.1, hsim.2.1]
            simpa using hc
          have e : acceptTail ray r false (triangleT triangle ray) (triangleCommit triangle ray) =
              (true, r) := by
            simp [acceptTail, hin, hlt]
          rw [e]
          simp only [Bool.false_eq_true, if_false, if_neg hlt2]
          exact ⟨trivial, hsim⟩
      · have e : acceptTail ray r true (triangleT triangle ray) (triangleCommit triangle ray) =
            (true, r) := by
          simp [acceptTail, hin]
        rw [e]
        simp only [if_true]
        exact ⟨trivial, hsim⟩
    · have hf : (HitTest_Triangle triangle ray r b).1 = false := by
        rw [← Bool.not_eq_true]
        exact fun h => hacc (hrun.mp h)
      have h2 : (HitTest_Triangle triangle ray r b).2 = r := by
        rw [HitTest_Triangle_eq32] at hf ⊢
        by_cases hp : TrianglePasses triangle ray b
        · rw [if_pos hp] at hf ⊢
          rw [acceptTail_fst32] at hf
          rw [acceptTail_outside32 _ _ _ _ _ hf]
        · rw [if_neg hp]
      rw [hf, h2, dae.GeometryUtils.HitTest_Triangle_eq, if_neg hacc]
      exact ⟨rfl, hsim⟩

end GeometryUtils

end binary32

namespace binary32

namespace GeometryUtils

/-- The inner loop of the binary32 mesh test and of the exact one end alike,
when no triangle test rounds. -/
theorem triangleLoop_toExact (init : F32) (mesh : TriangleMesh) (ray : Ray) (b : Bool)
    (hr : ray.Finite)
    (hex : ∀ k tri, triangleAt mesh k = Except.ok tri →
      tri.Finite ∧ TriangleExact tri.toExact ray.toExact) :
    ∀ (n cur : Nat) (r : HitRecord) (q : dae.HitRecord) (tests : Nat), RecSim init ray r q →
      LoopSim init ray (triangleLoop mesh ray b n cur r tests)
        (dae.GeometryUtils.triangleLoop mesh.toExact ray.toExact b n cur q tests) := by
  intro n
  induction n with
  | zero =>
    intro cur r q tests hsim
    exact ⟨rfl, rfl, hsim⟩
  | succ n ih =>
    intro cur r q tests hsim
    simp only [triangleLoop, dae.GeometryUtils.triangleLoop, triangleAt_toExact]
    cases hat : triangleAt mesh cur with
    | error e => exact rfl
    | ok tri =>
      obtain ⟨hfin, hte⟩ := hex cur tri hat
      obtain ⟨h1, h2⟩ := HitTest_Triangle_toExact init tri ray r q b hfin hr hte hsim
      simp only
      rw [← h1]
      by_cases hc : ((HitTest_Triangle tri ray r b).1 && b) = true
      · rw [if_pos hc, if_pos hc]
        exact ⟨rfl, rfl, h2⟩
      · rw [if_neg hc, if_neg hc]
        exact ih _ _ _ _ h2

/-- The outer loop of the binary32 mesh test and of the exact one end alike,
when no triangle test rounds. -/
theorem leafLoop_toExact (init : F32) (mesh : TriangleMesh) (ray : Ray) (b : Bool)
    (hr : ray.Finite)
    (hex : ∀ k tri, triangleAt mesh k = Except.ok tri →
      tri.Finite ∧ TriangleExact tri.toExact ray.toExact) :
    ∀ (indices : List Nat) (r : HitRecord) (q : dae.HitRecord) (tests : Nat),
      RecSim init ray r q →
      LoopSim init ray (leafLoop mesh ray b indices r tests)
        (dae.GeometryUtils.leafLoop mesh.toExact ray.toExact b indices q tests) := by
  intro indices
  induction indices with
  | nil =>
    intro r q tests hsim
    exact ⟨rfl, rfl, hsim⟩
  | cons i rest ih =>
    intro r q tests hsim
    simp only [leafLoop, dae.GeometryUtils.leafLoop]
    have hmap : mesh.toExact.bvhNodes[i]? = (mesh.bvhNodes[i]?).map BVHNode.toExact := by
      simp [TriangleMesh.toExact, List.getElem?_map]
    rw [hmap]
    cases hnode : mesh.bvhNodes[i]? with
    | none => exact rfl
    | some node =>
      simp only [Option.map, BVHNode.toExact]
      have hloop := triangleLoop_toExact init mesh ray b hr hex
        ((node.leftFirst + node.nrPrimitives) % 2 ^ 32 - node.leftFirst) node.leftFirst r q
        tests hsim
      cases h32 : triangleLoop mesh ray b
          ((node.leftFirst + node.nrPrimitives) % 2 ^ 32 - node.leftFirst) node.leftFirst
          r tests with
      | error e =>
        cases hq : dae.GeometryUtils.triangleLoop mesh.toExact ray.toExact b
            ((node.leftFirst + node.nrPrimitives) % 2 ^ 32 - node.leftFirst) node.leftFirst
            q tests with
        | error f =>
          rw [h32, hq] at hloop
          exact hloop
        | ok res =>
          rw [h32, hq] at hloop
          exact absurd hloop (by simp [LoopSim])
      | ok res =>
        cases hq : dae.GeometryUtils.triangleLoop mesh.toExact ray.toExact b
            ((node.leftFirst + node.nrPrimitives) % 2 ^ 32 - node.leftFirst) node.leftFirst
            q tests with
        | error f =>
          rw [h32, hq] at hloop
          exact absurd hloop (by simp [LoopSim])
        | ok resq =>
          rw [h32, hq] at hloop
          obtain ⟨e1, r1, k1⟩ := res
          obtain ⟨e2, r2, k2⟩ := resq
          obtain ⟨he, hk, hrs⟩ := hloop
          subst he
          subst hk
          cases e1
          · exact ih r1 r2 k1 hrs
          · exact ⟨rfl, rfl, hrs⟩

/-- The binary32 mesh test and the exact one end alike, when no operation of
the slab tests and of the triangle tests rounds. -/
theorem HitTest_TriangleMesh_toExact (init : F32) (fuel : Nat) (mesh : TriangleMesh) (ray : Ray)
    (r : HitRecord) (q : dae.HitRecord) (b : Bool)
    (hex : MeshExact mesh ray) (hsim : RecSim init ray r q) :
    MeshSim init ray (HitTest_TriangleMesh fuel mesh ray r b)
      (dae.GeometryUtils.HitTest_TriangleMesh fuel mesh.toExact ray.toExact q b) := by
  obtain ⟨hr, hi, hslab, htri⟩ := hex
  simp only [HitTest_TriangleMesh, dae.GeometryUtils.HitTest_TriangleMesh]
  rw [IntersectBVH_toExact mesh ray hr.1 hi hslab]
  have hroot : mesh.toExact.rootNodeIndex = mesh.rootNodeIndex := rfl
  rw [hroot]
  cases hwalk : dae.GeometryUtils.IntersectBVH fuel ray.toExact mesh.toExact
      mesh.rootNodeIndex [] with
  | error e => exact rfl
  | ok indices =>
    simp only
    by_cases hlen : indices.length = 0
    · rw [if_pos hlen, if_pos hlen]
      exact ⟨hsim.1, rfl, hsim⟩
    · rw [if_neg hlen, if_neg hlen]
      have hloop := leafLoop_toExact init mesh ray b hr htri indices r q 0 hsim
      cases h32 : leafLoop mesh ray b indices r 0 with
      | error e =>
        cases hq : dae.GeometryUtils.leafLoop mesh.toExact ray.toExact b indices q 0 with
        | error f =>
          rw [h32, hq] at hloop
          exact hloop
        | ok res =>
          rw [h32, hq] at hloop
          exact absurd hloop (by simp [LoopSim])
      | ok res =>
        cases hq : dae.GeometryUtils.leafLoop mesh.toExact ray.toExact b indices q 0 with
        | error f =>
          rw [h32, hq] at hloop
          exact absurd hloop (by simp [LoopSim])
        | ok resq =>
          rw [h32, hq] at hloop
          obtain ⟨e1, r1, k1⟩ := res
          obtain ⟨e2, r2, k2⟩ := resq
          obtain ⟨he, hk, hrs⟩ := hloop
          subst he
          subst hk
          cases e1
          · exact ⟨hrs.1, rfl, hrs⟩
          · exact ⟨rfl, rfl, hrs⟩

/-- The fold of the binary32 triangle test and of the exact one over the same
triangles end alike, when no triangle test rounds. -/
theorem foldTriangles_toExact (init : F32) (ray : Ray) (hr : ray.Finite) :
    ∀ (tris : List Triangle) (r : HitRecord) (q : dae.HitRecord),
      (∀ tri ∈ tris, tri.Finite ∧ TriangleExact tri.toExact ray.toExact) →
      RecSim init ray r q →
      RecSim init ray (foldTriangles ray tris r)
        (dae.GeometryUtils.foldTriangles ray.toExact (tris.map Triangle.toExact) q) := by
  intro tris
  induction tris with
  | nil =>
    intro r q _ hsim
    exact hsim
  | cons tri rest ih =>
    intro r q hex hsim
    obtain ⟨hfin, hte⟩ := hex tri (List.mem_cons_self _ _)
    have h := (HitTest_Triangle_toExact init tri ray r q false hfin hr hte hsim).2
    simp only [foldTriangles, dae.GeometryUtils.foldTriangles, List.map_cons, List.foldl_cons]
    exact ih _ _ (fun t ht => hex t (List.mem_cons_of_mem _ ht)) h

/-- The exact mesh has the triangle lists of the binary32 mesh. -/
theorem trianglesFrom_toExact (mesh : TriangleMesh) :
    ∀ (n cur : Nat) (tris : List Triangle),
      trianglesFrom mesh n cur = Except.ok tris →
      dae.GeometryUtils.trianglesFrom mesh.toExact n cur =
        Except.ok (tris.map Triangle.toExact) := by
  intro n
  induction n with
  | zero =>
    intro cur tris h
    simp only [trianglesFrom, Except.ok.injEq] at h
    subst h
    rfl
  | succ n ih =>
    intro cur tris h
    simp only [trianglesFrom] at h
    simp only [dae.GeometryUtils.trianglesFrom, triangleAt_toExact]
    cases hat : triangleAt mesh cur with
    | error e => rw [hat] at h; exact absurd h (by simp)
    | ok tri =>
      rw [hat] at h
      simp only at h ⊢
      cases hrest : trianglesFrom mesh n (cur + 1) with
      | error e => rw [hrest] at h; exact absurd h (by simp)
      | ok rest =>
        rw [hrest] at h
        simp only [Except.ok.injEq] at h
        subst h
        rw [ih _ _ hrest]
        rfl

/-- A triangle of the list is a triangle view of the mesh. -/
theorem triangleAt_of_mem (mesh : TriangleMesh) :
    ∀ (n cur : Nat) (tris : List Triangle), trianglesFrom mesh n cur = Except.ok tris →
      ∀ tri ∈ tris, ∃ k, triangleAt mesh k = Except.ok tri := by
  intro n
  induction n with
  | zero =>
    intro cur tris h tri hmem
    simp only [trianglesFrom, Except.ok.injEq] at h
    subst h
    exact absurd hmem (List.not_mem_nil _)
  | succ n ih =>
    intro cur tris h tri hmem
    simp only [trianglesFrom] at h
    cases hat : triangleAt mesh cur with
    | error e => rw [hat] at h; exact absurd h (by simp)
    | ok t0 =>
      rw [hat] at h
      simp only at h
      cases hrest : trianglesFrom mesh n (cur + 1) with
      | error e => rw [hrest] at h; exact absurd h (by simp)
      | ok rest =>
        rw [hrest] at h
        simp only [Except.ok.injEq] at h
        subst h
        rcases List.mem_cons.mp hmem with h0 | h1
        · exact ⟨cur, by rw [hat, h0]⟩
        · exact ih _ _ hrest tri h1

/-- Two values that stand for the same exact bound, each of them the value
`init` or a value above a positive `ray.min`, are equal. -/
theorem t_eq_of_toTop (init : F32) (ray : Ray) (x y : F32)
    (hmin : ray.min.Finite) (hpos : 0 < ray.min.toRat)
    (hx : x.Finite ∨ x = F32.posInf) (hy : y.Finite ∨ y = F32.posInf)
    (hxi : x = init ∨ F32.le ray.min x = true) (hyi : y = init ∨ F32.le ray.min y = true)
    (h : x.toTop = y.toTop) : x = y := by
  have key : ∀ z : F32, z.Finite → F32.le ray.min z = true → ∃ p : ℚ, 0 < p ∧ z = F32.fin p := by
    intro z hz hle
    rw [F32.Sim.le_eq (F32.sim_of_finite hmin) (F32.sim_of_finite hz)] at hle
    have hle2 : ray.min.toRat ≤ z.toRat := by simpa using hle
    rcases hz with rfl | ⟨p, rfl⟩
    · have e : F32.negZero.toRat = 0 := rfl
      rw [e] at hle2
      linarith
    · exact ⟨p, lt_of_lt_of_le hpos hle2, rfl⟩
  rcases hx with hx | rfl
  · rcases hy with hy | rfl
    · rcases hxi with rfl | hxi
      · rcases hyi with rfl | hyi
        · rfl
        · obtain ⟨p, hp, rfl⟩ := key y hy hyi
          rcases hx with rfl | ⟨p2, rfl⟩
          · simp only [F32.toTop, WithTop.coe_eq_coe] at h
            linarith
          · simp only [F32.toTop, WithTop.coe_eq_coe] at h
            rw [h]
      · obtain ⟨p, hp, rfl⟩ := key x hx hxi
        rcases hy with rfl | ⟨p2, rfl⟩
        · simp only [F32.toTop, WithTop.coe_eq_coe] at h
          linarith
        · simp only [F32.toTop, WithTop.coe_eq_coe] at h
          rw [h]
    · rcases hx with rfl | ⟨p, rfl⟩ <;> simp [F32.toTop] at h
  · rcases hy with hy | rfl
    · rcases hy with rfl | ⟨p, rfl⟩ <;> simp [F32.toTop] at h
    · rfl

end GeometryUtils

end binary32

namespace binary32

namespace GeometryUtils

/-! ## binary32: what the mesh test does for every input -/

/-- Whether the triangle test accepts does not depend on the record. -/
theorem HitTest_Triangle_fst_indep32 (triangle : Triangle) (ray : Ray) (r1 r2 : HitRecord)
    (b : Bool) :
    (HitTest_Triangle triangle ray r1 b).1 = (HitTest_Triangle triangle ray r2 b).1 := by
  rw [Bool.eq_iff_iff, HitTest_Triangle_fst32, HitTest_Triangle_fst32]

/-- The any-hit triangle test leaves the record alone. -/
theorem HitTest_Triangle_any_record32 (triangle : Triangle) (ray : Ray) (r : HitRecord) :
    (HitTest_Triangle triangle ray r true).2 = r := by
  rw [HitTest_Triangle_eq32]
  split_ifs
  · exact acceptTail_any32 _ _ _ _
  · rfl

/-- The closest-hit triangle test leaves the record alone or, when it accepts,
replaces it by the record the triangle commits. -/
theorem HitTest_Triangle_closest_record32 (triangle : Triangle) (ray : Ray) (r : HitRecord) :
    (HitTest_Triangle triangle ray r false).2 = r ∨
      ((HitTest_Triangle triangle ray r false).1 = true ∧
        (HitTest_Triangle triangle ray r false).2 = triangleCommit triangle ray) := by
  rw [HitTest_Triangle_eq32]
  by_cases hp : TrianglePasses triangle ray false
  · rw [if_pos hp]
    unfold acceptTail
    split_ifs <;> simp
  · rw [if_neg hp]
    left; rfl

/-- The binary32 walk returns for a node array that holds a tree, given a
recursion budget of the tree's height, and appends leaves of the tree
only. -/
theorem IntersectBVH_ok32 (ray : Ray) (mesh : TriangleMesh) (T : dae.GeometryUtils.BVHTree)
    (hT : dae.GeometryUtils.IsBVH mesh.toExact.bvhNodes T) :
    ∀ (fuel : Nat) (indices : List Nat), T.height ≤ fuel →
      ∃ added, IntersectBVH fuel ray mesh T.index indices = Except.ok (indices ++ added) ∧
        ∀ i ∈ added, i ∈ T.leafIndices := by
  have hmap : ∀ i : Nat,
      mesh.toExact.bvhNodes[i]? = (mesh.bvhNodes[i]?).map BVHNode.toExact := by
    intro i
    simp [TriangleMesh.toExact, List.getElem?_map]
  induction T with
  | leaf i =>
    intro fuel indices hf
    obtain ⟨nq, hnq, hprim⟩ := hT
    rw [hmap] at hnq
    cases hnode : mesh.bvhNodes[i]? with
    | none => rw [hnode] at hnq; exact absurd hnq (by simp)
    | some node =>
      rw [hnode] at hnq
      simp only [Option.map, Option.some.injEq] at hnq
      subst hnq
      have hprim2 : node.nrPrimitives ≠ 0 := hprim
      obtain ⟨f, rfl⟩ : ∃ f, fuel = f + 1 :=
        ⟨fuel - 1, by simp [dae.GeometryUtils.BVHTree.height] at hf; omega⟩
      by_cases hs : SlabTest_BoundingBox node.minAABB node.maxAABB ray = false
      · refine ⟨[], ?_, fun i h => absurd h (List.not_mem_nil _)⟩
        simp [IntersectBVH, dae.GeometryUtils.BVHTree.index, hnode, hs]
      · refine ⟨[i], ?_, fun j h => ?_⟩
        · simp [IntersectBVH, dae.GeometryUtils.BVHTree.index, hnode, hs, hprim2]
        · simpa [dae.GeometryUtils.BVHTree.leafIndices] using h
  | inner i l r ihl ihr =>
    intro fuel indices hf
    obtain ⟨nq, hnq, hprim, hli, hri, hl, hr⟩ := hT
    rw [hmap] at hnq
    cases hnode : mesh.bvhNodes[i]? with
    | none => rw [hnode] at hnq; exact absurd hnq (by simp)
    | some node =>
      rw [hnode] at hnq
      simp only [Option.map, Option.some.injEq] at hnq
      subst hnq
      have hprim2 : node.nrPrimitives = 0 := hprim
      have hli2 : l.index = node.leftFirst := hli
      have hri2 : r.index = (node.leftFirst + 1) % 2 ^ 32 := hri
      obtain ⟨f, rfl⟩ : ∃ f, fuel = f + 1 :=
        ⟨fuel - 1, by simp [dae.GeometryUtils.BVHTree.height] at hf; omega⟩
      have hfl : l.height ≤ f := by simp [dae.GeometryUtils.BVHTree.height] at hf; omega
      have hfr : r.height ≤ f := by simp [dae.GeometryUtils.BVHTree.height] at hf; omega
      by_cases hs : SlabTest_BoundingBox node.minAABB node.maxAABB ray = false
      · refine ⟨[], ?_, fun i h => absurd h (List.not_mem_nil _)⟩
        simp [IntersectBVH, dae.GeometryUtils.BVHTree.index, hnode, hs]
      · obtain ⟨aL, hL, hLm⟩ := ihl hl f indices hfl
        obtain ⟨aR, hR, hRm⟩ := ihr hr f (indices ++ aL) hfr
        rw [hli2] at hL
        rw [hri2] at hR
        refine ⟨aL ++ aR, ?_, fun j h => ?_⟩
        · simp only [IntersectBVH, dae.GeometryUtils.BVHTree.index, hnode, hs, hprim2, hL, hR,
            if_false, ne_eq, not_true_eq_false, List.append_assoc]
          simp
        · simp only [dae.GeometryUtils.BVHTree.leafIndices, List.mem_append]
          rcases List.mem_append.mp h with h | h
          · left; exact hLm j h
          · right; exact hRm j h

/-- The inner loop returns when the mesh has the triangles of the range; it
keeps what every triangle test keeps, and it returns early only in any-hit
mode, after a triangle view of the mesh was accepted. -/
theorem triangleLoop_run32 (mesh : TriangleMesh) (ray : Ray) (b : Bool)
    (R : Nat → Prop) (P : HitRecord → Prop)
    (hstep : ∀ k tri r, R k → triangleAt mesh k = Except.ok tri → P r →
      P (HitTest_Triangle tri ray r b).2) :
    ∀ (n cur : Nat) (ts : List dae.Triangle),
      dae.GeometryUtils.trianglesFrom mesh.toExact n cur = Except.ok ts →
      (∀ k, cur ≤ k → k < cur + n → R k) →
      ∀ (r : HitRecord) (tests : Nat), P r →
        ∃ e r2 k2, triangleLoop mesh ray b n cur r tests = Except.ok (e, r2, k2) ∧ P r2 ∧
          (e = true → b = true ∧ ∃ k tri, R k ∧ triangleAt mesh k = Except.ok tri ∧
            (HitTest_Triangle tri ray HitRecord.fresh b).1 = true) := by
  intro n
  induction n with
  | zero =>
    intro cur ts _ _ r tests hP
    exact ⟨false, r, tests, rfl, hP, fun h => absurd h (by simp)⟩
  | succ n ih =>
    intro cur ts hts hR r tests hP
    have hRc : R cur := hR cur (Nat.le_refl _) (by omega)
    simp only [dae.GeometryUtils.trianglesFrom, triangleAt_toExact] at hts
    cases hat : triangleAt mesh cur with
    | error e =>
      rw [hat] at hts
      exact absurd hts (by simp)
    | ok tri =>
      rw [hat] at hts
      simp only at hts
      cases hrest : dae.GeometryUtils.trianglesFrom mesh.toExact n (cur + 1) with
      | error e =>
        rw [hrest] at hts
        exact absurd hts (by simp)
      | ok rest =>
        simp only [triangleLoop, hat]
        by_cases hc : ((HitTest_Triangle tri ray r b).1 && b) = true
        · rw [if_pos hc]
          rw [Bool.and_eq_true] at hc
          refine ⟨true, _, _, rfl, hstep cur tri r hRc hat hP,
            fun _ => ⟨hc.2, cur, tri, hRc, hat, ?_⟩⟩
          rw [HitTest_Triangle_fst_indep32 tri ray HitRecord.fresh r b]
          exact hc.1
        · rw [if_neg hc]
          exact ih (cur + 1) rest hrest (fun k h1 h2 => hR k (by omega) (by omega)) _ _
            (hstep cur tri r hRc hat hP)

/-- The outer loop returns when the mesh has the triangles of the leaves; it
keeps what every triangle test keeps, and it returns early only in any-hit
mode, after a triangle view of the mesh was accepted. -/
theorem leafLoop_run32 (mesh : TriangleMesh) (ray : Ray) (b : Bool)
    (R : Nat → Prop) (P : HitRecord → Prop)
    (hstep : ∀ k tri r, R k → triangleAt mesh k = Except.ok tri → P r →
      P (HitTest_Triangle tri ray r b).2) :
    ∀ (indices : List Nat),
      (∀ i ∈ indices, ∃ node, mesh.bvhNodes[i]? = some node ∧
        (∃ ts, dae.GeometryUtils.trianglesFrom mesh.toExact
          ((node.leftFirst + node.nrPrimitives) % 2 ^ 32 - node.leftFirst) node.leftFirst =
            Except.ok ts) ∧
        ∀ k, node.leftFirst ≤ k → k < (node.leftFirst + node.nrPrimitives) % 2 ^ 32 → R k) →
      ∀ (r : HitRecord) (tests : Nat), P r →
        ∃ e r2 k2, leafLoop mesh ray b indices r tests = Except.ok (e, r2, k2) ∧ P r2 ∧
          (e = true → b = true ∧ ∃ k tri, R k ∧ triangleAt mesh k = Except.ok tri ∧
            (HitTest_Triangle tri ray HitRecord.fresh b).1 = true) := by
  intro indices
  induction indices with
  | nil =>
    intro _ r tests hP
    exact ⟨false, r, tests, rfl, hP, fun h => absurd h (by simp)⟩
  | cons i rest ih =>
    intro hdata r tests hP
    obtain ⟨node, hnode, ⟨ts, hts⟩, hRn⟩ := hdata i (List.mem_cons_self _ _)
    obtain ⟨e, r2, k2, hrun, hP2, hflag⟩ :=
      triangleLoop_run32 mesh ray b R P hstep _ _ ts hts
        (fun k h1 h2 => hRn k h1 (by omega)) r tests hP
    simp only [leafLoop, hnode, hrun]
    cases e
    · exact ih (fun j hj => hdata j (List.mem_cons_of_mem _ hj)) r2 k2 hP2
    · exact ⟨true, r2, k2, rfl, hP2, hflag⟩

/-- The binary32 mesh test returns for a mesh whose node array holds a tree
and whose leaves refer to triangles the mesh has; it keeps what every triangle
test keeps, and its result is the record's `didHit` unless, in any-hit mode, a
triangle view of the mesh was accepted. -/
theorem HitTest_TriangleMesh_run32 (mesh : TriangleMesh) (ray : Ray)
    (T : dae.GeometryUtils.BVHTree) (fuel : Nat) (r : HitRecord) (b : Bool)
    (R : Nat → Prop) (P : HitRecord → Prop)
    (hstep : ∀ k tri r, R k → triangleAt mesh k = Except.ok tri → P r →
      P (HitTest_Triangle tri ray r b).2)
    (hroot : T.index = mesh.rootNodeIndex)
    (hT : dae.GeometryUtils.IsBVH mesh.toExact.bvhNodes T)
    (hdata : dae.GeometryUtils.LeafDataOk mesh.toExact T)
    (hR : ∀ i ∈ T.leafIndices, ∀ node, mesh.bvhNodes[i]? = some node →
      ∀ k, node.leftFirst ≤ k → k < (node.leftFirst + node.nrPrimitives) % 2 ^ 32 → R k)
    (hfuel : T.height ≤ fuel)
    (hP : P r) :
    ∃ out, HitTest_TriangleMesh fuel mesh ray r b = Except.ok out ∧ P out.hitRecord ∧
      (out.result = out.hitRecord.didHit ∨
        (b = true ∧ out.result = true ∧ ∃ k tri, R k ∧ triangleAt mesh k = Except.ok tri ∧
          (HitTest_Triangle tri ray HitRecord.fresh b).1 = true)) := by
  obtain ⟨added, hrun, hmem⟩ := IntersectBVH_ok32 ray mesh T hT fuel [] hfuel
  rw [hroot, List.nil_append] at hrun
  simp only [HitTest_TriangleMesh, hrun]
  by_cases hlen : added.length = 0
  · rw [if_pos hlen]
    exact ⟨_, rfl, hP, Or.inl rfl⟩
  · rw [if_neg hlen]
    have hd : ∀ i ∈ added, ∃ node, mesh.bvhNodes[i]? = some node ∧
        (∃ ts, dae.GeometryUtils.trianglesFrom mesh.toExact
          ((node.leftFirst + node.nrPrimitives) % 2 ^ 32 - node.leftFirst) node.leftFirst =
            Except.ok ts) ∧
        ∀ k, node.leftFirst ≤ k → k < (node.leftFirst + node.nrPrimitives) % 2 ^ 32 →
          R k := by
      intro i hi
      obtain ⟨nq, hnq⟩ := dae.GeometryUtils.leaf_node_exists _ T hT i (hmem i hi)
      obtain ⟨ts, hts⟩ := hdata i (hmem i hi) nq hnq
      have hmap : mesh.toExact.bvhNodes[i]? = (mesh.bvhNodes[i]?).map BVHNode.toExact := by
        simp [TriangleMesh.toExact, List.getElem?_map]
      rw [hmap] at hnq
      cases hnode : mesh.bvhNodes[i]? with
      | none => rw [hnode] at hnq; exact absurd hnq (by simp)
      | some node =>
        rw [hnode] at hnq
        simp only [Option.map, Option.some.injEq] at hnq
        subst hnq
        exact ⟨node, rfl, ⟨ts, hts⟩, hR i (hmem i hi) node hnode⟩
    obtain ⟨e, r2, k2, hloop, hP2, hflag⟩ :=
      leafLoop_run32 mesh ray b R P hstep added hd r 0 hP
    rw [hloop]
    cases e
    · exact ⟨_, rfl, hP2, Or.inl rfl⟩
    · obtain ⟨hb, hex⟩ := hflag rfl
      exact ⟨_, rfl, hP2, Or.inr ⟨hb, rfl, hex⟩⟩

end GeometryUtils

end binary32

namespace binary32

namespace GeometryUtils

/-! ## binary32: pruning by the BVH -/

/-- C17, amended.  In binary32, for a mesh whose node array holds a binary
tree rooted at `rootNodeIndex` and whose leaves' primitive ranges partition
the triangle numbers of the mesh, and for every ray, pruning by the BVH never
adds a hit: the any-hit `HitTest_TriangleMesh` returns, and returns true only
if the any-hit `HitTest_Triangle` returns true for some triangle of the mesh;
the closest-hit `HitTest_TriangleMesh` returns the record's `didHit`, and the
record it leaves is the record it was given or the record that a triangle of
the mesh commits which the closest-hit `HitTest_Triangle` accepts.  When
moreover the box of every internal node contains the boxes of both children,
the box of every leaf contains the vertices of the triangles in its primitive
range, `ray.min > 0`, all direction components are non-zero,
`inverseDirection` is their reciprocal and no operation of the slab tests and
triangle tests rounds, pruning does not change the result: (a) the any-hit
`HitTest_TriangleMesh` equals the disjunction of the any-hit
`HitTest_Triangle` over all triangles of the mesh, and (b) the record's `t`
and `didHit` after the closest-hit `HitTest_TriangleMesh` equal those obtained
by folding the closest-hit `HitTest_Triangle` over all triangles of the
mesh. -/
theorem HitTest_TriangleMesh_pruning (mesh : TriangleMesh) (ray : Ray)
    (T : dae.GeometryUtils.BVHTree) (fuel : Nat) (hitRecord : HitRecord)
    (allTris : List Triangle)
    (hroot : T.index = mesh.rootNodeIndex)
    (hT : dae.GeometryUtils.IsBVH mesh.toExact.bvhNodes T)
    (hall : trianglesFrom mesh (triangleCount mesh) 0 = Except.ok allTris)
    (hpart : List.Perm
      (dae.GeometryUtils.leafTriangleNumbers mesh.toExact.bvhNodes T.leafIndices)
      (List.range (triangleCount mesh)))
    (hfuel : T.height ≤ fuel) :
    (∃ outAny, HitTest_TriangleMesh_any fuel mesh ray = Except.ok outAny ∧
      (outAny.result = true →
        ∃ k tri, k < triangleCount mesh ∧ triangleAt mesh k = Except.ok tri ∧
          HitTest_Triangle_any tri ray = true)) ∧
    (∃ out, HitTest_TriangleMesh fuel mesh ray hitRecord false = Except.ok out ∧
      out.result = out.hitRecord.didHit ∧
      (out.hitRecord = hitRecord ∨
        ∃ k tri, k < triangleCount mesh ∧ triangleAt mesh k = Except.ok tri ∧
          (HitTest_Triangle tri ray HitRecord.fresh false).1 = true ∧
          out.hitRecord =
            { t := triangleT tri ray,
              materialIndex := tri.materialIndex,
              didHit := true,
              origin := Vector3.add ray.origin (Vector3.scale ray.direction (triangleT tri ray)),
              normal := tri.normal })) ∧
    (dae.GeometryUtils.BoxesNested mesh.toExact.bvhNodes T →
      dae.GeometryUtils.LeafBoxesHoldTriangles mesh.toExact T →
      0 < ray.toExact.min →
      (ray.toExact.direction.x ≠ 0 ∧ ray.toExact.direction.y ≠ 0 ∧
        ray.toExact.direction.z ≠ 0) →
      (ray.toExact.inverseDirection.x = 1 / ray.toExact.direction.x ∧
        ray.toExact.inverseDirection.y = 1 / ray.toExact.direction.y ∧
        ray.toExact.inverseDirection.z = 1 / ray.toExact.direction.z) →
      MeshExact mesh ray →
      (hitRecord.t.Finite ∨ hitRecord.t = F32.posInf) →
      (∃ outAny, HitTest_TriangleMesh_any fuel mesh ray = Except.ok outAny ∧
        outAny.result = allTris.any (fun tri => HitTest_Triangle_any tri ray)) ∧
      (∃ out, HitTest_TriangleMesh fuel mesh ray hitRecord false = Except.ok out ∧
        out.hitRecord.t = (foldTriangles ray allTris hitRecord).t ∧
        out.hitRecord.didHit = (foldTriangles ray allTris hitRecord).didHit ∧
        out.result = (foldTriangles ray allTris hitRecord).didHit)) := by
  have hallq := trianglesFrom_toExact mesh _ _ allTris hall
  have hcount : dae.GeometryUtils.triangleCount mesh.toExact = triangleCount mesh := rfl
  have hdata : dae.GeometryUtils.LeafDataOk mesh.toExact T :=
    dae.GeometryUtils.leafDataOk_of_partition mesh.toExact T _ hallq hpart
  have hR : ∀ i ∈ T.leafIndices, ∀ node, mesh.bvhNodes[i]? = some node →
      ∀ k, node.leftFirst ≤ k → k < (node.leftFirst + node.nrPrimitives) % 2 ^ 32 →
        k < triangleCount mesh := by
    intro i hi node hnode k h1 h2
    have hk : k ∈ dae.GeometryUtils.leafTriangleNumbers mesh.toExact.bvhNodes T.leafIndices := by
      rw [dae.GeometryUtils.mem_leafTriangleNumbers]
      refine ⟨i, hi, node.toExact, ?_, h1, h2⟩
      simp [TriangleMesh.toExact, List.getElem?_map, hnode]
    exact List.mem_range.mp (hpart.mem_iff.mp hk)
  refine ⟨?_, ?_, ?_⟩
  · -- any-hit: the record stays fresh, and a true result is an accepted triangle
    obtain ⟨out, hrun, hP, hres⟩ := HitTest_TriangleMesh_run32 mesh ray T fuel HitRecord.fresh true
      (fun k => k < triangleCount mesh) (fun r => r = HitRecord.fresh)
      (fun k tri r _ _ hr => by rw [HitTest_Triangle_any_record32]; exact hr)
      hroot hT hdata hR hfuel rfl
    refine ⟨out, hrun, fun htrue => ?_⟩
    rcases hres with hres | ⟨-, -, k, tri, hk, hat, hacc⟩
    · have hP2 : out.hitRecord = HitRecord.fresh := hP
      rw [hres, hP2] at htrue
      exact absurd htrue (by decide)
    · exact ⟨k, tri, hk, hat, hacc⟩
  · -- closest-hit: the record is the given one or a committed one
    obtain ⟨out, hrun, hP, hres⟩ := HitTest_TriangleMesh_run32 mesh ray T fuel hitRecord false
      (fun k => k < triangleCount mesh)
      (fun r => r = hitRecord ∨
        ∃ k tri, k < triangleCount mesh ∧ triangleAt mesh k = Except.ok tri ∧
          (HitTest_Triangle tri ray HitRecord.fresh false).1 = true ∧
          r = triangleCommit tri ray)
      (fun k tri r hk hat hr => by
        rcases HitTest_Triangle_closest_record32 tri ray r with h | ⟨h1, h2⟩
        · rw [h]; exact hr
        · right
          refine ⟨k, tri, hk, hat, ?_, h2⟩
          rw [HitTest_Triangle_fst_indep32 tri ray HitRecord.fresh r false]
          exact h1)
      hroot hT hdata hR hfuel (Or.inl rfl)
    refine ⟨out, hrun, ?_, hP⟩
    rcases hres with hres | ⟨hb, -⟩
    · exact hres
    · exact absurd hb (by decide)
  · intro hnest hleaf hmin hdir hinv hex hrec
    have hmf : ray.min.Finite := hex.1.2.2.1
    have hexT : ∀ tri ∈ allTris, tri.Finite ∧ TriangleExact tri.toExact ray.toExact := by
      intro tri htri
      obtain ⟨k, hk⟩ := triangleAt_of_mem mesh _ _ allTris hall tri htri
      exact hex.2.2.2 k tri hk
    -- the exact mesh test, of which the claim holds
    obtain ⟨⟨qAny, hqAny, hqres⟩, -⟩ :=
      dae.GeometryUtils.HitTest_TriangleMesh_pruning_exact mesh.toExact ray.toExact T fuel
        dae.HitRecord.fresh (allTris.map Triangle.toExact) hroot hT hnest hleaf hallq hpart
        hfuel hmin hdir hinv
    obtain ⟨-, ⟨qOut, hqOut, hqt, hqd, hqr⟩⟩ :=
      dae.GeometryUtils.HitTest_TriangleMesh_pruning_exact mesh.toExact ray.toExact T fuel
        hitRecord.toExact (allTris.map Triangle.toExact) hroot hT hnest hleaf hallq hpart
        hfuel hmin hdir hinv
    constructor
    · have hsimF : RecSim F32.posInf ray HitRecord.fresh dae.HitRecord.fresh :=
        ⟨rfl, rfl, Or.inr rfl, Or.inl rfl⟩
      have hsim := HitTest_TriangleMesh_toExact F32.posInf fuel mesh ray HitRecord.fresh
        dae.HitRecord.fresh true hex hsimF
      have hqAny2 : dae.GeometryUtils.HitTest_TriangleMesh fuel mesh.toExact ray.toExact
          dae.HitRecord.fresh true = Except.ok qAny := hqAny
      rw [hqAny2] at hsim
      cases hrun : HitTest_TriangleMesh fuel mesh ray HitRecord.fresh true with
      | error e =>
        rw [hrun] at hsim
        exact absurd hsim (by simp [MeshSim])
      | ok out =>
        rw [hrun] at hsim
        refine ⟨out, hrun, ?_⟩
        have hpt : ∀ tri ∈ allTris, HitTest_Triangle_any tri ray =
            dae.GeometryUtils.HitTest_Triangle_any tri.toExact ray.toExact := by
          intro tri htri
          obtain ⟨hfin, hte⟩ := hexT tri htri
          exact (HitTest_Triangle_toExact F32.posInf tri ray HitRecord.fresh
            dae.HitRecord.fresh true hfin hex.1 hte hsimF).1
        rw [hsim.1, hqres, Bool.eq_iff_iff, List.any_eq_true, List.any_eq_true]
        constructor
        · rintro ⟨tq, htq, h⟩
          obtain ⟨tri, htri, rfl⟩ := List.mem_map.mp htq
          exact ⟨tri, htri, by rw [hpt tri htri]; exact h⟩
        · rintro ⟨tri, htri, h⟩
          exact ⟨tri.toExact, List.mem_map.mpr ⟨tri, htri, rfl⟩, by rw [← hpt tri htri]; exact h⟩
    · have hsim0 : RecSim hitRecord.t ray hitRecord hitRecord.toExact :=
        ⟨rfl, rfl, hrec, Or.inl rfl⟩
      have hsim := HitTest_TriangleMesh_toExact hitRecord.t fuel mesh ray hitRecord
        hitRecord.toExact false hex hsim0
      have hfold := foldTriangles_toExact hitRecord.t ray hex.1 allTris hitRecord
        hitRecord.toExact hexT hsim0
      rw [hqOut] at hsim
      cases hrun : HitTest_TriangleMesh fuel mesh ray hitRecord false with
      | error e =>
        rw [hrun] at hsim
        exact absurd hsim (by simp [MeshSim])
      | ok out =>
        rw [hrun] at hsim
        obtain ⟨hres, -, hd, ht, hfin, hinv2⟩ := hsim
        have hdd : out.hitRecord.didHit = (foldTriangles ray allTris hitRecord).didHit := by
          rw [hd, hqd, hfold.1]
        refine ⟨out, rfl, ?_, hdd, ?_⟩
        · apply t_eq_of_toTop hitRecord.t ray _ _ hmf hmin hfin hfold.2.2.1 hinv2 hfold.2.2.2
          rw [ht, hqt, hfold.2.1]
        · rw [hres, hqr, hfold.1]

end GeometryUtils

end binary32

namespace GeometryUtils

open Vector3

theorem twoLeafMesh_nested : BoxesNested twoLeafMesh.bvhNodes twoLeafTree := by
  refine ⟨?_, trivial, trivial⟩
  intro node child hnode hchild
  have hn : node = ⟨⟨0, 0, 0⟩, ⟨3, 1, 0⟩, 1, 0⟩ := by
    simpa [twoLeafMesh, twoLeafTree, BVHTree.index] using hnode.symm
  subst hn
  rcases hchild with hc | hc
  · have hc2 : child = ⟨⟨0, 0, 0⟩, ⟨1, 1, 0⟩, 0, 1⟩ := by
      simpa [twoLeafMesh, twoLeafTree, BVHTree.index] using hc.symm
    subst hc2
    norm_num [BoxContains]
  · have hc2 : child = ⟨⟨2, 0, 0⟩, ⟨3, 1, 0⟩, 1, 1⟩ := by
      simpa [twoLeafMesh, twoLeafTree, BVHTree.index] using hc.symm
    subst hc2
    norm_num [BoxContains]

theorem twoLeafMesh_leafBoxes : LeafBoxesHoldTriangles twoLeafMesh twoLeafTree := by
  intro i hi node hnode k h1 h2 tri hat
  rcases twoLeafMesh_node i node hnode with ⟨h0, hn⟩ | ⟨h0, hn⟩ | ⟨h0, hn⟩
  · have hi2 : i = 1 ∨ i = 2 := by
      simpa [twoLeafTree, BVHTree.leafIndices] using hi
    omega
  · subst hn
    have hk : k = 0 := by
      simp only at h1 h2
      omega
    subst hk
    have htri : tri = meshTriangle := by
      have h : triangleAt twoLeafMesh 0 = Except.ok meshTriangle := by
        simp [triangleAt, lookupInt, twoLeafMesh, meshTriangle]
      rw [h] at hat
      exact (Except.ok.inj hat).symm
    subst htri
    norm_num [InsideBox, meshTriangle]
  · subst hn
    have hk : k = 1 := by
      simp only at h1 h2
      omega
    subst hk
    have htri : tri = secondMeshTriangle := by
      have h : triangleAt twoLeafMesh 1 = Except.ok secondMeshTriangle := by
        simp [triangleAt, lookupInt, twoLeafMesh, secondMeshTriangle]
      rw [h] at hat
      exact (Except.ok.inj hat).symm
    subst htri
    norm_num [InsideBox, secondMeshTriangle]

theorem twoLeafMesh_partition :
    List.Perm (leafTriangleNumbers twoLeafMesh.bvhNodes twoLeafTree.leafIndices)
      (List.range (triangleCount twoLeafMesh)) := by
  have h1 : leafTriangleNumbers twoLeafMesh.bvhNodes twoLeafTree.leafIndices = [0, 1] := by
    simp [leafTriangleNumbers, primitiveCount, twoLeafMesh, twoLeafTree, BVHTree.leafIndices]
  have h2 : List.range (triangleCount twoLeafMesh) = [0, 1] := by
    decide
  rw [h1, h2]

end GeometryUtils

namespace binary32

namespace GeometryUtils

theorem twoLeafMesh_toExact : twoLeafMesh.toExact = dae.GeometryUtils.twoLeafMesh := rfl

theorem twoLeafMesh_triangles32 :
    trianglesFrom twoLeafMesh (triangleCount twoLeafMesh) 0 =
      Except.ok [meshTriangle, secondMeshTriangle] := rfl

/-- No operation of the mesh test of `twoLeafMesh` rounds for the ray
`slopeRay`. -/
theorem twoLeafMesh_exact : MeshExact twoLeafMesh slopeRay := by
  refine ⟨by decide!, by decide!, by decide!, ?_⟩
  intro k tri hat
  have hk : k < 2 := by
    by_contra hcon
    have hn : twoLeafMesh.transformedNormals[k]? = none := by
      apply List.getElem?_eq_none
      simp only [twoLeafMesh, List.length_cons, List.length_nil]
      omega
    simp [triangleAt, hn] at hat
  interval_cases k
  · have h : triangleAt twoLeafMesh 0 = Except.ok meshTriangle := rfl
    rw [h] at hat
    have e := Except.ok.inj hat
    subst e
    exact ⟨by decide!, by decide!⟩
  · have h : triangleAt twoLeafMesh 1 = Except.ok secondMeshTriangle := rfl
    rw [h] at hat
    have e := Except.ok.inj hat
    subst e
    exact ⟨by decide!, by decide!⟩

/-- C17 at a mesh of two triangles with a BVH of three nodes and a ray that
meets the first triangle at `t = 1`: no operation rounds, the walk prunes the
second leaf, the any-hit mesh test returns true as the disjunction over both
triangles is, a triangle of the mesh is accepted, and the closest-hit mesh
test leaves `t = 1` and `didHit`, as the fold over both triangles does. -/
theorem HitTest_TriangleMesh_pruning_witness :
    IntersectBVH 2 slopeRay twoLeafMesh twoLeafMesh.rootNodeIndex [] = Except.ok [1] ∧
    (∃ outAny, HitTest_TriangleMesh_any 2 twoLeafMesh slopeRay = Except.ok outAny ∧
      outAny.result = true ∧
      [meshTriangle, secondMeshTriangle].any (fun tri => HitTest_Triangle_any tri slopeRay) =
        true) ∧
    (∃ k tri, k < triangleCount twoLeafMesh ∧ triangleAt twoLeafMesh k = Except.ok tri ∧
      HitTest_Triangle_any tri slopeRay = true) ∧
    (∃ out, HitTest_TriangleMesh 2 twoLeafMesh slopeRay HitRecord.fresh false = Except.ok out ∧
      out.hitRecord.t = F32.fin 1 ∧ out.hitRecord.didHit = true ∧ out.result = true ∧
      (foldTriangles slopeRay [meshTriangle, secondMeshTriangle] HitRecord.fresh).t =
        F32.fin 1) := by
  have hfull := HitTest_TriangleMesh_pruning twoLeafMesh slopeRay dae.GeometryUtils.twoLeafTree 2
    HitRecord.fresh [meshTriangle, secondMeshTriangle] rfl
    (by rw [twoLeafMesh_toExact]; exact dae.GeometryUtils.twoLeafMesh_isBVH)
    twoLeafMesh_triangles32
    (by rw [twoLeafMesh_toExact]; exact dae.GeometryUtils.twoLeafMesh_partition)
    (by decide)
  have h := hfull.2.2
    (by rw [twoLeafMesh_toExact]; exact dae.GeometryUtils.twoLeafMesh_nested)
    (by rw [twoLeafMesh_toExact]; exact dae.GeometryUtils.twoLeafMesh_leafBoxes)
    (by decide!) (by decide!) (by decide!) twoLeafMesh_exact (Or.inr rfl)
  have hany : [meshTriangle, secondMeshTriangle].any
      (fun tri => HitTest_Triangle_any tri slopeRay) = true := by decide!
  have hfold : foldTriangles slopeRay [meshTriangle, secondMeshTriangle] HitRecord.fresh =
      { t := F32.fin 1, materialIndex := 7, didHit := true,
        origin := ⟨F32.fin (1 / 4), F32.fin (1 / 4), F32.fin 0⟩,
        normal := ⟨F32.fin 0, F32.fin 0, F32.fin (-1)⟩ } := by decide!
  have hw : (IntersectBVH 2 slopeRay twoLeafMesh twoLeafMesh.rootNodeIndex []).toOption =
      some [1] := by decide!
  have hwalk : IntersectBVH 2 slopeRay twoLeafMesh twoLeafMesh.rootNodeIndex [] =
      Except.ok [1] := by
    cases hrun : IntersectBVH 2 slopeRay twoLeafMesh twoLeafMesh.rootNodeIndex [] with
    | error e =>
      rw [hrun] at hw
      exact absurd hw (by simp [Except.toOption])
    | ok l =>
      rw [hrun] at hw
      simp only [Except.toOption, Option.some.injEq] at hw
      rw [hw]
  obtain ⟨⟨outAny, h1, h2⟩, ⟨out, h3, h4, h5, h6⟩⟩ := h
  obtain ⟨outA, hA, himp⟩ := hfull.1
  have hsame : outA = outAny := Except.ok.inj (hA.symm.trans h1)
  have htri := himp (by rw [hsame, h2, hany])
  refine ⟨hwalk, ⟨outAny, h1, by rw [h2, hany], hany⟩, htri, ⟨out, h3, ?_, ?_, ?_, ?_⟩⟩
  · rw [h4, hfold]
  · rw [h5, hfold]
  · rw [h6, hfold]
  · rw [hfold]

/-- C17 fails on the code, for the reciprocals binary32 computes and for
exact reciprocals.  The one-triangle mesh `flatMesh`, whose single leaf has
the triangle's own box `[0, 1] × [0, 1] × {0}`, and the ray `skewRay`
(`ray.min > 0`, direction `(1, -1, 41)`, inverse direction the reciprocals as
binary32 computes them): the triangle test accepts the triangle in both modes,
with `t = 1 - 2^-24`; the slab test rejects the box (`tmax = 1 - 2^-24 < tmin
= 1`), so the any-hit mesh test returns false and the closest-hit mesh test
leaves the fresh record, `didHit = false` and `t = +∞`, where the fold over
the triangles leaves `didHit = true` and `t = 1 - 2^-24`.  The one-triangle
mesh `tiltMesh` and the ray `tiltRay` (`ray.min > 0`, direction `(2, -1, 2)`,
inverse direction its exact reciprocal `(1/2, -1, 1/2)`): the triangle test
accepts with `t = 29846144`, the slab test rejects the triangle's own box, and
the mesh tests miss the triangle in the same way. -/
theorem HitTest_TriangleMesh_pruning_counterexample :
    (dae.GeometryUtils.IsBVH flatMesh.toExact.bvhNodes (dae.GeometryUtils.BVHTree.leaf 0) ∧
      trianglesFrom flatMesh (triangleCount flatMesh) 0 = Except.ok [meshTriangle] ∧
      (dae.GeometryUtils.InsideBox flatBoxMin.toExact flatBoxMax.toExact
          meshTriangle.toExact.v0 ∧
        dae.GeometryUtils.InsideBox flatBoxMin.toExact flatBoxMax.toExact
          meshTriangle.toExact.v1 ∧
        dae.GeometryUtils.InsideBox flatBoxMin.toExact flatBoxMax.toExact
          meshTriangle.toExact.v2) ∧
      F32.lt (F32.fin 0) skewRay.min = true ∧
      skewRay.inverseDirection =
        ⟨F32.div (F32.fin 1) skewRay.direction.x, F32.div (F32.fin 1) skewRay.direction.y,
          F32.div (F32.fin 1) skewRay.direction.z⟩ ∧
      HitTest_Triangle_any meshTriangle skewRay = true ∧
      meshOutcome (HitTest_TriangleMesh_any 1 flatMesh skewRay) =
        some (false, false, F32.posInf) ∧
      (foldTriangles skewRay [meshTriangle] HitRecord.fresh).didHit = true ∧
      (foldTriangles skewRay [meshTriangle] HitRecord.fresh).t =
        F32.fin (16777215 / 16777216) ∧
      meshOutcome (HitTest_TriangleMesh 1 flatMesh skewRay HitRecord.fresh false) =
        some (false, false, F32.posInf)) ∧
    (dae.GeometryUtils.IsBVH tiltMesh.toExact.bvhNodes (dae.GeometryUtils.BVHTree.leaf 0) ∧
      trianglesFrom tiltMesh (triangleCount tiltMesh) 0 = Except.ok [tiltTriangle] ∧
      (dae.GeometryUtils.InsideBox ⟨0, 0, 7⟩ ⟨2, 7, 8⟩ tiltTriangle.toExact.v0 ∧
        dae.GeometryUtils.InsideBox ⟨0, 0, 7⟩ ⟨2, 7, 8⟩ tiltTriangle.toExact.v1 ∧
        dae.GeometryUtils.InsideBox ⟨0, 0, 7⟩ ⟨2, 7, 8⟩ tiltTriangle.toExact.v2) ∧
      0 < tiltRay.toExact.min ∧
      (tiltRay.toExact.direction.x ≠ 0 ∧ tiltRay.toExact.direction.y ≠ 0 ∧
        tiltRay.toExact.direction.z ≠ 0) ∧
      (tiltRay.toExact.inverseDirection.x = 1 / tiltRay.toExact.direction.x ∧
        tiltRay.toExact.inverseDirection.y = 1 / tiltRay.toExact.direction.y ∧
        tiltRay.toExact.inverseDirection.z = 1 / tiltRay.toExact.direction.z) ∧
      HitTest_Triangle_any tiltTriangle tiltRay = true ∧
      meshOutcome (HitTest_TriangleMesh_any 1 tiltMesh tiltRay) =
        some (false, false, F32.posInf) ∧
      (foldTriangles tiltRay [tiltTriangle] HitRecord.fresh).didHit = true ∧
      (foldTriangles tiltRay [tiltTriangle] HitRecord.fresh).t = F32.fin 29846144 ∧
      meshOutcome (HitTest_TriangleMesh 1 tiltMesh tiltRay HitRecord.fresh false) =
        some (false, false, F32.posInf)) := by
  refine ⟨⟨⟨_, rfl, by decide⟩, rfl, ?_, by decide!, by decide!, by decide!, by decide!,
    by decide!, by decide!, by decide!⟩,
    ⟨⟨_, rfl, by decide⟩, rfl, ?_, by decide!, by decide!, by decide!, by decide!, by decide!,
      by decide!, by decide!, by decide!⟩⟩
  · unfold dae.GeometryUtils.InsideBox
    decide!
  · unfold dae.GeometryUtils.InsideBox
    decide!

end GeometryUtils

end binary32

end dae
